import Mathlib

/-!
# Two-pass SIC assembler: shallow embedding and verified properties

The definitions below follow the C sources (hash_table.c, linked_list.c,
directive.c, sic.c, scoff.c) function by function.

Modelling conventions
* A C string is a list of characters without its terminating NUL (`Str`); a
  possibly-NULL `char*` is an `Option Str`.
* `uint32_t` values are natural numbers reduced modulo 2^32 where the C code
  can wrap; `int32_t` values are integers obtained by `toInt32`.
* The data model is LP64 (`long` is 64 bits wide, `char` is signed), as on
  x86-64 Linux with gcc or clang.
* `malloc`/`calloc` never fail.
* A computation returns `none` when the C program has no defined result:
  a NULL or out-of-bounds dereference, a division by zero, or a loop that
  did not finish within the given fuel.
* `strtok` keeps a hidden save pointer; it is threaded explicitly as the
  remaining text after the last token.
-/

namespace SIC

/-- A C string, without its terminating NUL. -/
abbrev Str := List Char

/-! ## C library -/

/-- The modulus of `uint32_t` arithmetic. -/
def UINT32_MOD : Nat := 4294967296

/-- Conversion of an integer to `uint32_t`. -/
def toUInt32 (v : Int) : Nat := (v % 4294967296).toNat

/-- Conversion of an integer to `int32_t` (two's complement truncation). -/
def toInt32 (v : Int) : Int :=
  let m := v % 4294967296
  if m < 2147483648 then m else m - 4294967296

/-- Largest value of `long`. -/
def LONG_MAX : Int := 9223372036854775807

/-- Smallest value of `long`. -/
def LONG_MIN : Int := -9223372036854775808

/-- Value of a plain `char` promoted to `int`. -/
def charVal (c : Char) : Int :=
  let b := c.toNat % 256
  if b < 128 then (b : Int) else (b : Int) - 256

/-- The apostrophe that delimits BYTE constants. -/
def quoteChar : Char := Char.ofNat 39

/-- Horizontal tab. -/
def tabChar : Char := Char.ofNat 9

/-- Line feed. -/
def lfChar : Char := Char.ofNat 10

/-- Carriage return. -/
def crChar : Char := Char.ofNat 13

/-- The NUL character. -/
def nulChar : Char := Char.ofNat 0

/-- C `isupper` in the C locale. -/
def isupper (c : Char) : Bool := 65 ≤ c.toNat && c.toNat ≤ 90

/-- C `isdigit`. -/
def isdigit (c : Char) : Bool := 48 ≤ c.toNat && c.toNat ≤ 57

/-- C `isxdigit`. -/
def isxdigit (c : Char) : Bool :=
  isdigit c || (65 ≤ c.toNat && c.toNat ≤ 70) || (97 ≤ c.toNat && c.toNat ≤ 102)

/-- C `isspace` in the C locale: space, \t, \n, \v, \f, \r. -/
def isspace (c : Char) : Bool := c.toNat = 32 || (9 ≤ c.toNat && c.toNat ≤ 13)

/-- Membership of a character in a delimiter set. -/
def isDelim (delim : Str) (c : Char) : Bool := delim.contains c

/-- C `strtok`, started at the text `s` (either the first argument, or the
save pointer when the first argument is NULL). Returns the token (NULL when
only delimiters remain) and the new save pointer. -/
def strtok (s : Str) (delim : Str) : Option Str × Str :=
  let s1 := s.dropWhile (isDelim delim)
  match s1 with
  | [] => (none, [])
  | _ :: _ =>
    (some (s1.takeWhile (fun c => !isDelim delim c)),
     (s1.dropWhile (fun c => !isDelim delim c)).drop 1)

/-- C `strchr` for a non-NUL character: the text before the first
occurrence and the text from the occurrence on, or NULL. -/
def strchr (s : Str) (c : Char) : Option (Str × Str) :=
  if s.contains c then some (s.takeWhile (fun d => d != c), s.dropWhile (fun d => d != c))
  else none

/-- C `strstr`: the text before the first occurrence of `pat`, or NULL. -/
def strstr : Str → Str → Option Str
  | [], pat => if pat = [] then some [] else none
  | c :: cs, pat =>
    if pat.isPrefixOf (c :: cs) then some []
    else (strstr cs pat).map (fun pre => c :: pre)

/-- Value of a character as a digit in bases up to 36. -/
def digitVal (c : Char) : Option Nat :=
  if isdigit c then some (c.toNat - 48)
  else if 97 ≤ c.toNat ∧ c.toNat ≤ 122 then some (c.toNat - 87)
  else if 65 ≤ c.toNat ∧ c.toNat ≤ 90 then some (c.toNat - 55)
  else none

/-- Value of a character as a digit of the given base. -/
def digitInBase (base : Nat) (c : Char) : Option Nat :=
  match digitVal c with
  | some d => if d < base then some d else none
  | none => none

/-- The longest run of digits of the given base at the head of the text,
and what follows it. -/
def takeDigits (base : Nat) : Str → List Nat × Str
  | [] => ([], [])
  | c :: cs =>
    match digitInBase base c with
    | some d => (d :: (takeDigits base cs).1, (takeDigits base cs).2)
    | none => ([], c :: cs)

/-- Result of `strtol`. -/
structure strtol_result where
  /-- The returned `long`. -/
  value : Int
  /-- The text `endptr` points at. -/
  endptr : Str
  /-- False when `endptr == nptr` (no conversion was performed). -/
  converted : Bool
  /-- True when `errno` was set to ERANGE. -/
  erange : Bool
deriving DecidableEq

/-- C `strtol` for base 10 and base 16. -/
def strtol (nptr : Str) (base : Nat) : strtol_result :=
  let s1 := nptr.dropWhile isspace
  let neg : Bool := s1.head? = some '-'
  let s2 := if s1.head? = some '-' ∨ s1.head? = some '+' then s1.drop 1 else s1
  let hexLead : Bool :=
    base = 16 && s2.head? = some '0' && (s2.tail.head? = some 'x' || s2.tail.head? = some 'X')
  let s3 := if hexLead then s2.drop 2 else s2
  let ds := (takeDigits base s3).1
  let rest := (takeDigits base s3).2
  match ds with
  | [] =>
    if hexLead then ⟨0, s2.drop 1, true, false⟩
    else ⟨0, nptr, false, false⟩
  | _ :: _ =>
    let mag : Int := ((ds.foldl (fun a d => a * base + d) 0 : Nat) : Int)
    let v : Int := if neg then -mag else mag
    if v > LONG_MAX then ⟨LONG_MAX, rest, true, true⟩
    else if v < LONG_MIN then ⟨LONG_MIN, rest, true, true⟩
    else ⟨v, rest, true, false⟩

/-- Uppercase hexadecimal digit. -/
def hexDigitChar (d : Nat) : Char :=
  if d < 10 then Char.ofNat (48 + d) else Char.ofNat (55 + d)

/-- Hexadecimal digits of a number, most significant first. -/
def toHexAux : Nat → Nat → Str → Str
  | 0, _, acc => acc
  | fuel + 1, n, acc =>
    if n < 16 then hexDigitChar n :: acc
    else toHexAux fuel (n / 16) (hexDigitChar (n % 16) :: acc)

/-- Shortest uppercase hexadecimal numeral of a number. -/
def toHex (n : Nat) : Str := toHexAux (n + 1) n []

/-- Output of printf with format "%0*X": uppercase hex, zero-padded on the
left to at least `width` characters. -/
def printfHex (width : Nat) (v : Nat) : Str :=
  List.replicate (width - (toHex v).length) '0' ++ toHex v

/-- Output of printf with format "%0*d" for a non-negative value. -/
def printfDec (width : Nat) (v : Nat) : Str :=
  List.replicate (width - (Nat.toDigits 10 v).length) '0' ++ Nat.toDigits 10 v

/-- Output of printf with format "%-*s": left-justified, space-padded. -/
def printfLeft (width : Nat) (s : Str) : Str :=
  s ++ List.replicate (width - s.length) ' '

/-- C `fgets(buffer, n, stream)` followed by reading the buffer as a C
string: at most `n - 1` characters, stopping after a line feed; the C string
ends at the first NUL. Returns the string and the unread rest of the stream;
NULL at end of file. -/
def fgetsAux : Nat → Str → Str × Str
  | 0, s => ([], s)
  | _ + 1, [] => ([], [])
  | k + 1, c :: cs =>
    if c = lfChar then ([c], cs)
    else (c :: (fgetsAux k cs).1, (fgetsAux k cs).2)

/-- C `fgets`: see `fgetsAux`. -/
def fgets (n : Nat) (stream : Str) : Option (Str × Str) :=
  match stream with
  | [] => none
  | _ :: _ =>
    some (((fgetsAux (n - 1) stream).1).takeWhile (fun c => c != nulChar),
          (fgetsAux (n - 1) stream).2)

/-! ## hash_table.c -/

/-- Initial capacity used when zero is requested. -/
def HT_INITIAL_SIZE : Nat := 32

/-- Growth factor of the slot array. -/
def HT_RESIZE_CONSTANT : Nat := 2

/-- One occupied slot: the owned copy of the key and the value handle. -/
structure key_value (V : Type) where
  /-- The key string. -/
  key : Str
  /-- The stored value. -/
  value : V
deriving DecidableEq

/-- The hash table. A slot of `p_KVArray` is `none` when its key pointer is
NULL. The C field `currentSize` is the length of the slot array. -/
structure hash_table (V : Type) where
  /-- The slot array. -/
  p_KVArray : List (Option (key_value V))
  /-- Number of stored pairs. -/
  numElements : Nat
deriving DecidableEq

/-- The C field `currentSize`: the number of slots. -/
def hash_table.currentSize {V : Type} (ht : hash_table V) : Nat := ht.p_KVArray.length

/-- Status codes of the hash table functions. -/
inductive ht_status where
  | HT_OKAY
  | HT_INVALID_HT_REFERENCE
  | HT_KEY_INVAILD
  | HT_VAL_INVALID
  | HT_KEY_DUPLICATE
  | HT_REALLOC_FAILED
  | HT_STRDUP_FAILED
deriving DecidableEq

/-- The string hash: `hash = (hash * 27 + c) % arraySize` over all
characters, in `uint32_t` arithmetic. -/
def hashFunction (key : Str) (arraySize : Nat) : Nat :=
  key.foldl (fun hash c => toUInt32 ((hash : Int) * 27 + charVal c) % arraySize) 0

/-- Function `createHashTable`: `initialSize` empty slots (32 when 0 is asked for). -/
def createHashTable {V : Type} (initialSize : Nat) : hash_table V :=
  { p_KVArray := List.replicate (if initialSize = 0 then HT_INITIAL_SIZE else initialSize) none,
    numElements := 0 }

/-- Outcome of the quadratic probing loop. -/
inductive probe_result where
  /-- The loop stopped at a slot whose key equals the searched key. -/
  | found (index : Nat)
  /-- The loop stopped at a slot whose key pointer is NULL. -/
  | empty (index : Nat)
deriving DecidableEq

/-- The probing loop shared by `insertKVPair` and `getKVPair`:
`while (arr[index].key != NULL) { if (strcmp(key, arr[index].key) == 0) return ...;
index = (hashIndex + x*x) % currentSize; x++; }`.
An index outside the array has no defined result. -/
def probe {V : Type} (arr : List (Option (key_value V))) (key : Str) (hashIndex : Nat) :
    Nat → Nat → Nat → Option probe_result
  | 0, _, _ => none
  | fuel + 1, index, x =>
    match arr[index]? with
    | none => none
    | some none => some (probe_result.empty index)
    | some (some kv) =>
      if key = kv.key then some (probe_result.found index)
      else probe arr key hashIndex fuel
        (((hashIndex + x * x) % UINT32_MOD) % arr.length) ((x + 1) % UINT32_MOD)

/-- Function `growHashTable`, with the recursive call to `insertKVPair` passed in as
`ins`: every live entry of the old buffer is inserted into a fresh table of
twice the capacity. Returns `some none` when it returns NULL. -/
def growHashTableWith {V : Type}
    (ins : hash_table V → Str → V → Option (ht_status × hash_table V))
    (ht : hash_table V) : Option (Option (hash_table V)) :=
  let oldBuffer := ht.p_KVArray
  let newCapacity := (ht.currentSize * HT_RESIZE_CONSTANT) % UINT32_MOD
  let rec go : List (Option (key_value V)) → hash_table V → Option (Option (hash_table V))
    | [], cur => some (some cur)
    | none :: slots, cur => go slots cur
    | some kv :: slots, cur =>
      match ins cur kv.key kv.value with
      | none => none
      | some (ht_status.HT_OKAY, cur1) => go slots cur1
      | some (_, _) => some none
  go oldBuffer { p_KVArray := List.replicate newCapacity none, numElements := 0 }

/-- The second half of `insertKVPair` ("we are okay to start insertion"): the probing
loop, then the store into the open slot. -/
def storeKVPair {V : Type} (fuel : Nat) (ht : hash_table V) (key : Str) (value : V) :
    Option (ht_status × hash_table V) :=
  if ht.currentSize = 0 then none
  else
    match probe ht.p_KVArray key (hashFunction key ht.currentSize) fuel
        (hashFunction key ht.currentSize) 1 with
    | none => none
    | some (probe_result.found _) => some (ht_status.HT_KEY_DUPLICATE, ht)
    | some (probe_result.empty index) =>
      some (ht_status.HT_OKAY,
        { p_KVArray := ht.p_KVArray.set index (some { key := key, value := value }),
          numElements := (ht.numElements + 1) % UINT32_MOD })

/-- The first half of `insertKVPair`: the table is grown when the load ratio has
reached the threshold. The test `(float)numElements / currentSize >= 0.5` is
exact for capacities below 2^24 and is written `currentSize <= 2 * numElements`.
`ins` is the recursive call of `growHashTable` to `insertKVPair`. -/
def growIfLoaded {V : Type} (ins : hash_table V → Str → V → Option (ht_status × hash_table V))
    (ht : hash_table V) : Option (Option (hash_table V)) :=
  if ht.currentSize = 0 then none
  else if ht.currentSize ≤ 2 * ht.numElements then growHashTableWith ins ht
  else some (some ht)

/-- Function `insertKVPair` for a non-NULL table, key and value. -/
def insertKVPair {V : Type} : Nat → hash_table V → Str → V → Option (ht_status × hash_table V)
  | 0, _, _, _ => none
  | fuel + 1, ht, key, value =>
    match growIfLoaded (fun h k v => insertKVPair fuel h k v) ht with
    | none => none
    | some none => some (ht_status.HT_REALLOC_FAILED, ht)
    | some (some ht1) => storeKVPair (fuel + 1) ht1 key value

/-- Function `growHashTable`. -/
def growHashTable {V : Type} (fuel : Nat) (ht : hash_table V) : Option (Option (hash_table V)) :=
  growHashTableWith (fun h k v => insertKVPair fuel h k v) ht

/-- Function `getKVPair` for a non-NULL table; the key may be NULL. The result is
`some none` when it returns NULL. -/
def getKVPair {V : Type} (fuel : Nat) (ht : hash_table V) (key : Option Str) :
    Option (Option V) :=
  match key with
  | none => some none
  | some k =>
    if ht.currentSize = 0 then none
    else
      match probe ht.p_KVArray k (hashFunction k ht.currentSize) fuel
          (hashFunction k ht.currentSize) 1 with
      | none => none
      | some (probe_result.empty _) => some none
      | some (probe_result.found index) =>
        match ht.p_KVArray[index]? with
        | some (some kv) => some (some kv.value)
        | _ => none

/-! ## linked_list.c -/

/-- The append-only list: the nodes from head to tail, and the element count. -/
structure linked_list (α : Type) where
  /-- Field `numberOfElements`. -/
  numberOfElements : Nat
  /-- The data of the nodes, from `head` following `next` to `tail`. -/
  nodes : List α
deriving DecidableEq

/-- Function `createLinkedList`: the empty list. -/
def createLinkedList {α : Type} : linked_list α := { numberOfElements := 0, nodes := [] }

/-- Function `addToList` for non-NULL data: a new node is linked after the tail. -/
def addToList {α : Type} (list : linked_list α) (data : α) : linked_list α :=
  { numberOfElements := (list.numberOfElements + 1) % UINT32_MOD,
    nodes := list.nodes ++ [data] }

/-! ## sic.h -/

/-- Largest address. -/
def SIC_MEMORY_LIMIT : Nat := 0x7FFF

/-- Largest magnitude of a word constant. -/
def SIC_INTEGER_MAX : Int := 0x7FFFFF

/-- Sentinel: address not set. -/
def SIC_NOT_SET_SENTINEL : Nat := 0xFFFFFFFF

/-- Sentinel: END seen without an operand. -/
def SIC_SEEN_SENTINEL : Nat := 0xFFFFFFFE

/-- Bytes per word. -/
def SIC_WORD_BYTES : Nat := 3

/-- Hex characters per byte. -/
def SIC_CHARACTERS_PER_BYTE : Nat := 2

/-- Size of a byte. -/
def SIC_BYTE : Nat := 1

/-- Whether SIC/XE instructions are supported. -/
def SIC_EXPENSIVE_EDITION_SUPPORT : Bool := false

/-- Longest symbol. -/
def SIC_MAX_SYMBOL_LEN : Nat := 6

/-- Number of directives. -/
def SIC_NUM_DIRECTIVES : Nat := 8

/-- Capacity of the opcode table. -/
def SIC_OPTAB_SIZE : Nat := 128

/-- Capacity of the directive table. -/
def SIC_DIRECTIVE_TABLE_SIZE : Nat := 16

/-- Token delimiters: space, tab, CR, LF. -/
def SIC_TOKEN_DELIMITERS : Str := [' ', tabChar, crChar, lfChar]

/-- Delimiters used for the BYTE operand: CR, LF. -/
def LINE_DELIMITERS : Str := [crChar, lfChar]

/-- Size of the line buffer. -/
def SIC_LEN_BUFFER : Nat := 1024

/-- Symbol validity codes. -/
inductive sic_symbol_status where
  | SYM_OKAY
  | SYM_EXCEEDED_MAX_LEN
  | SYM_FIRST_CHAR_NOT_VALID
  | SYM_CONTAINTS_INVALID_CHARS
deriving DecidableEq

/-- The symbol table of pass one. -/
structure symbol_table where
  /-- Field `startAddress`. -/
  startAddress : Nat
  /-- Field `endAddress`. -/
  endAddress : Nat
  /-- Field `locCounter`. -/
  locCounter : Nat
  /-- The symbol map: symbol name to address. -/
  ht : hash_table Nat
deriving DecidableEq

/-! ## opcode.h -/

/-- Width of the opcode in hex characters. -/
def SIC_OPCODE_LEN : Nat := 2

/-- Opcode error codes. -/
inductive opcode_status where
  | OPS_OKAY
  | OPS_X_EDITION_NOT_SUPPORTED
  | OPS_SYM_MATCHES_INSTRUCTION
  | OPS_NO_OPERANDS_GIVEN
  | OPS_WRONG_NUM_OF_OPERANDS
  | OPS_INVALID_MNUMONIC_LEN
  | OPS_BAD_INPUT_PARSE
  | OPS_INVALID_SYM_GIVEN
  | OPS_NO_INSTRUCTION_FOUND
deriving DecidableEq

/-- Flag bit: privileged. -/
def OP_FLAG_PRIVILEGED : Nat := 1

/-- Flag bit: XE only. -/
def OP_FLAG_XE_ONLY : Nat := 2

/-- Flag bit: floating point. -/
def OP_FLAG_FLOAT_POINT : Nat := 4

/-- Flag bit: sets the condition code. -/
def OP_FLAG_CONDITION_CODE_SET : Nat := 8

/-- An opcode entry; the three `uint8_t` fields are below 256. -/
structure sic_optable_values where
  /-- Field `numOperands`. -/
  numOperands : Fin 256
  /-- Field `instructionFormat`. -/
  instructionFormat : Fin 256
  /-- Field `opcode`. -/
  opcode : Fin 256
  /-- Field `flags`, a bit set. -/
  flags : Nat
deriving DecidableEq

/-! ## directive.h, directive.c -/

/-- Status codes of the directive callbacks. -/
inductive directive_callback_status where
  | DCS_OKAY
  | DCS_NOT_IMPLEMENTED
  | DCS_NOT_ENOUGH_OPERANDS
  | DCS_TOO_MANY_OPERANDS
  | DCS_CONVERSION_ERROR
  | DCS_PTR_INVALID
  | DSC_END_SYMBOL_NULL
  | DCS_MEMORY_VIOLATION
  | DCS_MEMORY_OVERFLOW
  | DCS_BAD_OPERAND_FORMAT
  | DCS_BAD_HEX_CONSTANT
  | DCS_OPERAND_WAS_NEGATIVE
  | DCS_INTEGER_CONSTANT_OVERFLOW
  | DCS_INTEGER_CONSTANT_UNDERFLOW
  | DCS_ODD_NUMBER_OF_HEX_CHARACTERS
  | DCS_START_DEFINED_TWICE
  | DCS_START_NOT_DEFINED
  | DCS_END_DEFINED_TWICE
  | DCS_END_SEEN
  | DCS_END_NOT_DEFINED
  | DCS_SYM_MATCHES_DIRECTIVE
deriving DecidableEq

open directive_callback_status

/-- The handler stored in the directive table (the function pointer inside
`directive_cb_struct`), identified by the function it points to. -/
inductive directive_callback where
  | directive_callback_start
  | directive_callback_end
  | directive_callback_byte
  | directive_callback_word
  | directive_callback_resb
  | directive_callback_resw
  | directive_callback_resr
  | directive_callback_exports
deriving DecidableEq

/-- Function `checkComment` (sic.c): does the token start with `#`. -/
def checkComment (token : Str) : Bool := token.head? = some '#'

/-- Function `getConstant`: the status and the value stored in `*operand`. -/
def getConstant (operands : Str) (base : Nat) : directive_callback_status × Int :=
  let r := strtol operands base
  let operand := toInt32 r.value
  if !r.converted then (DCS_BAD_OPERAND_FORMAT, operand)
  else if (!r.erange && r.endptr != []) || r.erange then (DCS_CONVERSION_ERROR, operand)
  else if operand > SIC_INTEGER_MAX then (DCS_INTEGER_CONSTANT_OVERFLOW, operand)
  else if operand < -SIC_INTEGER_MAX then (DCS_INTEGER_CONSTANT_UNDERFLOW, operand)
  else (DCS_OKAY, operand)

/-- Function `getOperand`: the status, the parsed constant and the new `strtok` save
pointer. -/
def getOperand (operands : Option Str) (base : Nat) (save : Str) :
    directive_callback_status × Int × Str :=
  match operands with
  | none => (DCS_NOT_ENOUGH_OPERANDS, 0, save)
  | some ops =>
    if (getConstant ops base).1 ≠ DCS_OKAY then
      ((getConstant ops base).1, (getConstant ops base).2, save)
    else
      match strtok save SIC_TOKEN_DELIMITERS with
      | (some t, save1) =>
        if !checkComment t then (DCS_TOO_MANY_OPERANDS, (getConstant ops base).2, save1)
        else (DCS_OKAY, (getConstant ops base).2, save1)
      | (none, save1) => (DCS_OKAY, (getConstant ops base).2, save1)

/-- What a directive callback leaves behind: its status, the symbol table
and the `strtok` save pointer. -/
structure callback_result where
  /-- The returned status. -/
  status : directive_callback_status
  /-- The symbol table after the call. -/
  symbolTable : symbol_table
  /-- The `strtok` save pointer after the call. -/
  save : Str
deriving DecidableEq

/-- Function `directive_callback_start`. -/
def directive_callback_start (symbolTable : symbol_table) (operands : Option Str) (save : Str) :
    callback_result :=
  if symbolTable.startAddress ≠ SIC_NOT_SET_SENTINEL then
    ⟨DCS_START_DEFINED_TWICE, symbolTable, save⟩
  else
    match getOperand operands 16 save with
    | (status, newStartAddr, save1) =>
      if status ≠ DCS_OKAY then ⟨status, symbolTable, save1⟩
      else if newStartAddr > (SIC_MEMORY_LIMIT : Int) ∨ newStartAddr < 0 then
        ⟨DCS_MEMORY_VIOLATION, symbolTable, save1⟩
      else
        ⟨DCS_OKAY, { symbolTable with startAddress := toUInt32 newStartAddr,
                                      locCounter := toUInt32 newStartAddr }, save1⟩

/-- Function `directive_callback_end`. -/
def directive_callback_end (fuel : Nat) (symbolTable : symbol_table) (operands : Option Str)
    (save : Str) : Option callback_result :=
  if symbolTable.startAddress = SIC_NOT_SET_SENTINEL then
    some ⟨DCS_START_NOT_DEFINED, symbolTable, save⟩
  else if symbolTable.endAddress ≠ SIC_NOT_SET_SENTINEL then
    some ⟨DCS_END_DEFINED_TWICE, symbolTable, save⟩
  else
    match operands with
    | none => some ⟨DCS_OKAY, { symbolTable with endAddress := SIC_SEEN_SENTINEL }, save⟩
    | some ops =>
      match getKVPair fuel symbolTable.ht (some ops) with
      | none => none
      | some none => some ⟨DSC_END_SYMBOL_NULL, symbolTable, save⟩
      | some (some addr) =>
        let newEndAddr : Int := toInt32 (addr : Int)
        match strtok save SIC_TOKEN_DELIMITERS with
        | (some t, save1) =>
          if !checkComment t then some ⟨DCS_TOO_MANY_OPERANDS, symbolTable, save1⟩
          else some ⟨DCS_OKAY, { symbolTable with endAddress := toUInt32 newEndAddr }, save1⟩
        | (none, save1) =>
          some ⟨DCS_OKAY, { symbolTable with endAddress := toUInt32 newEndAddr }, save1⟩

/-- Function `directive_callback_byte`. -/
def directive_callback_byte (symbolTable : symbol_table) (operands : Option Str) (save : Str) :
    callback_result :=
  if symbolTable.startAddress = SIC_NOT_SET_SENTINEL then
    ⟨DCS_START_NOT_DEFINED, symbolTable, save⟩
  else
    match operands with
    | none => ⟨DCS_NOT_ENOUGH_OPERANDS, symbolTable, save⟩
    | some ops =>
      if ops.head? ≠ some 'C' ∧ ops.head? ≠ some 'X' then
        ⟨DCS_BAD_OPERAND_FORMAT, symbolTable, save⟩
      else if (ops.drop 1).head? ≠ some quoteChar then
        ⟨DCS_BAD_OPERAND_FORMAT, symbolTable, save⟩
      else
        match strchr (ops.drop 2) quoteChar with
        | none => ⟨DCS_BAD_OPERAND_FORMAT, symbolTable, save⟩
        | some (content, fromQuote) =>
          let length := content.length
          if ops.head? = some 'X' ∧ length % 2 ≠ 0 then
            ⟨DCS_ODD_NUMBER_OF_HEX_CHARACTERS, symbolTable, save⟩
          else if ops.head? = some 'X' ∧ !content.all isxdigit then
            ⟨DCS_BAD_HEX_CONSTANT, symbolTable, save⟩
          else
            let advance := if ops.head? = some 'X' then length / 2 else length
            let st1 := { symbolTable with
              locCounter := (symbolTable.locCounter + advance) % UINT32_MOD }
            if st1.locCounter > SIC_MEMORY_LIMIT then ⟨DCS_MEMORY_OVERFLOW, st1, save⟩
            else
              match strtok (fromQuote.drop 1) SIC_TOKEN_DELIMITERS with
              | (some t, save1) =>
                if !checkComment t then ⟨DCS_TOO_MANY_OPERANDS, st1, save1⟩
                else ⟨DCS_OKAY, st1, save1⟩
              | (none, save1) => ⟨DCS_OKAY, st1, save1⟩

/-- Function `directive_callback_word`. -/
def directive_callback_word (symbolTable : symbol_table) (operands : Option Str) (save : Str) :
    callback_result :=
  if symbolTable.startAddress = SIC_NOT_SET_SENTINEL then
    ⟨DCS_START_NOT_DEFINED, symbolTable, save⟩
  else
    match getOperand operands 10 save with
    | (status, _, save1) =>
      if status ≠ DCS_OKAY then ⟨status, symbolTable, save1⟩
      else
        let st1 := { symbolTable with
          locCounter := (symbolTable.locCounter + SIC_WORD_BYTES) % UINT32_MOD }
        if st1.locCounter > SIC_MEMORY_LIMIT then ⟨DCS_MEMORY_OVERFLOW, st1, save1⟩
        else ⟨DCS_OKAY, st1, save1⟩

/-- Function `directive_callback_resb`. -/
def directive_callback_resb (symbolTable : symbol_table) (operands : Option Str) (save : Str) :
    callback_result :=
  if symbolTable.startAddress = SIC_NOT_SET_SENTINEL then
    ⟨DCS_START_NOT_DEFINED, symbolTable, save⟩
  else
    match getOperand operands 10 save with
    | (status, constant, save1) =>
      if status ≠ DCS_OKAY then ⟨status, symbolTable, save1⟩
      else if constant < 0 then ⟨DCS_OPERAND_WAS_NEGATIVE, symbolTable, save1⟩
      else
        let st1 := { symbolTable with
          locCounter := toUInt32 ((symbolTable.locCounter : Int) + constant * (SIC_BYTE : Int)) }
        if st1.locCounter > SIC_MEMORY_LIMIT then ⟨DCS_MEMORY_OVERFLOW, st1, save1⟩
        else ⟨DCS_OKAY, st1, save1⟩

/-- Function `directive_callback_resw`. -/
def directive_callback_resw (symbolTable : symbol_table) (operands : Option Str) (save : Str) :
    callback_result :=
  if symbolTable.startAddress = SIC_NOT_SET_SENTINEL then
    ⟨DCS_START_NOT_DEFINED, symbolTable, save⟩
  else
    match getOperand operands 10 save with
    | (status, constant, save1) =>
      if status ≠ DCS_OKAY then ⟨status, symbolTable, save1⟩
      else if constant < 0 then ⟨DCS_OPERAND_WAS_NEGATIVE, symbolTable, save1⟩
      else
        let st1 := { symbolTable with
          locCounter :=
            toUInt32 ((symbolTable.locCounter : Int) + constant * (SIC_WORD_BYTES : Int)) }
        if st1.locCounter > SIC_MEMORY_LIMIT then ⟨DCS_MEMORY_OVERFLOW, st1, save1⟩
        else ⟨DCS_OKAY, st1, save1⟩

/-- Function `directive_callback_resr`. -/
def directive_callback_resr (symbolTable : symbol_table) (operands : Option Str) (save : Str) :
    callback_result :=
  match operands with
  | none => ⟨DCS_PTR_INVALID, symbolTable, save⟩
  | some _ => ⟨DCS_NOT_IMPLEMENTED, symbolTable, save⟩

/-- Function `directive_callback_exports`. -/
def directive_callback_exports (symbolTable : symbol_table) (operands : Option Str) (save : Str) :
    callback_result :=
  match operands with
  | none => ⟨DCS_PTR_INVALID, symbolTable, save⟩
  | some _ => ⟨DCS_NOT_IMPLEMENTED, symbolTable, save⟩

/-- The call `callback->funcPointer(symTab, token)`. -/
def callDirective (fuel : Nat) (callback : directive_callback) (symbolTable : symbol_table)
    (operands : Option Str) (save : Str) : Option callback_result :=
  match callback with
  | directive_callback.directive_callback_start =>
    some (directive_callback_start symbolTable operands save)
  | directive_callback.directive_callback_end =>
    directive_callback_end fuel symbolTable operands save
  | directive_callback.directive_callback_byte =>
    some (directive_callback_byte symbolTable operands save)
  | directive_callback.directive_callback_word =>
    some (directive_callback_word symbolTable operands save)
  | directive_callback.directive_callback_resb =>
    some (directive_callback_resb symbolTable operands save)
  | directive_callback.directive_callback_resw =>
    some (directive_callback_resw symbolTable operands save)
  | directive_callback.directive_callback_resr =>
    some (directive_callback_resr symbolTable operands save)
  | directive_callback.directive_callback_exports =>
    some (directive_callback_exports symbolTable operands save)

/-- The key and handler arrays of `buildDirectiveTable`, paired. -/
def directiveEntries : List (Str × directive_callback) :=
  [("START".toList, directive_callback.directive_callback_start),
   ("END".toList, directive_callback.directive_callback_end),
   ("BYTE".toList, directive_callback.directive_callback_byte),
   ("WORD".toList, directive_callback.directive_callback_word),
   ("RESB".toList, directive_callback.directive_callback_resb),
   ("RESW".toList, directive_callback.directive_callback_resw),
   ("RESR".toList, directive_callback.directive_callback_resr),
   ("EXORTS".toList, directive_callback.directive_callback_exports)]

/-- The insertion loop of `buildDirectiveTable`; `some none` when it returns NULL. -/
def buildDirectiveTableLoop (fuel : Nat) :
    List (Str × directive_callback) → hash_table directive_callback →
    Option (Option (hash_table directive_callback))
  | [], dt => some (some dt)
  | (k, cb) :: rest, dt =>
    match insertKVPair fuel dt k cb with
    | none => none
    | some (ht_status.HT_OKAY, dt1) => buildDirectiveTableLoop fuel rest dt1
    | some (_, _) => some none

/-- Function `buildDirectiveTable`. -/
def buildDirectiveTable (fuel : Nat) : Option (Option (hash_table directive_callback)) :=
  buildDirectiveTableLoop fuel directiveEntries (createHashTable SIC_DIRECTIVE_TABLE_SIZE)

/-! ## sic.c: pass one -/

/-- Why a pass stopped: the status that was printed before NULL was
returned. -/
inductive pass_error where
  /-- A symbol status reported by `printSymbolError`. -/
  | symbol (status : sic_symbol_status)
  /-- A directive status reported by `printDCSError`. -/
  | directive (status : directive_callback_status)
  /-- An opcode status reported by `printOPSError`. -/
  | opcode (status : opcode_status)
  /-- "The current line is an empty line." -/
  | emptyLine
  /-- "Invalid mnemonic or directive found!" -/
  | invalidMnemonic
  /-- "Illegal duplicate symbol detected!" -/
  | duplicateSymbol
  /-- "failed to insert KV pair into the symbol table." -/
  | insertFailed
  /-- Pass two, BYTE: the operand starts with neither C nor X. -/
  | byteNotCX
  /-- Pass two, END: "Cant make END record. First instruction not found." -/
  | firstInstructionNotFound
deriving DecidableEq

/-- Result of a pass function: the returned object, or NULL after the
given error, or no defined result. -/
inductive pass_result (α : Type) where
  | ok (a : α)
  | error (e : pass_error)
  | undefined
deriving DecidableEq

open pass_result

/-- Function `sanitizedSymbol`. -/
def sanitizedSymbol (symbol : Str) : sic_symbol_status :=
  if symbol.length > SIC_MAX_SYMBOL_LEN then sic_symbol_status.SYM_EXCEEDED_MAX_LEN
  else if !(match symbol.head? with | some c => isupper c | none => false) then
    sic_symbol_status.SYM_FIRST_CHAR_NOT_VALID
  else if !(symbol.drop 1).all (fun c => isupper c || isdigit c) then
    sic_symbol_status.SYM_CONTAINTS_INVALID_CHARS
  else sic_symbol_status.SYM_OKAY

/-- The lookahead test `getKVPair(directiveTable, token) != NULL ||
getKVPair(opTab, token) != NULL`. -/
def isReservedWord (fuel : Nat) (directiveTable : hash_table directive_callback)
    (opTab : hash_table sic_optable_values) (token : Str) : Option Bool :=
  match getKVPair fuel directiveTable (some token) with
  | none => none
  | some (some _) => some true
  | some none =>
    match getKVPair fuel opTab (some token) with
    | none => none
    | some (some _) => some true
    | some none => some false

/-- Function `firstPassDirectiveHelper`. `token` is the directive name, `save` the
`strtok` save pointer behind it. On success: the symbol table, the symbol
address and the start-seen flag. -/
def firstPassDirectiveHelper (fuel : Nat) (symTab : symbol_table)
    (directiveTable : hash_table directive_callback) (opTab : hash_table sic_optable_values)
    (callback : directive_callback) (token : Str) (save : Str) (tempSymbAddr : Nat)
    (startSeen : Bool) (symbolSeen : Bool) : pass_result (symbol_table × Nat × Bool) :=
  let finish (operand : Option Str) (save1 : Str) : pass_result (symbol_table × Nat × Bool) :=
    match callDirective fuel callback symTab operand save1 with
    | none => undefined
    | some r =>
      if r.status ≠ DCS_OKAY then error (pass_error.directive r.status)
      else if r.symbolTable.startAddress ≠ SIC_NOT_SET_SENTINEL ∧ startSeen = false then
        ok (r.symbolTable, r.symbolTable.locCounter, true)
      else ok (r.symbolTable, tempSymbAddr, startSeen)
  let lookahead (tok : Option Str) (tempToken : Option Str) (save1 : Str) :
      pass_result (symbol_table × Nat × Bool) :=
    match tok with
    | none => finish none save1
    | some t =>
      match isReservedWord fuel directiveTable opTab t with
      | none => undefined
      | some true => error (pass_error.directive DCS_SYM_MATCHES_DIRECTIVE)
      | some false =>
        match tempToken with
        | some copy => finish (some copy) save1
        | none => finish (some t) save1
  if symbolSeen then
    if token = "BYTE".toList then
      finish (strtok save LINE_DELIMITERS).1 (strtok save LINE_DELIMITERS).2
    else finish (strtok save SIC_TOKEN_DELIMITERS).1 (strtok save SIC_TOKEN_DELIMITERS).2
  else if token = "BYTE".toList then
    match (strtok save []).1 with
    | none => undefined
    | some tmp =>
      lookahead (strtok tmp SIC_TOKEN_DELIMITERS).1 (some tmp) (strtok tmp SIC_TOKEN_DELIMITERS).2
  else
    lookahead (strtok save SIC_TOKEN_DELIMITERS).1 none (strtok save SIC_TOKEN_DELIMITERS).2

/-- The operand counting loop of `firstPassInstructionHelper`:
`while (token != NULL) { n++; token = strtok(NULL, d); if (token == NULL) break;
if (checkComment(token)) break; }`. The first argument bounds the
iterations; the length of the remaining text plus one always suffices. -/
def countOperands : Nat → Option Str → Str → Nat → Nat
  | 0, _, _, n => n
  | _ + 1, none, _, n => n
  | k + 1, some _, save, n =>
    match strtok save SIC_TOKEN_DELIMITERS with
    | (none, _) => n + 1
    | (some t, save1) => if checkComment t then n + 1 else countOperands k (some t) save1 (n + 1)

/-- Function `firstPassInstructionHelper`. `save` is the `strtok` save pointer behind the
mnemonic. -/
def firstPassInstructionHelper (fuel : Nat) (symTab : symbol_table)
    (directiveTable : hash_table directive_callback) (opTab : hash_table sic_optable_values)
    (opcode : sic_optable_values) (save : Str) (symbolSeen : Bool) : pass_result symbol_table :=
  let advance : pass_result symbol_table :=
    let st1 := { symTab with locCounter := (symTab.locCounter + SIC_WORD_BYTES) % UINT32_MOD }
    if st1.locCounter > SIC_MEMORY_LIMIT then error (pass_error.directive DCS_MEMORY_OVERFLOW)
    else ok st1
  let count (token : Option Str) (save1 : Str) : pass_result symbol_table :=
    if countOperands (save1.length + 1) token save1 0 ≠ opcode.numOperands.val then
      error (pass_error.opcode opcode_status.OPS_WRONG_NUM_OF_OPERANDS)
    else advance
  if symTab.startAddress = SIC_NOT_SET_SENTINEL then
    error (pass_error.directive DCS_START_NOT_DEFINED)
  else if symTab.endAddress ≠ SIC_NOT_SET_SENTINEL ∨ symTab.endAddress = SIC_SEEN_SENTINEL then
    error (pass_error.directive DCS_END_SEEN)
  else if !SIC_EXPENSIVE_EDITION_SUPPORT ∧
      (opcode.flags &&& OP_FLAG_XE_ONLY ≠ 0 ∨ opcode.flags &&& OP_FLAG_FLOAT_POINT ≠ 0) then
    error (pass_error.opcode opcode_status.OPS_X_EDITION_NOT_SUPPORTED)
  else
    match strtok save SIC_TOKEN_DELIMITERS with
    | (token, save1) =>
      if symbolSeen then count token save1
      else
        match token with
        | some t =>
          match isReservedWord fuel directiveTable opTab t with
          | none => undefined
          | some true => error (pass_error.opcode opcode_status.OPS_SYM_MATCHES_INSTRUCTION)
          | some false => count token save1
        | none =>
          if opcode.numOperands.val ≠ 0 then
            error (pass_error.opcode opcode_status.OPS_NO_OPERANDS_GIVEN)
          else advance

/-- The variables of `buildSymbolTable` that live across lines. -/
structure pass1_state where
  /-- The symbol table under construction. -/
  symTab : symbol_table
  /-- The flag `startSeen`. -/
  startSeen : Bool
deriving DecidableEq

/-- The last step of a labelled line of `buildSymbolTable`: the address is
copied and inserted under the symbol. -/
def insertSymbol (fuel : Nat) (symTab : symbol_table) (symbol : Str) (tempSymbolAddress : Nat)
    (startSeen : Bool) : pass_result pass1_state :=
  match insertKVPair fuel symTab.ht symbol tempSymbolAddress with
  | none => undefined
  | some (ht_status.HT_OKAY, ht1) => ok { symTab := { symTab with ht := ht1 }, startSeen := startSeen }
  | some (_, _) => error pass_error.insertFailed

/-- The body of the line loop of `buildSymbolTable`, for the line in `buffer`. -/
def firstPassLine (fuel : Nat) (directiveTable : hash_table directive_callback)
    (opTab : hash_table sic_optable_values) (st : pass1_state) (buffer : Str) :
    pass_result pass1_state :=
  match strtok buffer SIC_TOKEN_DELIMITERS with
  | (none, _) => error pass_error.emptyLine
  | (some token, save) =>
    if checkComment token then ok st
    else
      let tempSymbolAddress := st.symTab.locCounter
      match getKVPair fuel directiveTable (some token) with
      | none => undefined
      | some (some cb) =>
        match firstPassDirectiveHelper fuel st.symTab directiveTable opTab cb token save
            tempSymbolAddress st.startSeen false with
        | ok (symTab1, _, startSeen1) => ok { symTab := symTab1, startSeen := startSeen1 }
        | error e => error e
        | undefined => undefined
      | some none =>
        match getKVPair fuel opTab (some token) with
        | none => undefined
        | some (some opcode) =>
          match firstPassInstructionHelper fuel st.symTab directiveTable opTab opcode save false with
          | ok symTab1 => ok { symTab := symTab1, startSeen := st.startSeen }
          | error e => error e
          | undefined => undefined
        | some none =>
          match getKVPair fuel st.symTab.ht (some token) with
          | none => undefined
          | some (some _) => error pass_error.duplicateSymbol
          | some none =>
            if sanitizedSymbol token ≠ sic_symbol_status.SYM_OKAY then
              error (pass_error.symbol (sanitizedSymbol token))
            else
              match strtok save SIC_TOKEN_DELIMITERS with
              | (token2, save2) =>
                match getKVPair fuel directiveTable token2 with
                | none => undefined
                | some (some cb) =>
                  match firstPassDirectiveHelper fuel st.symTab directiveTable opTab cb
                      (token2.getD []) save2 tempSymbolAddress st.startSeen true with
                  | ok (symTab1, addr1, startSeen1) =>
                    insertSymbol fuel symTab1 token addr1 startSeen1
                  | error e => error e
                  | undefined => undefined
                | some none =>
                  match getKVPair fuel opTab token2 with
                  | none => undefined
                  | some (some opcode) =>
                    match firstPassInstructionHelper fuel st.symTab directiveTable opTab opcode
                        save2 true with
                    | ok symTab1 => insertSymbol fuel symTab1 token tempSymbolAddress st.startSeen
                    | error e => error e
                    | undefined => undefined
                  | some none => error pass_error.invalidMnemonic

/-- The lines delivered by the `fgets` loop; the first argument bounds the
number of reads. -/
def readLinesAux : Nat → Str → List Str
  | 0, _ => []
  | k + 1, stream =>
    match fgets SIC_LEN_BUFFER stream with
    | none => []
    | some (line, rest) => line :: readLinesAux k rest

/-- The lines delivered by `while (fgets(buffer, SIC_LEN_BUFFER, f) != NULL)`:
every read consumes at least one character. -/
def readLines (stream : Str) : List Str := readLinesAux stream.length stream

/-- The line loop of `buildSymbolTable`. -/
def firstPassLoop (fuel : Nat) (directiveTable : hash_table directive_callback)
    (opTab : hash_table sic_optable_values) : List Str → pass1_state → pass_result pass1_state
  | [], st => ok st
  | buffer :: rest, st =>
    match firstPassLine fuel directiveTable opTab st buffer with
    | ok st1 => firstPassLoop fuel directiveTable opTab rest st1
    | error e => error e
    | undefined => undefined

/-- The state in which `buildSymbolTable` enters its line loop. -/
def pass1_init : pass1_state :=
  { symTab := { startAddress := SIC_NOT_SET_SENTINEL, endAddress := SIC_NOT_SET_SENTINEL,
                locCounter := 0, ht := createHashTable 0 },
    startSeen := false }

/-- Function `buildSymbolTable` on the text of the opened source file. -/
def buildSymbolTable (fuel : Nat) (openSIC : Str) (directiveTable : hash_table directive_callback)
    (opTab : hash_table sic_optable_values) : pass_result symbol_table :=
  match firstPassLoop fuel directiveTable opTab (readLines openSIC) pass1_init with
  | ok st =>
    if st.symTab.endAddress = SIC_NOT_SET_SENTINEL then
      error (pass_error.directive DCS_END_NOT_DEFINED)
    else ok st.symTab
  | error e => error e
  | undefined => undefined

/-! ## scoff.h, scoff.c: pass two

The header scoff.h is not part of the sources at hand; its constants are
taken from the record layouts of the specification, and the character
arrays of the record structures are taken to be large enough for what is
printed into them. -/

/-- Modelled from the spec: the constant `SCOFF_HEADER_FIELD_LEN` of scoff.h; the header
fields are 6 characters wide. -/
def SCOFF_HEADER_FIELD_LEN : Nat := 6

/-- Modelled from the spec: the constant `SCOFF_TEXT_ADDR_LEN` of scoff.h; the start
address of a text record has 6 hex digits. -/
def SCOFF_TEXT_ADDR_LEN : Nat := 6

/-- Modelled from the spec: the constant `SCOFF_TEXT_SIZE_LEN` of scoff.h; the byte count
of a text record has 2 hex digits. -/
def SCOFF_TEXT_SIZE_LEN : Nat := 2

/-- Modelled from the spec: the constant `SCOFF_TEXT_OBJ_CODE_LEN` of scoff.h; the object
code of a text record has up to 60 hex characters. -/
def SCOFF_TEXT_OBJ_CODE_LEN : Nat := 60

/-- Modelled from the spec: the constant `SCOFF_INSTRUCTION_PAD` of scoff.h; the operand
address of an instruction has 4 hex digits. -/
def SCOFF_INSTRUCTION_PAD : Nat := 4

/-- Modelled from the spec: the constant `SCOFF_INDEXED_SUBSTR` of scoff.h; the indexed
suffix `,X`. -/
def SCOFF_INDEXED_SUBSTR : Str := [',', 'X']

/-- Modelled from the spec: the constant `SCOFF_INDEXED_BIT` of scoff.h; 0x8000 is ORed
into an indexed address. -/
def SCOFF_INDEXED_BIT : Nat := 0x8000

/-- Modelled from the spec: the constant `SCOFF_MOD_ADDR_LEN` of scoff.h; the address of
a modification record has 6 hex digits. -/
def SCOFF_MOD_ADDR_LEN : Nat := 6

/-- Modelled from the spec: the constant `SCOFF_MOD_SIZE_LEN` of scoff.h; the half-byte
length of a modification record has 2 hex digits. -/
def SCOFF_MOD_SIZE_LEN : Nat := 2

/-- Modelled from the spec: the constant `SCOFF_MOD_HB` of scoff.h; the half-byte length
field has the value 06. -/
def SCOFF_MOD_HB : Nat := 6

/-- Modelled from the spec: the constant `SCOFF_END_FIRST_INSTRUCTION_LEN` of scoff.h;
the first-instruction address has 6 hex digits. -/
def SCOFF_END_FIRST_INSTRUCTION_LEN : Nat := 6

/-- Modelled from the spec: the structure `sic_scoff_header` of scoff.h, with the fields
that scoff.c uses. -/
structure sic_scoff_header where
  /-- Field `magicChar`. -/
  magicChar : Char
  /-- Field `programName`. -/
  programName : Str
  /-- Field `startAddr`. -/
  startAddr : Str
  /-- Field `lengthOfProgram`. -/
  lengthOfProgram : Str
deriving DecidableEq

/-- Modelled from the spec: the structure `sic_scoff_text` of scoff.h, with the fields
that scoff.c uses. -/
structure sic_scoff_text where
  /-- Field `magicChar`. -/
  magicChar : Char
  /-- Field `startAddr`. -/
  startAddr : Str
  /-- Field `lengthOfObj`. -/
  lengthOfObj : Str
  /-- Field `objectCode`. -/
  objectCode : Str
deriving DecidableEq

/-- Modelled from the spec: the structure `sic_scoff_mod` of scoff.h, with the fields
that scoff.c uses. -/
structure sic_scoff_mod where
  /-- Field `magicChar`. -/
  magicChar : Char
  /-- Field `startAddr`. -/
  startAddr : Str
  /-- Field `lenOfModificationHB`. -/
  lenOfModificationHB : Str
  /-- Field `modificationFlag`. -/
  modificationFlag : Char
  /-- Field `symbolName`. -/
  symbolName : Str
deriving DecidableEq

/-- Modelled from the spec: the structure `sic_scoff_end` of scoff.h, with the fields
that scoff.c uses. -/
structure sic_scoff_end where
  /-- Field `magicChar`. -/
  magicChar : Char
  /-- Field `firstInstruction`. -/
  firstInstruction : Str
deriving DecidableEq

/-- Modelled from the spec: the structure `sic_scoff_records` of scoff.h, with the fields
that scoff.c uses (`end_` stands for the field `end`). -/
structure sic_scoff_records where
  /-- Field `header`. -/
  header : sic_scoff_header
  /-- Field `end`. -/
  end_ : sic_scoff_end
  /-- Field `texts`. -/
  texts : linked_list sic_scoff_text
  /-- Field `modifications`. -/
  modifications : linked_list sic_scoff_mod
deriving DecidableEq

/-- Function `createRecords`: zeroed records with the two magic characters set. -/
def createRecords : sic_scoff_records :=
  { header := { magicChar := 'H', programName := [], startAddr := [], lengthOfProgram := [] },
    end_ := { magicChar := 'E', firstInstruction := [] },
    texts := createLinkedList,
    modifications := createLinkedList }

/-- Function `createTextRecord`: a zeroed text record with its magic character. -/
def createTextRecord : sic_scoff_text :=
  { magicChar := 'T', startAddr := [], lengthOfObj := [], objectCode := [] }

/-- Function `createModificationRecord`: a zeroed modification record with its magic
character. -/
def createModificationRecord : sic_scoff_mod :=
  { magicChar := 'M', startAddr := [], lenOfModificationHB := [],
    modificationFlag := nulChar, symbolName := [] }

/-- The loop of `ASCIIToHexConvertion`: character `i` is printed with "%0*X"
(width 2) at offset `2 * i` of the object code, which ends the string
there. `code` is the object code so far. -/
def asciiToHexLoop : Str → Nat → Str → Str
  | [], _, code => code
  | c :: cs, i, code =>
    asciiToHexLoop cs (i + 1)
      (code.take (i * 2) ++ printfHex SIC_CHARACTERS_PER_BYTE (toUInt32 (charVal c)))

/-- Function `ASCIIToHexConvertion`: the text record with the first `length`
characters of `string` converted, and the rest of `string`. -/
def ASCIIToHexConvertion (t : sic_scoff_text) (string : Str) (length : Nat) :
    sic_scoff_text × Str :=
  ({ t with objectCode := asciiToHexLoop (string.take length) 0 t.objectCode },
   string.drop length)

/-- The record loop of the hex branch of BYTE in `secondPassDirectiveHelper`. The first argument
bounds the iterations; `length` always suffices. -/
def byteHexLoop : Nat → Str → Nat → Nat → linked_list sic_scoff_text → linked_list sic_scoff_text
  | 0, _, _, _, texts => texts
  | k + 1, lptr, length, currentLC, texts =>
    if length = 0 then texts
    else
      let currentLen := if length > SCOFF_TEXT_OBJ_CODE_LEN then SCOFF_TEXT_OBJ_CODE_LEN else length
      let currentBytesNeeded := currentLen / SIC_CHARACTERS_PER_BYTE
      let t : sic_scoff_text :=
        { createTextRecord with
          startAddr := printfHex SCOFF_TEXT_ADDR_LEN currentLC,
          lengthOfObj := printfHex SCOFF_TEXT_SIZE_LEN currentBytesNeeded,
          objectCode := lptr.take currentLen }
      byteHexLoop k (lptr.drop currentLen) (length - currentLen)
        ((currentLC + currentBytesNeeded) % UINT32_MOD) (addToList texts t)

/-- The record loop of the character branch of BYTE in `secondPassDirectiveHelper`. The first
argument bounds the iterations; `length` always suffices. -/
def byteCharLoop : Nat → Str → Nat → Nat → linked_list sic_scoff_text → linked_list sic_scoff_text
  | 0, _, _, _, texts => texts
  | k + 1, lptr, length, currentLC, texts =>
    if length = 0 then texts
    else
      let currentLen :=
        if length > SCOFF_TEXT_OBJ_CODE_LEN / SIC_CHARACTERS_PER_BYTE
        then SCOFF_TEXT_OBJ_CODE_LEN / SIC_CHARACTERS_PER_BYTE else length
      let t : sic_scoff_text :=
        { createTextRecord with
          startAddr := printfHex SCOFF_TEXT_ADDR_LEN currentLC,
          lengthOfObj := printfHex SCOFF_TEXT_SIZE_LEN currentLen }
      byteCharLoop k (ASCIIToHexConvertion t lptr currentLen).2 (length - currentLen)
        ((currentLC + currentLen) % UINT32_MOD)
        (addToList texts (ASCIIToHexConvertion t lptr currentLen).1)

/-- Function `secondPassDirectiveHelper`. `token` is the directive name, `symbol` the label
of the line (NULL when there is none), `save` the `strtok` save pointer
behind the directive name. On success: the records and the emitter
location counter. -/
def secondPassDirectiveHelper (symTab : symbol_table) (token : Str) (symbol : Option Str)
    (record : sic_scoff_records) (lc : Nat) (save : Str) : pass_result (sic_scoff_records × Nat) :=
  if token = "START".toList then
    match symbol with
    | none => undefined
    | some sym =>
      let sizeOfProg := toUInt32 ((symTab.locCounter : Int) - (symTab.startAddress : Int))
      ok ({ record with header :=
              { record.header with
                programName := printfLeft SCOFF_HEADER_FIELD_LEN sym,
                startAddr := printfHex SCOFF_HEADER_FIELD_LEN symTab.startAddress,
                lengthOfProgram := printfHex SCOFF_HEADER_FIELD_LEN sizeOfProg } }, lc)
  else if token = "WORD".toList then
    match (strtok save SIC_TOKEN_DELIMITERS).1 with
    | none => undefined
    | some operandTok =>
      let word := toUInt32 (strtol operandTok 10).value
      let t : sic_scoff_text :=
        { createTextRecord with
          startAddr := printfHex SCOFF_TEXT_ADDR_LEN lc,
          lengthOfObj := printfHex SCOFF_TEXT_SIZE_LEN SIC_WORD_BYTES,
          objectCode := printfHex (SCOFF_TEXT_OBJ_CODE_LEN / 10) word }
      ok ({ record with texts := addToList record.texts t }, (lc + SIC_WORD_BYTES) % UINT32_MOD)
  else if token = "RESB".toList then
    match (strtok save SIC_TOKEN_DELIMITERS).1 with
    | none => undefined
    | some operandTok =>
      let operand := toUInt32 (strtol operandTok 10).value
      ok (record, (lc + (operand * SIC_BYTE) % UINT32_MOD) % UINT32_MOD)
  else if token = "RESW".toList then
    match (strtok save SIC_TOKEN_DELIMITERS).1 with
    | none => undefined
    | some operandTok =>
      let operand := toUInt32 (strtol operandTok 10).value
      ok (record, (lc + (operand * SIC_WORD_BYTES) % UINT32_MOD) % UINT32_MOD)
  else if token = "BYTE".toList then
    match (strtok save LINE_DELIMITERS).1 with
    | none => undefined
    | some lptr =>
      if lptr.head? ≠ some 'C' ∧ lptr.head? ≠ some 'X' then error pass_error.byteNotCX
      else if lptr.length < 2 then undefined
      else
        match strchr (lptr.drop 2) quoteChar with
        | none => undefined
        | some (content, _) =>
          let length := content.length
          if lptr.head? = some 'X' then
            let bytesNeeded := length / SIC_CHARACTERS_PER_BYTE
            ok ({ record with texts := byteHexLoop length content length lc record.texts },
                (lc + bytesNeeded) % UINT32_MOD)
          else
            ok ({ record with texts := byteCharLoop length content length lc record.texts },
                (lc + length) % UINT32_MOD)
  else if token = "END".toList then
    if symTab.endAddress = SIC_SEEN_SENTINEL then error pass_error.firstInstructionNotFound
    else
      ok ({ record with end_ :=
              { record.end_ with
                firstInstruction := printfHex SCOFF_END_FIRST_INSTRUCTION_LEN symTab.endAddress } },
          (lc + SIC_WORD_BYTES) % UINT32_MOD)
  else ok (record, lc)

/-- The variables of `generateSCOFFRecords` that live across lines. -/
structure pass2_state where
  /-- The symbol table (pass two sets `endAddress` at the first instruction). -/
  symTab : symbol_table
  /-- The records built so far. -/
  records : sic_scoff_records
  /-- The emitter location counter `locCounter`. -/
  locCounter : Nat
deriving DecidableEq

/-- Function `secondPassInstructionHelper`. `save` is the `strtok` save pointer behind the
mnemonic. -/
def secondPassInstructionHelper (fuel : Nat) (symTab : symbol_table) (opcode : sic_optable_values)
    (record : sic_scoff_records) (lc : Nat) (save : Str) : pass_result pass2_state :=
  let symTab1 : symbol_table :=
    if symTab.endAddress = SIC_SEEN_SENTINEL then { symTab with endAddress := lc } else symTab
  let text : sic_scoff_text :=
    { createTextRecord with
      startAddr := printfHex SCOFF_TEXT_ADDR_LEN lc,
      lengthOfObj := printfHex SCOFF_TEXT_SIZE_LEN SIC_WORD_BYTES }
  if opcode.numOperands.val = 0 then
    let text0 : sic_scoff_text :=
      { text with objectCode :=
          printfHex SIC_CHARACTERS_PER_BYTE opcode.opcode.val ++
          printfDec SCOFF_INSTRUCTION_PAD 0 }
    ok { symTab := symTab1,
         records := { record with texts := addToList record.texts text0 },
         locCounter := (lc + SIC_WORD_BYTES) % UINT32_MOD }
  else
    match (strtok save SIC_TOKEN_DELIMITERS).1 with
    | none => undefined
    | some operandTok =>
      let indexed : Bool := (strstr operandTok SCOFF_INDEXED_SUBSTR).isSome
      let operand : Str := (strstr operandTok SCOFF_INDEXED_SUBSTR).getD operandTok
      match getKVPair fuel symTab1.ht (some operand) with
      | none => undefined
      | some none => error (pass_error.opcode opcode_status.OPS_INVALID_SYM_GIVEN)
      | some (some addr) =>
        let symAddr := if indexed then addr ||| SCOFF_INDEXED_BIT else addr
        let text1 : sic_scoff_text :=
          { text with objectCode :=
              printfHex SIC_OPCODE_LEN opcode.opcode.val ++
              printfHex SCOFF_INSTRUCTION_PAD symAddr }
        let mod : sic_scoff_mod :=
          { createModificationRecord with
            startAddr := printfHex SCOFF_MOD_ADDR_LEN ((lc + SIC_BYTE) % UINT32_MOD),
            lenOfModificationHB := printfHex SCOFF_MOD_SIZE_LEN SCOFF_MOD_HB,
            modificationFlag := '+',
            symbolName := record.header.programName }
        ok { symTab := symTab1,
             records := { record with texts := addToList record.texts text1,
                                      modifications := addToList record.modifications mod },
             locCounter := (lc + SIC_WORD_BYTES) % UINT32_MOD }

/-- The body of the line loop of `generateSCOFFRecords`, for the line in `buffer`. -/
def secondPassLine (fuel : Nat) (directiveTable : hash_table directive_callback)
    (opTab : hash_table sic_optable_values) (st : pass2_state) (buffer : Str) :
    pass_result pass2_state :=
  let directive (token : Str) (symbol : Option Str) (save : Str) : pass_result pass2_state :=
    match secondPassDirectiveHelper st.symTab token symbol st.records st.locCounter save with
    | ok (records1, lc1) => ok { st with records := records1, locCounter := lc1 }
    | error e => error e
    | undefined => undefined
  match strtok buffer SIC_TOKEN_DELIMITERS with
  | (none, _) => undefined
  | (some token, save) =>
    if checkComment token then ok st
    else
      match getKVPair fuel directiveTable (some token) with
      | none => undefined
      | some (some _) => directive token none save
      | some none =>
        match getKVPair fuel opTab (some token) with
        | none => undefined
        | some (some opcode) =>
          secondPassInstructionHelper fuel st.symTab opcode st.records st.locCounter save
        | some none =>
          match strtok save SIC_TOKEN_DELIMITERS with
          | (token2, save2) =>
            match getKVPair fuel directiveTable token2 with
            | none => undefined
            | some (some _) => directive (token2.getD []) (some token) save2
            | some none =>
              match getKVPair fuel opTab token2 with
              | none => undefined
              | some (some opcode) =>
                secondPassInstructionHelper fuel st.symTab opcode st.records st.locCounter save2
              | some none => ok st

/-- The line loop of `generateSCOFFRecords`. -/
def secondPassLoop (fuel : Nat) (directiveTable : hash_table directive_callback)
    (opTab : hash_table sic_optable_values) : List Str → pass2_state → pass_result pass2_state
  | [], st => ok st
  | buffer :: rest, st =>
    match secondPassLine fuel directiveTable opTab st buffer with
    | ok st1 => secondPassLoop fuel directiveTable opTab rest st1
    | error e => error e
    | undefined => undefined

/-- The state in which `generateSCOFFRecords` enters its line loop. -/
def pass2_init (symTab : symbol_table) : pass2_state :=
  { symTab := symTab, records := createRecords, locCounter := symTab.startAddress }

/-- Function `generateSCOFFRecords` on the text of the rewound source file. Besides the
records, the symbol table as pass two leaves it is returned. -/
def generateSCOFFRecords (fuel : Nat) (openSIC : Str)
    (directiveTable : hash_table directive_callback) (opTab : hash_table sic_optable_values)
    (symTab : symbol_table) : pass_result (sic_scoff_records × symbol_table) :=
  match secondPassLoop fuel directiveTable opTab (readLines openSIC) (pass2_init symTab) with
  | ok st =>
    if st.symTab.endAddress = SIC_NOT_SET_SENTINEL then
      error (pass_error.opcode opcode_status.OPS_NO_INSTRUCTION_FOUND)
    else ok (st.records, st.symTab)
  | error e => error e
  | undefined => undefined


/-- The output of `writeSCOFFToFile`, line by line: the header line printed with
"%c%s%s%s". -/
def headerLine (h : sic_scoff_header) : Str :=
  h.magicChar :: (h.programName ++ h.startAddr ++ h.lengthOfProgram)

/-- A text record line, printed with "%c%s%s%s". -/
def textLine (t : sic_scoff_text) : Str :=
  t.magicChar :: (t.startAddr ++ t.lengthOfObj ++ t.objectCode)

/-- A modification record line, printed with "%c%s%s%c%s". -/
def modLine (m : sic_scoff_mod) : Str :=
  m.magicChar :: (m.startAddr ++ m.lenOfModificationHB ++ [m.modificationFlag] ++ m.symbolName)

/-- The end record, printed with "%c%s". -/
def endLine (e : sic_scoff_end) : Str :=
  e.magicChar :: e.firstInstruction

/-- The text `writeSCOFFToFile` writes to the object file. -/
def writeSCOFFToFile (records : sic_scoff_records) : Str :=
  headerLine records.header ++ [lfChar] ++
  (records.texts.nodes.map (fun t => textLine t ++ [lfChar])).flatten ++
  (records.modifications.nodes.map (fun m => modLine m ++ [lfChar])).flatten ++
  endLine records.end_

/-! ## main.c -/

/-- The two passes as `main` runs them on the source text: pass one, then
pass two on the rewound file with the symbol table of pass one. Returns the
records and the symbol table as pass two leaves it. -/
def assemble (fuel : Nat) (source : Str) (directiveTable : hash_table directive_callback)
    (opTab : hash_table sic_optable_values) : pass_result (sic_scoff_records × symbol_table) :=
  match buildSymbolTable fuel source directiveTable opTab with
  | ok symbolTable => generateSCOFFRecords fuel source directiveTable opTab symbolTable
  | error e => error e
  | undefined => undefined

/-! ## opcode.c

The descriptor file res/sic_opcodes.txt is read at run time; its text is
the argument of `buildOpcodeTable`. -/

/-- Longest mnemonic (sic.h). -/
def SIC_MAX_MNUMONIC_LEN : Nat := 6

/-- Conversion to `uint8_t`. -/
def toUInt8 (v : Int) : Fin 256 := Fin.ofNat (v % 256).toNat

/-- The character `*token` as an `int`; the terminating NUL for the empty
string. -/
def firstChar (token : Str) : Int :=
  match token.head? with
  | some c => charVal c
  | none => 0

/-- One round of the flag loop of `buildOpcodeTable`: `switch (*token)` with the
cases P, X, F and C. -/
def opcodeFlag (token : Str) (flags : Nat) : Nat :=
  if token.head? = some 'P' then flags ||| OP_FLAG_PRIVILEGED
  else if token.head? = some 'X' then flags ||| OP_FLAG_XE_ONLY
  else if token.head? = some 'F' then flags ||| OP_FLAG_FLOAT_POINT
  else if token.head? = some 'C' then flags ||| OP_FLAG_CONDITION_CODE_SET
  else flags

/-- The flag loop of `buildOpcodeTable`:
`do { switch (*token) ...; token = strtok(NULL, d); } while (token);`.
The first argument bounds the iterations; the length of the remaining text
plus one always suffices. -/
def opcodeFlags : Nat → Str → Str → Nat → Nat
  | 0, _, _, flags => flags
  | k + 1, token, save, flags =>
    match strtok save SIC_TOKEN_DELIMITERS with
    | (none, _) => opcodeFlag token flags
    | (some t, save1) => opcodeFlags k t save1 (opcodeFlag token flags)

/-- The body of the line loop of `buildOpcodeTable` up to the insertion: the mnemonic
and the entry parsed from the line in `buffer`, or the error printed before
NULL is returned. A line without opcode field hands NULL to `strtol` and has
no defined result. -/
def opcodeLine (buffer : Str) : pass_result (Str × sic_optable_values) :=
  match strtok buffer SIC_TOKEN_DELIMITERS with
  | (none, _) => pass_result.error (pass_error.opcode opcode_status.OPS_BAD_INPUT_PARSE)
  | (some mnumonic, save1) =>
    if mnumonic.length > SIC_MAX_MNUMONIC_LEN then
      pass_result.error (pass_error.opcode opcode_status.OPS_INVALID_MNUMONIC_LEN)
    else
      match strtok save1 SIC_TOKEN_DELIMITERS with
      | (none, _) => pass_result.error (pass_error.opcode opcode_status.OPS_BAD_INPUT_PARSE)
      | (some operandsTok, save2) =>
        match strtok save2 SIC_TOKEN_DELIMITERS with
        | (none, _) => pass_result.error (pass_error.opcode opcode_status.OPS_BAD_INPUT_PARSE)
        | (some formatTok, save3) =>
          match strtok save3 SIC_TOKEN_DELIMITERS with
          | (none, _) => pass_result.undefined
          | (some opcodeTok, save4) =>
            if !(strtol opcodeTok 16).converted then
              pass_result.error (pass_error.opcode opcode_status.OPS_BAD_INPUT_PARSE)
            else
              pass_result.ok (mnumonic,
                { numOperands := toUInt8 (firstChar operandsTok - 48),
                  instructionFormat :=
                    if formatTok.length = 1 then toUInt8 (firstChar formatTok - 48) else 3,
                  opcode := toUInt8 (strtol opcodeTok 16).value,
                  flags :=
                    match strtok save4 SIC_TOKEN_DELIMITERS with
                    | (none, _) => 0
                    | (some t, save5) => opcodeFlags (save5.length + 1) t save5 0 })

/-- The line loop of `buildOpcodeTable`. -/
def buildOpcodeTableLoop (fuel : Nat) :
    List Str → hash_table sic_optable_values → pass_result (hash_table sic_optable_values)
  | [], opTab => pass_result.ok opTab
  | buffer :: rest, opTab =>
    match opcodeLine buffer with
    | pass_result.ok (mnumonic, value) =>
      match insertKVPair fuel opTab mnumonic value with
      | none => pass_result.undefined
      | some (ht_status.HT_OKAY, opTab1) => buildOpcodeTableLoop fuel rest opTab1
      | some (_, _) => pass_result.error pass_error.insertFailed
    | pass_result.error e => pass_result.error e
    | pass_result.undefined => pass_result.undefined

/-- Function `buildOpcodeTable` on the text of the descriptor file. -/
def buildOpcodeTable (fuel : Nat) (descriptor : Str) :
    pass_result (hash_table sic_optable_values) :=
  buildOpcodeTableLoop fuel (readLines descriptor) (createHashTable SIC_OPTAB_SIZE)

/-! ## Notions used in the statements -/

/-- The pair is stored in some slot of the table. -/
def Bound {V : Type} (ht : hash_table V) (k : Str) (v : V) : Prop :=
  ∃ i : Nat, ht.p_KVArray[i]? = some (some (key_value.mk k v))

/-- Every stored pair is the one its own probe sequence stops at. -/
def WF {V : Type} (ht : hash_table V) : Prop :=
  ∀ i kv, ht.p_KVArray[i]? = some (some kv) →
    ∃ f, probe ht.p_KVArray kv.key (hashFunction kv.key ht.currentSize) f
      (hashFunction kv.key ht.currentSize) 1 = some (probe_result.found i)

/-- The directive table, as `buildDirectiveTable` returns it. -/
def directiveTable : hash_table directive_callback :=
  ((buildDirectiveTable 16).getD none).getD (createHashTable SIC_DIRECTIVE_TABLE_SIZE)


/-- How the first tokens of a source line classify it: the label (when the
first token is neither a directive nor a mnemonic), the directive or
instruction found, and the `strtok` save pointer behind it. -/
inductive line_kind where
  /-- The line has no token. -/
  | empty
  /-- The first token starts with `#`. -/
  | comment
  /-- A directive line. -/
  | directive (symbol : Option Str) (token : Str) (callback : directive_callback) (save : Str)
  /-- An instruction line. -/
  | instruction (symbol : Option Str) (opcode : sic_optable_values) (save : Str)
  /-- A first token that is neither directive nor mnemonic, followed by
  something that is neither. -/
  | unknown (symbol : Str)
deriving DecidableEq

/-- The classification both passes apply to a line: the first token is a
comment, a directive, a mnemonic, or else a label followed by a directive or
a mnemonic. No result when a table lookup has none. -/
def classifyLine (fuel : Nat) (directiveTable : hash_table directive_callback)
    (opTab : hash_table sic_optable_values) (buffer : Str) : Option line_kind :=
  match (strtok buffer SIC_TOKEN_DELIMITERS).1 with
  | none => some line_kind.empty
  | some token =>
    if checkComment token then some line_kind.comment
    else
      match getKVPair fuel directiveTable (some token) with
      | none => none
      | some (some cb) =>
        some (line_kind.directive none token cb (strtok buffer SIC_TOKEN_DELIMITERS).2)
      | some none =>
        match getKVPair fuel opTab (some token) with
        | none => none
        | some (some opcode) =>
          some (line_kind.instruction none opcode (strtok buffer SIC_TOKEN_DELIMITERS).2)
        | some none =>
          match getKVPair fuel directiveTable
              (strtok (strtok buffer SIC_TOKEN_DELIMITERS).2 SIC_TOKEN_DELIMITERS).1 with
          | none => none
          | some (some cb) =>
            some (line_kind.directive (some token)
              ((strtok (strtok buffer SIC_TOKEN_DELIMITERS).2 SIC_TOKEN_DELIMITERS).1.getD [])
              cb (strtok (strtok buffer SIC_TOKEN_DELIMITERS).2 SIC_TOKEN_DELIMITERS).2)
          | some none =>
            match getKVPair fuel opTab
                (strtok (strtok buffer SIC_TOKEN_DELIMITERS).2 SIC_TOKEN_DELIMITERS).1 with
            | none => none
            | some (some opcode) =>
              some (line_kind.instruction (some token) opcode
                (strtok (strtok buffer SIC_TOKEN_DELIMITERS).2 SIC_TOKEN_DELIMITERS).2)
            | some none => some (line_kind.unknown token)

/-- The operand string `firstPassDirectiveHelper` hands to the directive callback: the
next token; for BYTE the rest of the line (up to CR or LF behind a label,
the whole rest otherwise, NULL when the rest holds no token). -/
def directiveOperand (token save : Str) (symbolSeen : Bool) : Option Str :=
  if symbolSeen then
    if token = "BYTE".toList then (strtok save LINE_DELIMITERS).1
    else (strtok save SIC_TOKEN_DELIMITERS).1
  else if token = "BYTE".toList then
    if (strtok save SIC_TOKEN_DELIMITERS).1 = none then none else some save
  else (strtok save SIC_TOKEN_DELIMITERS).1

/-- The symbol map after a line: unchanged without a label, the label
inserted with the given address when there is one. -/
def LabelInserted (fuel : Nat) (symbol : Option Str) (addr : Nat) (ht ht' : hash_table Nat) : Prop :=
  match symbol with
  | none => ht' = ht
  | some L => insertKVPair fuel ht L addr = some (ht_status.HT_OKAY, ht')

/-- The checks `buildSymbolTable` makes on a label before it looks at the rest of
the line: it is not in the symbol map yet, and it is a well-formed symbol. -/
def LabelFresh (fuel : Nat) (symbol : Option Str) (ht : hash_table Nat) : Prop :=
  match symbol with
  | none => True
  | some L => getKVPair fuel ht (some L) = some none ∧
      sanitizedSymbol L = sic_symbol_status.SYM_OKAY

/-- What pass one did on an accepted line of the given kind. -/
def Pass1Effect (fuel : Nat) (directiveTable : hash_table directive_callback)
    (opTab : hash_table sic_optable_values) (st st' : pass1_state) : line_kind → Prop
  | line_kind.comment => st' = st
  | line_kind.directive symbol token cb save =>
    LabelFresh fuel symbol st.symTab.ht ∧
    ∃ save1 r ht',
      callDirective fuel cb st.symTab (directiveOperand token save symbol.isSome) save1 = some r ∧
      r.status = directive_callback_status.DCS_OKAY ∧
      LabelInserted fuel symbol
        (if r.symbolTable.startAddress ≠ SIC_NOT_SET_SENTINEL ∧ st.startSeen = false
          then r.symbolTable.locCounter else st.symTab.locCounter) r.symbolTable.ht ht' ∧
      st' = { symTab := { r.symbolTable with ht := ht' },
              startSeen := (if r.symbolTable.startAddress ≠ SIC_NOT_SET_SENTINEL ∧
                st.startSeen = false then true else st.startSeen) }
  | line_kind.instruction symbol opcode save =>
    LabelFresh fuel symbol st.symTab.ht ∧
    ∃ symTab1 ht',
      firstPassInstructionHelper fuel st.symTab directiveTable opTab opcode save symbol.isSome
        = pass_result.ok symTab1 ∧
      LabelInserted fuel symbol st.symTab.locCounter symTab1.ht ht' ∧
      st' = { symTab := { symTab1 with ht := ht' }, startSeen := st.startSeen }
  | line_kind.empty => False
  | line_kind.unknown _ => False

/-- The text between the apostrophes of a BYTE operand such as C'EOF'. -/
def byteContent (operand : Str) : Str :=
  (operand.drop 2).takeWhile (fun d => d != quoteChar)

/-- The number of bytes a directive line reserves, from the directive and
the operand string its callback is given: 3 for WORD, the operand for RESB,
three times the operand for RESW, the length of the constant for BYTE (half
the characters for X, the characters for C), 0 for START and END. The
operand of RESB and RESW is read as pass one reads it, as an `int32_t`. -/
def directiveSize (callback : directive_callback) (operand : Option Str) : Nat :=
  match callback, operand with
  | directive_callback.directive_callback_word, _ => SIC_WORD_BYTES
  | directive_callback.directive_callback_resb, some t => (toInt32 (strtol t 10).value).toNat
  | directive_callback.directive_callback_resw, some t =>
    (toInt32 (strtol t 10).value).toNat * SIC_WORD_BYTES
  | directive_callback.directive_callback_byte, some o =>
    if o.head? = some 'X' then (byteContent o).length / 2 else (byteContent o).length
  | _, _ => 0

/-- What pass one has checked about the operand string of an accepted data
directive (BYTE, WORD, RESB, RESW). -/
def OperandAccepted (callback : directive_callback) (operand : Option Str) : Prop :=
  match callback, operand with
  | directive_callback.directive_callback_word, some t =>
    (getConstant t 10).1 = directive_callback_status.DCS_OKAY
  | directive_callback.directive_callback_resb, some t =>
    (getConstant t 10).1 = directive_callback_status.DCS_OKAY ∧ 0 ≤ toInt32 (strtol t 10).value
  | directive_callback.directive_callback_resw, some t =>
    (getConstant t 10).1 = directive_callback_status.DCS_OKAY ∧ 0 ≤ toInt32 (strtol t 10).value
  | directive_callback.directive_callback_byte, some o =>
    (o.head? = some 'C' ∨ o.head? = some 'X') ∧ (o.drop 1).head? = some quoteChar ∧
    (o.drop 2).contains quoteChar = true ∧
    (o.head? = some 'X' →
      (byteContent o).length % 2 = 0 ∧ (byteContent o).all isxdigit = true)
  | _, _ => False

/-- The invariant of the line loop of pass one: the symbol map is
well-formed; before START nothing is set and no symbol is bound; after START
the addresses lie between the start address and the location counter, which
does not exceed the memory limit. -/
def Inv1 (st : pass1_state) : Prop :=
  WF st.symTab.ht ∧
  ((st.symTab.startAddress = SIC_NOT_SET_SENTINEL ∧ st.startSeen = false ∧
      st.symTab.endAddress = SIC_NOT_SET_SENTINEL ∧ ∀ k v, ¬ Bound st.symTab.ht k v) ∨
   (st.symTab.startAddress ≤ SIC_MEMORY_LIMIT ∧ st.startSeen = true ∧
      st.symTab.startAddress ≤ st.symTab.locCounter ∧
      st.symTab.locCounter ≤ SIC_MEMORY_LIMIT ∧
      (st.symTab.endAddress = SIC_NOT_SET_SENTINEL ∨ st.symTab.endAddress = SIC_SEEN_SENTINEL ∨
        st.symTab.endAddress ≤ SIC_MEMORY_LIMIT) ∧
      ∀ k v, Bound st.symTab.ht k v →
        st.symTab.startAddress ≤ v ∧ v ≤ st.symTab.locCounter))

/-- The end address an accepted END line sets: the Seen sentinel without an
operand, the address of the named symbol otherwise. -/
def EndValue (fuel : Nat) (ht : hash_table Nat) (operand : Option Str) (e : Nat) : Prop :=
  (operand = none ∧ e = SIC_SEEN_SENTINEL) ∨
  (∃ S a, operand = some S ∧ getKVPair fuel ht (some S) = some (some a) ∧ e = a)

/-- What pass one did on an accepted line of the given kind, from a state
that satisfies the loop invariant: the new state, field by field. -/
def Pass1Step (fuel : Nat) (st st' : pass1_state) : line_kind → Prop
  | line_kind.comment => st' = st
  | line_kind.directive symbol token cb save =>
    LabelFresh fuel symbol st.symTab.ht ∧
    ∃ ht',
      match cb with
      | directive_callback.directive_callback_start =>
        st.symTab.startAddress = SIC_NOT_SET_SENTINEL ∧
        ∃ s, s ≤ SIC_MEMORY_LIMIT ∧ LabelInserted fuel symbol s st.symTab.ht ht' ∧
          st' = { symTab := { startAddress := s, endAddress := st.symTab.endAddress,
                              locCounter := s, ht := ht' },
                  startSeen := true }
      | directive_callback.directive_callback_end =>
        st.symTab.startAddress ≠ SIC_NOT_SET_SENTINEL ∧
        st.symTab.endAddress = SIC_NOT_SET_SENTINEL ∧
        LabelInserted fuel symbol st.symTab.locCounter st.symTab.ht ht' ∧
        ∃ e, EndValue fuel st.symTab.ht (directiveOperand token save symbol.isSome) e ∧
          st' = { symTab := { startAddress := st.symTab.startAddress, endAddress := e,
                              locCounter := st.symTab.locCounter, ht := ht' },
                  startSeen := true }
      | directive_callback.directive_callback_resr => False
      | directive_callback.directive_callback_exports => False
      | _ =>
        st.symTab.startAddress ≠ SIC_NOT_SET_SENTINEL ∧
        OperandAccepted cb (directiveOperand token save symbol.isSome) ∧
        LabelInserted fuel symbol st.symTab.locCounter st.symTab.ht ht' ∧
        st.symTab.locCounter + directiveSize cb (directiveOperand token save symbol.isSome)
          ≤ SIC_MEMORY_LIMIT ∧
        st' = { symTab :=
                  { startAddress := st.symTab.startAddress, endAddress := st.symTab.endAddress,
                    locCounter := st.symTab.locCounter +
                      directiveSize cb (directiveOperand token save symbol.isSome),
                    ht := ht' },
                startSeen := true }
  | line_kind.instruction symbol _ _ =>
    LabelFresh fuel symbol st.symTab.ht ∧
    st.symTab.startAddress ≠ SIC_NOT_SET_SENTINEL ∧
    st.symTab.endAddress = SIC_NOT_SET_SENTINEL ∧
    ∃ ht', LabelInserted fuel symbol st.symTab.locCounter st.symTab.ht ht' ∧
      st.symTab.locCounter + SIC_WORD_BYTES ≤ SIC_MEMORY_LIMIT ∧
      st' = { symTab :=
                { startAddress := st.symTab.startAddress, endAddress := st.symTab.endAddress,
                  locCounter := st.symTab.locCounter + SIC_WORD_BYTES, ht := ht' },
              startSeen := st.startSeen }
  | line_kind.empty => False
  | line_kind.unknown _ => False

/-- The value of a hexadecimal numeral: the field of a record parsed back. -/
def hexValue (s : Str) : Nat :=
  s.foldl (fun a c => a * 16 + (digitVal c).getD 0) 0

/-- The hex encoding of a character constant: two uppercase hex digits per
character. -/
def charsToHex (s : Str) : Str :=
  (s.map (fun c => printfHex 2 c.toNat)).flatten

/-- Text record number `i` of a BYTE constant of `n` bytes met at address
`a`: it starts at `a + 30 * i` and holds `min 30 (n - 30 * i)` bytes, which
are the next 60 hex digits of an X constant, or the next 30 characters of a
C constant converted by `asciiToHexLoop`. -/
def byteChunk (hex : Bool) (content : Str) (a n i : Nat) : sic_scoff_text :=
  { magicChar := 'T',
    startAddr := printfHex 6 (a + 30 * i),
    lengthOfObj := printfHex 2 (min 30 (n - 30 * i)),
    objectCode :=
      if hex then (content.drop (60 * i)).take 60
      else asciiToHexLoop ((content.drop (30 * i)).take 30) 0 [] }

/-- The number of bytes of a BYTE constant with the given text between its
apostrophes. -/
def byteCount (hex : Bool) (content : Str) : Nat :=
  if hex then content.length / 2 else content.length

/-- The text records of a BYTE constant met at address `a`: one per started
group of 30 bytes. -/
def byteChunks (hex : Bool) (content : Str) (a : Nat) : List sic_scoff_text :=
  (List.range ((byteCount hex content + 29) / 30)).map
    (fun i => byteChunk hex content a (byteCount hex content) i)

/-- The text records pass two appends for a data directive line met at
address `a`: one 3-byte record for WORD, the records of the constant for
BYTE, none for RESB and RESW. -/
def dataTexts (callback : directive_callback) (operand : Option Str) (a : Nat) :
    List sic_scoff_text :=
  match callback, operand with
  | directive_callback.directive_callback_word, some t =>
    [{ magicChar := 'T', startAddr := printfHex 6 a, lengthOfObj := printfHex 2 3,
       objectCode := printfHex 6 (toUInt32 (strtol t 10).value) }]
  | directive_callback.directive_callback_byte, some o =>
    byteChunks (decide (o.head? = some 'X')) (byteContent o) a
  | _, _ => []

/-- What pass two did on a line of the given kind. -/
def Pass2Effect (fuel : Nat) (st st' : pass2_state) : line_kind → Prop
  | line_kind.comment => st' = st
  | line_kind.directive symbol token _ save =>
    ∃ recs lc, secondPassDirectiveHelper st.symTab token symbol st.records st.locCounter save
        = pass_result.ok (recs, lc) ∧
      st' = { st with records := recs, locCounter := lc }
  | line_kind.instruction _ opcode save =>
    secondPassInstructionHelper fuel st.symTab opcode st.records st.locCounter save
      = pass_result.ok st'
  | line_kind.unknown _ => st' = st
  | line_kind.empty => False

/-- What pass two did on a line that pass one accepted, field by field. -/
def Pass2Step (st st' : pass2_state) : line_kind → Prop
  | line_kind.comment => st' = st
  | line_kind.directive symbol token cb save =>
    st'.symTab = st.symTab ∧ st'.records.modifications = st.records.modifications ∧
    match cb with
    | directive_callback.directive_callback_start =>
      st'.locCounter = st.locCounter ∧ st'.records.texts = st.records.texts ∧
      st'.records.end_ = st.records.end_ ∧
      ∃ L, symbol = some L ∧
        st'.records.header =
          { magicChar := st.records.header.magicChar,
            programName := printfLeft 6 L,
            startAddr := printfHex 6 st.symTab.startAddress,
            lengthOfProgram := printfHex 6
              (toUInt32 ((st.symTab.locCounter : Int) - (st.symTab.startAddress : Int))) }
    | directive_callback.directive_callback_end =>
      st.symTab.endAddress ≠ SIC_SEEN_SENTINEL ∧
      st'.locCounter = st.locCounter + 3 ∧ st'.records.texts = st.records.texts ∧
      st'.records.header = st.records.header ∧
      st'.records.end_ =
        { magicChar := st.records.end_.magicChar,
          firstInstruction := printfHex 6 st.symTab.endAddress }
    | directive_callback.directive_callback_resr => False
    | directive_callback.directive_callback_exports => False
    | _ =>
      st'.locCounter =
        st.locCounter + directiveSize cb (directiveOperand token save symbol.isSome) ∧
      st'.records.header = st.records.header ∧ st'.records.end_ = st.records.end_ ∧
      st'.records.texts.nodes = st.records.texts.nodes ++
        dataTexts cb (directiveOperand token save symbol.isSome) st.locCounter
  | line_kind.instruction _ opcode _ =>
    st'.symTab =
      (if st.symTab.endAddress = SIC_SEEN_SENTINEL
        then { st.symTab with endAddress := st.locCounter } else st.symTab) ∧
    st'.locCounter = st.locCounter + 3 ∧
    st'.records.header = st.records.header ∧ st'.records.end_ = st.records.end_ ∧
    (∃ payload, st'.records.texts.nodes = st.records.texts.nodes ++
      [{ magicChar := 'T', startAddr := printfHex 6 st.locCounter,
         lengthOfObj := printfHex 2 3, objectCode := payload }]) ∧
    st'.records.modifications.nodes = st.records.modifications.nodes ++
      (if opcode.numOperands.val = 0 then []
       else [{ magicChar := 'M', startAddr := printfHex 6 (st.locCounter + 1),
               lenOfModificationHB := printfHex 2 6, modificationFlag := '+',
               symbolName := st.records.header.programName }])
  | line_kind.unknown _ => False
  | line_kind.empty => False

/-- The states in which pass two meets the lines: the state before each
line, as long as the lines before it succeeded. -/
def secondPassTrace (fuel : Nat) (directiveTable : hash_table directive_callback)
    (opTab : hash_table sic_optable_values) : List Str → pass2_state → List pass2_state
  | [], _ => []
  | buffer :: rest, st =>
    st :: (match secondPassLine fuel directiveTable opTab st buffer with
      | pass_result.ok st1 => secondPassTrace fuel directiveTable opTab rest st1
      | _ => [])

/-- How the state of pass two relates to the state of pass one before the
same line, `F` being the symbol table pass one ends with: pass two keeps the
start address, location counter and symbol map of `F`; its emitter location
counter is the start address before START, the location counter of pass one
after START, and 3 more after END. -/
def Rel (F : symbol_table) (st1 : pass1_state) (st2 : pass2_state) : Prop :=
  st2.symTab.startAddress = F.startAddress ∧ st2.symTab.locCounter = F.locCounter ∧
  st2.symTab.ht = F.ht ∧ F.startAddress ≤ SIC_MEMORY_LIMIT ∧
  (st1.symTab.startAddress = SIC_NOT_SET_SENTINEL → st2.locCounter = F.startAddress) ∧
  (st1.symTab.startAddress ≠ SIC_NOT_SET_SENTINEL →
    st1.symTab.startAddress = F.startAddress ∧
    st2.locCounter = st1.symTab.locCounter +
      (if st1.symTab.endAddress = SIC_NOT_SET_SENTINEL then 0 else 3))

/-- A run of both passes over the same lines, line by line: `st1` and `st2`
are the states of pass one and pass two before the lines, `F` is the symbol
table pass one ends with and `st2f` the state pass two ends with. -/
inductive JointRun (fuel : Nat) (opTab : hash_table sic_optable_values) (F : symbol_table) :
    List Str → pass1_state → pass2_state → pass2_state → Prop where
  /-- No line is left. -/
  | nil (st1 : pass1_state) (st2 : pass2_state) (hF : st1.symTab = F) (hinv : Inv1 st1)
      (hrel : Rel F st1 st2) : JointRun fuel opTab F [] st1 st2 st2
  /-- Both passes accept the next line. -/
  | cons (line : Str) (rest : List Str) (kind : line_kind) (st1 st1' : pass1_state)
      (st2 st2' st2f : pass2_state)
      (hkind : classifyLine fuel directiveTable opTab line = some kind)
      (hinv : Inv1 st1) (hrel : Rel F st1 st2)
      (hstep1 : Pass1Step fuel st1 st1' kind) (hstep2 : Pass2Step st2 st2' kind)
      (hline2 : secondPassLine fuel directiveTable opTab st2 line = pass_result.ok st2')
      (hrest : JointRun fuel opTab F rest st1' st2' st2f) :
      JointRun fuel opTab F (line :: rest) st1 st2 st2f

/-- The modification record pass two is expected to append for a line met
at emitter address `a`: one for an instruction line whose opcode takes
operands, with address `a + 1`, half-byte length 06, sign `+` and the given
program name; none for any other line. -/
def expectedMods (fuel : Nat) (opTab : hash_table sic_optable_values) (name : Str) (line : Str)
    (a : Nat) : List sic_scoff_mod :=
  match classifyLine fuel directiveTable opTab line with
  | some (line_kind.instruction _ opcode _) =>
    if opcode.numOperands.val = 0 then []
    else [{ magicChar := 'M', startAddr := printfHex 6 (a + 1),
            lenOfModificationHB := "06".toList, modificationFlag := '+',
            symbolName := name }]
  | _ => []

/-- The text records pass two appends on a line, from the state it meets
the line in. -/
def lineTexts (fuel : Nat) (opTab : hash_table sic_optable_values) (st : pass2_state)
    (line : Str) : List sic_scoff_text :=
  match secondPassLine fuel directiveTable opTab st line with
  | pass_result.ok st' => st'.records.texts.nodes.drop st.records.texts.nodes.length
  | _ => []

/-- The address and byte count fields of the records, parsed back as
hexadecimal, ascend from `lo` to `hi`: every record starts at or after the
end of the one before it (at or after `lo` for the first), holds at least
one byte, and the last one ends at or before `hi`. -/
def Ascending : Nat → List sic_scoff_text → Nat → Prop
  | lo, [], hi => lo ≤ hi
  | lo, r :: rest, hi =>
    lo ≤ hexValue r.startAddr ∧ 1 ≤ hexValue r.lengthOfObj ∧
    Ascending (hexValue r.startAddr + hexValue r.lengthOfObj) rest hi

/-- The emitter address of the first instruction line among the lines,
given with the states pass two meets them in. -/
def firstInstructionAddress (fuel : Nat) (opTab : hash_table sic_optable_values) :
    List (Str × pass2_state) → Option Nat
  | [] => none
  | (line, st) :: rest =>
    match classifyLine fuel directiveTable opTab line with
    | some (line_kind.instruction _ _ _) => some st.locCounter
    | _ => firstInstructionAddress fuel opTab rest

/-! ## Sample data

The opcode descriptor file res/sic_opcodes.txt is not part of the sources at
hand. Concrete runs use a table with a few entries of the standard SIC
instruction set, inserted into a table of the capacity `buildOpcodeTable`
uses. -/

/-- A few standard SIC opcodes: mnemonic, operand count, format, opcode
byte, flags. -/
def sampleOpcodes : List (Str × sic_optable_values) :=
  [("LDA".toList, { numOperands := 1, instructionFormat := 3, opcode := 0x00, flags := 0 }),
   ("LDX".toList, { numOperands := 1, instructionFormat := 3, opcode := 0x04, flags := 0 }),
   ("STA".toList, { numOperands := 1, instructionFormat := 3, opcode := 0x0C, flags := 0 }),
   ("RSUB".toList, { numOperands := 0, instructionFormat := 3, opcode := 0x4C, flags := 0 })]

/-- The table obtained by inserting the given entries one after the other. -/
def tableOf {V : Type} (fuel : Nat) : List (Str × V) → hash_table V → hash_table V
  | [], t => t
  | (k, v) :: rest, t =>
    match insertKVPair fuel t k v with
    | some (ht_status.HT_OKAY, t1) => tableOf fuel rest t1
    | _ => t

/-- An opcode table holding `sampleOpcodes`. -/
def sampleOpTab : hash_table sic_optable_values :=
  tableOf 8 sampleOpcodes (createHashTable SIC_OPTAB_SIZE)

/-- The symbol table inside a result of pass one, if there is one. -/
def symTabOf (r : pass_result symbol_table) : Option symbol_table :=
  match r with
  | pass_result.ok st => some st
  | _ => none

/-- The records inside a result of pass two, if there are any. -/
def recordsOf (r : pass_result (sic_scoff_records × symbol_table)) : Option sic_scoff_records :=
  match r with
  | pass_result.ok (recs, _) => some recs
  | _ => none

/-- The address a symbol is bound to in the symbol table of a pass-one
result, if pass one succeeded and the symbol is bound. -/
def symbolAddress (fuel : Nat) (r : pass_result symbol_table) (symbol : Str) : Option Nat :=
  match r with
  | pass_result.ok st =>
    match getKVPair fuel st.ht (some symbol) with
    | some (some a) => some a
    | _ => none
  | _ => none

/-- The minimal program of the specification. -/
def minimalSource : Str := "FIRST START 1000\n L WORD 5\n END FIRST\n".toList

/-- The symbol table pass one builds for `minimalSource`. -/
def minimalSymTab : symbol_table :=
  (symTabOf (buildSymbolTable 8 minimalSource directiveTable sampleOpTab)).getD
    pass1_init.symTab

/-- The symbol table inside a result of pass two, if there is one. -/
def finalSymTabOf (r : pass_result (sic_scoff_records × symbol_table)) : Option symbol_table :=
  match r with
  | pass_result.ok (_, st) => some st
  | _ => none

/-- A program with instructions: a plain operand, an indexed operand, an
instruction without operand, and a data word. -/
def sampleSource : Str :=
  "COPY START 1000\nFIRST LDA BUFFER\n LDX BUFFER,X\n RSUB\nBUFFER WORD 5\n END FIRST\n".toList

/-- The symbol table pass one builds for `sampleSource`. -/
def sampleSymTab : symbol_table :=
  (symTabOf (buildSymbolTable 8 sampleSource directiveTable sampleOpTab)).getD pass1_init.symTab

/-- The records pass two builds for `sampleSource`. -/
def sampleRecords : sic_scoff_records :=
  (recordsOf (generateSCOFFRecords 8 sampleSource directiveTable sampleOpTab sampleSymTab)).getD
    createRecords

/-- The symbol table pass two leaves for `sampleSource`. -/
def sampleSymTab2 : symbol_table :=
  (finalSymTabOf (generateSCOFFRecords 8 sampleSource directiveTable sampleOpTab sampleSymTab)).getD
    pass1_init.symTab

/-- The operand of the first END line among the lines, if there is an END
line: NULL or the operand string handed to the END callback. -/
def endOperand (fuel : Nat) (opTab : hash_table sic_optable_values) :
    List Str → Option (Option Str)
  | [] => none
  | line :: rest =>
    match classifyLine fuel directiveTable opTab line with
    | some (line_kind.directive symbol token directive_callback.directive_callback_end save) =>
      some (directiveOperand token save symbol.isSome)
    | _ => endOperand fuel opTab rest

/-- A program that reserves 4294967296 bytes between two labels. -/
def overflowSource : Str := "P START 1000\nA RESB 4294967296\nB WORD 1\n END P\n".toList

/-- A program with a negative WORD constant. -/
def negativeWordSource : Str := "P START 1000\nL WORD -1\n END L\n".toList

/-- A program whose instruction names a symbol that is not defined. -/
def undefinedOperandSource : Str := "P START 0\n LDA FOO\n END P\n".toList

/-- A program whose END line has no operand and which holds no instruction. -/
def noInstructionSource : Str := "P START 0\nL WORD 1\n END\n".toList

/-- Forty characters for a BYTE constant. -/
def fortyCharacters : Str := "0123456789ABCDEFGHIJ0123456789ABCDEFGHIJ".toList

/-- A symbol table in which BUFFER is bound to 0x0500. -/
def bufferSymTab : symbol_table :=
  { startAddress := 0x0400, endAddress := 0x0400, locCounter := 0x0600,
    ht := tableOf 8 [("BUFFER".toList, 0x0500)] (createHashTable 16) }

/-- The text records inside a result of `secondPassDirectiveHelper`, none
when it failed. -/
def textsOf (r : pass_result (sic_scoff_records × Nat)) : List sic_scoff_text :=
  match r with
  | pass_result.ok (recs, _) => recs.texts.nodes
  | _ => []

/-! ## Hash table runs -/

/-- The pairs inserted one after the other with `insertKVPair`; no result
unless every insertion returns HT_OKAY. -/
def insertAll {V : Type} (fuel : Nat) : List (Str × V) → hash_table V → Option (hash_table V)
  | [], t => some t
  | (k, v) :: rest, t =>
    match insertKVPair fuel t k v with
    | some (ht_status.HT_OKAY, t1) => insertAll fuel rest t1
    | _ => none

/-- The probing loop that looks for `key` does not stop at this slot: the
slot holds another key. -/
def blocked {V : Type} (arr : List (Option (key_value V))) (key : Str) (index : Nat) : Bool :=
  match arr[index]? with
  | some (some kv) => decide (key ≠ kv.key)
  | _ => false

/-- Seven symbols whose hash in a table of 32 slots is 1. -/
def collidingKeys : List (Str × Nat) :=
  [("A".toList, 1), ("AF".toList, 2), ("BK".toList, 3), ("CP".toList, 4), ("C0".toList, 5),
   ("DU".toList, 6), ("D5".toList, 7)]

/-- The table `createHashTable(0)` after the insertion of `collidingKeys`. -/
def collidingTable : hash_table Nat :=
  (insertAll 8 collidingKeys (createHashTable 0)).getD (createHashTable 0)

/-- Sixteen symbols that fill half of a table of 32 slots. -/
def crowdedKeys : List (Str × Nat) :=
  [("AD".toList, 1), ("CN".toList, 2), ("AE".toList, 3), ("BJ".toList, 4), ("AH".toList, 5),
   ("C".toList, 6), ("AM".toList, 7), ("H".toList, 8), ("AT".toList, 9), ("AU".toList, 10),
   ("P".toList, 11), ("BB".toList, 12), ("X".toList, 13), ("J".toList, 14), ("K".toList, 15),
   ("L".toList, 16)]

/-- The table `createHashTable(0)` after the insertion of `crowdedKeys`. -/
def crowdedTable : hash_table Nat :=
  (insertAll 8 crowdedKeys (createHashTable 0)).getD (createHashTable 0)

/-- The table of 64 slots the rehash of `crowdedTable` has built when it
comes to the last entry of the old slot array, the one with key AD. -/
def crowdedRehash : hash_table Nat :=
  ((growHashTableWith.go (fun h k v => insertKVPair 1 h k v) (crowdedTable.p_KVArray.take 31)
      { p_KVArray := List.replicate 64 none, numElements := 0 }).getD none).getD
    (createHashTable 64)

/-! ## Pass one, the state after a failed step -/

/-- The symbol table `symTab` points to when `firstPassInstructionHelper` returns,
whether it returns the table or NULL: the function writes to the table in
one place, `symTab->locCounter += SIC_WORD_BYTES`, which comes after the
operand checks and before the memory limit check. -/
def firstPassInstructionHelper_effect (fuel : Nat) (symTab : symbol_table)
    (directiveTable : hash_table directive_callback) (opTab : hash_table sic_optable_values)
    (opcode : sic_optable_values) (save : Str) (symbolSeen : Bool) : Option symbol_table :=
  let advance : Option symbol_table :=
    some { symTab with locCounter := (symTab.locCounter + SIC_WORD_BYTES) % UINT32_MOD }
  let count (token : Option Str) (save1 : Str) : Option symbol_table :=
    if countOperands (save1.length + 1) token save1 0 ≠ opcode.numOperands.val then some symTab
    else advance
  if symTab.startAddress = SIC_NOT_SET_SENTINEL then some symTab
  else if symTab.endAddress ≠ SIC_NOT_SET_SENTINEL ∨ symTab.endAddress = SIC_SEEN_SENTINEL then
    some symTab
  else if !SIC_EXPENSIVE_EDITION_SUPPORT ∧
      (opcode.flags &&& OP_FLAG_XE_ONLY ≠ 0 ∨ opcode.flags &&& OP_FLAG_FLOAT_POINT ≠ 0) then
    some symTab
  else
    match strtok save SIC_TOKEN_DELIMITERS with
    | (token, save1) =>
      if symbolSeen then count token save1
      else
        match token with
        | some t =>
          match isReservedWord fuel directiveTable opTab t with
          | none => none
          | some true => some symTab
          | some false => count token save1
        | none =>
          if opcode.numOperands.val ≠ 0 then some symTab
          else advance

/-- A symbol table after START, before END, in which FIRST is bound to
0x1000. -/
def startedSymTab : symbol_table :=
  { startAddress := 0x1000, endAddress := SIC_NOT_SET_SENTINEL, locCounter := 0x1003,
    ht := tableOf 8 [("FIRST".toList, 0x1000)] (createHashTable 0) }

/-! ## Notions and sample data for the directive handlers and the labels -/

/-- The value of a decimal numeral. -/
def decValue (s : Str) : Nat :=
  s.foldl (fun a c => a * 10 + (digitVal c).getD 0) 0

/-- The state pass one is in after the lines of a source it accepts under
`sampleOpTab`; the initial state when it does not accept them. -/
def stateAfter (source : Str) : pass1_state :=
  match firstPassLoop 8 directiveTable sampleOpTab (readLines source) pass1_init with
  | pass_result.ok st => st
  | _ => pass1_init

/-- The label of a classified line: the first token of a directive or
instruction line whose first token is neither a directive nor a mnemonic. -/
def kindLabel : line_kind → Option Str
  | line_kind.directive symbol _ _ _ => symbol
  | line_kind.instruction symbol _ _ => symbol
  | _ => none

/-- The label of a source line, if it has one. -/
def lineLabel (fuel : Nat) (opTab : hash_table sic_optable_values) (line : Str) : Option Str :=
  (classifyLine fuel directiveTable opTab line).bind kindLabel

/-- The labels of the labelled lines of a source, in line order. -/
def sourceLabels (fuel : Nat) (opTab : hash_table sic_optable_values) (lines : List Str) :
    List Str :=
  lines.filterMap (lineLabel fuel opTab)

/-- A symbol table after START whose location counter is at the memory
limit. -/
def fullSymTab : symbol_table := { startedSymTab with locCounter := 0x7FFF }

/-- A program with a WORD line behind its END line. -/
def afterEndSource : Str := "P START 1000\nF LDA F\n END F\nL WORD 5\n".toList

/-- The BYTE operand `C` or `X`, apostrophe, content, apostrophe, and what
follows on the line. -/
def byteOperand (kind : Char) (content tail : Str) : Str :=
  kind :: quoteChar :: (content ++ quoteChar :: tail)

/-- A program whose second line carries a label that starts with a digit. -/
def digitLabelSource : Str := "P START 1000\n1ABC WORD 5\n END\n".toList

/-- A program whose second line carries a label of 7 characters. -/
def longLabelSource : Str := "P START 1000\nTOOLONG WORD 5\n END\n".toList

/-- A BYTE line with a character constant: the label, if there is one, then
BYTE and the constant, separated by single spaces, then the end of the
line. -/
def byteLine (label : Option Str) (s eol : Str) : Str :=
  match label with
  | some L => L ++ ' ' :: ("BYTE".toList ++ ' ' :: byteOperand 'C' s eol)
  | none => "BYTE".toList ++ ' ' :: byteOperand 'C' s eol

/-- A program in which the label L stands on two lines. -/
def duplicateLabelSource : Str := "P START 1000\nL WORD 1\nL WORD 2\n END\n".toList

/-! ## Notions and sample data for the line loop and the opcode table -/

/-- A program whose RSUB line carries a comment right behind the
mnemonic. -/
def commentAfterMnemonicSource : Str :=
  "COPY START 1000\nFIRST LDA FIRST\n RSUB #done\n END FIRST\n".toList

/-- A program without END line. -/
def noEndSource : Str := "P START 1000\nL WORD 5\n".toList

/-- A comment line: its first token starts with `#`. -/
def isCommentLine (line : Str) : Bool :=
  match (strtok line SIC_TOKEN_DELIMITERS).1 with
  | some token => checkComment token
  | none => false

/-- The lines that are not comment lines. -/
def codeLines (lines : List Str) : List Str :=
  lines.filter (fun l => !isCommentLine l)

/-- A comment line of 1025 characters: `#`, 1022 spaces, `X` and the line
feed. -/
def longCommentLine : Str := '#' :: (List.replicate 1022 ' ' ++ "X\n".toList)

/-- The tail of `firstPassDirectiveHelper`, behind the choice of the operand string: the
handler is called, a status other than DCS_OKAY ends the pass, and the
symbol address is set again when this line has defined START. -/
def directiveFinish (fuel : Nat) (callback : directive_callback) (symTab : symbol_table)
    (tempSymbAddr : Nat) (startSeen : Bool) (operand : Option Str) (save1 : Str) :
    pass_result (symbol_table × Nat × Bool) :=
  match callDirective fuel callback symTab operand save1 with
  | none => pass_result.undefined
  | some r =>
    if r.status ≠ directive_callback_status.DCS_OKAY then
      pass_result.error (pass_error.directive r.status)
    else if r.symbolTable.startAddress ≠ SIC_NOT_SET_SENTINEL ∧ startSeen = false then
      pass_result.ok (r.symbolTable, r.symbolTable.locCounter, true)
    else pass_result.ok (r.symbolTable, tempSymbAddr, startSeen)

/-- An opcode table that holds the standard SIC instruction ADD. -/
def addOpTab : hash_table sic_optable_values :=
  tableOf 8 [("ADD".toList, { numOperands := 1, instructionFormat := 3, opcode := 0x18, flags := 0 })]
    (createHashTable SIC_OPTAB_SIZE)

/-- The lines for which pass two appends text records: data lines with WORD
or BYTE, and instruction lines. -/
def emitsText : line_kind → Bool
  | line_kind.instruction _ _ _ => true
  | line_kind.directive _ _ directive_callback.directive_callback_word _ => true
  | line_kind.directive _ _ directive_callback.directive_callback_byte _ => true
  | _ => false

/-! ## Notions for the opcode descriptor -/

/-- A field of a descriptor line: a non-empty text without token delimiter
and without NUL. -/
def isField (t : Str) : Prop :=
  t ≠ [] ∧ ∀ c ∈ t, isDelim SIC_TOKEN_DELIMITERS c = false ∧ c ≠ nulChar

instance (t : Str) : Decidable (isField t) := by
  unfold isField
  infer_instance

/-- The descriptor line `M n f hh flags...`: the fields, separated by single
spaces, and a line feed. -/
def descriptorLine (M : Str) (n : Char) (f hh : Str) (flags : List Str) : Str :=
  M ++ ' ' :: n :: ' ' :: (f ++ ' ' :: (hh ++ ((flags.map (fun t => ' ' :: t)).flatten ++ [lfChar])))

/-- The value of a decimal digit, as a byte. -/
def digitByte (c : Char) : Fin 256 := Fin.ofNat (c.toNat - 48)

/-- The format a format field stands for: 3 for `3/4`, the digit
otherwise. -/
def formatByte (f : Str) : Fin 256 :=
  if f = "3/4".toList then 3 else digitByte (f.headD '0')

/-- The flag a flag token stands for, by its first letter: P privileged,
X XE-only, F floating-point, C sets-condition-code. -/
def flagOfToken (t : Str) : Nat :=
  if t.head? = some 'P' then OP_FLAG_PRIVILEGED
  else if t.head? = some 'X' then OP_FLAG_XE_ONLY
  else if t.head? = some 'F' then OP_FLAG_FLOAT_POINT
  else if t.head? = some 'C' then OP_FLAG_CONDITION_CODE_SET
  else 0

/-- The union of the flags of the flag tokens. -/
def flagSet (flags : List Str) : Nat :=
  (flags.map flagOfToken).foldr (fun a b => a ||| b) 0

/-- The entry a descriptor line stands for. -/
def descriptorEntry (n : Char) (f hh : Str) (flags : List Str) : sic_optable_values :=
  { numOperands := digitByte n, instructionFormat := formatByte f,
    opcode := Fin.ofNat (hexValue hh), flags := flagSet flags }

/-- The entry stored under a mnemonic in the table `buildOpcodeTable` returns for a
descriptor text, if it returns one and the mnemonic is found. -/
def opcodeEntry (fuel : Nat) (descriptor mnemonic : Str) : Option sic_optable_values :=
  match buildOpcodeTable fuel descriptor with
  | pass_result.ok opTab =>
    match getKVPair fuel opTab (some mnemonic) with
    | some (some value) => some value
    | _ => none
  | _ => none

/-! ## Hash table theory -/

theorem probe_mono {V : Type} (arr : List (Option (key_value V))) (key : Str) (h : Nat) :
    ∀ (f i x : Nat) (r : probe_result) (d : Nat),
      probe arr key h f i x = some r → probe arr key h (f + d) i x = some r := by
  intro f
  induction f with
  | zero => intro i x r d hp; simp [probe] at hp
  | succ n ih =>
    intro i x r d hp
    rw [show n + 1 + d = (n + d) + 1 by omega]
    unfold probe at hp ⊢
    cases hs : arr[i]? with
    | none => rw [hs] at hp; simp at hp
    | some slot =>
      cases slot with
      | none => rw [hs] at hp; simpa using hp
      | some kv =>
        rw [hs] at hp
        simp only at hp ⊢
        by_cases hk : key = kv.key
        · simpa [hk] using hp
        · simp only [hk, if_false] at hp ⊢
          exact ih _ _ _ _ hp

theorem probe_det {V : Type} (arr : List (Option (key_value V))) (key : Str) (h : Nat)
    (f g i x : Nat) (r s : probe_result)
    (hf : probe arr key h f i x = some r) (hg : probe arr key h g i x = some s) : r = s := by
  have h1 := probe_mono arr key h f i x r g hf
  have h2 := probe_mono arr key h g i x s f hg
  rw [Nat.add_comm] at h2
  rw [h1] at h2
  exact Option.some.inj h2

theorem probe_found_slot {V : Type} (arr : List (Option (key_value V))) (key : Str) (h : Nat) :
    ∀ (f i x j : Nat), probe arr key h f i x = some (probe_result.found j) →
      ∃ kv, arr[j]? = some (some kv) ∧ kv.key = key := by
  intro f
  induction f with
  | zero => intro i x j hp; simp [probe] at hp
  | succ n ih =>
    intro i x j hp
    unfold probe at hp
    cases hs : arr[i]? with
    | none => rw [hs] at hp; simp at hp
    | some slot =>
      cases slot with
      | none => rw [hs] at hp; simp at hp
      | some kv =>
        rw [hs] at hp
        simp only at hp
        by_cases hk : key = kv.key
        · simp only [hk, if_true, Option.some.injEq, probe_result.found.injEq] at hp
          subst hp
          exact ⟨kv, hs, hk.symm⟩
        · simp only [hk, if_false] at hp
          exact ih _ _ _ hp

theorem probe_empty_slot {V : Type} (arr : List (Option (key_value V))) (key : Str) (h : Nat) :
    ∀ (f i x j : Nat), probe arr key h f i x = some (probe_result.empty j) →
      arr[j]? = some none := by
  intro f
  induction f with
  | zero => intro i x j hp; simp [probe] at hp
  | succ n ih =>
    intro i x j hp
    unfold probe at hp
    cases hs : arr[i]? with
    | none => rw [hs] at hp; simp at hp
    | some slot =>
      cases slot with
      | none =>
        rw [hs] at hp
        simp only [Option.some.injEq, probe_result.empty.injEq] at hp
        subst hp; exact hs
      | some kv =>
        rw [hs] at hp
        simp only at hp
        by_cases hk : key = kv.key
        · simp [hk] at hp
        · simp only [hk, if_false] at hp
          exact ih _ _ _ hp

/-- Filling an empty slot does not disturb a probe that stopped at a key. -/
theorem probe_set_found {V : Type} (arr : List (Option (key_value V))) (key : Str) (h e : Nat)
    (new : key_value V) (he : arr[e]? = some none) :
    ∀ (f i x j : Nat), probe arr key h f i x = some (probe_result.found j) →
      probe (arr.set e (some new)) key h f i x = some (probe_result.found j) := by
  intro f
  induction f with
  | zero => intro i x j hp; simp [probe] at hp
  | succ n ih =>
    intro i x j hp
    unfold probe at hp ⊢
    cases hs : arr[i]? with
    | none => rw [hs] at hp; simp at hp
    | some slot =>
      cases slot with
      | none => rw [hs] at hp; simp at hp
      | some kv =>
        have hne : e ≠ i := by
          intro h'; subst h'; rw [he] at hs; simp at hs
        rw [hs] at hp
        rw [List.getElem?_set_ne hne, hs]
        simp only at hp ⊢
        by_cases hk : key = kv.key
        · simpa [hk] using hp
        · simp only [hk, if_false, List.length_set] at hp ⊢
          exact ih _ _ _ hp

/-- Filling the empty slot a probe stopped at makes the probe stop there at the key. -/
theorem probe_set_self {V : Type} (arr : List (Option (key_value V))) (key : Str) (h : Nat)
    (v : V) :
    ∀ (f i x e : Nat), probe arr key h f i x = some (probe_result.empty e) →
      probe (arr.set e (some { key := key, value := v })) key h f i x
        = some (probe_result.found e) := by
  intro f
  induction f with
  | zero => intro i x e hp; simp [probe] at hp
  | succ n ih =>
    intro i x e hp
    have hee := probe_empty_slot arr key h _ _ _ _ hp
    unfold probe at hp ⊢
    cases hs : arr[i]? with
    | none => rw [hs] at hp; simp at hp
    | some slot =>
      cases slot with
      | none =>
        rw [hs] at hp
        simp only [Option.some.injEq, probe_result.empty.injEq] at hp
        subst hp
        have hlt : i < arr.length := by
          rcases List.getElem?_eq_some_iff.mp hs with ⟨hl, _⟩
          exact hl
        rw [List.getElem?_set_self hlt]
        simp
      | some kv =>
        have hne : e ≠ i := by
          intro h'; subst h'; rw [hee] at hs; simp at hs
        rw [hs] at hp
        rw [List.getElem?_set_ne hne, hs]
        simp only at hp ⊢
        by_cases hk : key = kv.key
        · simp [hk] at hp
        · simp only [hk, if_false, List.length_set] at hp ⊢
          exact ih _ _ _ hp

theorem WF_replicate {V : Type} (n m : Nat) :
    WF ({ p_KVArray := List.replicate n none, numElements := m } : hash_table V) := by
  intro i kv h
  simp only [List.getElem?_replicate] at h
  split at h <;> simp at h

theorem not_Bound_replicate {V : Type} (n m : Nat) (k : Str) (v : V) :
    ¬ Bound ({ p_KVArray := List.replicate n none, numElements := m } : hash_table V) k v := by
  rintro ⟨i, h⟩
  simp only [List.getElem?_replicate] at h
  split at h <;> simp at h

/-- A stored key is found by the lookup loop at its own slot. -/
theorem WF_probe_of_Bound {V : Type} (ht : hash_table V) (hwf : WF ht) (k : Str) (v : V)
    (hb : Bound ht k v) :
    ∃ f i, probe ht.p_KVArray k (hashFunction k ht.currentSize) f
        (hashFunction k ht.currentSize) 1 = some (probe_result.found i)
      ∧ ht.p_KVArray[i]? = some (some (key_value.mk k v)) := by
  obtain ⟨i, hi⟩ := hb
  obtain ⟨f, hf⟩ := hwf i _ hi
  exact ⟨f, i, hf, hi⟩

/-- What the second half of an insertion does to a well-formed table. -/
theorem storeKVPair_ok {V : Type} (fuel : Nat) (ht ht' : hash_table V) (k : Str) (v : V)
    (hwf : WF ht) (h : storeKVPair fuel ht k v = some (ht_status.HT_OKAY, ht')) :
    WF ht' ∧ (∀ k' v', Bound ht' k' v' ↔ (k' = k ∧ v' = v) ∨ Bound ht k' v') ∧
      (∀ v0, ¬ Bound ht k v0) ∧ ht'.currentSize = ht.currentSize := by
  unfold storeKVPair at h
  split at h
  · simp at h
  · split at h
    · simp at h
    · simp at h
    · rename_i e hp
      simp only [Option.some.injEq, Prod.mk.injEq, true_and] at h
      subst h
      have hee := probe_empty_slot _ _ _ _ _ _ _ hp
      have helt : e < ht.p_KVArray.length := (List.getElem?_eq_some_iff.mp hee).1
      have hsize : hash_table.currentSize (hash_table.mk
          (ht.p_KVArray.set e (some (key_value.mk k v))) ((ht.numElements + 1) % UINT32_MOD))
          = ht.currentSize := by
        simp [hash_table.currentSize]
      refine ⟨?_, ?_, ?_, hsize⟩
      · intro i kv hi
        rw [hsize]
        simp only at hi ⊢
        by_cases hie : e = i
        · subst hie
          rw [List.getElem?_set_self helt] at hi
          simp only [Option.some.injEq] at hi
          subst hi
          exact ⟨fuel, probe_set_self _ _ _ _ _ _ _ _ hp⟩
        · rw [List.getElem?_set_ne hie] at hi
          obtain ⟨f, hf⟩ := hwf i kv hi
          exact ⟨f, probe_set_found _ _ _ _ _ hee _ _ _ _ hf⟩
      · intro k' v'
        constructor
        · rintro ⟨i, hi⟩
          simp only at hi
          by_cases hie : e = i
          · subst hie
            rw [List.getElem?_set_self helt] at hi
            simp only [Option.some.injEq, key_value.mk.injEq] at hi
            exact Or.inl ⟨hi.1.symm, hi.2.symm⟩
          · rw [List.getElem?_set_ne hie] at hi
            exact Or.inr ⟨i, hi⟩
        · rintro (⟨rfl, rfl⟩ | ⟨i, hi⟩)
          · exact ⟨e, by simp [List.getElem?_set_self helt]⟩
          · have hie : e ≠ i := by
              intro h'; subst h'; rw [hee] at hi; simp at hi
            exact ⟨i, by simp only; rw [List.getElem?_set_ne hie]; exact hi⟩
      · intro v0 hb
        obtain ⟨f, i, hf, _⟩ := WF_probe_of_Bound ht hwf k v0 hb
        have := probe_det _ _ _ _ _ _ _ _ _ hf hp
        simp at this

/-- The reinsertion loop of `growHashTable`, given that the insertion it calls
behaves. -/
theorem grow_go_ok {V : Type}
    (ins : hash_table V → Str → V → Option (ht_status × hash_table V))
    (hins : ∀ cur k v cur', WF cur → ins cur k v = some (ht_status.HT_OKAY, cur') →
      WF cur' ∧ (∀ k' v', Bound cur' k' v' ↔ (k' = k ∧ v' = v) ∨ Bound cur k' v')) :
    ∀ (slots : List (Option (key_value V))) (cur res : hash_table V), WF cur →
      growHashTableWith.go ins slots cur = some (some res) →
      WF res ∧ (∀ k' v', Bound res k' v' ↔
        Bound cur k' v' ∨ some (key_value.mk k' v') ∈ slots) := by
  intro slots
  induction slots with
  | nil =>
    intro cur res hwf h
    simp only [growHashTableWith.go, Option.some.injEq] at h
    subst h
    exact ⟨hwf, by simp⟩
  | cons slot rest ih =>
    intro cur res hwf h
    cases slot with
    | none =>
      simp only [growHashTableWith.go] at h
      obtain ⟨h1, h2⟩ := ih cur res hwf h
      exact ⟨h1, by simpa using h2⟩
    | some kv =>
      simp only [growHashTableWith.go] at h
      split at h
      · simp at h
      · rename_i cur1 hi
        obtain ⟨hwf1, hb1⟩ := hins cur kv.key kv.value cur1 hwf hi
        obtain ⟨h1, h2⟩ := ih cur1 res hwf1 h
        refine ⟨h1, ?_⟩
        intro k' v'
        rw [h2, hb1]
        simp only [List.mem_cons, Option.some.injEq]
        constructor
        · rintro ((⟨rfl, rfl⟩ | hb) | hm)
          · exact Or.inr (Or.inl rfl)
          · exact Or.inl hb
          · exact Or.inr (Or.inr hm)
        · rintro (hb | he | hm)
          · exact Or.inl (Or.inr hb)
          · subst he; exact Or.inl (Or.inl ⟨rfl, rfl⟩)
          · exact Or.inr hm
      · simp at h

theorem Bound_iff_mem {V : Type} (ht : hash_table V) (k : Str) (v : V) :
    Bound ht k v ↔ some (key_value.mk k v) ∈ ht.p_KVArray := by
  unfold Bound
  rw [List.mem_iff_getElem?]

/-- A successful insertion into a well-formed table: the result is
well-formed, it holds the new pair and exactly the old ones, and the key was
not there before. -/
theorem insertKVPair_ok {V : Type} :
    ∀ (fuel : Nat) (ht ht' : hash_table V) (k : Str) (v : V), WF ht →
      insertKVPair fuel ht k v = some (ht_status.HT_OKAY, ht') →
      WF ht' ∧ (∀ k' v', Bound ht' k' v' ↔ (k' = k ∧ v' = v) ∨ Bound ht k' v') ∧
        (∀ v0, ¬ Bound ht k v0) := by
  intro fuel
  induction fuel with
  | zero => intro ht ht' k v _ h; simp [insertKVPair] at h
  | succ n ih =>
    intro ht ht' k v hwf h
    simp only [insertKVPair] at h
    have hgrow : ∀ ht1, growIfLoaded (fun h k v => insertKVPair n h k v) ht = some (some ht1) →
        WF ht1 ∧ (∀ k' v', Bound ht1 k' v' ↔ Bound ht k' v') := by
      intro ht1 hg
      unfold growIfLoaded at hg
      split at hg
      · simp at hg
      · split at hg
        · unfold growHashTableWith at hg
          have := grow_go_ok (fun h k v => insertKVPair n h k v)
            (fun cur k v cur' hw hi => ⟨(ih cur cur' k v hw hi).1, (ih cur cur' k v hw hi).2.1⟩)
            ht.p_KVArray _ ht1 (WF_replicate _ 0) hg
          refine ⟨this.1, ?_⟩
          intro k' v'
          rw [this.2]
          constructor
          · rintro (hb | hm)
            · exact absurd hb (not_Bound_replicate _ _ _ _)
            · exact (Bound_iff_mem ht k' v').mpr hm
          · intro hb
            exact Or.inr ((Bound_iff_mem ht k' v').mp hb)
        · simp only [Option.some.injEq] at hg
          subst hg
          exact ⟨hwf, fun _ _ => Iff.rfl⟩
    split at h
    · simp at h
    · simp at h
    · rename_i ht1 hg
      obtain ⟨hwf1, hb1⟩ := hgrow ht1 hg
      obtain ⟨h1, h2, h3, _⟩ := storeKVPair_ok _ _ _ _ _ hwf1 h
      refine ⟨h1, ?_, ?_⟩
      · intro k' v'; rw [h2, hb1]
      · intro v0 hb; exact h3 v0 ((hb1 _ _).mpr hb)

theorem WF_createHashTable {V : Type} (n : Nat) : WF (createHashTable n : hash_table V) :=
  WF_replicate _ 0

theorem not_Bound_createHashTable {V : Type} (n : Nat) (k : Str) (v : V) :
    ¬ Bound (createHashTable n : hash_table V) k v :=
  not_Bound_replicate _ 0 k v

/-- A lookup that returns a value returns a stored one. -/
theorem Bound_of_getKVPair {V : Type} (f : Nat) (ht : hash_table V) (k : Str) (v : V)
    (h : getKVPair f ht (some k) = some (some v)) : Bound ht k v := by
  unfold getKVPair at h
  simp only at h
  split at h
  · simp at h
  · split at h
    · simp at h
    · simp at h
    · rename_i j hp
      obtain ⟨kv, hkv, hkey⟩ := probe_found_slot _ _ _ _ _ _ _ hp
      rw [hkv] at h
      simp only [Option.some.injEq] at h
      refine ⟨j, ?_⟩
      rw [hkv]
      cases kv
      simp_all

/-- In a well-formed table a stored pair is what the lookup returns. -/
theorem getKVPair_of_Bound {V : Type} (ht : hash_table V) (hwf : WF ht) (k : Str) (v : V)
    (hb : Bound ht k v) : ∃ f, getKVPair f ht (some k) = some (some v) := by
  obtain ⟨f, i, hf, hi⟩ := WF_probe_of_Bound ht hwf k v hb
  refine ⟨f, ?_⟩
  have hlen : ht.currentSize ≠ 0 := by
    have := (List.getElem?_eq_some_iff.mp hi).1
    unfold hash_table.currentSize
    omega
  unfold getKVPair
  simp only [hlen, if_false, hf, hi]

/-- In a well-formed table a lookup that returns NULL means the key is absent. -/
theorem not_Bound_of_getKVPair_none {V : Type} (f : Nat) (ht : hash_table V) (hwf : WF ht)
    (k : Str) (h : getKVPair f ht (some k) = some none) (v : V) : ¬ Bound ht k v := by
  intro hb
  obtain ⟨g, i, hg, hi⟩ := WF_probe_of_Bound ht hwf k v hb
  unfold getKVPair at h
  simp only at h
  split at h
  · simp at h
  · split at h
    · simp at h
    · rename_i j hp
      have := probe_det _ _ _ _ _ _ _ _ _ hg hp
      simp at this
    · rename_i j hp
      have := probe_det _ _ _ _ _ _ _ _ _ hg hp
      simp only [probe_result.found.injEq] at this
      subst this
      rw [hi] at h
      simp at h

/-- The value a lookup returns does not depend on the fuel. -/
theorem getKVPair_det {V : Type} (f g : Nat) (ht : hash_table V) (hwf : WF ht) (k : Str)
    (v w : V) (hf : getKVPair f ht (some k) = some (some v))
    (hg : getKVPair g ht (some k) = some (some w)) : v = w := by
  obtain ⟨i, hi⟩ := Bound_of_getKVPair _ _ _ _ hf
  obtain ⟨j, hj⟩ := Bound_of_getKVPair _ _ _ _ hg
  obtain ⟨a, ha⟩ := hwf i _ hi
  obtain ⟨b, hb⟩ := hwf j _ hj
  have := probe_det _ _ _ _ _ _ _ _ _ ha hb
  simp only [probe_result.found.injEq] at this
  subst this
  rw [hi] at hj
  simpa using hj

theorem buildDirectiveTable_eq : buildDirectiveTable 16 = some (some directiveTable) := by
  decide

theorem buildDirectiveTableLoop_ok (f : Nat) :
    ∀ (entries : List (Str × directive_callback)) (dt res : hash_table directive_callback),
      WF dt → buildDirectiveTableLoop f entries dt = some (some res) →
      WF res ∧ ∀ k v, Bound res k v ↔ Bound dt k v ∨ (k, v) ∈ entries := by
  intro entries
  induction entries with
  | nil =>
    intro dt res hwf h
    simp only [buildDirectiveTableLoop, Option.some.injEq] at h
    subst h
    exact ⟨hwf, by simp⟩
  | cons e rest ih =>
    intro dt res hwf h
    obtain ⟨k0, v0⟩ := e
    simp only [buildDirectiveTableLoop] at h
    split at h
    · simp at h
    · rename_i dt1 hi
      obtain ⟨hwf1, hb1, _⟩ := insertKVPair_ok _ _ _ _ _ hwf hi
      obtain ⟨h1, h2⟩ := ih dt1 res hwf1 h
      refine ⟨h1, ?_⟩
      intro k v
      rw [h2, hb1]
      simp only [List.mem_cons, Prod.mk.injEq]
      tauto
    · simp at h

theorem WF_directiveTable : WF directiveTable :=
  (buildDirectiveTableLoop_ok 16 _ _ _ (WF_createHashTable _) buildDirectiveTable_eq).1

theorem Bound_directiveTable (k : Str) (v : directive_callback) :
    Bound directiveTable k v ↔ (k, v) ∈ directiveEntries := by
  have := (buildDirectiveTableLoop_ok 16 _ _ _ (WF_createHashTable _) buildDirectiveTable_eq).2 k v
  rw [this]
  constructor
  · rintro (hb | hm)
    · exact absurd hb (not_Bound_createHashTable _ _ _)
    · exact hm
  · exact Or.inr


/-! ## Probing that never stops -/

theorem probe_index_mod (h x m : Nat) (hm : m ∣ UINT32_MOD) :
    ((h + x * x) % UINT32_MOD) % m = (h + (x % m) * (x % m)) % m := by
  rw [Nat.mod_mod_of_dvd _ hm, Nat.add_mod, Nat.mul_mod, Nat.add_mod h ((x % m) * (x % m)) m]

/-- When every slot of the probe sequence `(h + i * i) % m` holds a key other
than the one looked for, the probing loop never stops: it has no result for
any number of iterations. -/
theorem probe_never_stops {V : Type} (arr : List (Option (key_value V))) (key : Str) (h : Nat)
    (hm : arr.length ∣ UINT32_MOD)
    (hall : ∀ r, r < arr.length → blocked arr key ((h + r * r) % arr.length) = true) :
    ∀ (fuel index x : Nat), blocked arr key index = true →
      probe arr key h fuel index x = none := by
  have hpos : 0 < arr.length := by
    rcases Nat.eq_zero_or_pos arr.length with h0 | h0
    · rw [h0] at hm
      have : UINT32_MOD = 0 := Nat.eq_zero_of_zero_dvd hm
      exact absurd this (by decide)
    · exact h0
  intro fuel
  induction fuel with
  | zero => intro index x _; rfl
  | succ n ih =>
    intro index x hb
    unfold probe
    unfold blocked at hb
    split at hb
    · rename_i kv hkv
      rw [hkv]
      simp only [decide_eq_true_eq] at hb
      simp only [hb, if_false]
      apply ih
      rw [probe_index_mod h x arr.length hm]
      exact hall (x % arr.length) (Nat.mod_lt _ hpos)
    · simp at hb

theorem insertKVPair_zero {V : Type} (ht : hash_table V) (k : Str) (v : V) :
    insertKVPair 0 ht k v = none := rfl

/-- The rehash loop over two runs of slots: the second run starts from the
table the first one built. -/
theorem grow_go_append {V : Type}
    (ins : hash_table V → Str → V → Option (ht_status × hash_table V)) :
    ∀ (pre post : List (Option (key_value V))) (cur : hash_table V),
      growHashTableWith.go ins (pre ++ post) cur =
        match growHashTableWith.go ins pre cur with
        | some (some cur1) => growHashTableWith.go ins post cur1
        | r => r := by
  intro pre
  induction pre with
  | nil => intro post cur; simp [growHashTableWith.go]
  | cons s pre ih =>
    intro post cur
    cases s with
    | none =>
      simp only [List.cons_append, growHashTableWith.go]
      exact ih post cur
    | some kv =>
      simp only [List.cons_append, growHashTableWith.go]
      cases hi : ins cur kv.key kv.value with
      | none => rfl
      | some r =>
        obtain ⟨st, cur1⟩ := r
        cases st <;> first | exact ih post cur1 | rfl

/-- The rehash loop gives the same result with an insertion that has more
results. -/
theorem grow_go_mono {V : Type}
    (ins ins' : hash_table V → Str → V → Option (ht_status × hash_table V))
    (hins : ∀ cur k v r, ins cur k v = some r → ins' cur k v = some r) :
    ∀ (slots : List (Option (key_value V))) (cur : hash_table V) (r : Option (hash_table V)),
      growHashTableWith.go ins slots cur = some r →
      growHashTableWith.go ins' slots cur = some r := by
  intro slots
  induction slots with
  | nil => intro cur r h; simpa [growHashTableWith.go] using h
  | cons s slots ih =>
    intro cur r h
    cases s with
    | none =>
      simp only [growHashTableWith.go] at h ⊢
      exact ih cur r h
    | some kv =>
      simp only [growHashTableWith.go] at h ⊢
      cases hi : ins cur kv.key kv.value with
      | none => rw [hi] at h; simp at h
      | some q =>
        rw [hi] at h
        rw [hins cur kv.key kv.value q hi]
        obtain ⟨st, cur1⟩ := q
        cases st <;> first | exact ih cur1 r h | exact h

theorem storeKVPair_mono {V : Type} (n d : Nat) (ht : hash_table V) (k : Str) (v : V)
    (r : ht_status × hash_table V) (h : storeKVPair n ht k v = some r) :
    storeKVPair (n + d) ht k v = some r := by
  unfold storeKVPair at h ⊢
  split at h
  · simp at h
  · rename_i hs
    rw [if_neg hs]
    cases hp : probe ht.p_KVArray k (hashFunction k ht.currentSize) n
        (hashFunction k ht.currentSize) 1 with
    | none => rw [hp] at h; simp at h
    | some pr =>
      rw [hp] at h
      rw [probe_mono _ _ _ _ _ _ pr d hp]
      exact h

/-- More fuel does not change a result of `insertKVPair`. -/
theorem insertKVPair_mono {V : Type} :
    ∀ (n d : Nat) (ht : hash_table V) (k : Str) (v : V) (r : ht_status × hash_table V),
      insertKVPair n ht k v = some r → insertKVPair (n + d) ht k v = some r := by
  intro n
  induction n with
  | zero => intro d ht k v r h; simp [insertKVPair] at h
  | succ n ih =>
    intro d ht k v r h
    rw [show n + 1 + d = (n + d) + 1 by omega]
    simp only [insertKVPair] at h ⊢
    have hg : ∀ g, growIfLoaded (fun h k v => insertKVPair n h k v) ht = some g →
        growIfLoaded (fun h k v => insertKVPair (n + d) h k v) ht = some g := by
      intro g hg
      unfold growIfLoaded at hg ⊢
      split at hg
      · simp at hg
      · rename_i hs
        rw [if_neg hs]
        split at hg
        · rename_i hl
          rw [if_pos hl]
          unfold growHashTableWith at hg ⊢
          exact grow_go_mono _ _ (fun cur k v r hr => ih d cur k v r hr) _ _ _ hg
        · rename_i hl
          rw [if_neg hl]
          exact hg
    cases hgr : growIfLoaded (fun h k v => insertKVPair n h k v) ht with
    | none => rw [hgr] at h; simp at h
    | some g =>
      rw [hgr] at h
      rw [hg g hgr]
      cases g with
      | none => exact h
      | some ht1 =>
        simp only at h ⊢
        have := storeKVPair_mono (n + 1) d ht1 k v r h
        rw [show n + 1 + d = (n + d) + 1 by omega] at this
        exact this

theorem storeKVPair_of_probe_none {V : Type} (fuel : Nat) (ht : hash_table V) (k : Str) (v : V)
    (hp : probe ht.p_KVArray k (hashFunction k ht.currentSize) fuel
      (hashFunction k ht.currentSize) 1 = none) :
    storeKVPair fuel ht k v = none := by
  unfold storeKVPair
  rw [hp]
  split <;> rfl

theorem getKVPair_of_probe_none {V : Type} (fuel : Nat) (ht : hash_table V) (k : Str)
    (hp : probe ht.p_KVArray k (hashFunction k ht.currentSize) fuel
      (hashFunction k ht.currentSize) 1 = none) :
    getKVPair fuel ht (some k) = none := by
  unfold getKVPair
  simp only [hp]
  split <;> rfl

/-- Below the load threshold `insertKVPair` goes straight to the probing
loop. -/
theorem insertKVPair_not_loaded {V : Type} (n : Nat) (ht : hash_table V) (k : Str) (v : V)
    (h0 : ht.currentSize ≠ 0) (hl : ¬ ht.currentSize ≤ 2 * ht.numElements) :
    insertKVPair (n + 1) ht k v = storeKVPair (n + 1) ht k v := by
  simp only [insertKVPair, growIfLoaded, if_neg h0, if_neg hl]

/-- At the load threshold `insertKVPair` does not return when the growing of the
table does not. -/
theorem insertKVPair_loaded_none {V : Type} (n : Nat) (ht : hash_table V) (k : Str) (v : V)
    (h0 : ht.currentSize ≠ 0) (hl : ht.currentSize ≤ 2 * ht.numElements)
    (hg : growHashTableWith (fun h k v => insertKVPair n h k v) ht = none) :
    insertKVPair (n + 1) ht k v = none := by
  simp only [insertKVPair, growIfLoaded, if_neg h0, if_pos hl, hg]

/-! ## Two tables on which the hash table functions do not return -/

set_option maxRecDepth 100000 in
theorem collidingTable_facts :
    insertAll 8 collidingKeys (createHashTable 0) = some collidingTable ∧
    collidingTable.p_KVArray.length = 32 ∧ collidingTable.numElements = 7 ∧
    hashFunction "EZ".toList 32 = 1 ∧
    (∀ r, r < 32 → blocked collidingTable.p_KVArray "EZ".toList ((1 + r * r) % 32) = true) := by
  decide

/-- In `collidingTable` the probing loop for the key EZ never stops. -/
theorem collidingTable_probe (fuel : Nat) :
    probe collidingTable.p_KVArray "EZ".toList (hashFunction "EZ".toList collidingTable.currentSize)
      fuel (hashFunction "EZ".toList collidingTable.currentSize) 1 = none := by
  obtain ⟨_, hlen, _, hh, hall⟩ := collidingTable_facts
  have hsize : collidingTable.currentSize = 32 := hlen
  rw [hsize, hh]
  apply probe_never_stops
  · rw [hlen]; decide
  · rw [hlen]; exact hall
  · have := hall 0 (by decide)
    simpa using this

set_option maxRecDepth 100000 in
theorem crowdedTable_facts :
    insertAll 8 crowdedKeys (createHashTable 0) = some crowdedTable ∧
    crowdedTable.p_KVArray.length = 32 ∧ crowdedTable.numElements = 16 ∧
    crowdedTable.p_KVArray.drop 31 = [some { key := "AD".toList, value := 1 }] ∧
    growHashTableWith.go (fun h k v => insertKVPair 1 h k v) (crowdedTable.p_KVArray.take 31)
      { p_KVArray := List.replicate 64 none, numElements := 0 } = some (some crowdedRehash) := by
  decide

set_option maxRecDepth 100000 in
theorem crowdedRehash_facts :
    crowdedRehash.p_KVArray.length = 64 ∧ crowdedRehash.numElements = 15 ∧
    hashFunction "AD".toList 64 = 31 ∧
    (∀ r, r < 64 → blocked crowdedRehash.p_KVArray "AD".toList ((31 + r * r) % 64) = true) := by
  decide

/-- The insertion of AD into the half-built table of the rehash never
returns. -/
theorem crowdedRehash_insert (fuel : Nat) (v : Nat) :
    insertKVPair fuel crowdedRehash "AD".toList v = none := by
  obtain ⟨hlen, hnum, hh, hall⟩ := crowdedRehash_facts
  have hsize : crowdedRehash.currentSize = 64 := hlen
  cases fuel with
  | zero => rfl
  | succ n =>
    simp only [insertKVPair, growIfLoaded, hsize, hnum]
    rw [if_neg (by decide), if_neg (by decide)]
    simp only [storeKVPair, hsize, hh]
    rw [if_neg (by decide)]
    have : probe crowdedRehash.p_KVArray "AD".toList 31 (n + 1) 31 1 = none := by
      apply probe_never_stops
      · rw [hlen]; decide
      · rw [hlen]; exact hall
      · have := hall 0 (by decide)
        simpa using this
    rw [this]

/-- The rehash of `crowdedTable` never returns. -/
theorem crowdedTable_grow (fuel : Nat) :
    growHashTableWith (fun h k v => insertKVPair fuel h k v) crowdedTable = none := by
  obtain ⟨_, hlen, _, hdrop, hgo⟩ := crowdedTable_facts
  have hsize : crowdedTable.currentSize = 32 := hlen
  unfold growHashTableWith
  simp only [hsize, HT_RESIZE_CONSTANT]
  have hcap : 32 * 2 % UINT32_MOD = 64 := by decide
  rw [hcap]
  rw [← List.take_append_drop 31 crowdedTable.p_KVArray, grow_go_append, hdrop]
  cases hpre : growHashTableWith.go (fun h k v => insertKVPair fuel h k v)
      (crowdedTable.p_KVArray.take 31) { p_KVArray := List.replicate 64 none, numElements := 0 } with
  | none => rfl
  | some r =>
    have h1 := grow_go_mono _ (fun h k v => insertKVPair (fuel + 1) h k v)
      (fun cur k v q hq => insertKVPair_mono fuel 1 cur k v q hq) _ _ _ hpre
    have h2 := grow_go_mono _ (fun h k v => insertKVPair (1 + fuel) h k v)
      (fun cur k v q hq => insertKVPair_mono 1 fuel cur k v q hq) _ _ _ hgo
    rw [Nat.add_comm 1 fuel, h1] at h2
    simp only [Option.some.injEq] at h2
    subst h2
    simp only [growHashTableWith.go, crowdedRehash_insert]

/-! ## C library facts -/

theorem strtok_token_length (s d : Str) (t : Str) (h : (strtok s d).1 = some t) :
    t.length ≤ s.length := by
  unfold strtok at h
  simp only at h
  split at h
  · simp at h
  · rename_i c cs hs
    simp only [Option.some.injEq] at h
    subst h
    exact le_trans (List.takeWhile_prefix _).length_le (List.dropWhile_suffix _).length_le

theorem strtok_save_length (s d : Str) : (strtok s d).2.length ≤ s.length := by
  unfold strtok
  simp only
  split
  · simp
  · rename_i c cs hs
    simp only [List.length_drop]
    exact le_trans (Nat.sub_le _ _)
      (le_trans (List.dropWhile_suffix _).length_le (List.dropWhile_suffix _).length_le)

theorem strchr_length (s : Str) (c : Char) (a b : Str) (h : strchr s c = some (a, b)) :
    a.length ≤ s.length := by
  unfold strchr at h
  split at h
  · simp only [Option.some.injEq, Prod.mk.injEq] at h
    rw [← h.1]
    exact (List.takeWhile_prefix _).length_le
  · simp at h

theorem fgetsAux_length : ∀ (k : Nat) (s : Str), (fgetsAux k s).1.length ≤ k := by
  intro k
  induction k with
  | zero => intro s; simp [fgetsAux]
  | succ n ih =>
    intro s
    cases s with
    | nil => simp [fgetsAux]
    | cons c cs =>
      simp only [fgetsAux]
      split
      · simp
      · simp only [List.length_cons]
        have := ih cs
        omega

theorem fgets_length (n : Nat) (s line rest : Str) (h : fgets n s = some (line, rest)) :
    line.length ≤ n - 1 := by
  unfold fgets at h
  split at h
  · simp at h
  · simp only [Option.some.injEq, Prod.mk.injEq] at h
    rw [← h.1]
    exact le_trans (List.takeWhile_prefix _).length_le (fgetsAux_length _ _)

theorem readLinesAux_length : ∀ (k : Nat) (s : Str) (l : Str),
    l ∈ readLinesAux k s → l.length ≤ SIC_LEN_BUFFER - 1 := by
  intro k
  induction k with
  | zero => intro s l h; simp [readLinesAux] at h
  | succ n ih =>
    intro s l h
    simp only [readLinesAux] at h
    split at h
    · simp at h
    · rename_i line rest hf
      simp only [List.mem_cons] at h
      rcases h with h | h
      · subst h; exact fgets_length _ _ _ _ hf
      · exact ih _ _ h

/-- Every line the read loop delivers fits the line buffer. -/
theorem readLines_length (s l : Str) (h : l ∈ readLines s) : l.length ≤ 1023 :=
  readLinesAux_length _ _ _ h

theorem toInt32_of_small (v : Int) (h0 : 0 ≤ v) (h1 : v < 2147483648) : toInt32 v = v := by
  unfold toInt32
  have : v % 4294967296 = v := Int.emod_eq_of_lt h0 (by omega)
  simp only [this]
  split <;> omega

theorem toUInt32_of_small (n : Nat) (h : n < 4294967296) : toUInt32 (n : Int) = n := by
  unfold toUInt32
  have : (n : Int) % 4294967296 = n := Int.emod_eq_of_lt (by omega) (by omega)
  rw [this]
  simp

/-- An `int32_t` that is not negative converts to the same `uint32_t` as the
`long` it was truncated from. -/
theorem toUInt32_eq_of_toInt32_nonneg (v : Int) (h : 0 ≤ toInt32 v) :
    (toUInt32 v : Int) = toInt32 v := by
  unfold toInt32 at h ⊢
  unfold toUInt32
  have h1 : 0 ≤ v % 4294967296 := Int.emod_nonneg _ (by omega)
  have h2 : v % 4294967296 < 4294967296 := Int.emod_lt_of_pos _ (by omega)
  simp only at h ⊢
  split at h
  · rename_i hlt
    simp only [hlt, if_true]
    exact Int.toNat_of_nonneg h1
  · omega


/-! ## Hexadecimal output -/

theorem toHexAux_append : ∀ (fuel n : Nat) (acc : Str),
    toHexAux fuel n acc = toHexAux fuel n [] ++ acc := by
  intro fuel
  induction fuel with
  | zero => intro n acc; simp [toHexAux]
  | succ f ih =>
    intro n acc
    simp only [toHexAux]
    split
    · simp
    · rw [ih (n / 16) (hexDigitChar (n % 16) :: acc), ih (n / 16) [hexDigitChar (n % 16)]]
      simp

theorem toHexAux_fuel : ∀ (f1 f2 n : Nat) (acc : Str), n < f1 → n < f2 →
    toHexAux f1 n acc = toHexAux f2 n acc := by
  intro f1
  induction f1 with
  | zero => intro f2 n acc h; omega
  | succ f ih =>
    intro f2 n acc h1 h2
    cases f2 with
    | zero => omega
    | succ g =>
      simp only [toHexAux]
      split
      · rfl
      · rename_i hn
        have : n / 16 < n := Nat.div_lt_self (by omega) (by omega)
        exact ih g (n / 16) _ (by omega) (by omega)

/-- The numeral of a number of more than one digit: the numeral of the
leading digits, then the last digit. -/
theorem toHex_step (n : Nat) (h : 16 ≤ n) :
    toHex n = toHex (n / 16) ++ [hexDigitChar (n % 16)] := by
  unfold toHex
  have hlt : n / 16 < n := Nat.div_lt_self (by omega) (by omega)
  have e : toHexAux (n + 1) n [] = toHexAux n (n / 16) [hexDigitChar (n % 16)] := by
    simp only [toHexAux]
    rw [if_neg (by omega)]
  rw [e, toHexAux_append, toHexAux_fuel n (n / 16 + 1) (n / 16) [] hlt (by omega)]

theorem toHex_small (n : Nat) (h : n < 16) : toHex n = [hexDigitChar n] := by
  unfold toHex
  simp only [toHexAux]
  rw [if_pos h]

theorem hexValue_append_single (s : Str) (c : Char) :
    hexValue (s ++ [c]) = hexValue s * 16 + (digitVal c).getD 0 := by
  unfold hexValue
  rw [List.foldl_append]
  rfl

theorem digitVal_hexDigitChar (d : Nat) (h : d < 16) : (digitVal (hexDigitChar d)).getD 0 = d := by
  interval_cases d <;> decide

/-- Parsing the hexadecimal numeral of a number gives the number back. -/
theorem hexValue_toHex : ∀ n : Nat, hexValue (toHex n) = n := by
  intro n
  induction n using Nat.strong_induction_on with
  | _ n ih =>
    by_cases h : n < 16
    · rw [toHex_small n h]
      unfold hexValue
      simp only [List.foldl, zero_mul, zero_add]
      exact digitVal_hexDigitChar n h
    · have h16 : 16 ≤ n := by omega
      rw [toHex_step n h16, hexValue_append_single, ih (n / 16) (Nat.div_lt_self (by omega) (by omega)),
        digitVal_hexDigitChar _ (Nat.mod_lt _ (by omega))]
      omega

theorem hexValue_zeros (k : Nat) (s : Str) : hexValue (List.replicate k '0' ++ s) = hexValue s := by
  unfold hexValue
  rw [List.foldl_append]
  congr 1
  induction k with
  | zero => rfl
  | succ k ih =>
    rw [List.replicate_succ, List.foldl_cons]
    have : (0 * 16 + (digitVal '0').getD 0) = 0 := by decide
    rw [this]
    exact ih

/-- Parsing a field printed with "%0*X" gives the printed number back. -/
theorem hexValue_printfHex (w n : Nat) : hexValue (printfHex w n) = n := by
  unfold printfHex
  rw [hexValue_zeros, hexValue_toHex]

theorem toHex_length : ∀ (w n : Nat), 0 < w → n < 16 ^ w → (toHex n).length ≤ w := by
  intro w
  induction w with
  | zero => intro n h; omega
  | succ w ih =>
    intro n _ hn
    by_cases h : n < 16
    · rw [toHex_small n h]; simp
    · have h16 : 16 ≤ n := by omega
      rw [toHex_step n h16]
      simp only [List.length_append, List.length_singleton, add_le_add_iff_right]
      have hw : 0 < w := by
        rcases Nat.eq_zero_or_pos w with h0 | h0
        · subst h0; simp at hn; omega
        · exact h0
      apply ih _ hw
      rw [pow_succ] at hn
      exact Nat.div_lt_of_lt_mul (by rw [Nat.mul_comm]; exact hn)

/-- A field printed with "%0*X" has exactly the field width when the number
fits. -/
theorem printfHex_length (w n : Nat) (hw : 0 < w) (hn : n < 16 ^ w) :
    (printfHex w n).length = w := by
  unfold printfHex
  have := toHex_length w n hw hn
  simp only [List.length_append, List.length_replicate]
  omega


/-! ## Directive callbacks: what a successful call did -/

theorem getConstant_ok (t : Str) (base : Nat) (c : Int)
    (h : getConstant t base = (DCS_OKAY, c)) :
    c = toInt32 (strtol t base).value ∧ -SIC_INTEGER_MAX ≤ c ∧ c ≤ SIC_INTEGER_MAX := by
  unfold getConstant at h
  simp only at h
  split at h
  · simp at h
  · split at h
    · simp at h
    · split at h
      · simp at h
      · split at h
        · simp at h
        · simp only [Prod.mk.injEq, true_and] at h
          subst h
          refine ⟨rfl, ?_, ?_⟩ <;> omega

theorem getOperand_ok (ops : Option Str) (base : Nat) (save save1 : Str) (c : Int)
    (h : getOperand ops base save = (DCS_OKAY, c, save1)) :
    ∃ t, ops = some t ∧ getConstant t base = (DCS_OKAY, c) := by
  unfold getOperand at h
  split at h
  · simp at h
  · rename_i t
    refine ⟨t, rfl, ?_⟩
    split at h
    · rename_i hne
      simp only [Prod.mk.injEq] at h
      exact absurd h.1 hne
    · rename_i heq
      simp only [ne_eq, Decidable.not_not] at heq
      split at h
      · split at h
        · simp at h
        · simp only [Prod.mk.injEq, true_and] at h
          exact Prod.ext heq h.1
      · simp only [Prod.mk.injEq, true_and] at h
        exact Prod.ext heq h.1

theorem directive_callback_start_ok (st : symbol_table) (ops : Option Str) (save : Str)
    (h : (directive_callback_start st ops save).status = DCS_OKAY) :
    st.startAddress = SIC_NOT_SET_SENTINEL ∧
    ∃ s : Nat, s ≤ SIC_MEMORY_LIMIT ∧
      (directive_callback_start st ops save).symbolTable =
        { st with startAddress := s, locCounter := s } := by
  unfold directive_callback_start at h ⊢
  rcases hg : getOperand ops 16 save with ⟨status, c, save1⟩
  simp only [hg] at h ⊢
  split at h
  · simp at h
  · rename_i hs
    simp only [ne_eq, Decidable.not_not] at hs
    refine ⟨hs, ?_⟩
    simp only [hs, ne_eq, not_true_eq_false, if_false] at h ⊢
    split at h
    · rename_i hne; exact absurd h hne
    · rename_i hst
      split at h
      · simp at h
      · rename_i hrange
        simp only [not_or, not_lt, gt_iff_lt] at hrange
        simp only [hst, if_false]
        have h0 : 0 ≤ c := hrange.2
        have h1 : c ≤ (SIC_MEMORY_LIMIT : Int) := hrange.1
        have hlim : (SIC_MEMORY_LIMIT : Int) = 32767 := by simp [SIC_MEMORY_LIMIT]
        have hu : toUInt32 c = c.toNat := by
          unfold toUInt32
          rw [Int.emod_eq_of_lt h0 (by omega)]
        refine ⟨c.toNat, ?_, ?_⟩
        · have : (c.toNat : Int) = c := Int.toNat_of_nonneg h0
          have : ((c.toNat : Nat) : Int) ≤ (SIC_MEMORY_LIMIT : Int) := by omega
          exact_mod_cast this
        · have hn : ¬ (c > (SIC_MEMORY_LIMIT : Int) ∨ c < 0) := by omega
          simp only [hn, if_false, hu]

theorem directive_callback_end_ok (f : Nat) (st : symbol_table) (ops : Option Str) (save : Str)
    (r : callback_result) (hr : directive_callback_end f st ops save = some r)
    (h : r.status = DCS_OKAY) :
    st.startAddress ≠ SIC_NOT_SET_SENTINEL ∧ st.endAddress = SIC_NOT_SET_SENTINEL ∧
    ((ops = none ∧ r.symbolTable = { st with endAddress := SIC_SEEN_SENTINEL }) ∨
     (∃ S a, ops = some S ∧ getKVPair f st.ht (some S) = some (some a) ∧
        r.symbolTable = { st with endAddress := toUInt32 (toInt32 (a : Int)) })) := by
  unfold directive_callback_end at hr
  split at hr
  · simp only [Option.some.injEq] at hr; subst hr; simp at h
  · rename_i hs
    split at hr
    · simp only [Option.some.injEq] at hr; subst hr; simp at h
    · rename_i he
      simp only [ne_eq, Decidable.not_not] at he
      refine ⟨hs, he, ?_⟩
      split at hr
      · simp only [Option.some.injEq] at hr; subst hr
        exact Or.inl ⟨rfl, rfl⟩
      · rename_i S
        right
        split at hr
        · simp at hr
        · simp only [Option.some.injEq] at hr; subst hr; simp at h
        · rename_i a hget
          refine ⟨S, a, rfl, hget, ?_⟩
          simp only at hr
          split at hr
          · split at hr
            · simp only [Option.some.injEq] at hr; subst hr; simp at h
            · simp only [Option.some.injEq] at hr; subst hr; rfl
          · simp only [Option.some.injEq] at hr; subst hr; rfl

theorem directive_callback_word_ok (st : symbol_table) (ops : Option Str) (save : Str)
    (h : (directive_callback_word st ops save).status = DCS_OKAY) :
    st.startAddress ≠ SIC_NOT_SET_SENTINEL ∧
    (st.locCounter + SIC_WORD_BYTES) % UINT32_MOD ≤ SIC_MEMORY_LIMIT ∧
    (∃ t c, ops = some t ∧ getConstant t 10 = (DCS_OKAY, c)) ∧
    (directive_callback_word st ops save).symbolTable =
      { st with locCounter := (st.locCounter + SIC_WORD_BYTES) % UINT32_MOD } := by
  unfold directive_callback_word at h ⊢
  rcases hg : getOperand ops 10 save with ⟨status, c, save1⟩
  simp only [hg] at h ⊢
  split at h
  · simp at h
  · rename_i hs
    simp only [hs, if_false] at h ⊢
    refine ⟨hs, ?_⟩
    split at h
    · rename_i hne; exact absurd h hne
    · rename_i hst
      simp only [ne_eq, Decidable.not_not] at hst
      subst hst
      simp only [ne_eq, not_true_eq_false, if_false]
      split at h
      · simp at h
      · rename_i hlim
        simp only [gt_iff_lt, not_lt] at hlim
        obtain ⟨t, ht, hc⟩ := getOperand_ok _ _ _ _ _ hg
        refine ⟨hlim, ⟨t, c, ht, hc⟩, ?_⟩
        simp only [gt_iff_lt, not_lt.mpr hlim, if_false]

theorem directive_callback_resb_ok (st : symbol_table) (ops : Option Str) (save : Str)
    (h : (directive_callback_resb st ops save).status = DCS_OKAY) :
    st.startAddress ≠ SIC_NOT_SET_SENTINEL ∧
    ∃ t c, ops = some t ∧ getConstant t 10 = (DCS_OKAY, c) ∧ 0 ≤ c ∧
      toUInt32 ((st.locCounter : Int) + c * (SIC_BYTE : Int)) ≤ SIC_MEMORY_LIMIT ∧
      (directive_callback_resb st ops save).symbolTable =
        { st with locCounter := toUInt32 ((st.locCounter : Int) + c * (SIC_BYTE : Int)) } := by
  unfold directive_callback_resb at h ⊢
  rcases hg : getOperand ops 10 save with ⟨status, c, save1⟩
  simp only [hg] at h ⊢
  split at h
  · simp at h
  · rename_i hs
    simp only [hs, if_false] at h ⊢
    refine ⟨hs, ?_⟩
    split at h
    · rename_i hne; exact absurd h hne
    · rename_i hst
      simp only [ne_eq, Decidable.not_not] at hst
      subst hst
      simp only [ne_eq, not_true_eq_false, if_false]
      split at h
      · simp at h
      · rename_i hneg
        simp only [not_lt] at hneg
        split at h
        · simp at h
        · rename_i hlim
          simp only [gt_iff_lt, not_lt] at hlim
          obtain ⟨t, ht, hc⟩ := getOperand_ok _ _ _ _ _ hg
          refine ⟨t, c, ht, hc, hneg, hlim, ?_⟩
          simp only [not_lt.mpr hneg, gt_iff_lt, not_lt.mpr hlim, if_false]

theorem directive_callback_resw_ok (st : symbol_table) (ops : Option Str) (save : Str)
    (h : (directive_callback_resw st ops save).status = DCS_OKAY) :
    st.startAddress ≠ SIC_NOT_SET_SENTINEL ∧
    ∃ t c, ops = some t ∧ getConstant t 10 = (DCS_OKAY, c) ∧ 0 ≤ c ∧
      toUInt32 ((st.locCounter : Int) + c * (SIC_WORD_BYTES : Int)) ≤ SIC_MEMORY_LIMIT ∧
      (directive_callback_resw st ops save).symbolTable =
        { st with locCounter := toUInt32 ((st.locCounter : Int) + c * (SIC_WORD_BYTES : Int)) } := by
  unfold directive_callback_resw at h ⊢
  rcases hg : getOperand ops 10 save with ⟨status, c, save1⟩
  simp only [hg] at h ⊢
  split at h
  · simp at h
  · rename_i hs
    simp only [hs, if_false] at h ⊢
    refine ⟨hs, ?_⟩
    split at h
    · rename_i hne; exact absurd h hne
    · rename_i hst
      simp only [ne_eq, Decidable.not_not] at hst
      subst hst
      simp only [ne_eq, not_true_eq_false, if_false]
      split at h
      · simp at h
      · rename_i hneg
        simp only [not_lt] at hneg
        split at h
        · simp at h
        · rename_i hlim
          simp only [gt_iff_lt, not_lt] at hlim
          obtain ⟨t, ht, hc⟩ := getOperand_ok _ _ _ _ _ hg
          refine ⟨t, c, ht, hc, hneg, hlim, ?_⟩
          simp only [not_lt.mpr hneg, gt_iff_lt, not_lt.mpr hlim, if_false]

theorem directive_callback_resr_not_ok (st : symbol_table) (ops : Option Str) (save : Str) :
    (directive_callback_resr st ops save).status ≠ DCS_OKAY := by
  unfold directive_callback_resr
  split <;> simp

theorem directive_callback_exports_not_ok (st : symbol_table) (ops : Option Str) (save : Str) :
    (directive_callback_exports st ops save).status ≠ DCS_OKAY := by
  unfold directive_callback_exports
  split <;> simp

/-- The bytes a BYTE constant occupies: half the characters for `X`, the
characters for `C`. -/
theorem directive_callback_byte_ok (st : symbol_table) (ops : Option Str) (save : Str)
    (h : (directive_callback_byte st ops save).status = DCS_OKAY) :
    st.startAddress ≠ SIC_NOT_SET_SENTINEL ∧
    ∃ o content fromQuote, ops = some o ∧ (o.head? = some 'C' ∨ o.head? = some 'X') ∧
      (o.drop 1).head? = some quoteChar ∧
      strchr (o.drop 2) quoteChar = some (content, fromQuote) ∧
      (o.head? = some 'X' → content.length % 2 = 0 ∧ content.all isxdigit = true) ∧
      (st.locCounter + (if o.head? = some 'X' then content.length / 2 else content.length))
        % UINT32_MOD ≤ SIC_MEMORY_LIMIT ∧
      (directive_callback_byte st ops save).symbolTable =
        { st with locCounter :=
            (st.locCounter + (if o.head? = some 'X' then content.length / 2 else content.length))
              % UINT32_MOD } := by
  unfold directive_callback_byte at h ⊢
  split at h
  · simp at h
  · rename_i hs
    simp only [hs, if_false] at h ⊢
    refine ⟨hs, ?_⟩
    split at h
    · simp at h
    · rename_i o
      split at h
      · simp at h
      · rename_i hcx
        simp only [hcx, if_false]
        split at h
        · simp at h
        · rename_i hq
          simp only [hq, if_false]
          simp only [ne_eq, Decidable.not_not] at hq
          split at h
          · simp at h
          · rename_i content fromQuote hchr
            split at h
            · simp at h
            · rename_i hodd
              simp only [hodd, if_false]
              split at h
              · simp at h
              · rename_i hbad
                simp only [hbad, if_false]
                generalize hadv :
                  (if o.head? = some 'X' then content.length / 2 else content.length) = adv
                  at h ⊢
                split at h
                · simp at h
                · rename_i hlim
                  simp only [hlim, if_false]
                  simp only [gt_iff_lt, not_lt] at hlim
                  refine ⟨o, content, fromQuote, rfl, ?_, hq, hchr, ?_, ?_, ?_⟩
                  · by_contra hc
                    simp only [not_or] at hc
                    exact hcx ⟨hc.1, hc.2⟩
                  · intro hx
                    constructor
                    · by_contra hc; exact hodd ⟨hx, hc⟩
                    · by_contra hc
                      apply hbad
                      refine ⟨hx, ?_⟩
                      simpa using hc
                  · rw [hadv]; exact hlim
                  · rw [hadv]
                    split <;> [split; skip] <;> rfl


/-! ## `strtol` on hexadecimal tokens -/

theorem digitInBase_hex (c : Char) (h : isxdigit c = true) :
    digitInBase 16 c = some ((digitVal c).getD 0) := by
  unfold isxdigit at h
  unfold digitInBase digitVal
  unfold isdigit at h ⊢
  simp only [Bool.or_eq_true, Bool.and_eq_true, decide_eq_true_eq] at h ⊢
  by_cases h1 : 48 ≤ c.toNat ∧ c.toNat ≤ 57
  · simp only [h1, and_self, if_true, Option.getD_some]
    rw [if_pos (by omega)]
  · simp only [h1, if_false]
    by_cases h2 : 97 ≤ c.toNat ∧ c.toNat ≤ 122
    · simp only [h2, and_self, if_true, Option.getD_some]
      rw [if_pos (by omega)]
    · simp only [h2, if_false]
      have h3 : 65 ≤ c.toNat ∧ c.toNat ≤ 90 := by omega
      simp only [h3, and_self, if_true, Option.getD_some]
      rw [if_pos (by omega)]

theorem takeDigits_hex : ∀ (s : Str), s.all isxdigit = true →
    takeDigits 16 s = (s.map (fun c => (digitVal c).getD 0), []) := by
  intro s
  induction s with
  | nil => intro _; rfl
  | cons c cs ih =>
    intro h
    simp only [List.all_cons, Bool.and_eq_true] at h
    simp only [takeDigits, digitInBase_hex c h.1, ih h.2, List.map_cons]

theorem foldl_digits_hex (s : Str) :
    (s.map (fun c => (digitVal c).getD 0)).foldl (fun a d => a * 16 + d) 0 = hexValue s := by
  unfold hexValue
  rw [List.foldl_map]

theorem isxdigit_not_special (c : Char) (h : isxdigit c = true) :
    isspace c = false ∧ c ≠ '-' ∧ c ≠ '+' ∧ c ≠ 'x' ∧ c ≠ 'X' := by
  unfold isxdigit isdigit at h
  simp only [Bool.or_eq_true, Bool.and_eq_true, decide_eq_true_eq] at h
  refine ⟨?_, ?_, ?_, ?_, ?_⟩
  · unfold isspace
    simp only [Bool.or_eq_false_iff, decide_eq_false_iff_not, Bool.and_eq_false_imp,
      decide_eq_true_eq]
    omega
  all_goals
    intro e
    subst e
    revert h
    decide

/-- The digits of a hexadecimal token, with or without a minus sign in
front, are read in full by `strtol` in base 16. -/
theorem strtol_hex (neg : Bool) (t : Str) (ht : t ≠ []) (hx : t.all isxdigit = true)
    (hv : hexValue t ≤ 0x7FFFFFFF) :
    strtol ((if neg then ['-'] else []) ++ t) 16
      = ⟨if neg then -(hexValue t : Int) else (hexValue t : Int), [], true, false⟩ := by
  cases t with
  | nil => exact absurd rfl ht
  | cons c cs =>
    have hc : isxdigit c = true := by
      simp only [List.all_cons, Bool.and_eq_true] at hx
      exact hx.1
    have hcs : cs.all isxdigit = true := by
      simp only [List.all_cons, Bool.and_eq_true] at hx
      exact hx.2
    obtain ⟨hsp, hm, hp, _, _⟩ := isxdigit_not_special c hc
    have htail : cs.head? ≠ some 'x' ∧ cs.head? ≠ some 'X' := by
      cases cs with
      | nil => simp
      | cons d ds =>
        have hd : isxdigit d = true := by
          simp only [List.all_cons, Bool.and_eq_true] at hcs
          exact hcs.1
        obtain ⟨_, _, _, hx1, hx2⟩ := isxdigit_not_special d hd
        simp only [List.head?_cons, ne_eq, Option.some.injEq]
        exact ⟨hx1, hx2⟩
    have hmag : (((c :: cs).map (fun c => (digitVal c).getD 0)).foldl (fun a d => a * 16 + d) 0)
        = hexValue (c :: cs) := foldl_digits_hex (c :: cs)
    have hL : LONG_MAX = 9223372036854775807 := rfl
    have hLm : LONG_MIN = -9223372036854775808 := rfl
    cases neg with
    | false =>
      simp only [Bool.false_eq_true, if_false, List.nil_append]
      unfold strtol
      simp only [List.dropWhile_cons, hsp, Bool.false_eq_true, if_false, List.head?_cons,
        Option.some.injEq, hm, hp, or_self, List.tail_cons, htail.1, htail.2, decide_False,
        Bool.or_false, Bool.and_false, takeDigits_hex (c :: cs) hx]
      simp only [List.map_cons, hmag] at hmag ⊢
      rw [hL, hLm, if_neg (by omega), if_neg (by omega)]
    | true =>
      simp only [if_true, List.singleton_append]
      unfold strtol
      have hsm : isspace '-' = false := by decide
      simp only [List.dropWhile_cons, hsm, Bool.false_eq_true, if_false, List.head?_cons,
        true_or, if_true, List.drop_succ_cons, List.drop_zero, List.tail_cons, htail.1, htail.2,
        decide_False, Bool.or_false, Bool.and_false, takeDigits_hex (c :: cs) hx, decide_True]
      simp only [List.map_cons, hmag] at hmag ⊢
      rw [hL, hLm, if_neg (by omega), if_neg (by omega)]

theorem toInt32_of_abs_small (v : Int) (h0 : -2147483648 ≤ v) (h1 : v < 2147483648) :
    toInt32 v = v := by
  unfold toInt32
  simp only
  split <;> omega

/-- A hexadecimal token whose value is within the 24-bit range passes
`getConstant`, which stores its value. -/
theorem getConstant_hex (neg : Bool) (t : Str) (ht : t ≠ []) (hx : t.all isxdigit = true)
    (hv : hexValue t ≤ 0x7FFFFF) :
    getConstant ((if neg then ['-'] else []) ++ t) 16
      = (DCS_OKAY, if neg then -(hexValue t : Int) else (hexValue t : Int)) := by
  have hM : SIC_INTEGER_MAX = 8388607 := rfl
  unfold getConstant
  rw [strtol_hex neg t ht hx (by omega)]
  simp only [Bool.not_true, Bool.false_eq_true, if_false, Bool.not_false, bne_self_eq_false,
    Bool.and_false, Bool.or_self]
  cases neg with
  | false =>
    simp only [Bool.false_eq_true, if_false]
    rw [toInt32_of_abs_small _ (by omega) (by omega), hM, if_neg (by omega), if_neg (by omega)]
  | true =>
    simp only [if_true]
    rw [toInt32_of_abs_small _ (by omega) (by omega), hM, if_neg (by omega), if_neg (by omega)]

/-- A hexadecimal token above the 24-bit range is refused by `getConstant` as an
overflow. -/
theorem getConstant_hex_overflow (t : Str) (ht : t ≠ []) (hx : t.all isxdigit = true)
    (hlo : 0x800000 ≤ hexValue t) (hv : hexValue t ≤ 0x7FFFFFFF) :
    (getConstant t 16).1 = DCS_INTEGER_CONSTANT_OVERFLOW := by
  have hM : SIC_INTEGER_MAX = 8388607 := rfl
  have hs := strtol_hex false t ht hx hv
  simp only [Bool.false_eq_true, if_false, List.nil_append] at hs
  have h32 : toInt32 (hexValue t : Int) = hexValue t :=
    toInt32_of_abs_small _ (by omega) (by omega)
  have hgt : toInt32 (hexValue t : Int) > SIC_INTEGER_MAX := by
    rw [h32, hM]; omega
  unfold getConstant
  simp only [hs, Bool.not_true, Bool.false_eq_true, if_false, Bool.not_false, bne_self_eq_false,
    Bool.and_false, Bool.or_self, if_pos hgt]

/-- The operand check `getOperand` on a hexadecimal token within the 24-bit range
that is followed by nothing or by a comment. -/
theorem getOperand_hex (neg : Bool) (t save : Str) (ht : t ≠ []) (hx : t.all isxdigit = true)
    (hv : hexValue t ≤ 0x7FFFFF)
    (hrest : ∀ c, (strtok save SIC_TOKEN_DELIMITERS).1 = some c → checkComment c = true) :
    getOperand (some ((if neg then ['-'] else []) ++ t)) 16 save
      = (DCS_OKAY, (if neg then -(hexValue t : Int) else (hexValue t : Int)),
          (strtok save SIC_TOKEN_DELIMITERS).2) := by
  unfold getOperand
  simp only [getConstant_hex neg t ht hx hv, ne_eq, not_true_eq_false, if_false]
  rcases hs : strtok save SIC_TOKEN_DELIMITERS with ⟨tok, save1⟩
  rw [hs] at hrest
  cases tok with
  | none => rfl
  | some c =>
    have := hrest c rfl
    simp only [this, Bool.not_true, Bool.false_eq_true, if_false]

/-! ## What the directive handlers and the instruction step leave alone -/

theorem toUInt32_toInt32 (a : Nat) (h : a < UINT32_MOD) : toUInt32 (toInt32 (a : Int)) = a := by
  have hU : UINT32_MOD = 4294967296 := rfl
  unfold toUInt32 toInt32
  simp only
  split <;> omega

/-- The END callback changes at most the end address. -/
theorem directive_callback_end_shape (f : Nat) (st : symbol_table) (ops : Option Str) (save : Str)
    (r : callback_result) (hr : directive_callback_end f st ops save = some r) :
    r.symbolTable = st ∨ ∃ e, r.symbolTable = { st with endAddress := e } := by
  unfold directive_callback_end at hr
  split at hr
  · simp only [Option.some.injEq] at hr; subst hr; exact Or.inl rfl
  · split at hr
    · simp only [Option.some.injEq] at hr; subst hr; exact Or.inl rfl
    · split at hr
      · simp only [Option.some.injEq] at hr; subst hr; exact Or.inr ⟨_, rfl⟩
      · split at hr
        · simp at hr
        · simp only [Option.some.injEq] at hr; subst hr; exact Or.inl rfl
        · simp only at hr
          split at hr
          · split at hr
            · simp only [Option.some.injEq] at hr; subst hr; exact Or.inl rfl
            · simp only [Option.some.injEq] at hr; subst hr; exact Or.inr ⟨_, rfl⟩
          · simp only [Option.some.injEq] at hr; subst hr; exact Or.inr ⟨_, rfl⟩

theorem directive_callback_end_frame (f : Nat) (st : symbol_table) (ops : Option Str) (save : Str)
    (r : callback_result) (hr : directive_callback_end f st ops save = some r) :
    r.symbolTable.startAddress = st.startAddress ∧ r.symbolTable.locCounter = st.locCounter ∧
    r.symbolTable.ht = st.ht := by
  rcases directive_callback_end_shape f st ops save r hr with h | ⟨e, h⟩
  · rw [h]; exact ⟨rfl, rfl, rfl⟩
  · rw [h]; exact ⟨rfl, rfl, rfl⟩

theorem directive_callback_word_frame (st : symbol_table) (ops : Option Str) (save : Str) :
    (directive_callback_word st ops save).symbolTable.startAddress = st.startAddress := by
  unfold directive_callback_word
  rcases hg : getOperand ops 10 save with ⟨status, c, save1⟩
  simp only [hg]
  split_ifs <;> rfl

theorem directive_callback_resb_frame (st : symbol_table) (ops : Option Str) (save : Str) :
    (directive_callback_resb st ops save).symbolTable.startAddress = st.startAddress := by
  unfold directive_callback_resb
  rcases hg : getOperand ops 10 save with ⟨status, c, save1⟩
  simp only [hg]
  split_ifs <;> rfl

theorem directive_callback_resw_frame (st : symbol_table) (ops : Option Str) (save : Str) :
    (directive_callback_resw st ops save).symbolTable.startAddress = st.startAddress := by
  unfold directive_callback_resw
  rcases hg : getOperand ops 10 save with ⟨status, c, save1⟩
  simp only [hg]
  split_ifs <;> rfl

theorem directive_callback_byte_frame (st : symbol_table) (ops : Option Str) (save : Str) :
    (directive_callback_byte st ops save).symbolTable.startAddress = st.startAddress := by
  unfold directive_callback_byte
  cases ops with
  | none => simp only []; split_ifs <;> rfl
  | some o =>
    simp only []
    cases hc : strchr (o.drop 2) quoteChar with
    | none => simp only []; split_ifs <;> rfl
    | some p =>
      obtain ⟨content, fromQuote⟩ := p
      simp only []
      rcases hs : strtok (fromQuote.drop 1) SIC_TOKEN_DELIMITERS with ⟨tok, save1⟩
      cases tok with
      | none => simp only []; split_ifs <;> rfl
      | some t => simp only []; split_ifs <;> rfl

theorem directive_callback_resr_frame (st : symbol_table) (ops : Option Str) (save : Str) :
    (directive_callback_resr st ops save).symbolTable = st := by
  unfold directive_callback_resr
  cases ops <;> rfl

theorem directive_callback_exports_frame (st : symbol_table) (ops : Option Str) (save : Str) :
    (directive_callback_exports st ops save).symbolTable = st := by
  unfold directive_callback_exports
  cases ops <;> rfl

theorem directive_callback_start_twice (st : symbol_table) (ops : Option Str) (save : Str)
    (hset : st.startAddress ≠ SIC_NOT_SET_SENTINEL) :
    directive_callback_start st ops save
      = { status := DCS_START_DEFINED_TWICE, symbolTable := st, save := save } := by
  unfold directive_callback_start
  rw [if_pos hset]

/-- Once the start address is set, no handler call changes it. -/
theorem callDirective_start_frame (f : Nat) (cb : directive_callback) (st : symbol_table)
    (ops : Option Str) (save : Str) (r : callback_result)
    (hset : st.startAddress ≠ SIC_NOT_SET_SENTINEL)
    (h : callDirective f cb st ops save = some r) :
    r.symbolTable.startAddress = st.startAddress := by
  cases cb with
  | directive_callback_start =>
    simp only [callDirective, Option.some.injEq] at h
    rw [← h, directive_callback_start_twice st ops save hset]
  | directive_callback_end =>
    simp only [callDirective] at h
    exact (directive_callback_end_frame f st ops save r h).1
  | directive_callback_byte =>
    simp only [callDirective, Option.some.injEq] at h
    rw [← h]; exact directive_callback_byte_frame st ops save
  | directive_callback_word =>
    simp only [callDirective, Option.some.injEq] at h
    rw [← h]; exact directive_callback_word_frame st ops save
  | directive_callback_resb =>
    simp only [callDirective, Option.some.injEq] at h
    rw [← h]; exact directive_callback_resb_frame st ops save
  | directive_callback_resw =>
    simp only [callDirective, Option.some.injEq] at h
    rw [← h]; exact directive_callback_resw_frame st ops save
  | directive_callback_resr =>
    simp only [callDirective, Option.some.injEq] at h
    rw [← h, directive_callback_resr_frame st ops save]
  | directive_callback_exports =>
    simp only [callDirective, Option.some.injEq] at h
    rw [← h, directive_callback_exports_frame st ops save]

/-- The instruction step changes at most the location counter. -/
theorem firstPassInstructionHelper_effect_frame (fuel : Nat) (symbolTable : symbol_table)
    (directiveTable : hash_table directive_callback) (opTab : hash_table sic_optable_values)
    (opcode : sic_optable_values) (save : Str) (symbolSeen : Bool) (after : symbol_table)
    (h : firstPassInstructionHelper_effect fuel symbolTable directiveTable opTab opcode save
      symbolSeen = some after) :
    after.startAddress = symbolTable.startAddress := by
  unfold firstPassInstructionHelper_effect at h
  simp only at h
  repeat' split at h
  all_goals
    first
      | (simp only [Option.some.injEq] at h; subst h; rfl)
      | simp at h

/-- A successful instruction step returns the table that the step leaves
behind. -/
theorem firstPassInstructionHelper_effect_of_ok (fuel : Nat) (symbolTable : symbol_table)
    (directiveTable : hash_table directive_callback) (opTab : hash_table sic_optable_values)
    (opcode : sic_optable_values) (save : Str) (symbolSeen : Bool) (after : symbol_table)
    (h : firstPassInstructionHelper fuel symbolTable directiveTable opTab opcode save symbolSeen
      = ok after) :
    firstPassInstructionHelper_effect fuel symbolTable directiveTable opTab opcode save symbolSeen
      = some after := by
  unfold firstPassInstructionHelper at h
  unfold firstPassInstructionHelper_effect
  simp only at h ⊢
  have hadv : ∀ (s : symbol_table),
      (if ({ symbolTable with locCounter :=
              (symbolTable.locCounter + SIC_WORD_BYTES) % UINT32_MOD } : symbol_table).locCounter
            > SIC_MEMORY_LIMIT
        then (error (pass_error.directive DCS_MEMORY_OVERFLOW) : pass_result symbol_table)
        else ok { symbolTable with locCounter :=
              (symbolTable.locCounter + SIC_WORD_BYTES) % UINT32_MOD }) = ok s →
      some ({ symbolTable with locCounter :=
              (symbolTable.locCounter + SIC_WORD_BYTES) % UINT32_MOD } : symbol_table) = some s := by
    intro s hs
    split at hs
    · cases hs
    · simp only [ok.injEq] at hs
      rw [hs]
  by_cases h1 : symbolTable.startAddress = SIC_NOT_SET_SENTINEL
  · rw [if_pos h1] at h; cases h
  · rw [if_neg h1] at h ⊢
    by_cases h2 : symbolTable.endAddress ≠ SIC_NOT_SET_SENTINEL ∨
        symbolTable.endAddress = SIC_SEEN_SENTINEL
    · rw [if_pos h2] at h; cases h
    · rw [if_neg h2] at h ⊢
      by_cases h3 : (!SIC_EXPENSIVE_EDITION_SUPPORT) = true ∧
          (opcode.flags &&& OP_FLAG_XE_ONLY ≠ 0 ∨ opcode.flags &&& OP_FLAG_FLOAT_POINT ≠ 0)
      · rw [if_pos h3] at h; cases h
      · rw [if_neg h3] at h ⊢
        generalize (strtok save SIC_TOKEN_DELIMITERS).1 = token at h ⊢
        generalize (strtok save SIC_TOKEN_DELIMITERS).2 = save1 at h ⊢
        have hcount : (if countOperands (save1.length + 1) token save1 0 ≠ opcode.numOperands.val
              then (error (pass_error.opcode opcode_status.OPS_WRONG_NUM_OF_OPERANDS) :
                pass_result symbol_table)
              else
                (if ({ symbolTable with locCounter :=
                        (symbolTable.locCounter + SIC_WORD_BYTES) % UINT32_MOD } :
                      symbol_table).locCounter > SIC_MEMORY_LIMIT
                  then error (pass_error.directive DCS_MEMORY_OVERFLOW)
                  else ok { symbolTable with locCounter :=
                        (symbolTable.locCounter + SIC_WORD_BYTES) % UINT32_MOD })) = ok after →
            (if countOperands (save1.length + 1) token save1 0 ≠ opcode.numOperands.val
              then some symbolTable
              else some ({ symbolTable with locCounter :=
                (symbolTable.locCounter + SIC_WORD_BYTES) % UINT32_MOD } : symbol_table))
              = some after := by
          intro hc
          by_cases h4 : countOperands (save1.length + 1) token save1 0 ≠ opcode.numOperands.val
          · rw [if_pos h4] at hc; cases hc
          · rw [if_neg h4] at hc ⊢
            exact hadv after hc
        cases symbolSeen with
        | true =>
          simp only [if_true] at h ⊢
          exact hcount h
        | false =>
          simp only [Bool.false_eq_true, if_false] at h ⊢
          cases token with
          | none =>
            simp only at h ⊢
            by_cases h5 : opcode.numOperands.val ≠ 0
            · rw [if_pos h5] at h; cases h
            · rw [if_neg h5] at h ⊢
              exact hadv after h
          | some t =>
            simp only at h ⊢
            cases hr : isReservedWord fuel directiveTable opTab t with
            | none => rw [hr] at h; cases h
            | some b =>
              rw [hr] at h
              cases b with
              | true => cases h
              | false =>
                simp only at h ⊢
                exact hcount h

/-! ## The cases of the END handler -/

theorem directive_callback_end_none (f : Nat) (st : symbol_table) (save : Str)
    (hs : st.startAddress ≠ SIC_NOT_SET_SENTINEL) (he : st.endAddress = SIC_NOT_SET_SENTINEL) :
    directive_callback_end f st none save
      = some { status := DCS_OKAY, symbolTable := { st with endAddress := SIC_SEEN_SENTINEL },
               save := save } := by
  unfold directive_callback_end
  rw [if_neg hs, if_neg (not_not.mpr he)]

theorem directive_callback_end_twice (f : Nat) (st : symbol_table) (ops : Option Str) (save : Str)
    (hs : st.startAddress ≠ SIC_NOT_SET_SENTINEL) (he : st.endAddress ≠ SIC_NOT_SET_SENTINEL) :
    directive_callback_end f st ops save
      = some { status := DCS_END_DEFINED_TWICE, symbolTable := st, save := save } := by
  unfold directive_callback_end
  rw [if_neg hs, if_pos he]

theorem directive_callback_end_null (f : Nat) (st : symbol_table) (S save : Str)
    (hs : st.startAddress ≠ SIC_NOT_SET_SENTINEL) (he : st.endAddress = SIC_NOT_SET_SENTINEL)
    (hg : getKVPair f st.ht (some S) = some none) :
    directive_callback_end f st (some S) save
      = some { status := DSC_END_SYMBOL_NULL, symbolTable := st, save := save } := by
  unfold directive_callback_end
  rw [if_neg hs, if_neg (not_not.mpr he)]
  simp only [hg]

theorem directive_callback_end_symbol (f : Nat) (st : symbol_table) (S save : Str) (a : Nat)
    (hs : st.startAddress ≠ SIC_NOT_SET_SENTINEL) (he : st.endAddress = SIC_NOT_SET_SENTINEL)
    (hg : getKVPair f st.ht (some S) = some (some a)) (ha : a < UINT32_MOD)
    (hrest : ∀ c, (strtok save SIC_TOKEN_DELIMITERS).1 = some c → checkComment c = true) :
    directive_callback_end f st (some S) save
      = some { status := DCS_OKAY, symbolTable := { st with endAddress := a },
               save := (strtok save SIC_TOKEN_DELIMITERS).2 } := by
  unfold directive_callback_end
  rw [if_neg hs, if_neg (not_not.mpr he)]
  simp only [hg, toUInt32_toInt32 a ha]
  rcases hk : strtok save SIC_TOKEN_DELIMITERS with ⟨tok, save1⟩
  rw [hk] at hrest
  cases tok with
  | none => rfl
  | some c =>
    have hc := hrest c rfl
    simp only [hc, Bool.not_true, Bool.false_eq_true, if_false]

theorem directive_callback_end_extra (f : Nat) (st : symbol_table) (S save c : Str) (a : Nat)
    (hs : st.startAddress ≠ SIC_NOT_SET_SENTINEL) (he : st.endAddress = SIC_NOT_SET_SENTINEL)
    (hg : getKVPair f st.ht (some S) = some (some a))
    (hc : (strtok save SIC_TOKEN_DELIMITERS).1 = some c) (hnc : checkComment c = false) :
    directive_callback_end f st (some S) save
      = some { status := DCS_TOO_MANY_OPERANDS, symbolTable := st,
               save := (strtok save SIC_TOKEN_DELIMITERS).2 } := by
  unfold directive_callback_end
  rw [if_neg hs, if_neg (not_not.mpr he)]
  simp only [hg]
  rcases hk : strtok save SIC_TOKEN_DELIMITERS with ⟨tok, save1⟩
  rw [hk] at hc
  simp only at hc
  subst hc
  simp only [hnc, Bool.not_false, if_true]

/-! ## Pass one: what an accepted line did -/

theorem strtok_nil_delim (s : Str) :
    strtok s [] = (if s = [] then none else some s, []) := by
  unfold strtok
  have h1 : ∀ l : Str, l.dropWhile (isDelim []) = l := by
    intro l; cases l <;> simp [isDelim]
  have h2 : ∀ l : Str, l.takeWhile (fun c => !isDelim [] c) = l := by
    intro l; induction l with
    | nil => rfl
    | cons a t ih => simp [List.takeWhile, isDelim]
  have h3 : ∀ l : Str, l.dropWhile (fun c => !isDelim [] c) = [] := by
    intro l; induction l with
    | nil => rfl
    | cons a t ih => simp [List.dropWhile, isDelim]
  simp only [h1]
  cases s with
  | nil => simp
  | cons c cs => simp [h2, h3]

theorem firstPassInstructionHelper_ok (f : Nat) (symTab symTab' : symbol_table)
    (dt : hash_table directive_callback) (ot : hash_table sic_optable_values)
    (opcode : sic_optable_values) (save : Str) (symbolSeen : Bool)
    (h : firstPassInstructionHelper f symTab dt ot opcode save symbolSeen = ok symTab') :
    symTab.startAddress ≠ SIC_NOT_SET_SENTINEL ∧ symTab.endAddress = SIC_NOT_SET_SENTINEL ∧
    (symTab.locCounter + SIC_WORD_BYTES) % UINT32_MOD ≤ SIC_MEMORY_LIMIT ∧
    symTab' = { symTab with locCounter := (symTab.locCounter + SIC_WORD_BYTES) % UINT32_MOD } := by
  unfold firstPassInstructionHelper at h
  have hadv : ∀ r : symbol_table,
      (if (symTab.locCounter + SIC_WORD_BYTES) % UINT32_MOD > SIC_MEMORY_LIMIT
        then (error (pass_error.directive DCS_MEMORY_OVERFLOW) : pass_result symbol_table)
        else ok { symTab with locCounter := (symTab.locCounter + SIC_WORD_BYTES) % UINT32_MOD })
        = ok r →
      (symTab.locCounter + SIC_WORD_BYTES) % UINT32_MOD ≤ SIC_MEMORY_LIMIT ∧
      r = { symTab with locCounter := (symTab.locCounter + SIC_WORD_BYTES) % UINT32_MOD } := by
    intro r hr
    split at hr
    · simp at hr
    · rename_i hl
      simp only [gt_iff_lt, not_lt] at hl
      simp only [ok.injEq] at hr
      exact ⟨hl, hr.symm⟩
  simp only at h
  split at h
  · simp at h
  · rename_i hs
    split at h
    · simp at h
    · rename_i he
      simp only [not_or, ne_eq, Decidable.not_not] at he
      split at h
      · simp at h
      · refine ⟨hs, he.1, ?_⟩
        repeat' (first | exact hadv _ h | (simp at h; done) | split at h)

theorem insertSymbol_ok (f : Nat) (symTab : symbol_table) (L : Str) (addr : Nat) (ss : Bool)
    (st' : pass1_state) (h : insertSymbol f symTab L addr ss = ok st') :
    ∃ ht', insertKVPair f symTab.ht L addr = some (ht_status.HT_OKAY, ht') ∧
      st' = { symTab := { symTab with ht := ht' }, startSeen := ss } := by
  unfold insertSymbol at h
  split at h
  · simp at h
  · rename_i ht1 hi
    simp only [ok.injEq] at h
    exact ⟨ht1, hi, h.symm⟩
  · simp at h

theorem firstPassDirectiveHelper_ok (f : Nat) (symTab symTab' : symbol_table)
    (dt : hash_table directive_callback) (ot : hash_table sic_optable_values)
    (cb : directive_callback) (token save : Str) (addr addr' : Nat) (startSeen startSeen' : Bool)
    (symbolSeen : Bool)
    (h : firstPassDirectiveHelper f symTab dt ot cb token save addr startSeen symbolSeen
      = ok (symTab', addr', startSeen')) :
    ∃ save1 r, callDirective f cb symTab (directiveOperand token save symbolSeen) save1 = some r ∧
      r.status = DCS_OKAY ∧ symTab' = r.symbolTable ∧
      addr' = (if r.symbolTable.startAddress ≠ SIC_NOT_SET_SENTINEL ∧ startSeen = false
        then r.symbolTable.locCounter else addr) ∧
      startSeen' = (if r.symbolTable.startAddress ≠ SIC_NOT_SET_SENTINEL ∧ startSeen = false
        then true else startSeen) := by
  have hfin : ∀ (operand : Option Str) (save1 : Str),
      (match callDirective f cb symTab operand save1 with
        | none => (undefined : pass_result (symbol_table × Nat × Bool))
        | some r =>
          if r.status ≠ DCS_OKAY then error (pass_error.directive r.status)
          else if r.symbolTable.startAddress ≠ SIC_NOT_SET_SENTINEL ∧ startSeen = false then
            ok (r.symbolTable, r.symbolTable.locCounter, true)
          else ok (r.symbolTable, addr, startSeen)) = ok (symTab', addr', startSeen') →
      ∃ r, callDirective f cb symTab operand save1 = some r ∧
        r.status = DCS_OKAY ∧ symTab' = r.symbolTable ∧
        addr' = (if r.symbolTable.startAddress ≠ SIC_NOT_SET_SENTINEL ∧ startSeen = false
          then r.symbolTable.locCounter else addr) ∧
        startSeen' = (if r.symbolTable.startAddress ≠ SIC_NOT_SET_SENTINEL ∧ startSeen = false
          then true else startSeen) := by
    intro operand save1 hm
    split at hm
    · simp at hm
    · rename_i r hr
      refine ⟨r, hr, ?_⟩
      split at hm
      · simp at hm
      · rename_i hst
        simp only [ne_eq, Decidable.not_not] at hst
        refine ⟨hst, ?_⟩
        split at hm
        · rename_i hc
          simp only [ok.injEq, Prod.mk.injEq] at hm
          rw [if_pos hc, if_pos hc]
          exact ⟨hm.1.symm, hm.2.1.symm, hm.2.2.symm⟩
        · rename_i hc
          simp only [ok.injEq, Prod.mk.injEq] at hm
          rw [if_neg hc, if_neg hc]
          exact ⟨hm.1.symm, hm.2.1.symm, hm.2.2.symm⟩
  unfold firstPassDirectiveHelper at h
  unfold directiveOperand
  simp only at h
  split at h
  · rename_i hss
    simp only [hss, if_true]
    split at h
    · rename_i hb
      simp only [hb, if_true]
      exact ⟨_, hfin _ _ h⟩
    · rename_i hb
      simp only [hb, if_false]
      exact ⟨_, hfin _ _ h⟩
  · rename_i hss
    simp only [hss, Bool.false_eq_true, if_false]
    split at h
    · rename_i hb
      simp only [hb, if_true]
      rw [strtok_nil_delim] at h
      simp only at h
      split at h
      · simp at h
      · rename_i tmp htmp
        have hsave : tmp = save := by
          split at htmp
          · simp at htmp
          · simpa using htmp.symm
        subst hsave
        split at h
        · rename_i hn
          simp only [hn, if_true]
          exact ⟨_, hfin _ _ h⟩
        · rename_i t ht
          simp only [ht]
          split at h
          · simp at h
          · simp at h
          · simp only [reduceCtorEq, if_false]
            exact ⟨_, hfin _ _ h⟩
    · rename_i hb
      simp only [hb, if_false]
      split at h
      · rename_i hn
        rw [hn]
        exact ⟨_, hfin _ _ h⟩
      · rename_i t ht
        rw [ht]
        split at h
        · simp at h
        · simp at h
        · exact ⟨_, hfin _ _ h⟩

/-- Pass one accepts a line only as a comment, a directive line or an
instruction line, and then did what `Pass1Effect` says. -/
theorem firstPassLine_ok (f : Nat) (dt : hash_table directive_callback)
    (ot : hash_table sic_optable_values) (st st' : pass1_state) (line : Str)
    (h : firstPassLine f dt ot st line = ok st') :
    ∃ kind, classifyLine f dt ot line = some kind ∧ Pass1Effect f dt ot st st' kind := by
  unfold firstPassLine at h
  unfold classifyLine
  rcases htok : strtok line SIC_TOKEN_DELIMITERS with ⟨tok, save⟩
  rw [htok] at h
  simp only at h ⊢
  cases tok with
  | none => simp at h
  | some token =>
    simp only at h ⊢
    by_cases hc : checkComment token = true
    · simp only [hc, if_true, ok.injEq] at h ⊢
      exact ⟨_, rfl, h.symm⟩
    · simp only [hc, Bool.false_eq_true, if_false] at h ⊢
      cases hd : getKVPair f dt (some token) with
      | none => rw [hd] at h; simp at h
      | some od =>
        rw [hd] at h
        cases od with
        | some cb =>
          simp only at h ⊢
          refine ⟨_, rfl, ?_⟩
          split at h
          · rename_i symTab1 a1 ss1 hh
            obtain ⟨save1, r, hcall, hst, hsym, ha, hs⟩ := firstPassDirectiveHelper_ok _ _ _ _ _ _ _ _ _ _ _ _ _ hh
            simp only [ok.injEq] at h
            refine ⟨trivial, save1, r, r.symbolTable.ht, hcall, hst, rfl, ?_⟩
            rw [← h, hsym, hs]
          · simp at h
          · simp at h
        | none =>
          simp only at h ⊢
          cases ho : getKVPair f ot (some token) with
          | none => rw [ho] at h; simp at h
          | some oo =>
            rw [ho] at h
            cases oo with
            | some opcode =>
              simp only at h ⊢
              refine ⟨_, rfl, ?_⟩
              split at h
              · rename_i symTab1 hh
                simp only [ok.injEq] at h
                exact ⟨trivial, symTab1, symTab1.ht, hh, rfl, h.symm⟩
              · simp at h
              · simp at h
            | none =>
              simp only at h ⊢
              cases hsy : getKVPair f st.symTab.ht (some token) with
              | none => rw [hsy] at h; simp at h
              | some os =>
                rw [hsy] at h
                cases os with
                | some _ => simp at h
                | none =>
                  simp only at h
                  by_cases hsan : sanitizedSymbol token = sic_symbol_status.SYM_OKAY
                  · simp only [hsan, ne_eq, not_true_eq_false, if_false] at h
                    rcases htok2 : strtok save SIC_TOKEN_DELIMITERS with ⟨token2, save2⟩
                    rw [htok2] at h
                    simp only at h ⊢
                    cases hd2 : getKVPair f dt token2 with
                    | none => rw [hd2] at h; simp at h
                    | some od2 =>
                      rw [hd2] at h
                      cases od2 with
                      | some cb =>
                        simp only at h ⊢
                        refine ⟨_, rfl, ?_⟩
                        split at h
                        · rename_i symTab1 a1 ss1 hh
                          obtain ⟨save1, r, hcall, hst, hsym, ha, hs⟩ :=
                            firstPassDirectiveHelper_ok _ _ _ _ _ _ _ _ _ _ _ _ _ hh
                          obtain ⟨ht', hins, hst'⟩ := insertSymbol_ok _ _ _ _ _ _ h
                          refine ⟨⟨hsy, hsan⟩, save1, r, ht', hcall, hst, ?_, ?_⟩
                          · unfold LabelInserted
                            simp only
                            rw [← ha, ← hsym]
                            exact hins
                          · rw [hst', hsym, hs]
                        · simp at h
                        · simp at h
                      | none =>
                        simp only at h ⊢
                        cases ho2 : getKVPair f ot token2 with
                        | none => rw [ho2] at h; simp at h
                        | some oo2 =>
                          rw [ho2] at h
                          cases oo2 with
                          | some opcode =>
                            simp only at h ⊢
                            refine ⟨_, rfl, ?_⟩
                            split at h
                            · rename_i symTab1 hh
                              obtain ⟨ht', hins, hst'⟩ := insertSymbol_ok _ _ _ _ _ _ h
                              exact ⟨⟨hsy, hsan⟩, symTab1, ht', hh, hins, hst'⟩
                            · simp at h
                            · simp at h
                          | none => simp at h
                  · simp [hsan] at h


/-! ## Pass one: the loop invariant -/

theorem strchr_content (s : Str) (c : Char) (a b : Str) (h : strchr s c = some (a, b)) :
    a = s.takeWhile (fun d => d != c) := by
  unfold strchr at h
  split at h
  · simp only [Option.some.injEq, Prod.mk.injEq] at h
    exact h.1.symm
  · simp at h

theorem byteContent_length (o : Str) : (byteContent o).length ≤ o.length := by
  unfold byteContent
  exact le_trans (List.takeWhile_prefix _).length_le (by simp)

theorem directiveOperand_length (token save : Str) (symbolSeen : Bool) (o : Str)
    (h : directiveOperand token save symbolSeen = some o) : o.length ≤ save.length := by
  unfold directiveOperand at h
  split at h
  · split at h <;> exact strtok_token_length _ _ _ h
  · split at h
    · split at h
      · simp at h
      · simp only [Option.some.injEq] at h
        subst h; exact le_refl _
    · exact strtok_token_length _ _ _ h

/-- A data directive (BYTE, WORD, RESB, RESW) that returns OK advanced the
location counter by the size of the line, without wrapping. -/
theorem callDirective_data_ok (f : Nat) (cb : directive_callback) (st : symbol_table)
    (operand : Option Str) (save1 : Str) (r : callback_result)
    (hcb : cb = directive_callback.directive_callback_byte ∨
      cb = directive_callback.directive_callback_word ∨
      cb = directive_callback.directive_callback_resb ∨
      cb = directive_callback.directive_callback_resw)
    (hcall : callDirective f cb st operand save1 = some r) (hok : r.status = DCS_OKAY)
    (hlc : st.locCounter ≤ SIC_MEMORY_LIMIT)
    (hlen : ∀ o, operand = some o → o.length ≤ 1023) :
    st.startAddress ≠ SIC_NOT_SET_SENTINEL ∧ OperandAccepted cb operand ∧
    st.locCounter + directiveSize cb operand ≤ SIC_MEMORY_LIMIT ∧
    r.symbolTable = { st with locCounter := st.locCounter + directiveSize cb operand } := by
  have hL : SIC_MEMORY_LIMIT = 32767 := rfl
  have hU : UINT32_MOD = 4294967296 := rfl
  have hW : SIC_WORD_BYTES = 3 := rfl
  rcases hcb with rfl | rfl | rfl | rfl
  · -- BYTE
    simp only [callDirective, Option.some.injEq] at hcall
    subst hcall
    obtain ⟨hs, o, content, fromQuote, ho, hcx, hq, hchr, hx, hlim, hst⟩ :=
      directive_callback_byte_ok _ _ _ hok
    subst ho
    have hc := strchr_content _ _ _ _ hchr
    have hbc : byteContent o = content := by rw [hc]; rfl
    have hacc : OperandAccepted directive_callback.directive_callback_byte (some o) := by
      refine ⟨hcx, hq, ?_, ?_⟩
      · unfold strchr at hchr
        split at hchr
        · assumption
        · simp at hchr
      · rw [hbc]; exact hx
    have hol := hlen o rfl
    have hcl : content.length ≤ 1023 := by
      rw [← hbc]; exact le_trans (byteContent_length o) hol
    have hsz : directiveSize directive_callback.directive_callback_byte (some o)
        = (if o.head? = some 'X' then content.length / 2 else content.length) := by
      simp only [directiveSize, hbc]
    rw [hsz]
    generalize hadv : (if o.head? = some 'X' then content.length / 2 else content.length) = adv
      at hlim hst
    have hadv_le : adv ≤ 1023 := by
      rw [← hadv]; split <;> omega
    have hmod : (st.locCounter + adv) % UINT32_MOD = st.locCounter + adv := by
      apply Nat.mod_eq_of_lt; omega
    rw [hmod] at hlim hst
    exact ⟨hs, hacc, hlim, hst⟩
  · -- WORD
    simp only [callDirective, Option.some.injEq] at hcall
    subst hcall
    obtain ⟨hs, hlim, ⟨t, c, ho, hc⟩, hst⟩ := directive_callback_word_ok _ _ _ hok
    have hacc : OperandAccepted directive_callback.directive_callback_word operand := by
      subst ho
      simp only [OperandAccepted, hc]
    have hmod : (st.locCounter + SIC_WORD_BYTES) % UINT32_MOD = st.locCounter + SIC_WORD_BYTES := by
      apply Nat.mod_eq_of_lt; omega
    rw [hmod] at hlim hst
    have hsz : directiveSize directive_callback.directive_callback_word operand = SIC_WORD_BYTES := by
      cases operand <;> rfl
    rw [hsz]
    exact ⟨hs, hacc, hlim, hst⟩
  · -- RESB
    simp only [callDirective, Option.some.injEq] at hcall
    subst hcall
    obtain ⟨hs, t, c, ho, hc, h0, hlim, hst⟩ := directive_callback_resb_ok _ _ _ hok
    subst ho
    obtain ⟨hcv, _, hcmax⟩ := getConstant_ok _ _ _ hc
    have hM : SIC_INTEGER_MAX = 8388607 := rfl
    have hsz : directiveSize directive_callback.directive_callback_resb (some t) = c.toNat := by
      simp only [directiveSize, hcv]
    have hcn : (c.toNat : Int) = c := Int.toNat_of_nonneg h0
    have hval : toUInt32 ((st.locCounter : Int) + c * (SIC_BYTE : Int)) = st.locCounter + c.toNat := by
      have : (st.locCounter : Int) + c * (SIC_BYTE : Int) = ((st.locCounter + c.toNat : Nat) : Int) := by
        simp only [SIC_BYTE]; push_cast; omega
      rw [this]
      apply toUInt32_of_small
      omega
    rw [hval] at hlim hst
    rw [hsz]
    refine ⟨hs, ?_, hlim, hst⟩
    simp only [OperandAccepted, hc, true_and]
    rw [← hcv]; exact h0
  · -- RESW
    simp only [callDirective, Option.some.injEq] at hcall
    subst hcall
    obtain ⟨hs, t, c, ho, hc, h0, hlim, hst⟩ := directive_callback_resw_ok _ _ _ hok
    subst ho
    obtain ⟨hcv, _, hcmax⟩ := getConstant_ok _ _ _ hc
    have hM : SIC_INTEGER_MAX = 8388607 := rfl
    have hsz : directiveSize directive_callback.directive_callback_resw (some t)
        = c.toNat * SIC_WORD_BYTES := by
      simp only [directiveSize, hcv]
    have hcn : (c.toNat : Int) = c := Int.toNat_of_nonneg h0
    have hval : toUInt32 ((st.locCounter : Int) + c * (SIC_WORD_BYTES : Int))
        = st.locCounter + c.toNat * SIC_WORD_BYTES := by
      have : (st.locCounter : Int) + c * (SIC_WORD_BYTES : Int)
          = ((st.locCounter + c.toNat * SIC_WORD_BYTES : Nat) : Int) := by
        simp only [SIC_WORD_BYTES]; push_cast; omega
      rw [this]
      apply toUInt32_of_small
      simp only [SIC_WORD_BYTES]
      omega
    rw [hval] at hlim hst
    rw [hsz]
    refine ⟨hs, ?_, hlim, hst⟩
    simp only [OperandAccepted, hc, true_and]
    rw [← hcv]; exact h0


theorem classifyLine_save_length (f : Nat) (dt : hash_table directive_callback)
    (ot : hash_table sic_optable_values) (line : Str) :
    (∀ sym token cb save, classifyLine f dt ot line = some (line_kind.directive sym token cb save) →
      save.length ≤ line.length) ∧
    (∀ sym op save, classifyLine f dt ot line = some (line_kind.instruction sym op save) →
      save.length ≤ line.length) := by
  have h1 := strtok_save_length line SIC_TOKEN_DELIMITERS
  have h2 := strtok_save_length (strtok line SIC_TOKEN_DELIMITERS).2 SIC_TOKEN_DELIMITERS
  constructor
  · intro sym token cb save h
    unfold classifyLine at h
    repeat' (first | (simp at h; done) | split at h)
    all_goals
      simp only [Option.some.injEq, line_kind.directive.injEq] at h
      obtain ⟨_, _, _, hs⟩ := h
      subst hs
      omega
  · intro sym op save h
    unfold classifyLine at h
    repeat' (first | (simp at h; done) | split at h)
    all_goals
      simp only [Option.some.injEq, line_kind.instruction.injEq] at h
      obtain ⟨_, _, hs⟩ := h
      subst hs
      omega

theorem Inv1_started (st : pass1_state) (hinv : Inv1 st)
    (hs : st.symTab.startAddress ≠ SIC_NOT_SET_SENTINEL) :
    st.symTab.startAddress ≤ SIC_MEMORY_LIMIT ∧ st.startSeen = true ∧
    st.symTab.startAddress ≤ st.symTab.locCounter ∧ st.symTab.locCounter ≤ SIC_MEMORY_LIMIT ∧
    (st.symTab.endAddress = SIC_NOT_SET_SENTINEL ∨ st.symTab.endAddress = SIC_SEEN_SENTINEL ∨
      st.symTab.endAddress ≤ SIC_MEMORY_LIMIT) ∧
    ∀ k v, Bound st.symTab.ht k v → st.symTab.startAddress ≤ v ∧ v ≤ st.symTab.locCounter := by
  rcases hinv.2 with h | h
  · exact absurd h.1 hs
  · exact h

theorem Inv1_not_started (st : pass1_state) (hinv : Inv1 st)
    (hs : st.symTab.startAddress = SIC_NOT_SET_SENTINEL) :
    st.startSeen = false ∧ st.symTab.endAddress = SIC_NOT_SET_SENTINEL ∧
    ∀ k v, ¬ Bound st.symTab.ht k v := by
  rcases hinv.2 with h | h
  · exact h.2
  · have := h.1
    rw [hs] at this
    simp [SIC_NOT_SET_SENTINEL, SIC_MEMORY_LIMIT] at this

/-- Pass one accepts a line only as a comment, a directive line or an
instruction line; from a state that satisfies the loop invariant the new
state is the one `Pass1Step` describes. -/
theorem firstPassLine_step (f : Nat) (dt : hash_table directive_callback)
    (ot : hash_table sic_optable_values) (st st' : pass1_state) (line : Str)
    (hinv : Inv1 st) (hlen : line.length ≤ 1023)
    (h : firstPassLine f dt ot st line = ok st') :
    ∃ kind, classifyLine f dt ot line = some kind ∧ Pass1Step f st st' kind := by
  obtain ⟨kind, hk, heff⟩ := firstPassLine_ok f dt ot st st' line h
  refine ⟨kind, hk, ?_⟩
  have hL : SIC_MEMORY_LIMIT = 32767 := rfl
  have hN : SIC_NOT_SET_SENTINEL = 4294967295 := rfl
  cases kind with
  | empty => exact heff
  | comment => exact heff
  | unknown s => exact heff
  | directive sym token cb save =>
    obtain ⟨hfresh, save1, r, ht', hcall, hok, hins, hst'⟩ := heff
    have hsl := (classifyLine_save_length f dt ot line).1 _ _ _ _ hk
    have holen : ∀ o, directiveOperand token save sym.isSome = some o → o.length ≤ 1023 :=
      fun o ho => le_trans (directiveOperand_length _ _ _ _ ho) (le_trans hsl hlen)
    have hdata : ∀ cb', cb = cb' →
        (cb' = directive_callback.directive_callback_byte ∨
          cb' = directive_callback.directive_callback_word ∨
          cb' = directive_callback.directive_callback_resb ∨
          cb' = directive_callback.directive_callback_resw) →
        st.symTab.startAddress ≠ SIC_NOT_SET_SENTINEL ∧
        OperandAccepted cb' (directiveOperand token save sym.isSome) ∧
        LabelInserted f sym st.symTab.locCounter st.symTab.ht ht' ∧
        st.symTab.locCounter + directiveSize cb' (directiveOperand token save sym.isSome)
          ≤ SIC_MEMORY_LIMIT ∧
        st' = { symTab :=
                  { startAddress := st.symTab.startAddress, endAddress := st.symTab.endAddress,
                    locCounter := st.symTab.locCounter +
                      directiveSize cb' (directiveOperand token save sym.isSome),
                    ht := ht' },
                startSeen := true } := by
      intro cb' hcb hcases
      subst hcb
      have hlc : st.symTab.locCounter ≤ SIC_MEMORY_LIMIT := by
        rcases hinv.2 with hh | hh
        · -- not started: the callback fails
          exfalso
          have hns := hh.1
          rcases hcases with rfl | rfl | rfl | rfl
          · simp only [callDirective, Option.some.injEq] at hcall
            subst hcall
            exact (directive_callback_byte_ok _ _ _ hok).1 hns
          · simp only [callDirective, Option.some.injEq] at hcall
            subst hcall
            exact (directive_callback_word_ok _ _ _ hok).1 hns
          · simp only [callDirective, Option.some.injEq] at hcall
            subst hcall
            exact (directive_callback_resb_ok _ _ _ hok).1 hns
          · simp only [callDirective, Option.some.injEq] at hcall
            subst hcall
            exact (directive_callback_resw_ok _ _ _ hok).1 hns
        · exact hh.2.2.2.1
      obtain ⟨hs, hacc, hle, hr⟩ :=
        callDirective_data_ok f cb st.symTab _ save1 r hcases hcall hok hlc holen
      obtain ⟨_, hss, _, _, _, _⟩ := Inv1_started st hinv hs
      rw [hr] at hins hst'
      simp only [hss, Bool.true_eq_false, and_false, if_false] at hins hst'
      exact ⟨hs, hacc, hins, hle, hst'⟩
    refine ⟨hfresh, ht', ?_⟩
    cases cb with
    | directive_callback_start =>
      simp only [callDirective, Option.some.injEq] at hcall
      subst hcall
      obtain ⟨hs, s, hsle, hr⟩ := directive_callback_start_ok _ _ _ hok
      obtain ⟨hss, _, _⟩ := Inv1_not_started st hinv hs
      rw [hr] at hins hst'
      have hsne : s ≠ SIC_NOT_SET_SENTINEL := by omega
      simp only [hss, ne_eq, hsne, not_false_eq_true, and_self, if_true] at hins hst'
      exact ⟨hs, s, hsle, hins, hst'⟩
    | directive_callback_end =>
      simp only [callDirective] at hcall
      obtain ⟨hs, he, hcase⟩ := directive_callback_end_ok _ _ _ _ _ hcall hok
      obtain ⟨_, hss, _, hlc, _, hb⟩ := Inv1_started st hinv hs
      have hr : ∃ e, EndValue f st.symTab.ht (directiveOperand token save sym.isSome) e ∧
          r.symbolTable = { st.symTab with endAddress := e } := by
        rcases hcase with ⟨hop, hr⟩ | ⟨S, a, hop, hget, hr⟩
        · exact ⟨_, Or.inl ⟨hop, rfl⟩, hr⟩
        · refine ⟨a, Or.inr ⟨S, a, hop, hget, rfl⟩, ?_⟩
          have hba := (hb S a (Bound_of_getKVPair _ _ _ _ hget)).2
          have : toUInt32 (toInt32 (a : Int)) = a := by
            rw [toInt32_of_small _ (by omega) (by omega)]
            exact toUInt32_of_small _ (by omega)
          rw [this] at hr
          exact hr
      obtain ⟨e, hev, hr⟩ := hr
      rw [hr] at hins hst'
      simp only [hss, Bool.true_eq_false, and_false, if_false] at hins hst'
      exact ⟨hs, he, hins, e, hev, hst'⟩
    | directive_callback_byte => exact hdata _ rfl (Or.inl rfl)
    | directive_callback_word => exact hdata _ rfl (Or.inr (Or.inl rfl))
    | directive_callback_resb => exact hdata _ rfl (Or.inr (Or.inr (Or.inl rfl)))
    | directive_callback_resw => exact hdata _ rfl (Or.inr (Or.inr (Or.inr rfl)))
    | directive_callback_resr =>
      simp only [callDirective, Option.some.injEq] at hcall
      subst hcall
      exact directive_callback_resr_not_ok _ _ _ hok
    | directive_callback_exports =>
      simp only [callDirective, Option.some.injEq] at hcall
      subst hcall
      exact directive_callback_exports_not_ok _ _ _ hok
  | instruction sym op save =>
    obtain ⟨hfresh, symTab1, ht', hh, hins, hst'⟩ := heff
    obtain ⟨hs, he, hlim, hr⟩ := firstPassInstructionHelper_ok _ _ _ _ _ _ _ _ hh
    obtain ⟨_, _, _, hlc, _, _⟩ := Inv1_started st hinv hs
    have hmod : (st.symTab.locCounter + SIC_WORD_BYTES) % UINT32_MOD
        = st.symTab.locCounter + SIC_WORD_BYTES := by
      apply Nat.mod_eq_of_lt
      simp only [SIC_WORD_BYTES, UINT32_MOD]; omega
    rw [hmod] at hlim hr
    rw [hr] at hins hst'
    exact ⟨hfresh, hs, he, ht', hins, hlim, hst'⟩

theorem LabelInserted_ok (f : Nat) (sym : Option Str) (addr : Nat) (ht ht' : hash_table Nat)
    (hwf : WF ht) (h : LabelInserted f sym addr ht ht') :
    WF ht' ∧ ∀ k v, Bound ht' k v ↔ (sym = some k ∧ v = addr) ∨ Bound ht k v := by
  cases sym with
  | none =>
    simp only [LabelInserted] at h
    subst h
    exact ⟨hwf, by simp⟩
  | some L =>
    simp only [LabelInserted] at h
    obtain ⟨h1, h2, _⟩ := insertKVPair_ok _ _ _ _ _ hwf h
    refine ⟨h1, ?_⟩
    intro k v
    rw [h2]
    simp only [Option.some.injEq]
    constructor
    · rintro (⟨rfl, rfl⟩ | hb)
      · exact Or.inl ⟨rfl, rfl⟩
      · exact Or.inr hb
    · rintro (⟨rfl, rfl⟩ | hb)
      · exact Or.inl ⟨rfl, rfl⟩
      · exact Or.inr hb

/-- The loop invariant of pass one is kept by every accepted line. -/
theorem Inv1_step (f : Nat) (st st' : pass1_state) (kind : line_kind) (hinv : Inv1 st)
    (h : Pass1Step f st st' kind) : Inv1 st' := by
  have hL : SIC_MEMORY_LIMIT = 32767 := rfl
  have hN : SIC_NOT_SET_SENTINEL = 4294967295 := rfl
  cases kind with
  | empty => exact absurd h id
  | unknown s => exact absurd h id
  | comment =>
    simp only [Pass1Step] at h
    subst h; exact hinv
  | directive sym token cb save =>
    obtain ⟨_, ht', h⟩ := h
    cases cb with
    | directive_callback_start =>
      obtain ⟨hs, s, hsle, hins, hst'⟩ := h
      obtain ⟨_, he, hnb⟩ := Inv1_not_started st hinv hs
      obtain ⟨hwf', hb'⟩ := LabelInserted_ok _ _ _ _ _ hinv.1 hins
      subst hst'
      refine ⟨hwf', Or.inr ⟨hsle, rfl, le_refl _, hsle, Or.inl he, ?_⟩⟩
      intro k v hb
      rcases (hb' k v).mp hb with ⟨_, rfl⟩ | hb
      · exact ⟨le_refl _, le_refl _⟩
      · exact absurd hb (hnb k v)
    | directive_callback_end =>
      obtain ⟨hs, he, hins, e, hev, hst'⟩ := h
      obtain ⟨h1, _, h3, h4, _, h6⟩ := Inv1_started st hinv hs
      obtain ⟨hwf', hb'⟩ := LabelInserted_ok _ _ _ _ _ hinv.1 hins
      subst hst'
      refine ⟨hwf', Or.inr ⟨h1, rfl, h3, h4, ?_, ?_⟩⟩
      · rcases hev with ⟨_, rfl⟩ | ⟨S, a, _, hget, rfl⟩
        · exact Or.inr (Or.inl rfl)
        · have := (h6 S e (Bound_of_getKVPair _ _ _ _ hget)).2
          exact Or.inr (Or.inr (le_trans this h4))
      · intro k v hb
        rcases (hb' k v).mp hb with ⟨_, rfl⟩ | hb
        · exact ⟨h3, le_refl _⟩
        · exact h6 k v hb
    | directive_callback_resr => exact absurd h id
    | directive_callback_exports => exact absurd h id
    | directive_callback_byte | directive_callback_word | directive_callback_resb
    | directive_callback_resw =>
      obtain ⟨hs, _, hins, hle, hst'⟩ := h
      obtain ⟨h1, _, h3, h4, h5, h6⟩ := Inv1_started st hinv hs
      obtain ⟨hwf', hb'⟩ := LabelInserted_ok _ _ _ _ _ hinv.1 hins
      subst hst'
      refine ⟨hwf', Or.inr ⟨h1, rfl, ?_, hle, h5, ?_⟩⟩
      · exact le_trans h3 (Nat.le_add_right _ _)
      · intro k v hb
        rcases (hb' k v).mp hb with ⟨_, rfl⟩ | hb
        · exact ⟨h3, Nat.le_add_right _ _⟩
        · exact ⟨(h6 k v hb).1, le_trans (h6 k v hb).2 (Nat.le_add_right _ _)⟩
  | instruction sym op save =>
    obtain ⟨_, hs, he, ht', hins, hle, hst'⟩ := h
    obtain ⟨h1, h2, h3, h4, h5, h6⟩ := Inv1_started st hinv hs
    obtain ⟨hwf', hb'⟩ := LabelInserted_ok _ _ _ _ _ hinv.1 hins
    subst hst'
    refine ⟨hwf', Or.inr ⟨h1, h2, ?_, hle, h5, ?_⟩⟩
    · exact le_trans h3 (Nat.le_add_right _ _)
    · intro k v hb
      rcases (hb' k v).mp hb with ⟨_, rfl⟩ | hb
      · exact ⟨h3, Nat.le_add_right _ _⟩
      · exact ⟨(h6 k v hb).1, le_trans (h6 k v hb).2 (Nat.le_add_right _ _)⟩

theorem Inv1_init : Inv1 pass1_init := by
  refine ⟨WF_createHashTable 0, Or.inl ⟨rfl, rfl, rfl, ?_⟩⟩
  intro k v
  exact not_Bound_createHashTable 0 k v

/-- The loop invariant holds after the line loop of pass one. -/
theorem firstPassLoop_Inv1 (f : Nat) (dt : hash_table directive_callback)
    (ot : hash_table sic_optable_values) :
    ∀ (lines : List Str) (st st' : pass1_state), Inv1 st → (∀ l ∈ lines, l.length ≤ 1023) →
      firstPassLoop f dt ot lines st = ok st' → Inv1 st' := by
  intro lines
  induction lines with
  | nil =>
    intro st st' hinv _ h
    simp only [firstPassLoop, ok.injEq] at h
    subst h; exact hinv
  | cons l rest ih =>
    intro st st' hinv hlen h
    simp only [firstPassLoop] at h
    split at h
    · rename_i st1 hl
      obtain ⟨kind, _, hstep⟩ := firstPassLine_step f dt ot st st1 l hinv
        (hlen l (List.mem_cons_self _ _)) hl
      exact ih st1 st' (Inv1_step f st st1 kind hinv hstep)
        (fun l' hl' => hlen l' (List.mem_cons_of_mem _ hl')) h
    · simp at h
    · simp at h

/-- The symbol table pass one returns satisfies the loop invariant, and START
and END have been seen. -/
theorem buildSymbolTable_Inv1 (f : Nat) (src : Str) (dt : hash_table directive_callback)
    (ot : hash_table sic_optable_values) (symTab : symbol_table)
    (h : buildSymbolTable f src dt ot = ok symTab) :
    ∃ st, firstPassLoop f dt ot (readLines src) pass1_init = ok st ∧ st.symTab = symTab ∧
      Inv1 st ∧ symTab.endAddress ≠ SIC_NOT_SET_SENTINEL ∧
      symTab.startAddress ≠ SIC_NOT_SET_SENTINEL := by
  unfold buildSymbolTable at h
  split at h
  · rename_i st hl
    split at h
    · simp at h
    · rename_i he
      simp only [ok.injEq] at h
      have hinv := firstPassLoop_Inv1 f dt ot _ _ _ Inv1_init (fun l hl => readLines_length src l hl) hl
      refine ⟨st, hl, h, hinv, by rw [← h]; exact he, ?_⟩
      intro hs
      rw [← h] at hs
      exact he (Inv1_not_started st hinv hs).2.1
  · simp at h
  · simp at h


/-! ## Pass two: the BYTE record loops -/

theorem range_succ_map {α : Type} (m : Nat) (g : Nat → α) :
    (List.range (m + 1)).map g = g 0 :: (List.range m).map (fun i => g (i + 1)) := by
  rw [List.range_succ_eq_map]
  simp [List.map_map, Function.comp_def]

/-- The records of a constant longer than 30 bytes: the first record, then
the records of the rest. -/
theorem byteChunks_long (hex : Bool) (content : Str) (a : Nat)
    (hn : 30 < byteCount hex content)
    (hrest : byteCount hex (content.drop (if hex then 60 else 30)) = byteCount hex content - 30) :
    byteChunks hex content a
      = { magicChar := 'T', startAddr := printfHex 6 a, lengthOfObj := printfHex 2 30,
          objectCode := if hex then content.take 60
            else asciiToHexLoop (content.take 30) 0 [] }
        :: byteChunks hex (content.drop (if hex then 60 else 30)) (a + 30) := by
  unfold byteChunks
  rw [hrest]
  have hnn : (byteCount hex content + 29) / 30 = (byteCount hex content - 30 + 29) / 30 + 1 := by
    omega
  rw [hnn, range_succ_map]
  congr 1
  · simp only [byteChunk, Nat.mul_zero, Nat.add_zero, List.drop_zero, Nat.sub_zero]
    have : min 30 (byteCount hex content) = 30 := by omega
    rw [this]
  · apply List.map_congr_left
    intro i _
    simp only [byteChunk, List.drop_drop]
    have e1 : a + 30 + 30 * i = a + 30 * (i + 1) := by ring
    have e2 : byteCount hex content - 30 - 30 * i = byteCount hex content - 30 * (i + 1) := by
      omega
    rw [e1, e2]
    cases hex
    · simp only [Bool.false_eq_true, if_false]
      have e3 : 30 + 30 * i = 30 * (i + 1) := by ring
      rw [e3]
    · simp only [if_true]
      have e3 : 60 + 60 * i = 60 * (i + 1) := by ring
      rw [e3]

/-- The records of a constant of 1 to 30 bytes: one record. -/
theorem byteChunks_short (hex : Bool) (content : Str) (a : Nat)
    (h0 : 0 < byteCount hex content) (hn : byteCount hex content ≤ 30) :
    byteChunks hex content a
      = [{ magicChar := 'T', startAddr := printfHex 6 a,
           lengthOfObj := printfHex 2 (byteCount hex content),
           objectCode := if hex then content.take 60
             else asciiToHexLoop (content.take 30) 0 [] }] := by
  unfold byteChunks
  have hnn : (byteCount hex content + 29) / 30 = 0 + 1 := by omega
  rw [hnn, range_succ_map]
  simp only [List.range_zero, List.map_nil, byteChunk, Nat.mul_zero, Nat.add_zero,
    List.drop_zero, Nat.sub_zero]
  have : min 30 (byteCount hex content) = byteCount hex content := by omega
  rw [this]

theorem byteChunks_nil (hex : Bool) (content : Str) (a : Nat) (h0 : byteCount hex content = 0) :
    byteChunks hex content a = [] := by
  unfold byteChunks
  rw [h0]
  rfl

/-- The hex loop appends the records of `byteChunks`. -/
theorem byteHexLoop_nodes : ∀ (k : Nat) (content : Str) (a : Nat)
    (texts : linked_list sic_scoff_text),
    content.length ≤ k → content.length % 2 = 0 → a + content.length / 2 < UINT32_MOD →
    (byteHexLoop k content content.length a texts).nodes
      = texts.nodes ++ byteChunks true content a := by
  intro k
  induction k with
  | zero =>
    intro content a texts hk _ _
    have : content = [] := List.length_eq_zero.mp (by omega)
    subst this
    simp [byteHexLoop, byteChunks, byteCount]
  | succ k ih =>
    intro content a texts hk hev hw
    have hU : UINT32_MOD = 4294967296 := rfl
    simp only [byteHexLoop, SCOFF_TEXT_OBJ_CODE_LEN, SIC_CHARACTERS_PER_BYTE,
      SCOFF_TEXT_ADDR_LEN, SCOFF_TEXT_SIZE_LEN]
    by_cases h0 : content.length = 0
    · rw [if_pos h0, byteChunks_nil true content a (by simp [byteCount, h0])]
      simp
    · rw [if_neg h0]
      by_cases hbig : content.length > 60
      · rw [if_pos hbig]
        have hdl : (content.drop 60).length = content.length - 60 := by simp
        have hmod : (a + 60 / 2) % UINT32_MOD = a + 30 := by
          apply Nat.mod_eq_of_lt; omega
        rw [hmod, ← hdl]
        rw [ih (content.drop 60) (a + 30) _ (by rw [hdl]; omega) (by rw [hdl]; omega)
          (by rw [hdl]; omega)]
        rw [byteChunks_long true content a (by simp only [byteCount, if_true]; omega)
          (by simp only [byteCount, if_true, hdl]; omega)]
        simp only [addToList, List.append_assoc, List.singleton_append, createTextRecord, if_true]
      · rw [if_neg hbig]
        have hdl : (content.drop content.length).length = content.length - content.length := by
          simp
        have hmod : (a + content.length / 2) % UINT32_MOD = a + content.length / 2 := by
          apply Nat.mod_eq_of_lt; omega
        rw [hmod, ← hdl]
        rw [ih (content.drop content.length) _ _ (by rw [hdl]; omega) (by rw [hdl]; omega)
          (by rw [hdl]; omega)]
        rw [byteChunks_short true content a (by simp only [byteCount, if_true]; omega)
          (by simp only [byteCount, if_true]; omega)]
        rw [byteChunks_nil true (content.drop content.length) _ (by simp [byteCount])]
        simp only [addToList, List.append_assoc, List.singleton_append, createTextRecord, if_true,
          List.append_nil, byteCount]
        have ht : content.take 60 = content.take content.length := by
          rw [List.take_of_length_le (by omega), List.take_of_length_le (le_refl _)]
        rw [ht]

/-- The character loop appends the records of `byteChunks`. -/
theorem byteCharLoop_nodes : ∀ (k : Nat) (content : Str) (a : Nat)
    (texts : linked_list sic_scoff_text),
    content.length ≤ k → a + content.length < UINT32_MOD →
    (byteCharLoop k content content.length a texts).nodes
      = texts.nodes ++ byteChunks false content a := by
  intro k
  induction k with
  | zero =>
    intro content a texts hk _
    have : content = [] := List.length_eq_zero.mp (by omega)
    subst this
    simp [byteCharLoop, byteChunks, byteCount]
  | succ k ih =>
    intro content a texts hk hw
    have hU : UINT32_MOD = 4294967296 := rfl
    simp only [byteCharLoop, SCOFF_TEXT_OBJ_CODE_LEN, SIC_CHARACTERS_PER_BYTE,
      SCOFF_TEXT_ADDR_LEN, SCOFF_TEXT_SIZE_LEN, ASCIIToHexConvertion,
      show (60 / 2 : Nat) = 30 from rfl]
    by_cases h0 : content.length = 0
    · rw [if_pos h0, byteChunks_nil false content a (by simp [byteCount, h0])]
      simp
    · rw [if_neg h0]
      by_cases hbig : content.length > 30
      · rw [if_pos hbig]
        have hdl : (content.drop 30).length = content.length - 30 := by simp
        have hmod : (a + 30) % UINT32_MOD = a + 30 := by
          apply Nat.mod_eq_of_lt; omega
        rw [hmod, ← hdl]
        rw [ih (content.drop 30) (a + 30) _ (by rw [hdl]; omega) (by rw [hdl]; omega)]
        rw [byteChunks_long false content a (by simp only [byteCount]; simpa using hbig)
          (by simp [byteCount])]
        simp only [addToList, List.append_assoc, List.singleton_append, createTextRecord,
          Bool.false_eq_true, if_false]
      · rw [if_neg hbig]
        have hdl : (content.drop content.length).length = content.length - content.length := by
          simp
        have hmod : (a + content.length) % UINT32_MOD = a + content.length := by
          apply Nat.mod_eq_of_lt; omega
        rw [hmod, ← hdl]
        rw [ih (content.drop content.length) _ _ (by rw [hdl]; omega) (by rw [hdl]; omega)]
        rw [byteChunks_short false content a (by simp only [byteCount]; simp; omega)
          (by simp only [byteCount]; simp; omega)]
        rw [byteChunks_nil false (content.drop content.length) _ (by simp [byteCount])]
        simp only [addToList, List.append_assoc, List.singleton_append, createTextRecord,
          Bool.false_eq_true, if_false, List.append_nil, byteCount]
        have ht : content.take 30 = content.take content.length := by
          rw [List.take_of_length_le (by omega), List.take_of_length_le (le_refl _)]
        rw [ht]


/-! ## Pass two: what a line did -/

theorem secondPassInstructionHelper_ok (f : Nat) (symTab : symbol_table)
    (opcode : sic_optable_values) (record : sic_scoff_records) (lc : Nat) (save : Str)
    (st' : pass2_state)
    (h : secondPassInstructionHelper f symTab opcode record lc save = ok st') :
    st'.symTab = (if symTab.endAddress = SIC_SEEN_SENTINEL
      then { symTab with endAddress := lc } else symTab) ∧
    st'.locCounter = (lc + 3) % UINT32_MOD ∧
    st'.records.header = record.header ∧ st'.records.end_ = record.end_ ∧
    (∃ payload, st'.records.texts.nodes = record.texts.nodes ++
      [{ magicChar := 'T', startAddr := printfHex 6 lc,
         lengthOfObj := printfHex 2 3, objectCode := payload }]) ∧
    st'.records.modifications.nodes = record.modifications.nodes ++
      (if opcode.numOperands.val = 0 then []
       else [{ magicChar := 'M', startAddr := printfHex 6 ((lc + 1) % UINT32_MOD),
               lenOfModificationHB := printfHex 2 6, modificationFlag := '+',
               symbolName := record.header.programName }]) := by
  unfold secondPassInstructionHelper at h
  simp only at h
  split at h
  · rename_i h0
    simp only [ok.injEq] at h
    subst h
    refine ⟨rfl, rfl, rfl, rfl, ⟨_, rfl⟩, ?_⟩
    simp [h0]
  · rename_i h0
    split at h
    · simp at h
    · rename_i tok htok
      split at h
      · simp at h
      · simp at h
      · rename_i addr hget
        simp only [ok.injEq] at h
        subst h
        refine ⟨rfl, rfl, rfl, rfl, ⟨_, rfl⟩, ?_⟩
        simp only [h0, if_false, addToList, createModificationRecord]
        rfl

/-- Pass two accepts a line as a comment, a directive line, an instruction
line or a line it does not recognise, and then did what `Pass2Effect` says. -/
theorem secondPassLine_ok (f : Nat) (dt : hash_table directive_callback)
    (ot : hash_table sic_optable_values) (st st' : pass2_state) (line : Str)
    (h : secondPassLine f dt ot st line = ok st') :
    ∃ kind, classifyLine f dt ot line = some kind ∧ Pass2Effect f st st' kind := by
  have hdir : ∀ (token : Str) (symbol : Option Str) (save : Str),
      (match secondPassDirectiveHelper st.symTab token symbol st.records st.locCounter save with
        | ok (records1, lc1) => ok { st with records := records1, locCounter := lc1 }
        | error e => error e
        | undefined => (undefined : pass_result pass2_state)) = ok st' →
      ∃ recs lc, secondPassDirectiveHelper st.symTab token symbol st.records st.locCounter save
          = ok (recs, lc) ∧ st' = { st with records := recs, locCounter := lc } := by
    intro token symbol save hm
    split at hm
    · rename_i r l hh
      simp only [ok.injEq] at hm
      exact ⟨r, l, hh, hm.symm⟩
    · simp at hm
    · simp at hm
  unfold secondPassLine at h
  unfold classifyLine
  rcases htok : strtok line SIC_TOKEN_DELIMITERS with ⟨tok, save⟩
  rw [htok] at h
  simp only at h ⊢
  cases tok with
  | none => simp at h
  | some token =>
    simp only at h ⊢
    by_cases hc : checkComment token = true
    · simp only [hc, if_true, ok.injEq] at h ⊢
      exact ⟨_, rfl, h.symm⟩
    · simp only [hc, Bool.false_eq_true, if_false] at h ⊢
      cases hd : getKVPair f dt (some token) with
      | none => rw [hd] at h; simp at h
      | some od =>
        rw [hd] at h
        cases od with
        | some cb =>
          simp only at h ⊢
          exact ⟨_, rfl, hdir _ _ _ h⟩
        | none =>
          simp only at h ⊢
          cases ho : getKVPair f ot (some token) with
          | none => rw [ho] at h; simp at h
          | some oo =>
            rw [ho] at h
            cases oo with
            | some opcode =>
              simp only at h ⊢
              exact ⟨_, rfl, h⟩
            | none =>
              simp only at h ⊢
              rcases htok2 : strtok save SIC_TOKEN_DELIMITERS with ⟨token2, save2⟩
              rw [htok2] at h
              simp only at h ⊢
              cases hd2 : getKVPair f dt token2 with
              | none => rw [hd2] at h; simp at h
              | some od2 =>
                rw [hd2] at h
                cases od2 with
                | some cb =>
                  simp only at h ⊢
                  exact ⟨_, rfl, hdir _ _ _ h⟩
                | none =>
                  simp only at h ⊢
                  cases ho2 : getKVPair f ot token2 with
                  | none => rw [ho2] at h; simp at h
                  | some oo2 =>
                    rw [ho2] at h
                    cases oo2 with
                    | some opcode =>
                      simp only at h ⊢
                      exact ⟨_, rfl, h⟩
                    | none =>
                      simp only [ok.injEq] at h ⊢
                      exact ⟨_, rfl, h.symm⟩

/-- A directive line is recognised by one of the eight keys of the directive
table, and carries the handler stored under that key. -/
theorem classifyLine_directive_entry (f : Nat) (ot : hash_table sic_optable_values) (line : Str)
    (sym : Option Str) (token : Str) (cb : directive_callback) (save : Str)
    (h : classifyLine f directiveTable ot line = some (line_kind.directive sym token cb save)) :
    (token, cb) ∈ directiveEntries := by
  unfold classifyLine at h
  split at h
  · simp at h
  · rename_i tok htok
    split at h
    · simp at h
    · split at h
      · simp at h
      · rename_i cb' hget
        simp only [Option.some.injEq, line_kind.directive.injEq] at h
        obtain ⟨_, rfl, rfl, _⟩ := h
        exact (Bound_directiveTable _ _).mp (Bound_of_getKVPair _ _ _ _ hget)
      · split at h
        · simp at h
        · simp at h
        · split at h
          · simp at h
          · rename_i cb' hget
            simp only [Option.some.injEq, line_kind.directive.injEq] at h
            obtain ⟨_, rfl, rfl, _⟩ := h
            cases htok2 : (strtok (strtok line SIC_TOKEN_DELIMITERS).2 SIC_TOKEN_DELIMITERS).1 with
            | none => rw [htok2] at hget; simp [getKVPair] at hget
            | some t2 =>
              rw [htok2] at hget
              simp only [Option.getD_some]
              exact (Bound_directiveTable _ _).mp (Bound_of_getKVPair _ _ _ _ hget)
          · split at h <;> simp at h

theorem secondPass_START (symTab : symbol_table) (sym : Option Str) (record : sic_scoff_records)
    (lc : Nat) (save : Str) (r : sic_scoff_records × Nat)
    (h : secondPassDirectiveHelper symTab "START".toList sym record lc save = ok r) :
    ∃ L, sym = some L ∧ r.2 = lc ∧ r.1.texts = record.texts ∧
      r.1.modifications = record.modifications ∧ r.1.end_ = record.end_ ∧
      r.1.header =
        { magicChar := record.header.magicChar,
          programName := printfLeft 6 L,
          startAddr := printfHex 6 symTab.startAddress,
          lengthOfProgram := printfHex 6
            (toUInt32 ((symTab.locCounter : Int) - (symTab.startAddress : Int))) } := by
  unfold secondPassDirectiveHelper at h
  rw [if_pos rfl] at h
  split at h
  · simp at h
  · rename_i L
    simp only [ok.injEq] at h
    subst h
    exact ⟨L, rfl, rfl, rfl, rfl, rfl, rfl⟩

theorem secondPass_END (symTab : symbol_table) (sym : Option Str) (record : sic_scoff_records)
    (lc : Nat) (save : Str) (r : sic_scoff_records × Nat)
    (h : secondPassDirectiveHelper symTab "END".toList sym record lc save = ok r) :
    symTab.endAddress ≠ SIC_SEEN_SENTINEL ∧ r.2 = (lc + 3) % UINT32_MOD ∧
      r.1.texts = record.texts ∧ r.1.modifications = record.modifications ∧
      r.1.header = record.header ∧
      r.1.end_ = { magicChar := record.end_.magicChar,
                   firstInstruction := printfHex 6 symTab.endAddress } := by
  unfold secondPassDirectiveHelper at h
  rw [if_neg (by decide), if_neg (by decide), if_neg (by decide), if_neg (by decide),
    if_neg (by decide), if_pos rfl] at h
  split at h
  · simp at h
  · rename_i he
    simp only [ok.injEq] at h
    subst h
    exact ⟨he, rfl, rfl, rfl, rfl, rfl⟩

theorem secondPass_WORD (symTab : symbol_table) (sym : Option Str) (record : sic_scoff_records)
    (lc : Nat) (save : Str) (r : sic_scoff_records × Nat)
    (h : secondPassDirectiveHelper symTab "WORD".toList sym record lc save = ok r) :
    ∃ t, (strtok save SIC_TOKEN_DELIMITERS).1 = some t ∧ r.2 = (lc + 3) % UINT32_MOD ∧
      r.1.header = record.header ∧ r.1.end_ = record.end_ ∧
      r.1.modifications = record.modifications ∧
      r.1.texts.nodes = record.texts.nodes ++
        [{ magicChar := 'T', startAddr := printfHex 6 lc, lengthOfObj := printfHex 2 3,
           objectCode := printfHex 6 (toUInt32 (strtol t 10).value) }] := by
  unfold secondPassDirectiveHelper at h
  rw [if_neg (by decide), if_pos rfl] at h
  split at h
  · simp at h
  · rename_i t ht
    simp only [ok.injEq] at h
    subst h
    exact ⟨t, ht, rfl, rfl, rfl, rfl, rfl⟩

theorem secondPass_RESB (symTab : symbol_table) (sym : Option Str) (record : sic_scoff_records)
    (lc : Nat) (save : Str) (r : sic_scoff_records × Nat)
    (h : secondPassDirectiveHelper symTab "RESB".toList sym record lc save = ok r) :
    ∃ t, (strtok save SIC_TOKEN_DELIMITERS).1 = some t ∧ r.1 = record ∧
      r.2 = (lc + (toUInt32 (strtol t 10).value * 1) % UINT32_MOD) % UINT32_MOD := by
  unfold secondPassDirectiveHelper at h
  rw [if_neg (by decide), if_neg (by decide), if_pos rfl] at h
  split at h
  · simp at h
  · rename_i t ht
    simp only [ok.injEq] at h
    subst h
    exact ⟨t, ht, rfl, rfl⟩

theorem secondPass_RESW (symTab : symbol_table) (sym : Option Str) (record : sic_scoff_records)
    (lc : Nat) (save : Str) (r : sic_scoff_records × Nat)
    (h : secondPassDirectiveHelper symTab "RESW".toList sym record lc save = ok r) :
    ∃ t, (strtok save SIC_TOKEN_DELIMITERS).1 = some t ∧ r.1 = record ∧
      r.2 = (lc + (toUInt32 (strtol t 10).value * 3) % UINT32_MOD) % UINT32_MOD := by
  unfold secondPassDirectiveHelper at h
  rw [if_neg (by decide), if_neg (by decide), if_neg (by decide), if_pos rfl] at h
  split at h
  · simp at h
  · rename_i t ht
    simp only [ok.injEq] at h
    subst h
    exact ⟨t, ht, rfl, rfl⟩

theorem secondPass_BYTE (symTab : symbol_table) (sym : Option Str) (record : sic_scoff_records)
    (lc : Nat) (save : Str) (r : sic_scoff_records × Nat)
    (h : secondPassDirectiveHelper symTab "BYTE".toList sym record lc save = ok r) :
    ∃ lptr content rest, (strtok save LINE_DELIMITERS).1 = some lptr ∧
      (lptr.head? = some 'C' ∨ lptr.head? = some 'X') ∧ 2 ≤ lptr.length ∧
      strchr (lptr.drop 2) quoteChar = some (content, rest) ∧
      r.1.header = record.header ∧ r.1.end_ = record.end_ ∧
      r.1.modifications = record.modifications ∧
      (lptr.head? = some 'X' →
        r.1.texts = byteHexLoop content.length content content.length lc record.texts ∧
        r.2 = (lc + content.length / 2) % UINT32_MOD) ∧
      (lptr.head? ≠ some 'X' →
        r.1.texts = byteCharLoop content.length content content.length lc record.texts ∧
        r.2 = (lc + content.length) % UINT32_MOD) := by
  unfold secondPassDirectiveHelper at h
  rw [if_neg (by decide), if_neg (by decide), if_neg (by decide), if_neg (by decide),
    if_pos rfl] at h
  split at h
  · simp at h
  · rename_i lptr hl
    split at h
    · simp at h
    · rename_i hcx
      split at h
      · simp at h
      · rename_i hlen
        split at h
        · simp at h
        · rename_i content rest hchr
          refine ⟨lptr, content, rest, hl, ?_, by omega, hchr, ?_⟩
          · by_contra hc
            simp only [not_or] at hc
            exact hcx ⟨hc.1, hc.2⟩
          · simp only at h
            split at h
            · rename_i hx
              simp only [ok.injEq] at h
              subst h
              exact ⟨rfl, rfl, rfl, fun _ => ⟨rfl, rfl⟩, fun hn => absurd hx hn⟩
            · rename_i hx
              simp only [ok.injEq] at h
              subst h
              exact ⟨rfl, rfl, rfl, fun hn => absurd hn hx, fun _ => ⟨rfl, rfl⟩⟩

theorem directiveOperand_not_byte (token save : Str) (b : Bool) (h : token ≠ "BYTE".toList) :
    directiveOperand token save b = (strtok save SIC_TOKEN_DELIMITERS).1 := by
  unfold directiveOperand
  cases b
  · rw [if_neg (by simp), if_neg h]
  · rw [if_pos rfl, if_neg h]

theorem takeWhile_of_isPrefix {α : Type} (p : α → Bool) :
    ∀ (l1 l2 : List α), l1 <+: l2 → (∃ x ∈ l1, p x = false) →
      l1.takeWhile p = l2.takeWhile p := by
  intro l1
  induction l1 with
  | nil => intro l2 _ ⟨x, hx, _⟩; simp at hx
  | cons a t ih =>
    intro l2 hpre hex
    obtain ⟨s, rfl⟩ := hpre
    simp only [List.cons_append, List.takeWhile_cons]
    split
    · rename_i hpa
      congr 1
      apply ih (t ++ s) (List.prefix_append _ _)
      obtain ⟨x, hx, hpx⟩ := hex
      rcases List.mem_cons.mp hx with rfl | hx
      · rw [hpa] at hpx; simp at hpx
      · exact ⟨x, hx, hpx⟩
    · rfl

/-- Pass two reads the same BYTE constant as pass one accepted, although
pass one is given the whole rest of an unlabelled line and pass two the rest
up to CR or LF. -/
theorem byte_operand_agree (save : Str) (b : Bool) (o lptr content rest : Str)
    (ho : directiveOperand "BYTE".toList save b = some o)
    (hacc : OperandAccepted directive_callback.directive_callback_byte (some o))
    (hl : (strtok save LINE_DELIMITERS).1 = some lptr)
    (hchr : strchr (lptr.drop 2) quoteChar = some (content, rest)) :
    lptr.head? = o.head? ∧ content = byteContent o := by
  cases b with
  | true =>
    simp only [directiveOperand, if_true] at ho
    rw [hl] at ho
    simp only [Option.some.injEq] at ho
    subst ho
    exact ⟨rfl, strchr_content _ _ _ _ hchr⟩
  | false =>
    simp only [directiveOperand, Bool.false_eq_true, if_false, if_true] at ho
    split at ho
    · simp at ho
    · simp only [Option.some.injEq] at ho
      subst ho
      obtain ⟨hcx, _, _, _⟩ := hacc
      -- the first character is C or X, not a line delimiter
      cases hs : save with
      | nil => rw [hs] at hcx; simp at hcx
      | cons c cs =>
        rw [hs] at hcx hl
        have hc : c = 'C' ∨ c = 'X' := by simpa using hcx
        have hnd : isDelim LINE_DELIMITERS c = false := by
          rcases hc with rfl | rfl <;> decide
        have hlptr : lptr = (c :: cs).takeWhile (fun d => !isDelim LINE_DELIMITERS d) := by
          unfold strtok at hl
          simp only [List.dropWhile_cons, hnd, Bool.false_eq_true, if_false,
            Option.some.injEq] at hl
          exact hl.symm
        have hpre : lptr <+: (c :: cs) := by rw [hlptr]; exact List.takeWhile_prefix _
        refine ⟨?_, ?_⟩
        · rw [hlptr]
          simp [List.takeWhile_cons, hnd]
        · rw [strchr_content _ _ _ _ hchr]
          unfold byteContent
          have hpre2 : lptr.drop 2 <+: (c :: cs).drop 2 := by
            obtain ⟨s, hs'⟩ := hpre
            rw [← hs']
            by_cases hlen : lptr.length < 2
            · have : lptr.drop 2 = [] := List.drop_eq_nil_of_le (by omega)
              rw [this]; exact List.nil_prefix
            · rw [List.drop_append_of_le_length (by omega)]
              exact List.prefix_append _ _
          apply takeWhile_of_isPrefix _ _ _ hpre2
          unfold strchr at hchr
          split at hchr
          · rename_i hmem
            have : quoteChar ∈ lptr.drop 2 := by simpa using hmem
            exact ⟨quoteChar, this, by simp⟩
          · simp at hchr

theorem toUInt32_toNat_of_toInt32_nonneg (v : Int) (h : 0 ≤ toInt32 v) :
    toUInt32 v = (toInt32 v).toNat := by
  have := toUInt32_eq_of_toInt32_nonneg v h
  omega

/-- On a line that pass one accepted, pass two did what `Pass2Step` says:
the emitter location counter advanced by the size of the line (3 more at
END) without wrapping, and records were only appended. -/
theorem secondPassLine_step (f : Nat) (ot : hash_table sic_optable_values) (line : Str)
    (kind : line_kind) (st1 st1' : pass1_state) (st2 st2' : pass2_state)
    (hk : classifyLine f directiveTable ot line = some kind)
    (h1 : Pass1Step f st1 st1' kind)
    (hlc2 : st2.locCounter ≤ SIC_MEMORY_LIMIT + 3)
    (h2 : secondPassLine f directiveTable ot st2 line = ok st2') :
    Pass2Step st2 st2' kind := by
  have hL : SIC_MEMORY_LIMIT = 32767 := rfl
  have hU : UINT32_MOD = 4294967296 := rfl
  obtain ⟨kind', hk', heff⟩ := secondPassLine_ok f directiveTable ot st2 st2' line h2
  rw [hk] at hk'
  simp only [Option.some.injEq] at hk'
  subst hk'
  cases kind with
  | empty => exact absurd h1 id
  | unknown s => exact absurd h1 id
  | comment => exact heff
  | instruction sym op save =>
    obtain ⟨e1, e2, e3, e4, e5, e6⟩ := secondPassInstructionHelper_ok _ _ _ _ _ _ _ heff
    have m3 : (st2.locCounter + 3) % UINT32_MOD = st2.locCounter + 3 := by
      apply Nat.mod_eq_of_lt; omega
    have m1 : (st2.locCounter + 1) % UINT32_MOD = st2.locCounter + 1 := by
      apply Nat.mod_eq_of_lt; omega
    rw [m3] at e2
    rw [m1] at e6
    exact ⟨e1, e2, e3, e4, e5, e6⟩
  | directive sym token cb save =>
    have hent := classifyLine_directive_entry f ot line sym token cb save hk
    obtain ⟨_, ht', h1⟩ := h1
    obtain ⟨recs, lc', hh, hst'⟩ := heff
    subst hst'
    simp only [directiveEntries, List.mem_cons, Prod.mk.injEq, List.mem_singleton,
      List.not_mem_nil, or_false] at hent
    rcases hent with h | h | h | h | h | h | h | h <;> obtain ⟨rfl, rfl⟩ := h
    · -- START
      obtain ⟨L, hL', e2, e3, e4, e5, e6⟩ := secondPass_START _ _ _ _ _ _ hh
      exact ⟨rfl, e4, e2, e3, e5, L, hL', e6⟩
    · -- END
      obtain ⟨e1, e2, e3, e4, e5, e6⟩ := secondPass_END _ _ _ _ _ _ hh
      have m3 : (st2.locCounter + 3) % UINT32_MOD = st2.locCounter + 3 := by
        apply Nat.mod_eq_of_lt; omega
      rw [m3] at e2
      exact ⟨rfl, e4, e1, e2, e3, e5, e6⟩
    · -- BYTE
      obtain ⟨_, hacc, _, hle, _⟩ := h1
      obtain ⟨lptr, content, rest, hl, _, _, hchr, e1, e2, e3, eX, eC⟩ :=
        secondPass_BYTE _ _ _ _ _ _ hh
      cases ho : directiveOperand "BYTE".toList save sym.isSome with
      | none => rw [ho] at hacc; exact absurd hacc id
      | some o =>
        rw [ho] at hacc hle
        obtain ⟨hhead, hcont⟩ := byte_operand_agree save _ o lptr content rest ho hacc hl hchr
        refine ⟨rfl, e3, ?_⟩
        show _ = _ + directiveSize _ (directiveOperand "BYTE".toList save sym.isSome) ∧ _ ∧ _ ∧
          _ = _ ++ dataTexts _ (directiveOperand "BYTE".toList save sym.isSome) _
        rw [ho]
        simp only [directiveSize, dataTexts] at hle ⊢
        rw [← hcont, ← hhead] at hle ⊢
        by_cases hx : lptr.head? = some 'X'
        · obtain ⟨et, el⟩ := eX hx
          obtain ⟨_, _, _, hxo⟩ := hacc
          have hev : content.length % 2 = 0 := by
            rw [hcont]; exact (hxo (by rw [← hhead]; exact hx)).1
          simp only [hx, if_true, decide_True] at hle ⊢
          have hm : (st2.locCounter + content.length / 2) % UINT32_MOD
              = st2.locCounter + content.length / 2 := by
            apply Nat.mod_eq_of_lt; omega
          rw [hm] at el
          refine ⟨el, e1, e2, ?_⟩
          show recs.texts.nodes = _
          rw [et, byteHexLoop_nodes _ _ _ _ (le_refl _) hev (by omega)]
        · obtain ⟨et, el⟩ := eC hx
          simp only [hx, if_false, decide_False] at hle ⊢
          have hm : (st2.locCounter + content.length) % UINT32_MOD
              = st2.locCounter + content.length := by
            apply Nat.mod_eq_of_lt; omega
          rw [hm] at el
          refine ⟨el, e1, e2, ?_⟩
          show recs.texts.nodes = _
          rw [et, byteCharLoop_nodes _ _ _ _ (le_refl _) (by omega)]
    · -- WORD
      obtain ⟨_, hacc, _, hle, _⟩ := h1
      obtain ⟨t, ht, e2, e3, e4, e5, e6⟩ := secondPass_WORD _ _ _ _ _ _ hh
      refine ⟨rfl, e5, ?_⟩
      show _ = _ + directiveSize _ (directiveOperand "WORD".toList save sym.isSome) ∧ _ ∧ _ ∧
        _ = _ ++ dataTexts _ (directiveOperand "WORD".toList save sym.isSome) _
      rw [directiveOperand_not_byte _ _ _ (by decide), ht] at hle ⊢
      have m3 : (st2.locCounter + 3) % UINT32_MOD = st2.locCounter + 3 := by
        apply Nat.mod_eq_of_lt; omega
      rw [m3] at e2
      exact ⟨e2, e3, e4, e6⟩
    · -- RESB
      obtain ⟨_, hacc, _, hle, _⟩ := h1
      obtain ⟨t, ht, e1, e2⟩ := secondPass_RESB _ _ _ _ _ _ hh
      have e1' : recs = st2.records := e1
      subst e1'
      refine ⟨rfl, rfl, ?_⟩
      show _ = _ + directiveSize _ (directiveOperand "RESB".toList save sym.isSome) ∧ _ ∧ _ ∧
        _ = _ ++ dataTexts _ (directiveOperand "RESB".toList save sym.isSome) _
      rw [directiveOperand_not_byte _ _ _ (by decide), ht] at hle hacc ⊢
      simp only [OperandAccepted] at hacc
      simp only [directiveSize, dataTexts, List.append_nil] at hle ⊢
      rw [toUInt32_toNat_of_toInt32_nonneg _ hacc.2] at e2
      have m : (st2.locCounter + ((toInt32 (strtol t 10).value).toNat * 1) % UINT32_MOD)
          % UINT32_MOD = st2.locCounter + (toInt32 (strtol t 10).value).toNat := by
        rw [Nat.mul_one, Nat.mod_eq_of_lt (a := (toInt32 (strtol t 10).value).toNat) (by omega)]
        apply Nat.mod_eq_of_lt; omega
      rw [m] at e2
      simpa using e2
    · -- RESW
      obtain ⟨_, hacc, _, hle, _⟩ := h1
      obtain ⟨t, ht, e1, e2⟩ := secondPass_RESW _ _ _ _ _ _ hh
      have e1' : recs = st2.records := e1
      subst e1'
      refine ⟨rfl, rfl, ?_⟩
      show _ = _ + directiveSize _ (directiveOperand "RESW".toList save sym.isSome) ∧ _ ∧ _ ∧
        _ = _ ++ dataTexts _ (directiveOperand "RESW".toList save sym.isSome) _
      rw [directiveOperand_not_byte _ _ _ (by decide), ht] at hle hacc ⊢
      simp only [OperandAccepted] at hacc
      simp only [directiveSize, dataTexts, List.append_nil, SIC_WORD_BYTES] at hle ⊢
      rw [toUInt32_toNat_of_toInt32_nonneg _ hacc.2] at e2
      have m : (st2.locCounter + ((toInt32 (strtol t 10).value).toNat * 3) % UINT32_MOD)
          % UINT32_MOD = st2.locCounter + (toInt32 (strtol t 10).value).toNat * 3 := by
        rw [Nat.mod_eq_of_lt (a := (toInt32 (strtol t 10).value).toNat * 3) (by omega)]
        apply Nat.mod_eq_of_lt; omega
      rw [m] at e2
      simpa using e2
    · exact absurd h1 id
    · exact absurd h1 id


/-! ## Both passes over the same lines -/

/-- An accepted line leaves a start address that is set as it is, and an
end address that is set as it is. -/
theorem Pass1Step_frame (f : Nat) (st st' : pass1_state) (kind : line_kind)
    (h : Pass1Step f st st' kind) :
    (st.symTab.startAddress ≠ SIC_NOT_SET_SENTINEL →
      st'.symTab.startAddress = st.symTab.startAddress) ∧
    (st.symTab.endAddress ≠ SIC_NOT_SET_SENTINEL →
      st'.symTab.endAddress = st.symTab.endAddress) := by
  cases kind with
  | empty => exact absurd h id
  | unknown s => exact absurd h id
  | comment =>
    simp only [Pass1Step] at h
    subst h; exact ⟨fun _ => rfl, fun _ => rfl⟩
  | directive sym token cb save =>
    obtain ⟨_, ht', h⟩ := h
    cases cb with
    | directive_callback_start =>
      obtain ⟨hs, s, _, _, hst'⟩ := h
      subst hst'
      exact ⟨fun hn => absurd hs hn, fun _ => rfl⟩
    | directive_callback_end =>
      obtain ⟨_, he, _, e, _, hst'⟩ := h
      subst hst'
      exact ⟨fun _ => rfl, fun hn => absurd he hn⟩
    | directive_callback_resr => exact absurd h id
    | directive_callback_exports => exact absurd h id
    | directive_callback_byte | directive_callback_word | directive_callback_resb
    | directive_callback_resw =>
      obtain ⟨_, _, _, _, hst'⟩ := h
      subst hst'
      exact ⟨fun _ => rfl, fun _ => rfl⟩
  | instruction sym op save =>
    obtain ⟨_, _, _, ht', _, _, hst'⟩ := h
    subst hst'
    exact ⟨fun _ => rfl, fun _ => rfl⟩

/-- The rest of pass one leaves a start address that is set as it is. -/
theorem firstPassLoop_frame (f : Nat) (dt : hash_table directive_callback)
    (ot : hash_table sic_optable_values) :
    ∀ (lines : List Str) (st st' : pass1_state), Inv1 st → (∀ l ∈ lines, l.length ≤ 1023) →
      firstPassLoop f dt ot lines st = ok st' →
      (st.symTab.startAddress ≠ SIC_NOT_SET_SENTINEL →
        st'.symTab.startAddress = st.symTab.startAddress) ∧
      (st.symTab.endAddress ≠ SIC_NOT_SET_SENTINEL →
        st'.symTab.endAddress = st.symTab.endAddress) := by
  intro lines
  induction lines with
  | nil =>
    intro st st' _ _ h
    simp only [firstPassLoop, ok.injEq] at h
    subst h; exact ⟨fun _ => rfl, fun _ => rfl⟩
  | cons l rest ih =>
    intro st st' hinv hlen h
    simp only [firstPassLoop] at h
    split at h
    · rename_i st1 hl
      obtain ⟨kind, _, hstep⟩ := firstPassLine_step f dt ot st st1 l hinv
        (hlen l (List.mem_cons_self _ _)) hl
      have hfr := Pass1Step_frame f st st1 kind hstep
      have hih := ih st1 st' (Inv1_step f st st1 kind hinv hstep)
        (fun l' hl' => hlen l' (List.mem_cons_of_mem _ hl')) h
      constructor
      · intro hs
        have e := hfr.1 hs
        rw [← e]
        exact hih.1 (by rw [e]; exact hs)
      · intro he
        have e := hfr.2 he
        rw [← e]
        exact hih.2 (by rw [e]; exact he)
    · simp at h
    · simp at h

/-- The relation between the two passes is kept by every line both accept. -/
theorem Rel_step (f : Nat) (F : symbol_table) (st1 st1' : pass1_state) (st2 st2' : pass2_state)
    (kind : line_kind) (hinv : Inv1 st1) (hrel : Rel F st1 st2)
    (h1 : Pass1Step f st1 st1' kind) (h2 : Pass2Step st2 st2' kind)
    (hF : st1'.symTab.startAddress ≠ SIC_NOT_SET_SENTINEL →
      F.startAddress = st1'.symTab.startAddress) :
    Rel F st1' st2' := by
  have hL : SIC_MEMORY_LIMIT = 32767 := rfl
  have hN : SIC_NOT_SET_SENTINEL = 4294967295 := rfl
  obtain ⟨r1, r2, r3, r4, r5, r6⟩ := hrel
  cases kind with
  | empty => exact absurd h1 id
  | unknown s => exact absurd h1 id
  | comment =>
    simp only [Pass1Step] at h1
    simp only [Pass2Step] at h2
    subst h1; subst h2
    exact ⟨r1, r2, r3, r4, r5, r6⟩
  | directive sym token cb save =>
    obtain ⟨_, ht', h1⟩ := h1
    obtain ⟨e1, _, h2⟩ := h2
    cases cb with
    | directive_callback_start =>
      obtain ⟨hs, s, hsle, _, hst'⟩ := h1
      obtain ⟨e2, _, _, _⟩ := h2
      subst hst'
      have hsF : F.startAddress = s := hF (by simp only; omega)
      obtain ⟨_, hne, _⟩ := Inv1_not_started st1 hinv hs
      refine ⟨by rw [e1]; exact r1, by rw [e1]; exact r2, by rw [e1]; exact r3, r4, ?_, ?_⟩
      · intro h; simp only at h; omega
      · intro _
        simp only [hne, if_true, Nat.add_zero]
        exact ⟨hsF.symm, by rw [e2, r5 hs, hsF]⟩
    | directive_callback_end =>
      obtain ⟨hs, he, _, e, hev, hst'⟩ := h1
      obtain ⟨_, e2, _, _, _⟩ := h2
      obtain ⟨_, _, _, hlc, _, hb⟩ := Inv1_started st1 hinv hs
      subst hst'
      have hene : e ≠ SIC_NOT_SET_SENTINEL := by
        rcases hev with ⟨_, rfl⟩ | ⟨S, a, _, hget, rfl⟩
        · decide
        · have := (hb S e (Bound_of_getKVPair _ _ _ _ hget)).2
          omega
      refine ⟨by rw [e1]; exact r1, by rw [e1]; exact r2, by rw [e1]; exact r3, r4, ?_, ?_⟩
      · intro h; exact absurd h hs
      · intro _
        obtain ⟨q1, q2⟩ := r6 hs
        simp only [he, if_true, Nat.add_zero] at q2
        simp only [hene, if_false]
        exact ⟨q1, by rw [e2, q2]⟩
    | directive_callback_resr => exact absurd h1 id
    | directive_callback_exports => exact absurd h1 id
    | directive_callback_byte | directive_callback_word | directive_callback_resb
    | directive_callback_resw =>
      obtain ⟨hs, _, _, _, hst'⟩ := h1
      obtain ⟨e2, _, _, _⟩ := h2
      subst hst'
      refine ⟨by rw [e1]; exact r1, by rw [e1]; exact r2, by rw [e1]; exact r3, r4, ?_, ?_⟩
      · intro h; exact absurd h hs
      · intro _
        obtain ⟨q1, q2⟩ := r6 hs
        refine ⟨q1, ?_⟩
        simp only at e2 ⊢
        rw [e2, q2]
        omega
  | instruction sym op save =>
    obtain ⟨_, hs, he, ht', _, _, hst'⟩ := h1
    obtain ⟨e1, e2, _, _, _, _⟩ := h2
    subst hst'
    obtain ⟨q1, q2⟩ := r6 hs
    simp only [he, if_true, Nat.add_zero] at q2
    refine ⟨?_, ?_, ?_, r4, ?_, ?_⟩
    · rw [e1]; split <;> exact r1
    · rw [e1]; split <;> exact r2
    · rw [e1]; split <;> exact r3
    · intro h; exact absurd h hs
    · intro _
      simp only [he, if_true, Nat.add_zero]
      exact ⟨q1, by rw [e2, q2]; rfl⟩

theorem Rel_bound (F : symbol_table) (st1 : pass1_state) (st2 : pass2_state) (hinv : Inv1 st1)
    (hrel : Rel F st1 st2) : st2.locCounter ≤ SIC_MEMORY_LIMIT + 3 := by
  obtain ⟨_, _, _, r4, r5, r6⟩ := hrel
  by_cases hs : st1.symTab.startAddress = SIC_NOT_SET_SENTINEL
  · rw [r5 hs]; omega
  · obtain ⟨_, _, _, hlc, _, _⟩ := Inv1_started st1 hinv hs
    rw [(r6 hs).2]
    split <;> omega

/-- When both passes accept the lines, they run over them in step. -/
theorem jointRun_of_ok (f : Nat) (ot : hash_table sic_optable_values) (F : pass1_state) :
    ∀ (lines : List Str) (st1 : pass1_state) (st2 st2f : pass2_state),
      (∀ l ∈ lines, l.length ≤ 1023) → Inv1 st1 → Rel F.symTab st1 st2 →
      firstPassLoop f directiveTable ot lines st1 = ok F →
      secondPassLoop f directiveTable ot lines st2 = ok st2f →
      JointRun f ot F.symTab lines st1 st2 st2f := by
  intro lines
  induction lines with
  | nil =>
    intro st1 st2 st2f _ hinv hrel h1 h2
    simp only [firstPassLoop, ok.injEq] at h1
    simp only [secondPassLoop, ok.injEq] at h2
    subst h1; subst h2
    exact JointRun.nil st1 st2 rfl hinv hrel
  | cons l rest ih =>
    intro st1 st2 st2f hlen hinv hrel h1 h2
    simp only [firstPassLoop] at h1
    simp only [secondPassLoop] at h2
    split at h1
    · rename_i st1' hl1
      split at h2
      · rename_i st2' hl2
        have hlenl := hlen l (List.mem_cons_self _ _)
        have hlenr : ∀ l' ∈ rest, l'.length ≤ 1023 :=
          fun l' hl' => hlen l' (List.mem_cons_of_mem _ hl')
        obtain ⟨kind, hk, hstep1⟩ := firstPassLine_step f directiveTable ot st1 st1' l hinv hlenl hl1
        have hstep2 := secondPassLine_step f ot l kind st1 st1' st2 st2' hk hstep1
          (Rel_bound _ _ _ hinv hrel) hl2
        have hinv' := Inv1_step f st1 st1' kind hinv hstep1
        have hfr := firstPassLoop_frame f directiveTable ot rest st1' F hinv' hlenr h1
        have hrel' := Rel_step f F.symTab st1 st1' st2 st2' kind hinv hrel hstep1 hstep2 hfr.1
        exact JointRun.cons l rest kind st1 st1' st2 st2' st2f hk hinv hrel hstep1 hstep2 hl2
          (ih st1' st2' st2f hlenr hinv' hrel' h1 h2)
      · simp at h2
      · simp at h2
    · simp at h1
    · simp at h1


/-- A source both passes accept is run over by them in step, from the
initial states to the symbol table of pass one and the records of pass
two. -/
theorem jointRun_of_accepted (f : Nat) (src : Str) (ot : hash_table sic_optable_values)
    (F : symbol_table) (recs : sic_scoff_records) (symTab2 : symbol_table)
    (h1 : buildSymbolTable f src directiveTable ot = ok F)
    (h2 : generateSCOFFRecords f src directiveTable ot F = ok (recs, symTab2)) :
    ∃ st2f, JointRun f ot F (readLines src) pass1_init (pass2_init F) st2f ∧
      st2f.records = recs ∧ st2f.symTab = symTab2 ∧
      F.startAddress ≠ SIC_NOT_SET_SENTINEL ∧ F.endAddress ≠ SIC_NOT_SET_SENTINEL ∧
      F.startAddress ≤ F.locCounter ∧ F.locCounter ≤ SIC_MEMORY_LIMIT := by
  obtain ⟨stF, hloop, hstF, hinvF, heF, hsF⟩ := buildSymbolTable_Inv1 f src directiveTable ot F h1
  unfold generateSCOFFRecords at h2
  split at h2
  · rename_i st2f hl2
    split at h2
    · simp at h2
    · simp only [ok.injEq, Prod.mk.injEq] at h2
      subst hstF
      obtain ⟨q1, _, q3, q4, _, _⟩ := Inv1_started stF hinvF hsF
      have hrel : Rel stF.symTab pass1_init (pass2_init stF.symTab) :=
        ⟨rfl, rfl, rfl, q1, fun _ => rfl, fun h => absurd rfl h⟩
      exact ⟨st2f, jointRun_of_ok f ot stF _ _ _ _ (fun l hl => readLines_length src l hl)
        Inv1_init hrel hloop hl2, h2.1, h2.2, hsF, heF, q3, q4⟩
  · simp at h2
  · simp at h2

theorem secondPassTrace_cons (f : Nat) (ot : hash_table sic_optable_values) (line : Str)
    (rest : List Str) (st st' : pass2_state)
    (h : secondPassLine f directiveTable ot st line = ok st') :
    secondPassTrace f directiveTable ot (line :: rest) st
      = st :: secondPassTrace f directiveTable ot rest st' := by
  simp only [secondPassTrace, h]

/-- Pass two leaves the header alone once START has been processed, and the
modification records are those of the instruction lines with operands, in
line order. -/
theorem jointRun_mods (f : Nat) (ot : hash_table sic_optable_values) (F : symbol_table)
    (lines : List Str) (st1 : pass1_state) (st2 st2f : pass2_state)
    (h : JointRun f ot F lines st1 st2 st2f) :
    (st1.symTab.startAddress ≠ SIC_NOT_SET_SENTINEL →
      st2f.records.header = st2.records.header) ∧
    st2f.records.modifications.nodes = st2.records.modifications.nodes ++
      ((lines.zip (secondPassTrace f directiveTable ot lines st2)).map
        (fun p => expectedMods f ot st2f.records.header.programName p.1 p.2.locCounter)).flatten := by
  induction h with
  | nil st1 st2 _ _ _ => simp
  | cons line rest kind st1 st1' st2 st2' st2f hkind hinv hrel hstep1 hstep2 hline2 _ ih =>
    obtain ⟨ihh, ihm⟩ := ih
    have hfr := (Pass1Step_frame f st1 st1' kind hstep1).1
    rw [secondPassTrace_cons f ot line rest st2 st2' hline2]
    simp only [List.zip_cons_cons, List.map_cons, List.flatten_cons]
    rw [ihm, ← List.append_assoc]
    cases kind with
    | empty => exact absurd hstep1 id
    | unknown s => exact absurd hstep1 id
    | comment =>
      simp only [Pass1Step] at hstep1
      simp only [Pass2Step] at hstep2
      subst hstep1; subst hstep2
      refine ⟨ihh, ?_⟩
      simp [expectedMods, hkind]
    | directive sym token cb save =>
      obtain ⟨_, hm, hrestep⟩ := hstep2
      have hhead : st1.symTab.startAddress ≠ SIC_NOT_SET_SENTINEL →
          st2'.records.header = st2.records.header := by
        intro hs
        obtain ⟨_, ht', hs1⟩ := hstep1
        cases cb with
        | directive_callback_start => exact absurd hs1.1 hs
        | directive_callback_end => exact hrestep.2.2.2.1
        | directive_callback_resr => exact absurd hs1 id
        | directive_callback_exports => exact absurd hs1 id
        | directive_callback_byte => exact hrestep.2.1
        | directive_callback_word => exact hrestep.2.1
        | directive_callback_resb => exact hrestep.2.1
        | directive_callback_resw => exact hrestep.2.1
      refine ⟨fun hs => ?_, ?_⟩
      · rw [ihh (by rw [hfr hs]; exact hs), hhead hs]
      · rw [hm]
        simp [expectedMods, hkind]
    | instruction sym op save =>
      obtain ⟨_, hs, _, _⟩ := hstep1
      obtain ⟨_, _, hh, _, _, hm⟩ := hstep2
      have hname : st2f.records.header = st2.records.header := by
        rw [ihh (by rw [hfr hs]; exact hs), hh]
      refine ⟨fun _ => hname, ?_⟩
      rw [hm, hname]
      simp only [expectedMods, hkind]
      congr 2

/-! ## Ascending text records -/

theorem Ascending_append : ∀ (l1 l2 : List sic_scoff_text) (lo mid hi : Nat),
    Ascending lo l1 mid → Ascending mid l2 hi → Ascending lo (l1 ++ l2) hi := by
  intro l1
  induction l1 with
  | nil =>
    intro l2 lo mid hi h1 h2
    simp only [Ascending] at h1
    simp only [List.nil_append]
    cases l2 with
    | nil => simp only [Ascending] at h2 ⊢; omega
    | cons r rest =>
      simp only [Ascending] at h2 ⊢
      exact ⟨by omega, h2.2.1, h2.2.2⟩
  | cons r rest ih =>
    intro l2 lo mid hi h1 h2
    simp only [Ascending, List.cons_append] at h1 ⊢
    exact ⟨h1.1, h1.2.1, ih l2 _ mid hi h1.2.2 h2⟩

theorem Ascending_le : ∀ (l : List sic_scoff_text) (lo hi : Nat), Ascending lo l hi → lo ≤ hi := by
  intro l
  induction l with
  | nil => intro lo hi h; exact h
  | cons r rest ih =>
    intro lo hi h
    simp only [Ascending] at h
    have := ih _ _ h.2.2
    omega

theorem Ascending_lo : ∀ (l : List sic_scoff_text) (lo lo' hi : Nat), lo' ≤ lo →
    Ascending lo l hi → Ascending lo' l hi := by
  intro l lo lo' hi hle h
  cases l with
  | nil => simp only [Ascending] at h ⊢; omega
  | cons r rest =>
    simp only [Ascending] at h ⊢
    exact ⟨by omega, h.2.1, h.2.2⟩

/-- Ascending records do not overlap and their start addresses increase
strictly. -/
theorem Ascending_pairwise : ∀ (l : List sic_scoff_text) (lo hi : Nat), Ascending lo l hi →
    (∀ r ∈ l, lo ≤ hexValue r.startAddr) ∧
    l.Pairwise (fun r s => hexValue r.startAddr + hexValue r.lengthOfObj ≤ hexValue s.startAddr ∧
      hexValue r.startAddr < hexValue s.startAddr) := by
  intro l
  induction l with
  | nil => intro lo hi _; simp
  | cons r rest ih =>
    intro lo hi h
    simp only [Ascending] at h
    obtain ⟨h1, h2, h3⟩ := h
    obtain ⟨i1, i2⟩ := ih _ _ h3
    constructor
    · intro x hx
      rcases List.mem_cons.mp hx with rfl | hx
      · exact h1
      · have := i1 x hx
        omega
    · rw [List.pairwise_cons]
      refine ⟨fun s hs => ?_, i2⟩
      have := i1 s hs
      omega

theorem byteCount_drop (hex : Bool) (content : Str) (h : 30 < byteCount hex content) :
    byteCount hex (content.drop (if hex then 60 else 30)) = byteCount hex content - 30 := by
  cases hex
  · simp only [byteCount, Bool.false_eq_true, if_false, List.length_drop] at h ⊢
  · simp only [byteCount, if_true, List.length_drop] at h ⊢
    omega

/-- The records of a BYTE constant ascend from its address to its end. -/
theorem Ascending_byteChunks (hex : Bool) : ∀ (n : Nat) (content : Str) (a : Nat),
    byteCount hex content = n →
    Ascending a (byteChunks hex content a) (a + n) := by
  intro n
  induction n using Nat.strong_induction_on with
  | _ n ih =>
    intro content a hn
    by_cases h0 : n = 0
    · rw [byteChunks_nil hex content a (by omega)]
      simp only [Ascending]; omega
    · by_cases hbig : 30 < n
      · have hd := byteCount_drop hex content (by omega)
        rw [byteChunks_long hex content a (by omega) hd]
        simp only [Ascending, hexValue_printfHex]
        refine ⟨le_refl _, by omega, ?_⟩
        have := ih (n - 30) (by omega) (content.drop (if hex then 60 else 30)) (a + 30)
          (by rw [hd, hn])
        have e : a + 30 + (n - 30) = a + n := by omega
        rw [e] at this
        exact this
      · rw [byteChunks_short hex content a (by omega) (by omega)]
        simp only [Ascending, hexValue_printfHex]
        refine ⟨le_refl _, by omega, by omega⟩

/-- On a line both passes accept, pass two appends text records that ascend
from the emitter location counter before the line to the one after it. -/
theorem Pass2Step_texts (f : Nat) (st1 st1' : pass1_state) (st2 st2' : pass2_state)
    (kind : line_kind) (h1 : Pass1Step f st1 st1' kind) (h2 : Pass2Step st2 st2' kind) :
    ∃ new, st2'.records.texts.nodes = st2.records.texts.nodes ++ new ∧
      Ascending st2.locCounter new st2'.locCounter := by
  cases kind with
  | empty => exact absurd h1 id
  | unknown s => exact absurd h1 id
  | comment =>
    simp only [Pass2Step] at h2
    subst h2
    exact ⟨[], by simp, le_refl _⟩
  | instruction sym op save =>
    obtain ⟨_, e2, _, _, ⟨payload, e5⟩, _⟩ := h2
    refine ⟨_, e5, ?_⟩
    simp only [Ascending, hexValue_printfHex]
    omega
  | directive sym token cb save =>
    obtain ⟨_, ht', h1⟩ := h1
    obtain ⟨_, _, h2⟩ := h2
    cases cb with
    | directive_callback_start =>
      obtain ⟨e1, e2, _⟩ := h2
      exact ⟨[], by rw [e2]; simp, by rw [e1]; exact le_refl _⟩
    | directive_callback_end =>
      obtain ⟨_, e1, e2, _⟩ := h2
      refine ⟨[], by rw [e2]; simp, ?_⟩
      simp only [Ascending]; omega
    | directive_callback_resr => exact absurd h1 id
    | directive_callback_exports => exact absurd h1 id
    | directive_callback_word =>
      obtain ⟨_, hacc, _, _, _⟩ := h1
      obtain ⟨e1, _, _, e4⟩ := h2
      refine ⟨_, e4, ?_⟩
      rw [e1]
      cases ho : directiveOperand token save sym.isSome with
      | none => rw [ho] at hacc; exact absurd hacc id
      | some t =>
        simp only [dataTexts, directiveSize, Ascending, hexValue_printfHex, SIC_WORD_BYTES]
        omega
    | directive_callback_resb =>
      obtain ⟨e1, _, _, e4⟩ := h2
      refine ⟨_, e4, ?_⟩
      rw [e1]
      cases ho : directiveOperand token save sym.isSome <;>
        simp only [dataTexts, Ascending] <;> omega
    | directive_callback_resw =>
      obtain ⟨e1, _, _, e4⟩ := h2
      refine ⟨_, e4, ?_⟩
      rw [e1]
      cases ho : directiveOperand token save sym.isSome <;>
        simp only [dataTexts, Ascending] <;> omega
    | directive_callback_byte =>
      obtain ⟨_, hacc, _, _, _⟩ := h1
      obtain ⟨e1, _, _, e4⟩ := h2
      refine ⟨_, e4, ?_⟩
      rw [e1]
      cases ho : directiveOperand token save sym.isSome with
      | none => rw [ho] at hacc; exact absurd hacc id
      | some o =>
        simp only [dataTexts, directiveSize]
        apply Ascending_byteChunks
        simp only [byteCount, decide_eq_true_eq]

/-- The text records pass two ends with are those it started with followed
by what each line appended, in line order; and they ascend. -/
theorem jointRun_texts (f : Nat) (ot : hash_table sic_optable_values) (F : symbol_table)
    (lines : List Str) (st1 : pass1_state) (st2 st2f : pass2_state)
    (h : JointRun f ot F lines st1 st2 st2f) :
    ∀ lo, Ascending lo st2.records.texts.nodes st2.locCounter →
    Ascending lo st2f.records.texts.nodes st2f.locCounter ∧
    st2f.records.texts.nodes = st2.records.texts.nodes ++
      ((lines.zip (secondPassTrace f directiveTable ot lines st2)).map
        (fun p => lineTexts f ot p.2 p.1)).flatten := by
  induction h with
  | nil st1 st2 _ _ _ => intro lo h; exact ⟨h, by simp⟩
  | cons line rest kind st1 st1' st2 st2' st2f hkind hinv hrel hstep1 hstep2 hline2 _ ih =>
    intro lo hasc
    obtain ⟨new, hnew, hnasc⟩ := Pass2Step_texts f st1 st1' st2 st2' kind hstep1 hstep2
    have hasc' : Ascending lo st2'.records.texts.nodes st2'.locCounter := by
      rw [hnew]
      exact Ascending_append _ _ _ _ _ hasc hnasc
    obtain ⟨i1, i2⟩ := ih lo hasc'
    refine ⟨i1, ?_⟩
    rw [secondPassTrace_cons f ot line rest st2 st2' hline2]
    simp only [List.zip_cons_cons, List.map_cons, List.flatten_cons]
    rw [i2, hnew, List.append_assoc]
    congr 2
    simp only [lineTexts, hline2, hnew, List.drop_left]

/-! ## BYTE constants and instruction operands in pass two -/

theorem strchr_append_quote (content tail : Str) (hq : quoteChar ∉ content) :
    strchr (content ++ quoteChar :: tail) quoteChar = some (content, quoteChar :: tail) := by
  unfold strchr
  have hc : (content ++ quoteChar :: tail).contains quoteChar = true := by simp
  rw [if_pos hc]
  have hall : ∀ d ∈ content, (d != quoteChar) = true := by
    intro d hd
    simp only [bne_iff_ne, ne_eq]
    intro h; subst h; exact hq hd
  congr 2
  · rw [List.takeWhile_append_of_pos hall]
    simp [List.takeWhile]
  · rw [List.dropWhile_append_of_pos hall]
    simp [List.dropWhile]

theorem charsToHex_nil : charsToHex [] = [] := rfl

theorem charsToHex_cons (c : Char) (s : Str) :
    charsToHex (c :: s) = printfHex 2 c.toNat ++ charsToHex s := by
  simp [charsToHex]

theorem charsToHex_append (s t : Str) : charsToHex (s ++ t) = charsToHex s ++ charsToHex t := by
  simp [charsToHex]

theorem charsToHex_length : ∀ (s : Str), (∀ c ∈ s, c.toNat < 128) →
    (charsToHex s).length = 2 * s.length := by
  intro s
  induction s with
  | nil => intro _; rfl
  | cons c s ih =>
    intro h
    rw [charsToHex_cons, List.length_append, ih (fun d hd => h d (List.mem_cons_of_mem _ hd)),
      printfHex_length 2 c.toNat (by omega) (by have := h c (List.mem_cons_self _ _); omega)]
    simp only [List.length_cons]
    omega

/-- On 7-bit characters the loop of `ASCIIToHexConvertion` appends two hex
digits per character. -/
theorem asciiToHexLoop_ascii : ∀ (s : Str) (i : Nat) (code : Str),
    (∀ c ∈ s, c.toNat < 128) → code.length = i * 2 →
    asciiToHexLoop s i code = code ++ charsToHex s := by
  intro s
  induction s with
  | nil => intro i code _ _; simp [asciiToHexLoop, charsToHex]
  | cons c s ih =>
    intro i code h hlen
    have hc := h c (List.mem_cons_self _ _)
    have hval : toUInt32 (charVal c) = c.toNat := by
      unfold charVal
      have : c.toNat % 256 = c.toNat := Nat.mod_eq_of_lt (by omega)
      simp only [this, hc, if_true]
      exact toUInt32_of_small _ (by omega)
    have hpl : (printfHex 2 c.toNat).length = 2 := printfHex_length 2 _ (by omega) (by omega)
    simp only [asciiToHexLoop, SIC_CHARACTERS_PER_BYTE, hval]
    have htake : code.take (i * 2) = code := List.take_of_length_le (by omega)
    rw [htake, ih (i + 1) _ (fun d hd => h d (List.mem_cons_of_mem _ hd))
      (by rw [List.length_append, hpl, hlen]; omega)]
    rw [charsToHex_cons, List.append_assoc]

/-- Consecutive pieces of `k` elements put together give the front of the
list. -/
theorem flatten_pieces {α : Type} (l : List α) (k : Nat) : ∀ (m : Nat),
    ((List.range m).map (fun i => (l.drop (k * i)).take k)).flatten = l.take (k * m) := by
  intro m
  induction m with
  | zero => simp
  | succ m ih =>
    rw [List.range_succ, List.map_append, List.flatten_append, ih]
    simp only [List.map_cons, List.map_nil, List.flatten_cons, List.flatten_nil, List.append_nil]
    rw [Nat.mul_succ, List.take_add]

theorem flatten_pieces_hex (l : Str) (k : Nat) : ∀ (m : Nat),
    ((List.range m).map (fun i => charsToHex ((l.drop (k * i)).take k))).flatten
      = charsToHex (l.take (k * m)) := by
  intro m
  induction m with
  | zero => simp [charsToHex]
  | succ m ih =>
    rw [List.range_succ, List.map_append, List.flatten_append, ih]
    simp only [List.map_cons, List.map_nil, List.flatten_cons, List.flatten_nil, List.append_nil]
    rw [Nat.mul_succ, List.take_add, charsToHex_append]

theorem strstr_none (s : Str) (h : ',' ∉ s) : strstr s SCOFF_INDEXED_SUBSTR = none := by
  have e : SCOFF_INDEXED_SUBSTR = [',', 'X'] := rfl
  rw [e]
  induction s with
  | nil => simp [strstr]
  | cons c cs ih =>
    have hc : c ≠ ',' := fun e => h (by rw [e]; exact List.mem_cons_self _ _)
    have hcs : ',' ∉ cs := fun e => h (List.mem_cons_of_mem _ e)
    have hpre : ¬ ([',', 'X'].isPrefixOf (c :: cs) = true) := by
      simp [List.isPrefixOf, hc.symm]
    simp only [strstr]
    rw [if_neg hpre, ih hcs]
    rfl

theorem strstr_indexed (s : Str) (h : ',' ∉ s) :
    strstr (s ++ SCOFF_INDEXED_SUBSTR) SCOFF_INDEXED_SUBSTR = some s := by
  have e : SCOFF_INDEXED_SUBSTR = [',', 'X'] := rfl
  rw [e]
  induction s with
  | nil => simp [strstr, List.isPrefixOf]
  | cons c cs ih =>
    have hc : c ≠ ',' := fun e => h (by rw [e]; exact List.mem_cons_self _ _)
    have hcs : ',' ∉ cs := fun e => h (List.mem_cons_of_mem _ e)
    have hpre : ¬ ([',', 'X'].isPrefixOf (c :: (cs ++ [',', 'X'])) = true) := by
      simp [List.isPrefixOf, hc.symm]
    show strstr (c :: (cs ++ [',', 'X'])) [',', 'X'] = some (c :: cs)
    rw [strstr, if_neg hpre, ih hcs]
    rfl

/-! ## Header and end record -/

/-- An accepted line keeps what the symbol map holds. -/
theorem Pass1Step_bound (f : Nat) (st st' : pass1_state) (kind : line_kind) (hinv : Inv1 st)
    (h : Pass1Step f st st' kind) :
    ∀ k v, Bound st.symTab.ht k v → Bound st'.symTab.ht k v := by
  intro k v hb
  cases kind with
  | empty => exact absurd h id
  | unknown s => exact absurd h id
  | comment =>
    simp only [Pass1Step] at h
    subst h; exact hb
  | directive sym token cb save =>
    obtain ⟨_, ht', h⟩ := h
    cases cb with
    | directive_callback_start =>
      obtain ⟨_, s, _, hins, hst'⟩ := h
      subst hst'
      exact ((LabelInserted_ok _ _ _ _ _ hinv.1 hins).2 k v).mpr (Or.inr hb)
    | directive_callback_end =>
      obtain ⟨_, _, hins, e, _, hst'⟩ := h
      subst hst'
      exact ((LabelInserted_ok _ _ _ _ _ hinv.1 hins).2 k v).mpr (Or.inr hb)
    | directive_callback_resr => exact absurd h id
    | directive_callback_exports => exact absurd h id
    | directive_callback_byte | directive_callback_word | directive_callback_resb
    | directive_callback_resw =>
      obtain ⟨_, _, hins, _, hst'⟩ := h
      subst hst'
      exact ((LabelInserted_ok _ _ _ _ _ hinv.1 hins).2 k v).mpr (Or.inr hb)
  | instruction sym op save =>
    obtain ⟨_, _, _, ht', hins, _, hst'⟩ := h
    subst hst'
    exact ((LabelInserted_ok _ _ _ _ _ hinv.1 hins).2 k v).mpr (Or.inr hb)

/-- Through the rest of a run of both passes: the symbol map keeps what it
holds and ends well-formed; once END has been processed, the end address of
pass one, the end record and the end address of pass two stay as they are. -/
theorem jointRun_frame (f : Nat) (ot : hash_table sic_optable_values) (F : symbol_table)
    (lines : List Str) (st1 : pass1_state) (st2 st2f : pass2_state)
    (h : JointRun f ot F lines st1 st2 st2f) :
    WF F.ht ∧ (∀ k v, Bound st1.symTab.ht k v → Bound F.ht k v) ∧
    (st1.symTab.endAddress ≠ SIC_NOT_SET_SENTINEL →
      F.endAddress = st1.symTab.endAddress ∧ st2f.records.end_ = st2.records.end_ ∧
      st2f.symTab.endAddress = st2.symTab.endAddress) := by
  induction h with
  | nil st1 st2 hF hinv _ =>
    subst hF
    exact ⟨hinv.1, fun _ _ hb => hb, fun _ => ⟨rfl, rfl, rfl⟩⟩
  | cons line rest kind st1 st1' st2 st2' st2f hkind hinv hrel hstep1 hstep2 hline2 _ ih =>
    obtain ⟨ihw, ihb, ihe⟩ := ih
    refine ⟨ihw, fun k v hb => ihb k v (Pass1Step_bound f st1 st1' kind hinv hstep1 k v hb), ?_⟩
    intro he
    have hfr := (Pass1Step_frame f st1 st1' kind hstep1).2 he
    obtain ⟨i1, i2, i3⟩ := ihe (by rw [hfr]; exact he)
    rw [i1, i2, i3, hfr]
    refine ⟨rfl, ?_⟩
    cases kind with
    | empty => exact absurd hstep1 id
    | unknown s => exact absurd hstep1 id
    | comment =>
      simp only [Pass2Step] at hstep2
      subst hstep2; exact ⟨rfl, rfl⟩
    | directive sym token cb save =>
      obtain ⟨_, ht', h1⟩ := hstep1
      obtain ⟨e1, _, h2⟩ := hstep2
      cases cb with
      | directive_callback_start =>
        exact absurd (Inv1_not_started st1 hinv h1.1).2.1 he
      | directive_callback_end => exact absurd h1.2.1 he
      | directive_callback_resr => exact absurd h1 id
      | directive_callback_exports => exact absurd h1 id
      | directive_callback_byte | directive_callback_word | directive_callback_resb
      | directive_callback_resw =>
        exact ⟨h2.2.2.1, by rw [e1]⟩
    | instruction sym op save =>
      exact absurd hstep1.2.2.1 he

/-- The header pass two ends with is the one the START line sets: the label
of the START line, the start address, and the distance from the start
address to the final location counter of pass one. -/
theorem jointRun_header (f : Nat) (ot : hash_table sic_optable_values) (F : symbol_table)
    (lines : List Str) (st1 : pass1_state) (st2 st2f : pass2_state)
    (h : JointRun f ot F lines st1 st2 st2f) :
    ∀ line ∈ lines, ∀ (L token save : Str),
      classifyLine f directiveTable ot line = some (line_kind.directive (some L) token
        directive_callback.directive_callback_start save) →
      sanitizedSymbol L = sic_symbol_status.SYM_OKAY ∧
      st2f.records.header.programName = printfLeft 6 L ∧
      st2f.records.header.startAddr = printfHex 6 F.startAddress ∧
      st2f.records.header.lengthOfProgram =
        printfHex 6 (toUInt32 ((F.locCounter : Int) - (F.startAddress : Int))) := by
  induction h with
  | nil st1 st2 _ _ _ => intro line hl; simp at hl
  | cons line rest kind st1 st1' st2 st2' st2f hkind hinv hrel hstep1 hstep2 hline2 hrest ih =>
    intro l hl L token save hcl
    rcases List.mem_cons.mp hl with rfl | hl
    · rw [hkind] at hcl
      simp only [Option.some.injEq] at hcl
      subst hcl
      obtain ⟨hfresh, ht', hs, s, hsle, _, hst'⟩ := hstep1
      obtain ⟨_, _, _, _, _, L', hL', hhead⟩ := hstep2
      simp only [Option.some.injEq] at hL'
      subst hL'
      obtain ⟨r1, r2, _⟩ := hrel
      have hset : st1'.symTab.startAddress ≠ SIC_NOT_SET_SENTINEL := by
        subst hst'
        have hL : SIC_MEMORY_LIMIT = 32767 := rfl
        have hN : SIC_NOT_SET_SENTINEL = 4294967295 := rfl
        simp only
        omega
      have hkeep := (jointRun_mods f ot F rest st1' st2' st2f hrest).1 hset
      rw [hkeep, hhead, r1, r2]
      exact ⟨hfresh.2, rfl, rfl, rfl⟩
    · exact ih l hl L token save hcl

theorem firstInstructionAddress_cons (f : Nat) (ot : hash_table sic_optable_values) (line : Str)
    (st : pass2_state) (rest : List (Str × pass2_state)) (kind : line_kind)
    (hk : classifyLine f directiveTable ot line = some kind) :
    firstInstructionAddress f ot ((line, st) :: rest) =
      match kind with
      | line_kind.instruction _ _ _ => some st.locCounter
      | _ => firstInstructionAddress f ot rest := by
  simp only [firstInstructionAddress, hk]
  cases kind <;> rfl

/-- The end address pass two ends with: the one it started with, unless
that is the Seen sentinel; then the emitter address of the first instruction
line, if there is one. -/
theorem jointRun_endAddress (f : Nat) (ot : hash_table sic_optable_values) (F : symbol_table)
    (lines : List Str) (st1 : pass1_state) (st2 st2f : pass2_state)
    (h : JointRun f ot F lines st1 st2 st2f) :
    st2f.symTab.endAddress =
      (if st2.symTab.endAddress = SIC_SEEN_SENTINEL then
        (firstInstructionAddress f ot
          (lines.zip (secondPassTrace f directiveTable ot lines st2))).getD SIC_SEEN_SENTINEL
       else st2.symTab.endAddress) := by
  induction h with
  | nil st1 st2 _ _ _ =>
    simp only [List.zip_nil_left, firstInstructionAddress, Option.getD_none]
    split
    · rename_i h; exact h
    · rfl
  | cons line rest kind st1 st1' st2 st2' st2f hkind hinv hrel hstep1 hstep2 hline2 _ ih =>
    rw [secondPassTrace_cons f ot line rest st2 st2' hline2, ih]
    cases kind with
    | empty => exact absurd hstep1 id
    | unknown s => exact absurd hstep1 id
    | comment =>
      simp only [Pass2Step] at hstep2
      subst hstep2
      rw [List.zip_cons_cons, firstInstructionAddress_cons f ot line _ _ _ hkind]
    | directive sym token cb save =>
      obtain ⟨e1, _, _⟩ := hstep2
      rw [List.zip_cons_cons, firstInstructionAddress_cons f ot line _ _ _ hkind, e1]
    | instruction sym op save =>
      obtain ⟨e1, _⟩ := hstep2
      have hb := Rel_bound F st1 st2 hinv hrel
      have hL : SIC_MEMORY_LIMIT = 32767 := rfl
      have hS : SIC_SEEN_SENTINEL = 4294967294 := rfl
      rw [List.zip_cons_cons, firstInstructionAddress_cons f ot line _ _ _ hkind, e1]
      simp only [Option.getD_some]
      by_cases hseen : st2.symTab.endAddress = SIC_SEEN_SENTINEL
      · simp only [hseen, if_true]
        rw [if_neg (by omega)]
      · simp only [hseen, if_false]

/-- The end record pass two ends with holds the end address pass two ends
with, which is not the Seen sentinel, when the lines hold an END line. -/
theorem jointRun_endRecord (f : Nat) (ot : hash_table sic_optable_values) (F : symbol_table)
    (lines : List Str) (st1 : pass1_state) (st2 st2f : pass2_state)
    (h : JointRun f ot F lines st1 st2 st2f) :
    ∀ line ∈ lines, ∀ (sym : Option Str) (token save : Str),
      classifyLine f directiveTable ot line = some (line_kind.directive sym token
        directive_callback.directive_callback_end save) →
      st2f.records.end_.firstInstruction = printfHex 6 st2f.symTab.endAddress ∧
      st2f.symTab.endAddress ≠ SIC_SEEN_SENTINEL := by
  induction h with
  | nil st1 st2 _ _ _ => intro line hl; simp at hl
  | cons line rest kind st1 st1' st2 st2' st2f hkind hinv hrel hstep1 hstep2 hline2 hrest ih =>
    intro l hl sym token save hcl
    rcases List.mem_cons.mp hl with rfl | hl
    · rw [hkind] at hcl
      simp only [Option.some.injEq] at hcl
      subst hcl
      obtain ⟨_, ht', hs, he, _, e, hev, hst'⟩ := hstep1
      obtain ⟨e1, _, hne, _, _, _, hend⟩ := hstep2
      have hset : st1'.symTab.endAddress ≠ SIC_NOT_SET_SENTINEL := by
        subst hst'
        have hL : SIC_MEMORY_LIMIT = 32767 := rfl
        have hN : SIC_NOT_SET_SENTINEL = 4294967295 := rfl
        obtain ⟨_, _, _, hlc, _, hb⟩ := Inv1_started st1 hinv hs
        rcases hev with ⟨_, rfl⟩ | ⟨S, a, _, hget, rfl⟩
        · show SIC_SEEN_SENTINEL ≠ SIC_NOT_SET_SENTINEL
          decide
        · have := (hb S e (Bound_of_getKVPair _ _ _ _ hget)).2
          simp only
          omega
      obtain ⟨_, _, hk⟩ := jointRun_frame f ot F rest st1' st2' st2f hrest
      obtain ⟨_, k2, k3⟩ := hk hset
      rw [k2, k3, hend, e1]
      exact ⟨rfl, hne⟩
    · exact ih l hl sym token save hcl

/-- A run of pass one that starts before END and ends after it has met an
END line. -/
theorem jointRun_end_exists (f : Nat) (ot : hash_table sic_optable_values) (F : symbol_table)
    (lines : List Str) (st1 : pass1_state) (st2 st2f : pass2_state)
    (h : JointRun f ot F lines st1 st2 st2f) :
    st1.symTab.endAddress = SIC_NOT_SET_SENTINEL → F.endAddress ≠ SIC_NOT_SET_SENTINEL →
    ∃ line ∈ lines, ∃ (sym : Option Str) (token save : Str),
      classifyLine f directiveTable ot line = some (line_kind.directive sym token
        directive_callback.directive_callback_end save) := by
  induction h with
  | nil st1 st2 hF _ _ =>
    intro h1 h2
    subst hF
    exact absurd h1 h2
  | cons line rest kind st1 st1' st2 st2' st2f hkind hinv hrel hstep1 hstep2 hline2 hrest ih =>
    intro h1 h2
    by_cases hend : ∃ sym token save, kind = line_kind.directive sym token
        directive_callback.directive_callback_end save
    · obtain ⟨sym, token, save, rfl⟩ := hend
      exact ⟨line, List.mem_cons_self _ _, sym, token, save, hkind⟩
    · have hkeep : st1'.symTab.endAddress = SIC_NOT_SET_SENTINEL := by
        cases kind with
        | empty => exact absurd hstep1 id
        | unknown s => exact absurd hstep1 id
        | comment =>
          simp only [Pass1Step] at hstep1
          subst hstep1; exact h1
        | directive sym token cb save =>
          obtain ⟨_, ht', hs1⟩ := hstep1
          cases cb with
          | directive_callback_start =>
            obtain ⟨_, s, _, _, hst'⟩ := hs1
            subst hst'; exact h1
          | directive_callback_end => exact absurd ⟨sym, token, save, rfl⟩ hend
          | directive_callback_resr => exact absurd hs1 id
          | directive_callback_exports => exact absurd hs1 id
          | directive_callback_byte | directive_callback_word | directive_callback_resb
          | directive_callback_resw =>
            obtain ⟨_, _, _, _, hst'⟩ := hs1
            subst hst'; exact h1
        | instruction sym op save =>
          obtain ⟨_, _, _, ht', _, _, hst'⟩ := hstep1
          subst hst'; exact h1
      obtain ⟨l, hl, r⟩ := ih hkeep h2
      exact ⟨l, List.mem_cons_of_mem _ hl, r⟩

/-- The end address pass one ends with is the one the END line sets: the
Seen sentinel for an END line without operand, the address of the symbol it
names otherwise. -/
theorem jointRun_endOperand (f : Nat) (ot : hash_table sic_optable_values) (F : symbol_table)
    (lines : List Str) (st1 : pass1_state) (st2 st2f : pass2_state)
    (h : JointRun f ot F lines st1 st2 st2f) :
    ∀ line ∈ lines, ∀ (sym : Option Str) (token save : Str),
      classifyLine f directiveTable ot line = some (line_kind.directive sym token
        directive_callback.directive_callback_end save) →
      (directiveOperand token save sym.isSome = none → F.endAddress = SIC_SEEN_SENTINEL) ∧
      (∀ S, directiveOperand token save sym.isSome = some S →
        Bound F.ht S F.endAddress ∧ F.endAddress ≤ SIC_MEMORY_LIMIT) := by
  induction h with
  | nil st1 st2 _ _ _ => intro line hl; simp at hl
  | cons line rest kind st1 st1' st2 st2' st2f hkind hinv hrel hstep1 hstep2 hline2 hrest ih =>
    intro l hl sym token save hcl
    rcases List.mem_cons.mp hl with rfl | hl
    · rw [hkind] at hcl
      simp only [Option.some.injEq] at hcl
      subst hcl
      have hinv' : Inv1 st1' := Inv1_step f st1 st1' _ hinv hstep1
      have hbound := Pass1Step_bound f st1 st1' _ hinv hstep1
      obtain ⟨_, ht', hs, he, _, e, hev, hst'⟩ := hstep1
      have hL : SIC_MEMORY_LIMIT = 32767 := rfl
      have hN : SIC_NOT_SET_SENTINEL = 4294967295 := rfl
      obtain ⟨_, _, _, hlc, _, hb⟩ := Inv1_started st1 hinv hs
      obtain ⟨_, kb, hk⟩ := jointRun_frame f ot F rest st1' st2' st2f hrest
      have hst1e : st1'.symTab.endAddress = e := by subst hst'; rfl
      rcases hev with ⟨hnone, rfl⟩ | ⟨S, a, hsome, hget, rfl⟩
      · have hk1 := (hk (by rw [hst1e]; decide)).1
        rw [hk1, hst1e]
        exact ⟨fun _ => rfl, fun S hS => absurd (hnone.symm.trans hS) (by simp)⟩
      · have hbS := Bound_of_getKVPair _ _ _ _ hget
        have hle := (hb S e hbS).2
        have hk1 := (hk (by rw [hst1e]; omega)).1
        rw [hk1, hst1e]
        refine ⟨fun hn => absurd (hsome.symm.trans hn) (by simp), fun S' hS' => ?_⟩
        rw [hsome] at hS'
        simp only [Option.some.injEq] at hS'
        subst hS'
        exact ⟨kb S e (hbound S e hbS), by omega⟩
    · exact ih l hl sym token save hcl

/-- Pass two does not get past an END line it reaches with the Seen
sentinel as end address: it has met an instruction line before. -/
theorem jointRun_no_instruction (f : Nat) (ot : hash_table sic_optable_values)
    (F : symbol_table) (lines : List Str) (st1 : pass1_state) (st2 st2f : pass2_state)
    (h : JointRun f ot F lines st1 st2 st2f) :
    ∀ (pre post : List Str) (line : Str) (sym : Option Str) (token save : Str),
      lines = pre ++ line :: post →
      classifyLine f directiveTable ot line = some (line_kind.directive sym token
        directive_callback.directive_callback_end save) →
      (∀ l ∈ pre, ∀ s op sv, classifyLine f directiveTable ot l
        ≠ some (line_kind.instruction s op sv)) →
      st2.symTab.endAddress ≠ SIC_SEEN_SENTINEL := by
  induction h with
  | nil st1 st2 _ _ _ => intro pre post line sym token save hl; simp at hl
  | cons line rest kind st1 st1' st2 st2' st2f hkind hinv hrel hstep1 hstep2 hline2 hrest ih =>
    intro pre post l sym token save hsplit hcl hpre
    cases pre with
    | nil =>
      simp only [List.nil_append, List.cons.injEq] at hsplit
      obtain ⟨rfl, _⟩ := hsplit
      rw [hkind] at hcl
      simp only [Option.some.injEq] at hcl
      subst hcl
      exact hstep2.2.2.1
    | cons p pre' =>
      simp only [List.cons_append, List.cons.injEq] at hsplit
      obtain ⟨rfl, hrestsplit⟩ := hsplit
      have hih := ih pre' post l sym token save hrestsplit hcl
        (fun l' hl' => hpre l' (List.mem_cons_of_mem _ hl'))
      have hp := hpre line (List.mem_cons_self _ _)
      cases kind with
      | empty => exact absurd hstep1 id
      | unknown s => exact absurd hstep1 id
      | comment =>
        simp only [Pass2Step] at hstep2
        subst hstep2; exact hih
      | directive sym' token' cb save' =>
        obtain ⟨e1, _, _⟩ := hstep2
        rw [e1] at hih; exact hih
      | instruction sym' op save' => exact absurd hkind (hp sym' op save')

/-! ## The minimal program under any opcode table -/

set_option maxRecDepth 100000 in
theorem minimal_line1_pass1 (ot : hash_table sic_optable_values)
    (hFIRST : getKVPair 8 ot (some "FIRST".toList) = some none) (st : pass1_state) :
    firstPassLine 8 directiveTable ot st "FIRST START 1000\n".toList
      = firstPassLine 8 directiveTable sampleOpTab st "FIRST START 1000\n".toList := by
  have e1 : strtok "FIRST START 1000\n".toList SIC_TOKEN_DELIMITERS
      = (some "FIRST".toList, "START 1000\n".toList) := by decide
  have e2 : strtok "START 1000\n".toList SIC_TOKEN_DELIMITERS
      = (some "START".toList, "1000\n".toList) := by decide
  have c1 : checkComment "FIRST".toList = false := by decide
  have d1 : getKVPair 8 directiveTable (some "FIRST".toList) = some none := by decide
  have d2 : getKVPair 8 directiveTable (some "START".toList)
      = some (some directive_callback.directive_callback_start) := by decide
  have s1 : getKVPair 8 sampleOpTab (some "FIRST".toList) = some none := by decide
  unfold firstPassLine
  simp only [e1, e2, c1, d1, d2, hFIRST, s1, firstPassDirectiveHelper, if_true,
    Bool.false_eq_true, if_false]

set_option maxRecDepth 100000 in
theorem minimal_line2_pass1 (ot : hash_table sic_optable_values)
    (hL : getKVPair 8 ot (some "L".toList) = some none) (st : pass1_state) :
    firstPassLine 8 directiveTable ot st " L WORD 5\n".toList
      = firstPassLine 8 directiveTable sampleOpTab st " L WORD 5\n".toList := by
  have e1 : strtok " L WORD 5\n".toList SIC_TOKEN_DELIMITERS
      = (some "L".toList, "WORD 5\n".toList) := by decide
  have e2 : strtok "WORD 5\n".toList SIC_TOKEN_DELIMITERS
      = (some "WORD".toList, "5\n".toList) := by decide
  have c1 : checkComment "L".toList = false := by decide
  have d1 : getKVPair 8 directiveTable (some "L".toList) = some none := by decide
  have d2 : getKVPair 8 directiveTable (some "WORD".toList)
      = some (some directive_callback.directive_callback_word) := by decide
  have s1 : getKVPair 8 sampleOpTab (some "L".toList) = some none := by decide
  unfold firstPassLine
  simp only [e1, e2, c1, d1, d2, hL, s1, firstPassDirectiveHelper, if_true,
    Bool.false_eq_true, if_false]

set_option maxRecDepth 100000 in
theorem minimal_line3_pass1 (ot : hash_table sic_optable_values)
    (hFIRST : getKVPair 8 ot (some "FIRST".toList) = some none) (st : pass1_state) :
    firstPassLine 8 directiveTable ot st " END FIRST\n".toList
      = firstPassLine 8 directiveTable sampleOpTab st " END FIRST\n".toList := by
  have e1 : strtok " END FIRST\n".toList SIC_TOKEN_DELIMITERS
      = (some "END".toList, "FIRST\n".toList) := by decide
  have e2 : strtok "FIRST\n".toList SIC_TOKEN_DELIMITERS
      = (some "FIRST".toList, []) := by decide
  have c1 : checkComment "END".toList = false := by decide
  have d1 : getKVPair 8 directiveTable (some "END".toList)
      = some (some directive_callback.directive_callback_end) := by decide
  have d2 : getKVPair 8 directiveTable (some "FIRST".toList) = some none := by decide
  have s1 : getKVPair 8 sampleOpTab (some "FIRST".toList) = some none := by decide
  have n1 : ("END".toList = "BYTE".toList) = False := by decide
  unfold firstPassLine
  simp only [e1, e2, c1, d1, d2, hFIRST, s1, n1, firstPassDirectiveHelper, isReservedWord, if_true,
    Bool.false_eq_true, if_false]

set_option maxRecDepth 100000 in
theorem minimal_line1_pass2 (ot : hash_table sic_optable_values)
    (hFIRST : getKVPair 8 ot (some "FIRST".toList) = some none) (st : pass2_state) :
    secondPassLine 8 directiveTable ot st "FIRST START 1000\n".toList
      = secondPassLine 8 directiveTable sampleOpTab st "FIRST START 1000\n".toList := by
  have e1 : strtok "FIRST START 1000\n".toList SIC_TOKEN_DELIMITERS
      = (some "FIRST".toList, "START 1000\n".toList) := by decide
  have e2 : strtok "START 1000\n".toList SIC_TOKEN_DELIMITERS
      = (some "START".toList, "1000\n".toList) := by decide
  have c1 : checkComment "FIRST".toList = false := by decide
  have d1 : getKVPair 8 directiveTable (some "FIRST".toList) = some none := by decide
  have d2 : getKVPair 8 directiveTable (some "START".toList)
      = some (some directive_callback.directive_callback_start) := by decide
  have s1 : getKVPair 8 sampleOpTab (some "FIRST".toList) = some none := by decide
  unfold secondPassLine
  simp only [e1, e2, c1, d1, d2, hFIRST, s1, if_true, Bool.false_eq_true, if_false]

set_option maxRecDepth 100000 in
theorem minimal_line2_pass2 (ot : hash_table sic_optable_values)
    (hL : getKVPair 8 ot (some "L".toList) = some none) (st : pass2_state) :
    secondPassLine 8 directiveTable ot st " L WORD 5\n".toList
      = secondPassLine 8 directiveTable sampleOpTab st " L WORD 5\n".toList := by
  have e1 : strtok " L WORD 5\n".toList SIC_TOKEN_DELIMITERS
      = (some "L".toList, "WORD 5\n".toList) := by decide
  have e2 : strtok "WORD 5\n".toList SIC_TOKEN_DELIMITERS
      = (some "WORD".toList, "5\n".toList) := by decide
  have c1 : checkComment "L".toList = false := by decide
  have d1 : getKVPair 8 directiveTable (some "L".toList) = some none := by decide
  have d2 : getKVPair 8 directiveTable (some "WORD".toList)
      = some (some directive_callback.directive_callback_word) := by decide
  have s1 : getKVPair 8 sampleOpTab (some "L".toList) = some none := by decide
  unfold secondPassLine
  simp only [e1, e2, c1, d1, d2, hL, s1, if_true, Bool.false_eq_true, if_false]

set_option maxRecDepth 100000 in
theorem minimal_line3_pass2 (ot : hash_table sic_optable_values) (st : pass2_state) :
    secondPassLine 8 directiveTable ot st " END FIRST\n".toList
      = secondPassLine 8 directiveTable sampleOpTab st " END FIRST\n".toList := by
  have e1 : strtok " END FIRST\n".toList SIC_TOKEN_DELIMITERS
      = (some "END".toList, "FIRST\n".toList) := by decide
  have c1 : checkComment "END".toList = false := by decide
  have d1 : getKVPair 8 directiveTable (some "END".toList)
      = some (some directive_callback.directive_callback_end) := by decide
  unfold secondPassLine
  simp only [e1, c1, d1, if_true, Bool.false_eq_true, if_false]

set_option maxRecDepth 100000 in
/-- The minimal program assembles the same way under every opcode table in
which neither FIRST nor L is a mnemonic. -/
theorem assemble_minimal (ot : hash_table sic_optable_values)
    (hFIRST : getKVPair 8 ot (some "FIRST".toList) = some none)
    (hL : getKVPair 8 ot (some "L".toList) = some none) :
    assemble 8 minimalSource directiveTable ot
      = assemble 8 minimalSource directiveTable sampleOpTab := by
  have hlines : readLines minimalSource
      = ["FIRST START 1000\n".toList, " L WORD 5\n".toList, " END FIRST\n".toList] := by decide
  unfold assemble buildSymbolTable generateSCOFFRecords
  rw [hlines]
  simp only [firstPassLoop, secondPassLoop, minimal_line1_pass1 ot hFIRST,
    minimal_line2_pass1 ot hL, minimal_line3_pass1 ot hFIRST, minimal_line1_pass2 ot hFIRST,
    minimal_line2_pass2 ot hL, minimal_line3_pass2 ot]

/-! ## Pass two up to the START line -/

/-- What `secondPassLine` does on a line, by the kind of the line. -/
theorem secondPassLine_of_kind (f : Nat) (dt : hash_table directive_callback)
    (ot : hash_table sic_optable_values) (st : pass2_state) (line : Str) (kind : line_kind)
    (hk : classifyLine f dt ot line = some kind) :
    secondPassLine f dt ot st line =
      match kind with
      | line_kind.empty => undefined
      | line_kind.comment => ok st
      | line_kind.unknown _ => ok st
      | line_kind.instruction _ opcode save =>
        secondPassInstructionHelper f st.symTab opcode st.records st.locCounter save
      | line_kind.directive symbol token _ save =>
        match secondPassDirectiveHelper st.symTab token symbol st.records st.locCounter save with
        | ok (records1, lc1) => ok { st with records := records1, locCounter := lc1 }
        | error e => error e
        | undefined => undefined := by
  unfold secondPassLine
  unfold classifyLine at hk
  rcases htok : strtok line SIC_TOKEN_DELIMITERS with ⟨tok, save⟩
  rw [htok] at hk
  simp only at hk ⊢
  cases tok with
  | none =>
    simp only [Option.some.injEq] at hk
    subst hk; rfl
  | some token =>
    simp only at hk ⊢
    by_cases hc : checkComment token = true
    · simp only [hc, if_true, Option.some.injEq] at hk ⊢
      subst hk; rfl
    · simp only [hc, Bool.false_eq_true, if_false] at hk ⊢
      cases hd : getKVPair f dt (some token) with
      | none => rw [hd] at hk; simp at hk
      | some od =>
        rw [hd] at hk
        cases od with
        | some cb =>
          simp only [Option.some.injEq] at hk ⊢
          subst hk; rfl
        | none =>
          simp only at hk ⊢
          cases ho : getKVPair f ot (some token) with
          | none => rw [ho] at hk; simp at hk
          | some oo =>
            rw [ho] at hk
            cases oo with
            | some opcode =>
              simp only [Option.some.injEq] at hk ⊢
              subst hk; rfl
            | none =>
              simp only at hk ⊢
              rcases htok2 : strtok save SIC_TOKEN_DELIMITERS with ⟨token2, save2⟩
              rw [htok2] at hk
              simp only at hk ⊢
              cases hd2 : getKVPair f dt token2 with
              | none => rw [hd2] at hk; simp at hk
              | some od2 =>
                rw [hd2] at hk
                cases od2 with
                | some cb =>
                  simp only [Option.some.injEq] at hk ⊢
                  subst hk; rfl
                | none =>
                  simp only at hk ⊢
                  cases ho2 : getKVPair f ot token2 with
                  | none => rw [ho2] at hk; simp at hk
                  | some oo2 =>
                    rw [ho2] at hk
                    cases oo2 with
                    | some opcode =>
                      simp only [Option.some.injEq] at hk ⊢
                      subst hk; rfl
                    | none =>
                      simp only [Option.some.injEq] at hk ⊢
                      subst hk; rfl

/-- In a source pass one accepts, the START line is met with no start
address set, and only comment lines come before it. -/
theorem firstPassLoop_before_START (f : Nat) (ot : hash_table sic_optable_values) (line : Str)
    (post : List Str) (sym : Option Str) (token save : Str)
    (hcl : classifyLine f directiveTable ot line = some (line_kind.directive sym token
      directive_callback.directive_callback_start save)) :
    ∀ (pre : List Str) (st1 stF : pass1_state), Inv1 st1 →
      (∀ l ∈ pre ++ line :: post, l.length ≤ 1023) →
      firstPassLoop f directiveTable ot (pre ++ line :: post) st1 = ok stF →
      st1.symTab.startAddress = SIC_NOT_SET_SENTINEL ∧
      (∀ L, sym = some L → sanitizedSymbol L = sic_symbol_status.SYM_OKAY) ∧
      ∀ p ∈ pre, classifyLine f directiveTable ot p = some line_kind.comment := by
  intro pre
  induction pre with
  | nil =>
    intro st1 stF hinv hlen h
    simp only [List.nil_append, firstPassLoop] at h
    split at h
    · rename_i st1' hl
      obtain ⟨kind, hk, hstep⟩ := firstPassLine_step f directiveTable ot st1 st1' line hinv
        (hlen line (by simp)) hl
      rw [hcl] at hk
      simp only [Option.some.injEq] at hk
      subst hk
      obtain ⟨hfresh, ht', hs, _⟩ := hstep
      refine ⟨hs, ?_, fun p hp => by simp at hp⟩
      intro L hL
      subst hL
      exact hfresh.2
    · simp at h
    · simp at h
  | cons p pre ih =>
    intro st1 stF hinv hlen h
    simp only [List.cons_append, firstPassLoop] at h
    split at h
    · rename_i st1' hl
      obtain ⟨kind, hk, hstep⟩ := firstPassLine_step f directiveTable ot st1 st1' p hinv
        (hlen p (by simp)) hl
      have hinv' := Inv1_step f st1 st1' kind hinv hstep
      obtain ⟨hs', hsan, hpre⟩ := ih st1' stF hinv'
        (fun l hl' => hlen l (by simp only [List.cons_append]; exact List.mem_cons_of_mem _ hl')) h
      have hfr := (Pass1Step_frame f st1 st1' kind hstep).1
      have hs : st1.symTab.startAddress = SIC_NOT_SET_SENTINEL := by
        by_contra hne
        exact hne ((hfr hne).symm.trans hs')
      refine ⟨hs, hsan, ?_⟩
      intro q hq
      rcases List.mem_cons.mp hq with rfl | hq
      · have hL : SIC_MEMORY_LIMIT = 32767 := rfl
        have hN : SIC_NOT_SET_SENTINEL = 4294967295 := rfl
        cases kind with
        | empty => exact absurd hstep id
        | unknown s => exact absurd hstep id
        | comment => exact hk
        | directive sym' token' cb save' =>
          obtain ⟨_, ht', h1⟩ := hstep
          cases cb with
          | directive_callback_start =>
            obtain ⟨_, s, hsle, _, hst'⟩ := h1
            subst hst'
            simp only at hs'
            omega
          | directive_callback_end => exact absurd hs h1.1
          | directive_callback_resr => exact absurd h1 id
          | directive_callback_exports => exact absurd h1 id
          | directive_callback_byte | directive_callback_word | directive_callback_resb
          | directive_callback_resw => exact absurd hs h1.1
        | instruction sym' op save' => exact absurd hs hstep.2.1
      · exact hpre q hq
    · simp at h
    · simp at h

/-- Pass two passes over comment lines without a change. -/
theorem secondPassLoop_comments (f : Nat) (ot : hash_table sic_optable_values) (st : pass2_state)
    (rest : List Str) :
    ∀ (pre : List Str), (∀ p ∈ pre, classifyLine f directiveTable ot p = some line_kind.comment) →
      secondPassLoop f directiveTable ot (pre ++ rest) st
        = secondPassLoop f directiveTable ot rest st := by
  intro pre
  induction pre with
  | nil => intro _; rfl
  | cons p pre ih =>
    intro h
    simp only [List.cons_append, secondPassLoop]
    rw [secondPassLine_of_kind f directiveTable ot st p _ (h p (List.mem_cons_self _ _))]
    exact ih (fun q hq => h q (List.mem_cons_of_mem _ hq))

/-- In a source pass one accepts, pass two gets through the START line with
a label, and then the header holds the label, the start address and the
program length. -/
theorem secondPassLoop_START (f : Nat) (src : Str) (ot : hash_table sic_optable_values)
    (F : symbol_table) (h1 : buildSymbolTable f src directiveTable ot = ok F)
    (pre post : List Str) (line L token save : Str)
    (hsplit : readLines src = pre ++ line :: post)
    (hcl : classifyLine f directiveTable ot line = some (line_kind.directive (some L) token
      directive_callback.directive_callback_start save)) :
    sanitizedSymbol L = sic_symbol_status.SYM_OKAY ∧
    secondPassLoop f directiveTable ot (pre ++ [line]) (pass2_init F) =
      ok { pass2_init F with
           records := { createRecords with
             header := { magicChar := createRecords.header.magicChar,
                         programName := printfLeft 6 L,
                         startAddr := printfHex 6 F.startAddress,
                         lengthOfProgram := printfHex 6
                           (toUInt32 ((F.locCounter : Int) - (F.startAddress : Int))) } } } := by
  obtain ⟨stF, hloop, hstF, _, _, _⟩ := buildSymbolTable_Inv1 f src directiveTable ot F h1
  rw [hsplit] at hloop
  have hlen : ∀ l ∈ pre ++ line :: post, l.length ≤ 1023 := by
    intro l hl
    rw [← hsplit] at hl
    exact readLines_length src l hl
  obtain ⟨_, hsan, hpre⟩ := firstPassLoop_before_START f ot line post (some L) token save hcl pre
    pass1_init stF Inv1_init hlen hloop
  refine ⟨hsan L rfl, ?_⟩
  rw [secondPassLoop_comments f ot _ _ pre hpre]
  simp only [secondPassLoop]
  rw [secondPassLine_of_kind f directiveTable ot _ line _ hcl]
  have hent := classifyLine_directive_entry f ot line _ _ _ _ hcl
  have htok : token = "START".toList := by
    simp only [directiveEntries, List.mem_cons, Prod.mk.injEq, List.mem_singleton] at hent
    rcases hent with h | h | h | h | h | h | h | h
    all_goals first | exact h.1 | (exact absurd h.2 (by decide)) | simp at h
  subst htok
  simp only [secondPassDirectiveHelper, if_true]
  rfl

/-- A run of both passes that starts before START and ends after it has met
a START line with a label. -/
theorem jointRun_start_exists (f : Nat) (ot : hash_table sic_optable_values) (F : symbol_table)
    (lines : List Str) (st1 : pass1_state) (st2 st2f : pass2_state)
    (h : JointRun f ot F lines st1 st2 st2f) :
    st1.symTab.startAddress = SIC_NOT_SET_SENTINEL → F.startAddress ≠ SIC_NOT_SET_SENTINEL →
    ∃ line ∈ lines, ∃ (L token save : Str),
      classifyLine f directiveTable ot line = some (line_kind.directive (some L) token
        directive_callback.directive_callback_start save) := by
  induction h with
  | nil st1 st2 hF _ _ =>
    intro h1 h2
    subst hF
    exact absurd h1 h2
  | cons line rest kind st1 st1' st2 st2' st2f hkind hinv hrel hstep1 hstep2 hline2 hrest ih =>
    intro h1 h2
    cases kind with
    | empty => exact absurd hstep1 id
    | unknown s => exact absurd hstep1 id
    | comment =>
      simp only [Pass1Step] at hstep1
      subst hstep1
      obtain ⟨l, hl, r⟩ := ih h1 h2
      exact ⟨l, List.mem_cons_of_mem _ hl, r⟩
    | directive sym token cb save =>
      obtain ⟨_, ht', hs1⟩ := hstep1
      obtain ⟨_, _, hs2⟩ := hstep2
      cases cb with
      | directive_callback_start =>
        obtain ⟨_, _, _, L, hL, _⟩ := hs2
        subst hL
        exact ⟨line, List.mem_cons_self _ _, L, token, save, hkind⟩
      | directive_callback_end => exact absurd h1 hs1.1
      | directive_callback_resr => exact absurd hs1 id
      | directive_callback_exports => exact absurd hs1 id
      | directive_callback_byte | directive_callback_word | directive_callback_resb
      | directive_callback_resw => exact absurd h1 hs1.1
    | instruction sym op save => exact absurd h1 hstep1.2.1

theorem sanitizedSymbol_length (L : Str) (h : sanitizedSymbol L = sic_symbol_status.SYM_OKAY) :
    L.length ≤ 6 := by
  unfold sanitizedSymbol at h
  split at h
  · simp at h
  · rename_i hlen
    simp only [SIC_MAX_SYMBOL_LEN] at hlen
    omega

theorem printfLeft_length (L : Str) (h : L.length ≤ 6) : (printfLeft 6 L).length = 6 := by
  simp only [printfLeft, List.length_append, List.length_replicate]
  omega

/-- Pass two keeps the magic character of the header. -/
theorem jointRun_magic (f : Nat) (ot : hash_table sic_optable_values) (F : symbol_table)
    (lines : List Str) (st1 : pass1_state) (st2 st2f : pass2_state)
    (h : JointRun f ot F lines st1 st2 st2f) :
    st2f.records.header.magicChar = st2.records.header.magicChar := by
  induction h with
  | nil st1 st2 _ _ _ => rfl
  | cons line rest kind st1 st1' st2 st2' st2f hkind hinv hrel hstep1 hstep2 hline2 _ ih =>
    rw [ih]
    cases kind with
    | empty => exact absurd hstep1 id
    | unknown s => exact absurd hstep1 id
    | comment =>
      simp only [Pass2Step] at hstep2
      subst hstep2; rfl
    | directive sym token cb save =>
      obtain ⟨_, ht', h1⟩ := hstep1
      obtain ⟨_, _, h2⟩ := hstep2
      cases cb with
      | directive_callback_start =>
        obtain ⟨_, _, _, L, _, hh⟩ := h2
        rw [hh]
      | directive_callback_end => rw [h2.2.2.2.1]
      | directive_callback_resr => exact absurd h1 id
      | directive_callback_exports => exact absurd h1 id
      | directive_callback_byte | directive_callback_word | directive_callback_resb
      | directive_callback_resw => rw [h2.2.1]
    | instruction sym op save =>
      obtain ⟨_, _, hh, _⟩ := hstep2
      rw [hh]

theorem header_eq (h : sic_scoff_header) (m : Char) (p s l : Str) (hm : h.magicChar = m)
    (hp : h.programName = p) (hs : h.startAddr = s) (hl : h.lengthOfProgram = l) :
    h = { magicChar := m, programName := p, startAddr := s, lengthOfProgram := l } := by
  cases h
  simp only at hm hp hs hl
  subst hm; subst hp; subst hs; subst hl
  rfl

/-! ## The magic characters of the records and the text of the object file -/

theorem dataTexts_magic (cb : directive_callback) (operand : Option Str) (a : Nat) :
    ∀ t ∈ dataTexts cb operand a, t.magicChar = 'T' := by
  intro t ht
  cases cb <;> cases operand <;> simp only [dataTexts, List.not_mem_nil] at ht
  · simp only [byteChunks, List.mem_map] at ht
    obtain ⟨i, _, rfl⟩ := ht
    rfl
  · simp only [List.mem_singleton] at ht
    rw [ht]

/-- A line both passes accept keeps the magic characters of the end record,
the text records and the modification records. -/
theorem Pass2Step_magic (f : Nat) (st1 st1' : pass1_state) (st2 st2' : pass2_state)
    (kind : line_kind) (h1 : Pass1Step f st1 st1' kind) (h2 : Pass2Step st2 st2' kind)
    (hE : st2.records.end_.magicChar = 'E')
    (hT : ∀ t ∈ st2.records.texts.nodes, t.magicChar = 'T')
    (hM : ∀ m ∈ st2.records.modifications.nodes, m.magicChar = 'M') :
    st2'.records.end_.magicChar = 'E' ∧
    (∀ t ∈ st2'.records.texts.nodes, t.magicChar = 'T') ∧
    (∀ m ∈ st2'.records.modifications.nodes, m.magicChar = 'M') := by
  cases kind with
  | empty => exact absurd h1 id
  | unknown s => exact absurd h1 id
  | comment =>
    simp only [Pass2Step] at h2
    subst h2; exact ⟨hE, hT, hM⟩
  | directive sym token cb save =>
    obtain ⟨_, _, h1⟩ := h1
    obtain ⟨_, hm, h2⟩ := h2
    cases cb with
    | directive_callback_start =>
      obtain ⟨_, ht, he, _⟩ := h2
      rw [hm, ht, he]; exact ⟨hE, hT, hM⟩
    | directive_callback_end =>
      obtain ⟨_, _, ht, _, he⟩ := h2
      rw [hm, ht, he]; exact ⟨hE, hT, hM⟩
    | directive_callback_resr => exact absurd h1 id
    | directive_callback_exports => exact absurd h1 id
    | directive_callback_byte | directive_callback_word | directive_callback_resb
    | directive_callback_resw =>
      obtain ⟨_, _, he, ht⟩ := h2
      rw [hm, he]
      refine ⟨hE, ?_, hM⟩
      intro t hmem
      rw [ht] at hmem
      rcases List.mem_append.mp hmem with hmem | hmem
      · exact hT t hmem
      · exact dataTexts_magic _ _ _ t hmem
  | instruction sym op save =>
    obtain ⟨_, _, _, he, ⟨payload, ht⟩, hm⟩ := h2
    rw [he]
    refine ⟨hE, ?_, ?_⟩
    · intro t hmem
      rw [ht] at hmem
      rcases List.mem_append.mp hmem with hmem | hmem
      · exact hT t hmem
      · rw [List.mem_singleton.mp hmem]
    · intro m hmem
      rw [hm] at hmem
      rcases List.mem_append.mp hmem with hmem | hmem
      · exact hM m hmem
      · split at hmem
        · simp at hmem
        · rw [List.mem_singleton.mp hmem]

/-- Pass two keeps the magic characters of the end record, the text records
and the modification records. -/
theorem jointRun_record_magic (f : Nat) (ot : hash_table sic_optable_values) (F : symbol_table)
    (lines : List Str) (st1 : pass1_state) (st2 st2f : pass2_state)
    (h : JointRun f ot F lines st1 st2 st2f) :
    st2.records.end_.magicChar = 'E' →
    (∀ t ∈ st2.records.texts.nodes, t.magicChar = 'T') →
    (∀ m ∈ st2.records.modifications.nodes, m.magicChar = 'M') →
    st2f.records.end_.magicChar = 'E' ∧
    (∀ t ∈ st2f.records.texts.nodes, t.magicChar = 'T') ∧
    (∀ m ∈ st2f.records.modifications.nodes, m.magicChar = 'M') := by
  induction h with
  | nil st1 st2 _ _ _ => exact fun hE hT hM => ⟨hE, hT, hM⟩
  | cons line rest kind st1 st1' st2 st2' st2f hkind hinv hrel hstep1 hstep2 hline2 _ ih =>
    intro hE hT hM
    obtain ⟨hE', hT', hM'⟩ := Pass2Step_magic f st1 st1' st2 st2' kind hstep1 hstep2 hE hT hM
    exact ih hE' hT' hM'

/-- Nodes appended one after the other are held in that order. -/
theorem addToList_foldl {α : Type} : ∀ (xs : List α) (l : linked_list α),
    (xs.foldl addToList l).nodes = l.nodes ++ xs := by
  intro xs
  induction xs with
  | nil => intro l; simp
  | cons x rest ih =>
    intro l
    rw [List.foldl_cons, ih]
    simp [addToList]

/-- The text written for records that carry their magic characters. -/
theorem writeSCOFFToFile_text (records : sic_scoff_records)
    (hH : records.header.magicChar = 'H') (hE : records.end_.magicChar = 'E')
    (hT : ∀ t ∈ records.texts.nodes, t.magicChar = 'T')
    (hM : ∀ m ∈ records.modifications.nodes, m.magicChar = 'M') :
    writeSCOFFToFile records =
      'H' :: (records.header.programName ++ records.header.startAddr
        ++ records.header.lengthOfProgram) ++ [lfChar] ++
      (records.texts.nodes.map (fun t =>
        'T' :: (t.startAddr ++ t.lengthOfObj ++ t.objectCode) ++ [lfChar])).flatten ++
      (records.modifications.nodes.map (fun m =>
        'M' :: (m.startAddr ++ m.lenOfModificationHB ++ [m.modificationFlag] ++ m.symbolName)
          ++ [lfChar])).flatten ++
      'E' :: records.end_.firstInstruction := by
  unfold writeSCOFFToFile headerLine endLine
  rw [hH, hE]
  have e1 : records.texts.nodes.map (fun t => textLine t ++ [lfChar])
      = records.texts.nodes.map (fun t =>
        'T' :: (t.startAddr ++ t.lengthOfObj ++ t.objectCode) ++ [lfChar]) :=
    List.map_congr_left (fun t ht => by unfold textLine; rw [hT t ht])
  have e2 : records.modifications.nodes.map (fun m => modLine m ++ [lfChar])
      = records.modifications.nodes.map (fun m =>
        'M' :: (m.startAddr ++ m.lenOfModificationHB ++ [m.modificationFlag] ++ m.symbolName)
          ++ [lfChar]) :=
    List.map_congr_left (fun m hm => by unfold modLine; rw [hM m hm])
  rw [e1, e2]

theorem toHex_last (n : Nat) : ∃ pre, toHex n = pre ++ [hexDigitChar (n % 16)] := by
  by_cases h : n < 16
  · exact ⟨[], by rw [toHex_small n h, Nat.mod_eq_of_lt h]; rfl⟩
  · exact ⟨toHex (n / 16), toHex_step n (by omega)⟩

theorem hexDigitChar_ne_lf (d : Nat) (h : d < 16) : hexDigitChar d ≠ lfChar := by
  revert d
  decide

/-- Text that ends with a number printed in hexadecimal does not end with a
line feed. -/
theorem getLast_printfHex (s : Str) (w n : Nat) :
    (s ++ printfHex w n).getLast? ≠ some lfChar := by
  obtain ⟨pre, hpre⟩ := toHex_last n
  have e : s ++ printfHex w n
      = (s ++ (List.replicate (w - (toHex n).length) '0' ++ pre)) ++ [hexDigitChar (n % 16)] := by
    unfold printfHex
    rw [hpre]
    simp only [List.append_assoc]
  rw [e, List.getLast?_concat]
  intro hc
  simp only [Option.some.injEq] at hc
  exact hexDigitChar_ne_lf _ (Nat.mod_lt _ (by omega)) hc

/-- The records of a source both passes accept carry their magic characters,
and the end record holds 6 hex digits. -/
theorem accepted_records_magic (f : Nat) (src : Str) (ot : hash_table sic_optable_values)
    (F : symbol_table) (recs : sic_scoff_records) (symTab2 : symbol_table)
    (h1 : buildSymbolTable f src directiveTable ot = ok F)
    (h2 : generateSCOFFRecords f src directiveTable ot F = ok (recs, symTab2)) :
    recs.header.magicChar = 'H' ∧ recs.end_.magicChar = 'E' ∧
    (∀ t ∈ recs.texts.nodes, t.magicChar = 'T') ∧
    (∀ m ∈ recs.modifications.nodes, m.magicChar = 'M') ∧
    recs.end_.firstInstruction = printfHex 6 symTab2.endAddress := by
  obtain ⟨stF, _, hstF, hinvF, heF, hsF⟩ := buildSymbolTable_Inv1 f src directiveTable ot F h1
  subst hstF
  obtain ⟨st2f, hrun, hrecs, hsym2, _, _, _, _⟩ :=
    jointRun_of_accepted f src ot stF.symTab recs symTab2 h1 h2
  have hm := jointRun_magic f ot _ _ _ _ _ hrun
  obtain ⟨hE, hT, hM⟩ := jointRun_record_magic f ot _ _ _ _ _ hrun rfl
    (fun t ht => by simp [pass2_init, createRecords, createLinkedList] at ht)
    (fun m hm => by simp [pass2_init, createRecords, createLinkedList] at hm)
  obtain ⟨eline, hemem, esym, etoken, esave, hecl⟩ :=
    jointRun_end_exists f ot _ _ _ _ _ hrun rfl heF
  obtain ⟨hend, _⟩ := jointRun_endRecord f ot _ _ _ _ _ hrun eline hemem esym etoken esave hecl
  rw [hrecs] at hm hE hT hM hend
  rw [hsym2] at hend
  exact ⟨hm, hE, hT, hM, hend⟩

/-! ## The BYTE handler on a well-formed constant -/

/-- What `directive_callback_byte` does once the constant has passed its checks: it
advances the location counter, checks the memory limit, and then looks at
what follows the closing apostrophe. -/
theorem directive_callback_byte_accepted (symbolTable : symbol_table) (kind : Char)
    (content tail save : Str)
    (hset : symbolTable.startAddress ≠ SIC_NOT_SET_SENTINEL) (hq : quoteChar ∉ content)
    (hk : kind = 'C' ∨ kind = 'X')
    (hx : kind = 'X' → content.length % 2 = 0 ∧ content.all isxdigit = true) :
    directive_callback_byte symbolTable (some (byteOperand kind content tail)) save
      = if (symbolTable.locCounter +
            (if kind = 'X' then content.length / 2 else content.length)) % UINT32_MOD
          > SIC_MEMORY_LIMIT then
          { status := DCS_MEMORY_OVERFLOW,
            symbolTable := { symbolTable with locCounter := (symbolTable.locCounter +
              (if kind = 'X' then content.length / 2 else content.length)) % UINT32_MOD },
            save := save }
        else
          { status := (match (strtok tail SIC_TOKEN_DELIMITERS).1 with
              | some t => if checkComment t then DCS_OKAY else DCS_TOO_MANY_OPERANDS
              | none => DCS_OKAY),
            symbolTable := { symbolTable with locCounter := (symbolTable.locCounter +
              (if kind = 'X' then content.length / 2 else content.length)) % UINT32_MOD },
            save := (strtok tail SIC_TOKEN_DELIMITERS).2 } := by
  unfold directive_callback_byte byteOperand
  rw [if_neg hset]
  have hXC : ('X' : Char) ≠ 'C' := by decide
  have hCX : ('C' : Char) ≠ 'X' := by decide
  rcases hk with rfl | rfl
  · simp only [List.head?_cons, ne_eq, not_true_eq_false, false_and, if_false,
      List.drop_succ_cons, List.drop_zero, strchr_append_quote content tail hq,
      Option.some.injEq, hCX]
    split
    · rfl
    · rcases hs : strtok tail SIC_TOKEN_DELIMITERS with ⟨tok, save1⟩
      cases tok with
      | none => rfl
      | some t => cases hc : checkComment t <;> simp [hc]
  · obtain ⟨heven, hall⟩ := hx rfl
    simp only [List.head?_cons, ne_eq, not_true_eq_false, and_false, if_false,
      List.drop_succ_cons, List.drop_zero, strchr_append_quote content tail hq,
      Option.some.injEq, heven, hall, Bool.not_true, Bool.false_eq_true, if_true, true_and]
    split
    · rfl
    · rcases hs : strtok tail SIC_TOKEN_DELIMITERS with ⟨tok, save1⟩
      cases tok with
      | none => rfl
      | some t => cases hc : checkComment t <;> simp [hc]

/-! ## `strtol` on decimal tokens -/

theorem digitInBase_dec (c : Char) (h : isdigit c = true) :
    digitInBase 10 c = some ((digitVal c).getD 0) := by
  unfold digitInBase digitVal
  unfold isdigit at h ⊢
  simp only [Bool.and_eq_true, decide_eq_true_eq] at h ⊢
  simp only [h, and_self, if_true, Option.getD_some]
  rw [if_pos (by omega)]

theorem takeDigits_dec : ∀ (s : Str), s.all isdigit = true →
    takeDigits 10 s = (s.map (fun c => (digitVal c).getD 0), []) := by
  intro s
  induction s with
  | nil => intro _; rfl
  | cons c cs ih =>
    intro h
    simp only [List.all_cons, Bool.and_eq_true] at h
    simp only [takeDigits, digitInBase_dec c h.1, ih h.2, List.map_cons]

theorem foldl_digits_dec (s : Str) :
    (s.map (fun c => (digitVal c).getD 0)).foldl (fun a d => a * 10 + d) 0 = decValue s := by
  unfold decValue
  rw [List.foldl_map]

theorem isdigit_not_special (c : Char) (h : isdigit c = true) :
    isspace c = false ∧ c ≠ '-' ∧ c ≠ '+' := by
  unfold isdigit at h
  simp only [Bool.and_eq_true, decide_eq_true_eq] at h
  refine ⟨?_, ?_, ?_⟩
  · unfold isspace
    simp only [Bool.or_eq_false_iff, decide_eq_false_iff_not, Bool.and_eq_false_imp,
      decide_eq_true_eq]
    omega
  all_goals
    intro e
    subst e
    revert h
    decide

/-- The digits of a decimal token, with or without a sign in front, are read
in full by `strtol` in base 10. -/
theorem strtol_dec (sign t : Str) (hsign : sign = [] ∨ sign = ['-'] ∨ sign = ['+'])
    (ht : t ≠ []) (hd : t.all isdigit = true) (hv : decValue t ≤ 0x7FFFFFFF) :
    strtol (sign ++ t) 10
      = ⟨if sign = ['-'] then -(decValue t : Int) else (decValue t : Int), [], true, false⟩ := by
  cases t with
  | nil => exact absurd rfl ht
  | cons c cs =>
    have hc : isdigit c = true := by
      simp only [List.all_cons, Bool.and_eq_true] at hd
      exact hd.1
    obtain ⟨hsp, hm, hp⟩ := isdigit_not_special c hc
    have hmag : (((c :: cs).map (fun c => (digitVal c).getD 0)).foldl (fun a d => a * 10 + d) 0)
        = decValue (c :: cs) := foldl_digits_dec (c :: cs)
    have hL : LONG_MAX = 9223372036854775807 := rfl
    have hLm : LONG_MIN = -9223372036854775808 := rfl
    have hbase : decide ((10 : Nat) = 16) = false := by decide
    have hsm : isspace '-' = false := by decide
    have hsplus : isspace '+' = false := by decide
    have hpm : ('+' : Char) ≠ '-' := by decide
    rcases hsign with rfl | rfl | rfl
    · simp only [List.nil_append]
      unfold strtol
      simp only [List.dropWhile_cons, hsp, Bool.false_eq_true, if_false, List.head?_cons,
        Option.some.injEq, hm, hp, or_self, hbase, Bool.false_and, decide_False,
        takeDigits_dec (c :: cs) hd]
      simp only [List.map_cons, hmag] at hmag ⊢
      rw [hL, hLm, if_neg (by omega), if_neg (by omega)]
      simp
    · simp only [List.singleton_append]
      unfold strtol
      simp only [List.dropWhile_cons, hsm, Bool.false_eq_true, if_false, List.head?_cons,
        true_or, if_true, List.drop_succ_cons, List.drop_zero, hbase, Bool.false_and,
        takeDigits_dec (c :: cs) hd, decide_True]
      simp only [List.map_cons, hmag] at hmag ⊢
      rw [hL, hLm, if_neg (by omega), if_neg (by omega)]
    · simp only [List.singleton_append]
      unfold strtol
      simp only [List.dropWhile_cons, hsplus, Bool.false_eq_true, if_false, List.head?_cons,
        Option.some.injEq, hpm, or_true, if_true, List.drop_succ_cons, List.drop_zero, hbase,
        Bool.false_and, takeDigits_dec (c :: cs) hd, decide_False]
      simp only [List.map_cons, hmag] at hmag ⊢
      rw [hL, hLm, if_neg (by omega), if_neg (by omega)]
      simp

/-- A decimal token whose value is within the 24-bit range passes `getConstant`,
which stores its value. -/
theorem getConstant_dec (sign t : Str) (hsign : sign = [] ∨ sign = ['-'] ∨ sign = ['+'])
    (ht : t ≠ []) (hd : t.all isdigit = true) (hv : decValue t ≤ 0x7FFFFF) :
    getConstant (sign ++ t) 10
      = (DCS_OKAY, if sign = ['-'] then -(decValue t : Int) else (decValue t : Int)) := by
  have hM : SIC_INTEGER_MAX = 8388607 := rfl
  unfold getConstant
  rw [strtol_dec sign t hsign ht hd (by omega)]
  simp only [Bool.not_true, Bool.false_eq_true, if_false, Bool.not_false, bne_self_eq_false,
    Bool.and_false, Bool.or_self]
  by_cases hneg : sign = ['-']
  · simp only [hneg, if_true]
    rw [toInt32_of_abs_small _ (by omega) (by omega), hM, if_neg (by omega), if_neg (by omega)]
  · simp only [hneg, if_false]
    rw [toInt32_of_abs_small _ (by omega) (by omega), hM, if_neg (by omega), if_neg (by omega)]

/-- A decimal token beyond the 24-bit range, and within the 32-bit range, is
refused by `getConstant` as an overflow or, with a minus sign, as an underflow. -/
theorem getConstant_dec_range (sign t : Str) (hsign : sign = [] ∨ sign = ['-'] ∨ sign = ['+'])
    (ht : t ≠ []) (hd : t.all isdigit = true)
    (hlo : 0x800000 ≤ decValue t) (hv : decValue t ≤ 0x7FFFFFFF) :
    (getConstant (sign ++ t) 10).1
      = if sign = ['-'] then DCS_INTEGER_CONSTANT_UNDERFLOW else DCS_INTEGER_CONSTANT_OVERFLOW := by
  have hM : SIC_INTEGER_MAX = 8388607 := rfl
  have hs := strtol_dec sign t hsign ht hd hv
  unfold getConstant
  by_cases hneg : sign = ['-']
  · simp only [hneg, if_true] at hs ⊢
    have h32 : toInt32 (-(decValue t : Int)) = -(decValue t : Int) :=
      toInt32_of_abs_small _ (by omega) (by omega)
    have hle : ¬ toInt32 (-(decValue t : Int)) > SIC_INTEGER_MAX := by
      rw [h32, hM]; omega
    have hlt : toInt32 (-(decValue t : Int)) < -SIC_INTEGER_MAX := by
      rw [h32, hM]; omega
    simp only [hs, Bool.not_true, Bool.false_eq_true, if_false, Bool.not_false,
      bne_self_eq_false, Bool.and_false, Bool.or_self, if_neg hle, if_pos hlt]
  · simp only [hneg, if_false] at hs ⊢
    have h32 : toInt32 (decValue t : Int) = decValue t :=
      toInt32_of_abs_small _ (by omega) (by omega)
    have hgt : toInt32 (decValue t : Int) > SIC_INTEGER_MAX := by
      rw [h32, hM]; omega
    simp only [hs, Bool.not_true, Bool.false_eq_true, if_false, Bool.not_false,
      bne_self_eq_false, Bool.and_false, Bool.or_self, if_pos hgt]

/-- The operand check `getOperand` on a token that `getConstant` accepts: the next token
on the line decides between DCS_OKAY and DCS_TOO_MANY_OPERANDS. -/
theorem getOperand_of_constant (t save : Str) (base : Nat) (c : Int)
    (hc : getConstant t base = (DCS_OKAY, c)) :
    getOperand (some t) base save
      = ((match (strtok save SIC_TOKEN_DELIMITERS).1 with
          | some tok => if checkComment tok then DCS_OKAY else DCS_TOO_MANY_OPERANDS
          | none => DCS_OKAY), c, (strtok save SIC_TOKEN_DELIMITERS).2) := by
  unfold getOperand
  simp only [hc, ne_eq, not_true_eq_false, if_false]
  rcases hs : strtok save SIC_TOKEN_DELIMITERS with ⟨tok, save1⟩
  cases tok with
  | none => rfl
  | some tok => cases hk : checkComment tok <;> simp [hk]

/-- The operand check `getOperand` on a token that `getConstant` refuses returns the status
of `getConstant`. -/
theorem getOperand_of_refused (t save : Str) (base : Nat)
    (hc : (getConstant t base).1 ≠ DCS_OKAY) :
    (getOperand (some t) base save).1 = (getConstant t base).1 := by
  unfold getOperand
  simp only [ne_eq, hc, not_false_eq_true, if_true]

/-! ## The handlers of WORD, RESB and RESW on the result of the operand check -/

theorem directive_callback_word_of_operand (st : symbol_table) (operand : Option Str)
    (save save1 : Str) (status : directive_callback_status) (c : Int)
    (hset : st.startAddress ≠ SIC_NOT_SET_SENTINEL)
    (hop : getOperand operand 10 save = (status, c, save1)) :
    directive_callback_word st operand save
      = if status ≠ DCS_OKAY then { status := status, symbolTable := st, save := save1 }
        else if (st.locCounter + SIC_WORD_BYTES) % UINT32_MOD > SIC_MEMORY_LIMIT then
          { status := DCS_MEMORY_OVERFLOW,
            symbolTable := { st with
              locCounter := (st.locCounter + SIC_WORD_BYTES) % UINT32_MOD },
            save := save1 }
        else
          { status := DCS_OKAY,
            symbolTable := { st with
              locCounter := (st.locCounter + SIC_WORD_BYTES) % UINT32_MOD },
            save := save1 } := by
  unfold directive_callback_word
  rw [if_neg hset, hop]

theorem directive_callback_resb_of_operand (st : symbol_table) (operand : Option Str)
    (save save1 : Str) (status : directive_callback_status) (c : Int)
    (hset : st.startAddress ≠ SIC_NOT_SET_SENTINEL)
    (hop : getOperand operand 10 save = (status, c, save1)) :
    directive_callback_resb st operand save
      = if status ≠ DCS_OKAY then { status := status, symbolTable := st, save := save1 }
        else if c < 0 then
          { status := DCS_OPERAND_WAS_NEGATIVE, symbolTable := st, save := save1 }
        else if toUInt32 ((st.locCounter : Int) + c * (SIC_BYTE : Int)) > SIC_MEMORY_LIMIT then
          { status := DCS_MEMORY_OVERFLOW,
            symbolTable := { st with
              locCounter := toUInt32 ((st.locCounter : Int) + c * (SIC_BYTE : Int)) },
            save := save1 }
        else
          { status := DCS_OKAY,
            symbolTable := { st with
              locCounter := toUInt32 ((st.locCounter : Int) + c * (SIC_BYTE : Int)) },
            save := save1 } := by
  unfold directive_callback_resb
  rw [if_neg hset, hop]

theorem directive_callback_resw_of_operand (st : symbol_table) (operand : Option Str)
    (save save1 : Str) (status : directive_callback_status) (c : Int)
    (hset : st.startAddress ≠ SIC_NOT_SET_SENTINEL)
    (hop : getOperand operand 10 save = (status, c, save1)) :
    directive_callback_resw st operand save
      = if status ≠ DCS_OKAY then { status := status, symbolTable := st, save := save1 }
        else if c < 0 then
          { status := DCS_OPERAND_WAS_NEGATIVE, symbolTable := st, save := save1 }
        else if toUInt32 ((st.locCounter : Int) + c * (SIC_WORD_BYTES : Int))
            > SIC_MEMORY_LIMIT then
          { status := DCS_MEMORY_OVERFLOW,
            symbolTable := { st with
              locCounter := toUInt32 ((st.locCounter : Int) + c * (SIC_WORD_BYTES : Int)) },
            save := save1 }
        else
          { status := DCS_OKAY,
            symbolTable := { st with
              locCounter := toUInt32 ((st.locCounter : Int) + c * (SIC_WORD_BYTES : Int)) },
            save := save1 } := by
  unfold directive_callback_resw
  rw [if_neg hset, hop]

/-- Conversion of a natural number to `uint32_t`. -/
theorem toUInt32_natCast (a : Nat) : toUInt32 (a : Int) = a % UINT32_MOD := by
  have hU : UINT32_MOD = 4294967296 := rfl
  unfold toUInt32
  rw [hU]
  omega

/-! ## The location counter within the memory limit -/

/-- When `firstPassInstructionHelper` has advanced the location counter, it returns
according to the memory limit check that follows. -/
theorem firstPassInstructionHelper_of_effect (fuel : Nat) (symbolTable : symbol_table)
    (directiveTable : hash_table directive_callback) (opTab : hash_table sic_optable_values)
    (opcode : sic_optable_values) (save : Str) (symbolSeen : Bool) (after : symbol_table)
    (h : firstPassInstructionHelper_effect fuel symbolTable directiveTable opTab opcode save
      symbolSeen = some after)
    (hadv : after.locCounter ≠ symbolTable.locCounter) :
    firstPassInstructionHelper fuel symbolTable directiveTable opTab opcode save symbolSeen
      = if (symbolTable.locCounter + SIC_WORD_BYTES) % UINT32_MOD > SIC_MEMORY_LIMIT then
          error (pass_error.directive DCS_MEMORY_OVERFLOW)
        else ok { symbolTable with
          locCounter := (symbolTable.locCounter + SIC_WORD_BYTES) % UINT32_MOD } := by
  have hsame : ∀ {α : Prop}, some symbolTable = some after → α := by
    intro α hs
    simp only [Option.some.injEq] at hs
    rw [hs] at hadv
    exact absurd rfl hadv
  unfold firstPassInstructionHelper_effect at h
  unfold firstPassInstructionHelper
  simp only at h ⊢
  by_cases h1 : symbolTable.startAddress = SIC_NOT_SET_SENTINEL
  · rw [if_pos h1] at h; exact hsame h
  · rw [if_neg h1] at h ⊢
    by_cases h2 : symbolTable.endAddress ≠ SIC_NOT_SET_SENTINEL ∨
        symbolTable.endAddress = SIC_SEEN_SENTINEL
    · rw [if_pos h2] at h; exact hsame h
    · rw [if_neg h2] at h ⊢
      by_cases h3 : (!SIC_EXPENSIVE_EDITION_SUPPORT) = true ∧
          (opcode.flags &&& OP_FLAG_XE_ONLY ≠ 0 ∨ opcode.flags &&& OP_FLAG_FLOAT_POINT ≠ 0)
      · rw [if_pos h3] at h; exact hsame h
      · rw [if_neg h3] at h ⊢
        generalize (strtok save SIC_TOKEN_DELIMITERS).1 = token at h ⊢
        generalize (strtok save SIC_TOKEN_DELIMITERS).2 = save1 at h ⊢
        cases symbolSeen with
        | true =>
          simp only [if_true] at h ⊢
          by_cases h4 : countOperands (save1.length + 1) token save1 0 ≠ opcode.numOperands.val
          · rw [if_pos h4] at h; exact hsame h
          · rw [if_neg h4]
        | false =>
          simp only [Bool.false_eq_true, if_false] at h ⊢
          cases token with
          | none =>
            simp only at h ⊢
            by_cases h5 : opcode.numOperands.val ≠ 0
            · rw [if_pos h5] at h; exact hsame h
            · rw [if_neg h5]
          | some t =>
            simp only at h ⊢
            cases hr : isReservedWord fuel directiveTable opTab t with
            | none => rw [hr] at h; cases h
            | some b =>
              rw [hr] at h
              cases b with
              | true => exact hsame h
              | false =>
                simp only at h ⊢
                by_cases h4 : countOperands (save1.length + 1) (some t) save1 0
                    ≠ opcode.numOperands.val
                · rw [if_pos h4] at h; exact hsame h
                · rw [if_neg h4]

/-- A handler call that succeeds from a counter within the memory limit
leaves the counter at or above where it was, and within the limit. -/
theorem callDirective_counter (f : Nat) (cb : directive_callback) (st : symbol_table)
    (operand : Option Str) (save : Str) (r : callback_result)
    (hset : st.startAddress ≠ SIC_NOT_SET_SENTINEL) (hlc : st.locCounter ≤ SIC_MEMORY_LIMIT)
    (hlen : ∀ o, operand = some o → o.length ≤ 1023)
    (hcall : callDirective f cb st operand save = some r) (hok : r.status = DCS_OKAY) :
    st.locCounter ≤ r.symbolTable.locCounter ∧ r.symbolTable.locCounter ≤ SIC_MEMORY_LIMIT := by
  have hdata : (cb = directive_callback.directive_callback_byte ∨
      cb = directive_callback.directive_callback_word ∨
      cb = directive_callback.directive_callback_resb ∨
      cb = directive_callback.directive_callback_resw) →
      st.locCounter ≤ r.symbolTable.locCounter ∧ r.symbolTable.locCounter ≤ SIC_MEMORY_LIMIT := by
    intro hcb
    obtain ⟨_, _, hle, hr⟩ := callDirective_data_ok f cb st operand save r hcb hcall hok hlc hlen
    rw [hr]
    exact ⟨Nat.le_add_right _ _, hle⟩
  cases cb with
  | directive_callback_start =>
    simp only [callDirective, Option.some.injEq] at hcall
    rw [← hcall] at hok
    exact absurd (directive_callback_start_ok st operand save hok).1 hset
  | directive_callback_end =>
    simp only [callDirective] at hcall
    obtain ⟨_, hl, _⟩ := directive_callback_end_frame f st operand save r hcall
    rw [hl]
    exact ⟨Nat.le_refl _, hlc⟩
  | directive_callback_byte => exact hdata (Or.inl rfl)
  | directive_callback_word => exact hdata (Or.inr (Or.inl rfl))
  | directive_callback_resb => exact hdata (Or.inr (Or.inr (Or.inl rfl)))
  | directive_callback_resw => exact hdata (Or.inr (Or.inr (Or.inr rfl)))
  | directive_callback_resr =>
    simp only [callDirective, Option.some.injEq] at hcall
    rw [← hcall] at hok
    exact absurd hok (directive_callback_resr_not_ok _ _ _)
  | directive_callback_exports =>
    simp only [callDirective, Option.some.injEq] at hcall
    rw [← hcall] at hok
    exact absurd hok (directive_callback_exports_not_ok _ _ _)

/-! ## Labels that pass one refuses -/

/-- Pass one has accepted every line of an accepted list of lines, each from
some state. -/
theorem firstPassLoop_lines (f : Nat) (dt : hash_table directive_callback)
    (ot : hash_table sic_optable_values) :
    ∀ (lines : List Str) (st st' : pass1_state),
      firstPassLoop f dt ot lines st = ok st' →
      ∀ line ∈ lines, ∃ s s', firstPassLine f dt ot s line = ok s' := by
  intro lines
  induction lines with
  | nil => intro st st' _ line hl; simp at hl
  | cons l rest ih =>
    intro st st' h line hl
    simp only [firstPassLoop] at h
    split at h
    · rename_i st1 hl1
      rcases List.mem_cons.mp hl with rfl | hl
      · exact ⟨st, st1, hl1⟩
      · exact ih st1 st' h line hl
    · simp at h
    · simp at h

/-- A line that pass one accepts and whose first token is neither a comment,
nor a directive, nor a mnemonic starts with a well-formed symbol. -/
theorem firstPassLine_label_sanitized (f : Nat) (dt : hash_table directive_callback)
    (ot : hash_table sic_optable_values) (st st' : pass1_state) (line L : Str)
    (htok : (strtok line SIC_TOKEN_DELIMITERS).1 = some L) (hc : checkComment L = false)
    (hdir : ∀ cb, getKVPair f dt (some L) ≠ some (some cb))
    (hop : ∀ op, getKVPair f ot (some L) ≠ some (some op))
    (h : firstPassLine f dt ot st line = ok st') :
    sanitizedSymbol L = sic_symbol_status.SYM_OKAY := by
  unfold firstPassLine at h
  rcases hs : strtok line SIC_TOKEN_DELIMITERS with ⟨tok, save⟩
  rw [hs] at htok h
  simp only at htok
  subst htok
  simp only [hc, Bool.false_eq_true, if_false] at h
  cases hd : getKVPair f dt (some L) with
  | none => rw [hd] at h; simp at h
  | some r =>
    cases r with
    | some cb => exact absurd hd (hdir cb)
    | none =>
      rw [hd] at h
      simp only at h
      cases ho : getKVPair f ot (some L) with
      | none => rw [ho] at h; simp at h
      | some r =>
        cases r with
        | some op => exact absurd ho (hop op)
        | none =>
          rw [ho] at h
          simp only at h
          cases hy : getKVPair f st.symTab.ht (some L) with
          | none => rw [hy] at h; simp at h
          | some r =>
            cases r with
            | some a => rw [hy] at h; simp at h
            | none =>
              rw [hy] at h
              simp only at h
              by_cases hsan : sanitizedSymbol L = sic_symbol_status.SYM_OKAY
              · exact hsan
              · rw [if_pos hsan] at h
                simp at h

/-- The status `sanitizedSymbol` returns, case by case. -/
theorem sanitizedSymbol_cases (s : Str) :
    (6 < s.length → sanitizedSymbol s = sic_symbol_status.SYM_EXCEEDED_MAX_LEN) ∧
    (s.length ≤ 6 → (∀ c rest, s = c :: rest → ¬ ('A'.toNat ≤ c.toNat ∧ c.toNat ≤ 'Z'.toNat)) →
      sanitizedSymbol s = sic_symbol_status.SYM_FIRST_CHAR_NOT_VALID) ∧
    (∀ c rest, s = c :: rest → rest.length ≤ 5 → 'A'.toNat ≤ c.toNat ∧ c.toNat ≤ 'Z'.toNat →
      ((∀ d ∈ rest, ('A'.toNat ≤ d.toNat ∧ d.toNat ≤ 'Z'.toNat) ∨
          ('0'.toNat ≤ d.toNat ∧ d.toNat ≤ '9'.toNat)) →
        sanitizedSymbol s = sic_symbol_status.SYM_OKAY) ∧
      ((∃ d ∈ rest, ¬ (('A'.toNat ≤ d.toNat ∧ d.toNat ≤ 'Z'.toNat) ∨
          ('0'.toNat ≤ d.toNat ∧ d.toNat ≤ '9'.toNat))) →
        sanitizedSymbol s = sic_symbol_status.SYM_CONTAINTS_INVALID_CHARS)) := by
  have hA : 'A'.toNat = 65 := rfl
  have hZ : 'Z'.toNat = 90 := rfl
  have h0 : '0'.toNat = 48 := rfl
  have h9 : '9'.toNat = 57 := rfl
  have hM : SIC_MAX_SYMBOL_LEN = 6 := rfl
  rw [hA, hZ, h0, h9]
  refine ⟨?_, ?_, ?_⟩
  · intro hlen
    unfold sanitizedSymbol
    rw [if_pos (by rw [hM]; exact hlen)]
  · intro hlen hfirst
    unfold sanitizedSymbol
    rw [if_neg (by rw [hM]; omega)]
    cases s with
    | nil => rfl
    | cons c rest =>
      have hc := hfirst c rest rfl
      have hu : isupper c = false := by
        unfold isupper
        simp only [Bool.and_eq_false_imp, decide_eq_true_eq, decide_eq_false_iff_not]
        intro h1 h2
        exact hc ⟨h1, h2⟩
      simp only [List.head?_cons, hu, Bool.not_false, if_true]
  · intro c rest hs hlen hc
    subst hs
    have hu : isupper c = true := by
      unfold isupper
      simp only [Bool.and_eq_true, decide_eq_true_eq]
      exact hc
    have hall : (rest.all (fun d => isupper d || isdigit d) = true) ↔
        ∀ d ∈ rest, (65 ≤ d.toNat ∧ d.toNat ≤ 90) ∨ (48 ≤ d.toNat ∧ d.toNat ≤ 57) := by
      simp only [List.all_eq_true, isupper, isdigit, Bool.or_eq_true, Bool.and_eq_true,
        decide_eq_true_eq]
    constructor
    · intro hrest
      unfold sanitizedSymbol
      rw [if_neg (by rw [hM]; simp only [List.length_cons]; omega)]
      simp only [List.head?_cons, hu, Bool.not_true, Bool.false_eq_true, if_false,
        List.drop_succ_cons, List.drop_zero, hall.mpr hrest]
    · intro hbad
      have hnall : rest.all (fun d => isupper d || isdigit d) = false := by
        cases hv : rest.all (fun d => isupper d || isdigit d) with
        | false => rfl
        | true =>
          obtain ⟨d, hd, hnd⟩ := hbad
          exact absurd (hall.mp hv d hd) hnd
      unfold sanitizedSymbol
      rw [if_neg (by rw [hM]; simp only [List.length_cons]; omega)]
      simp only [List.head?_cons, hu, Bool.not_true, Bool.false_eq_true, if_false,
        List.drop_succ_cons, List.drop_zero, hnall, Bool.not_false, if_true]

/-- The symbols `sanitizedSymbol` accepts: an upper-case letter followed by at
most five upper-case letters or digits. -/
theorem sanitizedSymbol_okay_iff (s : Str) :
    sanitizedSymbol s = sic_symbol_status.SYM_OKAY ↔
    ∃ c rest, s = c :: rest ∧ rest.length ≤ 5 ∧ ('A'.toNat ≤ c.toNat ∧ c.toNat ≤ 'Z'.toNat) ∧
      ∀ d ∈ rest, ('A'.toNat ≤ d.toNat ∧ d.toNat ≤ 'Z'.toNat) ∨
        ('0'.toNat ≤ d.toNat ∧ d.toNat ≤ '9'.toNat) := by
  obtain ⟨h1, h2, h3⟩ := sanitizedSymbol_cases s
  constructor
  · intro hok
    by_cases hlen : 6 < s.length
    · rw [h1 hlen] at hok; cases hok
    · cases s with
      | nil =>
        rw [h2 (by simp) (fun c rest h => by cases h)] at hok
        cases hok
      | cons c rest =>
        simp only [List.length_cons] at hlen
        by_cases hc : 'A'.toNat ≤ c.toNat ∧ c.toNat ≤ 'Z'.toNat
        · refine ⟨c, rest, rfl, by omega, hc, ?_⟩
          by_contra hbad
          push_neg at hbad
          obtain ⟨d, hd, hnd⟩ := hbad
          rw [(h3 c rest rfl (by omega) hc).2 ⟨d, hd, by
            intro hor
            rcases hor with hu | hdg
            · exact absurd hu.2 (by have := hnd.1 hu.1; omega)
            · exact absurd hdg.2 (by have := hnd.2 hdg.1; omega)⟩] at hok
          cases hok
        · rw [h2 (by simp only [List.length_cons]; omega) (fun c' rest' h => by
            simp only [List.cons.injEq] at h
            rw [← h.1]; exact hc)] at hok
          cases hok
  · rintro ⟨c, rest, hs, hlen, hc, hrest⟩
    exact (h3 c rest hs hlen hc).1 hrest

/-! ## Tokens of a line -/

/-- `strtok` on a text that starts with a token: the token is returned, and the
save pointer stands behind the delimiter that ends it. -/
theorem strtok_token (tok rest delim : Str) (hne : tok ≠ [])
    (hnd : ∀ c ∈ tok, isDelim delim c = false)
    (hrest : rest = [] ∨ ∃ d r, rest = d :: r ∧ isDelim delim d = true) :
    strtok (tok ++ rest) delim = (some tok, rest.drop 1) := by
  cases tok with
  | nil => exact absurd rfl hne
  | cons c cs =>
    have hc : isDelim delim c = false := hnd c (List.mem_cons_self _ _)
    have hcs : ∀ d ∈ cs, (!isDelim delim d) = true := by
      intro d hd
      rw [hnd d (List.mem_cons_of_mem _ hd)]
      rfl
    unfold strtok
    simp only [List.cons_append, List.dropWhile_cons, hc, Bool.false_eq_true, if_false,
      List.takeWhile_cons, Bool.not_false, if_true]
    rcases hrest with rfl | ⟨d, r, rfl, hd⟩
    · simp only [List.append_nil, List.drop_nil]
      rw [List.takeWhile_eq_self_iff.mpr hcs, List.dropWhile_eq_nil_iff.mpr hcs]
      rfl
    · rw [List.takeWhile_append_of_pos hcs, List.dropWhile_append_of_pos hcs]
      simp only [List.takeWhile_cons, List.dropWhile_cons, hd, Bool.not_true,
        Bool.false_eq_true, if_false, List.append_nil, List.drop_succ_cons, List.drop_zero]

/-- `strtok` finds no token in a text of delimiters. -/
theorem strtok_delims (s delim : Str) (h : ∀ c ∈ s, isDelim delim c = true) :
    strtok s delim = (none, []) := by
  unfold strtok
  rw [List.dropWhile_eq_nil_iff.mpr h]

/-- More probing steps do not change the result of a lookup. -/
theorem getKVPair_mono {V : Type} (f d : Nat) (ht : hash_table V) (key : Option Str)
    (r : Option V) (h : getKVPair f ht key = some r) : getKVPair (f + d) ht key = some r := by
  unfold getKVPair at h ⊢
  cases key with
  | none => exact h
  | some k =>
    simp only at h ⊢
    split at h
    · cases h
    · rename_i hsize
      rw [if_neg hsize]
      cases hp : probe ht.p_KVArray k (hashFunction k ht.currentSize) f
          (hashFunction k ht.currentSize) 1 with
      | none => rw [hp] at h; cases h
      | some pr =>
        rw [probe_mono _ _ _ _ _ _ _ d hp]
        rw [hp] at h
        exact h

/-- The name BYTE is found in the directive table by every lookup that has
a result. -/
theorem getKVPair_BYTE (fuel : Nat) (h : fuel ≠ 0) :
    getKVPair fuel directiveTable (some "BYTE".toList)
      = some (some directive_callback.directive_callback_byte) := by
  have h1 : getKVPair 1 directiveTable (some "BYTE".toList)
      = some (some directive_callback.directive_callback_byte) := by decide
  have := getKVPair_mono 1 (fuel - 1) directiveTable _ _ h1
  rwa [Nat.add_sub_cancel' (by omega)] at this

/-- A lookup without probing steps has no result. -/
theorem getKVPair_zero {V : Type} (ht : hash_table V) (k : Str) :
    getKVPair 0 ht (some k) = none := by
  unfold getKVPair
  simp only
  split
  · rfl
  · rfl

/-- The characters of a well-formed symbol are no delimiters, and the symbol
is no comment. -/
theorem sanitizedSymbol_token (L : Str) (h : sanitizedSymbol L = sic_symbol_status.SYM_OKAY) :
    L ≠ [] ∧ (∀ c ∈ L, isDelim SIC_TOKEN_DELIMITERS c = false) ∧ checkComment L = false := by
  obtain ⟨c, rest, rfl, _, hc, hrest⟩ := (sanitizedSymbol_okay_iff L).mp h
  have hA : 'A'.toNat = 65 := rfl
  have hZ : 'Z'.toNat = 90 := rfl
  have h0 : '0'.toNat = 48 := rfl
  have h9 : '9'.toNat = 57 := rfl
  rw [hA, hZ] at hc
  have hnd : ∀ d : Char, 48 ≤ d.toNat → isDelim SIC_TOKEN_DELIMITERS d = false := by
    intro d hd
    unfold isDelim SIC_TOKEN_DELIMITERS
    simp only [List.contains_cons, List.contains_nil, Bool.or_false, Bool.or_eq_false_iff,
      beq_eq_false_iff_ne, ne_eq]
    refine ⟨?_, ?_, ?_, ?_⟩ <;> (intro e; subst e; revert hd; decide)
  refine ⟨by simp, ?_, ?_⟩
  · intro d hd
    rcases List.mem_cons.mp hd with rfl | hd
    · exact hnd _ (by omega)
    · have := hrest d hd
      rw [hA, hZ, h0, h9] at this
      exact hnd _ (by omega)
  · unfold checkComment
    simp only [List.head?_cons, Option.some.injEq, decide_eq_false_iff_not]
    intro e
    subst e
    revert hc
    decide

/-! ## A BYTE line with a character constant -/

/-- In a constant without CR and LF, followed by CR and LF characters only,
the operand of a labelled BYTE line ends at the closing apostrophe. -/
theorem strtok_byte_line (kind : Char) (s eol : Str) (hk : kind = 'C' ∨ kind = 'X')
    (hcr : crChar ∉ s) (hlf : lfChar ∉ s) (heol : ∀ c ∈ eol, c = crChar ∨ c = lfChar) :
    strtok (byteOperand kind s eol) LINE_DELIMITERS
      = (some (byteOperand kind s []), eol.drop 1) := by
  have hsplit : byteOperand kind s eol = byteOperand kind s [] ++ eol := by
    simp [byteOperand]
  have hline : ∀ c : Char, isDelim LINE_DELIMITERS c = false ↔ (c ≠ crChar ∧ c ≠ lfChar) := by
    intro c
    unfold isDelim LINE_DELIMITERS
    simp only [List.contains_cons, List.contains_nil, Bool.or_false, Bool.or_eq_false_iff,
      beq_eq_false_iff_ne, ne_eq]
  rw [hsplit]
  apply strtok_token
  · simp [byteOperand]
  · intro c hc
    rw [hline]
    simp only [byteOperand, List.mem_cons, List.mem_append, List.mem_singleton,
      List.not_mem_nil, or_false] at hc
    rcases hc with rfl | rfl | hc | rfl
    · rcases hk with rfl | rfl <;> decide
    · decide
    · exact ⟨fun e => hcr (e ▸ hc), fun e => hlf (e ▸ hc)⟩
    · decide
  · cases eol with
    | nil => exact Or.inl rfl
    | cons d r =>
      refine Or.inr ⟨d, r, rfl, ?_⟩
      rcases heol d (List.mem_cons_self _ _) with rfl | rfl <;> decide

/-- CR and LF are token delimiters. -/
theorem strtok_eol (eol : Str) (heol : ∀ c ∈ eol, c = crChar ∨ c = lfChar) :
    strtok eol SIC_TOKEN_DELIMITERS = (none, []) := by
  apply strtok_delims
  intro c hc
  rcases heol c hc with rfl | rfl <;> decide

/-- The handler of BYTE on a character constant that fits into the memory. -/
theorem directive_callback_byte_chars (symTab : symbol_table) (s eol save : Str)
    (hset : symTab.startAddress ≠ SIC_NOT_SET_SENTINEL) (hq : quoteChar ∉ s)
    (heol : ∀ c ∈ eol, c = crChar ∨ c = lfChar)
    (hmem : symTab.locCounter + s.length ≤ SIC_MEMORY_LIMIT) :
    directive_callback_byte symTab (some (byteOperand 'C' s eol)) save
      = { status := DCS_OKAY,
          symbolTable := { symTab with locCounter := symTab.locCounter + s.length },
          save := [] } := by
  have hL : SIC_MEMORY_LIMIT = 32767 := rfl
  have hU : UINT32_MOD = 4294967296 := rfl
  have hm : (symTab.locCounter + s.length) % UINT32_MOD = symTab.locCounter + s.length :=
    Nat.mod_eq_of_lt (by omega)
  have hCX : ('C' : Char) ≠ 'X' := by decide
  rw [directive_callback_byte_accepted symTab 'C' s eol save hset hq (Or.inl rfl)
    (fun h => absurd h hCX)]
  simp only [hCX, if_false, hm, strtok_eol eol heol]
  rw [if_neg (by omega)]

/-- The directive step of pass one on a BYTE line with a character constant,
behind a label. -/
theorem firstPassDirectiveHelper_byte_labelled (fuel : Nat) (symTab : symbol_table)
    (dt : hash_table directive_callback) (ot : hash_table sic_optable_values)
    (s eol : Str) (addr : Nat)
    (hset : symTab.startAddress ≠ SIC_NOT_SET_SENTINEL) (hq : quoteChar ∉ s)
    (hcr : crChar ∉ s) (hlf : lfChar ∉ s) (heol : ∀ c ∈ eol, c = crChar ∨ c = lfChar)
    (hmem : symTab.locCounter + s.length ≤ SIC_MEMORY_LIMIT) :
    firstPassDirectiveHelper fuel symTab dt ot directive_callback.directive_callback_byte
        "BYTE".toList (byteOperand 'C' s eol) addr true true
      = ok ({ symTab with locCounter := symTab.locCounter + s.length }, addr, true) := by
  unfold firstPassDirectiveHelper
  simp only [if_true, strtok_byte_line 'C' s eol (Or.inl rfl) hcr hlf heol, callDirective,
    directive_callback_byte_chars symTab s [] _ hset hq (fun c hc => by simp at hc) hmem,
    ne_eq, not_true_eq_false, if_false, Bool.true_eq_false, and_false]

/-- The directive step of pass one on a BYTE line with a character constant
and no label. -/
theorem firstPassDirectiveHelper_byte_unlabelled (fuel : Nat) (symTab : symbol_table)
    (dt : hash_table directive_callback) (ot : hash_table sic_optable_values)
    (s eol : Str) (addr : Nat)
    (hset : symTab.startAddress ≠ SIC_NOT_SET_SENTINEL) (hq : quoteChar ∉ s)
    (heol : ∀ c ∈ eol, c = crChar ∨ c = lfChar)
    (hmem : symTab.locCounter + s.length ≤ SIC_MEMORY_LIMIT)
    (hfree : ∀ t, (strtok (byteOperand 'C' s eol) SIC_TOKEN_DELIMITERS).1 = some t →
      isReservedWord fuel dt ot t = some false) :
    firstPassDirectiveHelper fuel symTab dt ot directive_callback.directive_callback_byte
        "BYTE".toList (byteOperand 'C' s eol) addr true false
      = ok ({ symTab with locCounter := symTab.locCounter + s.length }, addr, true) := by
  have hne : byteOperand 'C' s eol ≠ [] := by simp [byteOperand]
  have htok : ∃ t, (strtok (byteOperand 'C' s eol) SIC_TOKEN_DELIMITERS).1 = some t := by
    unfold strtok byteOperand
    have hC : isDelim SIC_TOKEN_DELIMITERS 'C' = false := by decide
    simp only [List.dropWhile_cons, hC, Bool.false_eq_true, if_false]
    exact ⟨_, rfl⟩
  obtain ⟨t, ht⟩ := htok
  unfold firstPassDirectiveHelper
  simp only [Bool.false_eq_true, if_false, if_true, strtok_nil_delim, hne, ht, hfree t ht,
    callDirective, directive_callback_byte_chars symTab s eol _ hset hq heol hmem,
    ne_eq, not_true_eq_false, Bool.true_eq_false, and_false]

/-! ## The labels of a source and the keys of the symbol map -/

/-- An accepted line passes the checks on its label and inserts it, and does
nothing else to the symbol map. -/
theorem Pass1Step_label (f : Nat) (st st' : pass1_state) (kind : line_kind)
    (h : Pass1Step f st st' kind) :
    LabelFresh f (kindLabel kind) st.symTab.ht ∧
    ∃ addr, LabelInserted f (kindLabel kind) addr st.symTab.ht st'.symTab.ht := by
  cases kind with
  | empty => exact absurd h id
  | unknown s => exact absurd h id
  | comment =>
    simp only [Pass1Step] at h
    subst h
    exact ⟨trivial, 0, rfl⟩
  | directive sym token cb save =>
    obtain ⟨hfresh, ht', h⟩ := h
    refine ⟨hfresh, ?_⟩
    cases cb with
    | directive_callback_start =>
      obtain ⟨_, s, _, hins, hst'⟩ := h
      subst hst'
      exact ⟨s, hins⟩
    | directive_callback_end =>
      obtain ⟨_, _, hins, e, _, hst'⟩ := h
      subst hst'
      exact ⟨_, hins⟩
    | directive_callback_resr => exact absurd h id
    | directive_callback_exports => exact absurd h id
    | directive_callback_byte | directive_callback_word | directive_callback_resb
    | directive_callback_resw =>
      obtain ⟨_, _, hins, _, hst'⟩ := h
      subst hst'
      exact ⟨_, hins⟩
  | instruction sym op save =>
    obtain ⟨hfresh, _, _, ht', hins, _, hst'⟩ := h
    subst hst'
    exact ⟨hfresh, _, hins⟩

/-- Over accepted lines the keys of the symbol map grow by the labels of the
lines, which are pairwise distinct and were not keys before. -/
theorem firstPassLoop_labels (f : Nat) (ot : hash_table sic_optable_values) :
    ∀ (lines : List Str) (st st' : pass1_state), Inv1 st → (∀ l ∈ lines, l.length ≤ 1023) →
      firstPassLoop f directiveTable ot lines st = ok st' →
      (∀ k, (∃ v, Bound st'.symTab.ht k v) ↔
        (∃ v, Bound st.symTab.ht k v) ∨ k ∈ sourceLabels f ot lines) ∧
      (sourceLabels f ot lines).Nodup ∧
      (∀ k ∈ sourceLabels f ot lines, ¬ ∃ v, Bound st.symTab.ht k v) := by
  intro lines
  induction lines with
  | nil =>
    intro st st' _ _ h
    simp only [firstPassLoop, ok.injEq] at h
    subst h
    simp [sourceLabels]
  | cons l rest ih =>
    intro st st' hinv hlen h
    simp only [firstPassLoop] at h
    split at h
    · rename_i st1 hl
      obtain ⟨kind, hk, hstep⟩ := firstPassLine_step f directiveTable ot st st1 l hinv
        (hlen l (List.mem_cons_self _ _)) hl
      have hinv1 := Inv1_step f st st1 kind hinv hstep
      obtain ⟨hfresh, addr, hins⟩ := Pass1Step_label f st st1 kind hstep
      obtain ⟨_, hb⟩ := LabelInserted_ok f (kindLabel kind) addr _ _ hinv.1 hins
      obtain ⟨ih1, ih2, ih3⟩ := ih st1 st' hinv1
        (fun l' hl' => hlen l' (List.mem_cons_of_mem _ hl')) h
      have hlab : lineLabel f ot l = kindLabel kind := by
        unfold lineLabel
        rw [hk]
        rfl
      have hkeys1 : ∀ k, (∃ v, Bound st1.symTab.ht k v) ↔
          kindLabel kind = some k ∨ ∃ v, Bound st.symTab.ht k v := by
        intro k
        constructor
        · rintro ⟨v, hv⟩
          rcases (hb k v).mp hv with ⟨hs, _⟩ | hv
          · exact Or.inl hs
          · exact Or.inr ⟨v, hv⟩
        · rintro (hs | ⟨v, hv⟩)
          · exact ⟨addr, (hb k addr).mpr (Or.inl ⟨hs, rfl⟩)⟩
          · exact ⟨v, (hb k v).mpr (Or.inr hv)⟩
      have hnew : ∀ k, kindLabel kind = some k → ¬ ∃ v, Bound st.symTab.ht k v := by
        intro k hs
        rw [hs] at hfresh
        rintro ⟨v, hv⟩
        exact not_Bound_of_getKVPair_none f _ hinv.1 k hfresh.1 v hv
      cases hsym : kindLabel kind with
      | none =>
        have hsl : sourceLabels f ot (l :: rest) = sourceLabels f ot rest := by
          simp only [sourceLabels, List.filterMap_cons, hlab, hsym]
        rw [hsl]
        refine ⟨?_, ih2, ?_⟩
        · intro k
          rw [ih1 k, hkeys1 k, hsym]
          simp
        · intro k hk' hbound
          exact ih3 k hk' ((hkeys1 k).mpr (Or.inr hbound))
      | some L =>
        have hsl : sourceLabels f ot (l :: rest) = L :: sourceLabels f ot rest := by
          simp only [sourceLabels, List.filterMap_cons, hlab, hsym]
        rw [hsl]
        refine ⟨?_, ?_, ?_⟩
        · intro k
          rw [ih1 k, hkeys1 k, hsym]
          simp only [Option.some.injEq, List.mem_cons]
          constructor
          · rintro ((rfl | hb') | hm)
            · exact Or.inr (Or.inl rfl)
            · exact Or.inl hb'
            · exact Or.inr (Or.inr hm)
          · rintro (hb' | rfl | hm)
            · exact Or.inl (Or.inr hb')
            · exact Or.inl (Or.inl rfl)
            · exact Or.inr hm
        · rw [List.nodup_cons]
          refine ⟨?_, ih2⟩
          intro hm
          exact ih3 L hm ((hkeys1 L).mpr (Or.inl hsym))
        · intro k hk'
          rcases List.mem_cons.mp hk' with rfl | hk'
          · exact hnew k hsym
          · intro hbound
            exact ih3 k hk' ((hkeys1 k).mpr (Or.inr hbound))
    · simp at h
    · simp at h

/-- In a well-formed table no key stands in two slots. -/
theorem WF_slot_unique {V : Type} (ht : hash_table V) (hwf : WF ht) (i j : Nat)
    (kv kv' : key_value V) (hi : ht.p_KVArray[i]? = some (some kv))
    (hj : ht.p_KVArray[j]? = some (some kv')) (hkey : kv.key = kv'.key) : i = j := by
  obtain ⟨f, hf⟩ := hwf i kv hi
  obtain ⟨g, hg⟩ := hwf j kv' hj
  rw [← hkey] at hg
  have := probe_det _ _ _ f g _ _ _ _ hf hg
  simpa using this

/-- What the classification of a labelled line has found out about its first
token. -/
theorem classifyLine_label (f : Nat) (dt : hash_table directive_callback)
    (ot : hash_table sic_optable_values) (line L : Str) (kind : line_kind)
    (hk : classifyLine f dt ot line = some kind) (hL : kindLabel kind = some L) :
    (strtok line SIC_TOKEN_DELIMITERS).1 = some L ∧ checkComment L = false ∧
    getKVPair f dt (some L) = some none ∧ getKVPair f ot (some L) = some none := by
  unfold classifyLine at hk
  cases htok : (strtok line SIC_TOKEN_DELIMITERS).1 with
  | none =>
    rw [htok] at hk
    simp only [Option.some.injEq] at hk
    subst hk
    cases hL
  | some token =>
    rw [htok] at hk
    simp only at hk
    cases hc : checkComment token with
    | true =>
      rw [hc] at hk
      simp only [if_true, Option.some.injEq] at hk
      subst hk
      cases hL
    | false =>
      rw [hc] at hk
      simp only [Bool.false_eq_true, if_false] at hk
      cases hd : getKVPair f dt (some token) with
      | none => rw [hd] at hk; cases hk
      | some r =>
        cases r with
        | some cb =>
          rw [hd] at hk
          simp only [Option.some.injEq] at hk
          subst hk
          cases hL
        | none =>
          rw [hd] at hk
          simp only at hk
          cases ho : getKVPair f ot (some token) with
          | none => rw [ho] at hk; cases hk
          | some r =>
            cases r with
            | some op =>
              rw [ho] at hk
              simp only [Option.some.injEq] at hk
              subst hk
              cases hL
            | none =>
              rw [ho] at hk
              simp only at hk
              have hlab : L = token := by
                split at hk
                · cases hk
                · simp only [Option.some.injEq] at hk
                  subst hk
                  simp only [kindLabel, Option.some.injEq] at hL
                  exact hL.symm
                · split at hk
                  · cases hk
                  · simp only [Option.some.injEq] at hk
                    subst hk
                    simp only [kindLabel, Option.some.injEq] at hL
                    exact hL.symm
                  · simp only [Option.some.injEq] at hk
                    subst hk
                    cases hL
              subst hlab
              exact ⟨rfl, hc, hd, ho⟩

/-- A line whose label is bound in the symbol map already is never accepted,
and is refused as a duplicate symbol by every run with enough probing
steps. -/
theorem firstPassLine_duplicate (f : Nat) (ot : hash_table sic_optable_values)
    (st : pass1_state) (line L : Str) (hwf : WF st.symTab.ht)
    (hb : ∃ v, Bound st.symTab.ht L v) (hlab : lineLabel f ot line = some L) :
    (∀ st', firstPassLine f directiveTable ot st line ≠ ok st') ∧
    ∃ f0, ∀ g, f0 ≤ g →
      firstPassLine g directiveTable ot st line = error pass_error.duplicateSymbol := by
  obtain ⟨v, hv⟩ := hb
  unfold lineLabel at hlab
  cases hk : classifyLine f directiveTable ot line with
  | none => rw [hk] at hlab; cases hlab
  | some kind =>
    rw [hk] at hlab
    have hL : kindLabel kind = some L := hlab
    constructor
    · intro st' hok
      obtain ⟨kind', hk', heff⟩ := firstPassLine_ok f directiveTable ot st st' line hok
      rw [hk] at hk'
      simp only [Option.some.injEq] at hk'
      subst hk'
      have hfresh : LabelFresh f (kindLabel kind) st.symTab.ht := by
        cases kind with
        | empty => exact absurd heff id
        | unknown s => exact absurd heff id
        | comment => cases hL
        | directive sym token cb save => exact heff.1
        | instruction sym op save => exact heff.1
      rw [hL] at hfresh
      exact not_Bound_of_getKVPair_none f _ hwf L hfresh.1 v hv
    · obtain ⟨htok, hc, hd, ho⟩ := classifyLine_label f directiveTable ot line L kind hk hL
      obtain ⟨f1, hf1⟩ := getKVPair_of_Bound st.symTab.ht hwf L v hv
      refine ⟨f + f1, ?_⟩
      intro g hg
      have hd' : getKVPair g directiveTable (some L) = some none := by
        have := getKVPair_mono f (g - f) directiveTable _ _ hd
        rwa [Nat.add_sub_cancel' (by omega)] at this
      have ho' : getKVPair g ot (some L) = some none := by
        have := getKVPair_mono f (g - f) ot _ _ ho
        rwa [Nat.add_sub_cancel' (by omega)] at this
      have hs' : getKVPair g st.symTab.ht (some L) = some (some v) := by
        have := getKVPair_mono f1 (g - f1) st.symTab.ht _ _ hf1
        rwa [Nat.add_sub_cancel' (by omega)] at this
      unfold firstPassLine
      rcases hs : strtok line SIC_TOKEN_DELIMITERS with ⟨tok, save⟩
      rw [hs] at htok
      simp only at htok
      subst htok
      simp only [hc, Bool.false_eq_true, if_false, hd', ho', hs']

/-- The labels of lines that hold a line labelled `L` twice are not pairwise
distinct. -/
theorem sourceLabels_twice (f : Nat) (ot : hash_table sic_optable_values)
    (pre mid post : List Str) (l1 l2 L : Str)
    (h1 : lineLabel f ot l1 = some L) (h2 : lineLabel f ot l2 = some L) :
    ¬ (sourceLabels f ot (pre ++ l1 :: (mid ++ l2 :: post))).Nodup := by
  unfold sourceLabels
  simp only [List.filterMap_append, List.filterMap_cons, h1, h2]
  intro hnd
  have h := (List.nodup_append.mp hnd).2.1
  rw [List.nodup_cons] at h
  exact h.1 (by simp)

/-! ## Lookups in the directive table -/

/-- The hash of a key is a slot index. -/
theorem hashFunction_lt (key : Str) (n : Nat) (hn : 0 < n) : hashFunction key n < n := by
  unfold hashFunction
  induction key using List.reverseRecOn with
  | nil => simpa using hn
  | append_singleton l c _ =>
    rw [List.foldl_append]
    exact Nat.mod_lt _ hn

/-- The slot array of the directive table. -/
theorem directiveTable_slots :
    directiveTable.p_KVArray =
      [none, none, some ⟨"START".toList, directive_callback.directive_callback_start⟩, none,
       none, none, some ⟨"WORD".toList, directive_callback.directive_callback_word⟩,
       some ⟨"RESB".toList, directive_callback.directive_callback_resb⟩,
       some ⟨"BYTE".toList, directive_callback.directive_callback_byte⟩, none,
       some ⟨"RESR".toList, directive_callback.directive_callback_resr⟩,
       some ⟨"END".toList, directive_callback.directive_callback_end⟩,
       some ⟨"RESW".toList, directive_callback.directive_callback_resw⟩,
       some ⟨"EXORTS".toList, directive_callback.directive_callback_exports⟩, none, none] := by
  decide

/-- From every start slot the probing loop of the directive table stops
within four slots, whatever the key is. -/
theorem directiveTable_probe (key : Str) (h : Nat) (hh : h < 16) :
    ∃ r, probe directiveTable.p_KVArray key h 4 h 1 = some r := by
  rw [directiveTable_slots]
  interval_cases h <;> simp only [probe] <;> simp [UINT32_MOD] <;> repeat (first | exact ⟨_, rfl⟩ | split)

/-- A lookup in the directive table returns, with fuel for four slots. -/
theorem getKVPair_directiveTable (key : Option Str) (fuel : Nat) (hf : 4 ≤ fuel) :
    ∃ r, getKVPair fuel directiveTable key = some r := by
  obtain ⟨d, rfl⟩ : ∃ d, fuel = 4 + d := ⟨fuel - 4, by omega⟩
  cases key with
  | none => exact ⟨none, rfl⟩
  | some k =>
    have hsize : directiveTable.currentSize = 16 := by decide
    obtain ⟨r, hr⟩ := directiveTable_probe k (hashFunction k 16) (hashFunction_lt k 16 (by decide))
    cases hg : getKVPair 4 directiveTable (some k) with
    | some r' => exact ⟨r', getKVPair_mono 4 d directiveTable (some k) r' hg⟩
    | none =>
      exfalso
      unfold getKVPair at hg
      rw [hsize] at hg
      simp only [show ¬ (16 = 0) by decide, if_false, hr] at hg
      cases r with
      | empty i => simp at hg
      | found i =>
        obtain ⟨kv, hkv, _⟩ :=
          probe_found_slot directiveTable.p_KVArray k (hashFunction k 16) 4 _ 1 i hr
        simp [hkv] at hg

/-- A key that is not a directive name is not found in the directive table:
the lookup returns NULL. -/
theorem getKVPair_directiveTable_absent (key : Str) (fuel : Nat) (hf : 4 ≤ fuel)
    (hkey : ∀ cb, (key, cb) ∉ directiveEntries) :
    getKVPair fuel directiveTable (some key) = some none := by
  obtain ⟨r, hr⟩ := getKVPair_directiveTable (some key) fuel hf
  cases r with
  | none => exact hr
  | some cb =>
    exact absurd ((Bound_directiveTable key cb).1 (Bound_of_getKVPair fuel _ key cb hr)) (hkey cb)

/-! ## The lookahead of pass one -/

/-- The lookahead finds a directive name reserved, with fuel for four
slots. -/
theorem isReservedWord_directive (fuel : Nat) (hf : 4 ≤ fuel)
    (ot : hash_table sic_optable_values) (t : Str) (cb : directive_callback)
    (h : (t, cb) ∈ directiveEntries) : isReservedWord fuel directiveTable ot t = some true := by
  obtain ⟨r, hr⟩ := getKVPair_directiveTable (some t) fuel hf
  cases r with
  | none =>
    exact absurd ((Bound_directiveTable t cb).2 h)
      (not_Bound_of_getKVPair_none fuel _ WF_directiveTable t hr cb)
  | some cb' => simp [isReservedWord, hr]

/-- The lookahead finds a mnemonic of the opcode table reserved, once the
fuel covers the lookup. -/
theorem isReservedWord_opcode (ot : hash_table sic_optable_values) (hwf : WF ot) (t : Str)
    (op : sic_optable_values) (h : Bound ot t op) :
    ∃ f0, ∀ fuel, f0 ≤ fuel → isReservedWord fuel directiveTable ot t = some true := by
  obtain ⟨f1, hf1⟩ := getKVPair_of_Bound ot hwf t op h
  refine ⟨max 4 f1, fun fuel hfuel => ?_⟩
  obtain ⟨d, rfl⟩ : ∃ d, fuel = f1 + d := ⟨fuel - f1, by omega⟩
  have ho := getKVPair_mono f1 d ot (some t) (some op) hf1
  obtain ⟨r, hr⟩ := getKVPair_directiveTable (some t) (f1 + d) (by omega)
  cases r with
  | none => simp [isReservedWord, hr, ho]
  | some cb' => simp [isReservedWord, hr]

/-- The checks of `firstPassInstructionHelper` up to the lookahead, on an unlabelled
line whose second token is reserved. -/
theorem firstPassInstructionHelper_lookahead (fuel : Nat) (symTab : symbol_table)
    (dt : hash_table directive_callback) (ot : hash_table sic_optable_values)
    (opcode : sic_optable_values) (save t2 : Str)
    (hstart : symTab.startAddress ≠ SIC_NOT_SET_SENTINEL)
    (hend : symTab.endAddress = SIC_NOT_SET_SENTINEL)
    (hxe : opcode.flags &&& OP_FLAG_XE_ONLY = 0) (hfp : opcode.flags &&& OP_FLAG_FLOAT_POINT = 0)
    (h2 : (strtok save SIC_TOKEN_DELIMITERS).1 = some t2)
    (hres : isReservedWord fuel dt ot t2 = some true) :
    firstPassInstructionHelper fuel symTab dt ot opcode save false
      = error (pass_error.opcode opcode_status.OPS_SYM_MATCHES_INSTRUCTION) := by
  unfold firstPassInstructionHelper
  have hsent : ¬ (SIC_NOT_SET_SENTINEL = SIC_SEEN_SENTINEL) := by decide
  simp only [hstart, hend, hxe, hfp, h2, hres, hsent, if_false, ne_eq, not_true_eq_false,
    or_self, and_false, Bool.false_eq_true]

/-- The lookahead of `firstPassDirectiveHelper` on an unlabelled line whose second token is
reserved. -/
theorem firstPassDirectiveHelper_lookahead (fuel : Nat) (symTab : symbol_table)
    (dt : hash_table directive_callback) (ot : hash_table sic_optable_values)
    (cb : directive_callback) (token save t2 : Str) (addr : Nat) (startSeen : Bool)
    (h2 : (strtok save SIC_TOKEN_DELIMITERS).1 = some t2)
    (hres : isReservedWord fuel dt ot t2 = some true) :
    firstPassDirectiveHelper fuel symTab dt ot cb token save addr startSeen false
      = error (pass_error.directive DCS_SYM_MATCHES_DIRECTIVE) := by
  have hne : save ≠ [] := by
    intro h
    rw [h] at h2
    simp [strtok] at h2
  have htmp : (strtok save []).1 = some save := by
    cases save with
    | nil => exact absurd rfl hne
    | cons c cs => 
      have := strtok_nil_delim (c :: cs)
      simpa using congrArg Prod.fst this
  unfold firstPassDirectiveHelper
  simp only [Bool.false_eq_true, if_false, htmp, h2, hres]
  split <;> rfl

/-- The tables built by `tableOf` are well-formed. -/
theorem WF_tableOf {V : Type} (fuel : Nat) :
    ∀ (entries : List (Str × V)) (t : hash_table V), WF t → WF (tableOf fuel entries t) := by
  intro entries
  induction entries with
  | nil => intro t h; exact h
  | cons e rest ih =>
    intro t h
    obtain ⟨k, v⟩ := e
    simp only [tableOf]
    split
    · rename_i t1 hins
      exact ih t1 (insertKVPair_ok fuel t t1 k v h hins).1
    · exact h

theorem WF_sampleOpTab : WF sampleOpTab :=
  WF_tableOf 8 sampleOpcodes _ (WF_createHashTable _)

/-- A reserved second token makes pass one reject an unlabelled instruction
line, whatever follows. -/
theorem firstPassLine_instruction_lookahead (fuel : Nat) (dt : hash_table directive_callback)
    (ot : hash_table sic_optable_values) (st : pass1_state) (line t1 t2 : Str)
    (opcode : sic_optable_values)
    (h1 : (strtok line SIC_TOKEN_DELIMITERS).1 = some t1) (hc : checkComment t1 = false)
    (hd : getKVPair fuel dt (some t1) = some none)
    (ho : getKVPair fuel ot (some t1) = some (some opcode))
    (hstart : st.symTab.startAddress ≠ SIC_NOT_SET_SENTINEL)
    (hend : st.symTab.endAddress = SIC_NOT_SET_SENTINEL)
    (hxe : opcode.flags &&& OP_FLAG_XE_ONLY = 0) (hfp : opcode.flags &&& OP_FLAG_FLOAT_POINT = 0)
    (h2 : (strtok (strtok line SIC_TOKEN_DELIMITERS).2 SIC_TOKEN_DELIMITERS).1 = some t2)
    (hres : isReservedWord fuel dt ot t2 = some true) :
    firstPassLine fuel dt ot st line
      = error (pass_error.opcode opcode_status.OPS_SYM_MATCHES_INSTRUCTION) := by
  have hl := firstPassInstructionHelper_lookahead fuel st.symTab dt ot opcode _ t2 hstart hend hxe hfp
    h2 hres
  unfold firstPassLine
  cases hs : strtok line SIC_TOKEN_DELIMITERS with
  | mk tok save =>
    rw [hs] at h1 hl
    simp only at h1 hl
    subst h1
    simp only [hc, Bool.false_eq_true, if_false, hd, ho, hl]

/-- A reserved second token makes pass one reject an unlabelled directive
line, whatever follows. -/
theorem firstPassLine_directive_lookahead (fuel : Nat) (dt : hash_table directive_callback)
    (ot : hash_table sic_optable_values) (st : pass1_state) (line t1 t2 : Str)
    (cb : directive_callback)
    (h1 : (strtok line SIC_TOKEN_DELIMITERS).1 = some t1) (hc : checkComment t1 = false)
    (hd : getKVPair fuel dt (some t1) = some (some cb))
    (h2 : (strtok (strtok line SIC_TOKEN_DELIMITERS).2 SIC_TOKEN_DELIMITERS).1 = some t2)
    (hres : isReservedWord fuel dt ot t2 = some true) :
    firstPassLine fuel dt ot st line = error (pass_error.directive DCS_SYM_MATCHES_DIRECTIVE) := by
  have hl := firstPassDirectiveHelper_lookahead fuel st.symTab dt ot cb t1 _ t2 st.symTab.locCounter
    st.startSeen h2 hres
  unfold firstPassLine
  cases hs : strtok line SIC_TOKEN_DELIMITERS with
  | mk tok save =>
    rw [hs] at h1 hl
    simp only at h1 hl
    subst h1
    simp only [hc, Bool.false_eq_true, if_false, hd, hl]

/-- No directive name starts with the comment character. -/
theorem checkComment_directive (t : Str) (cb : directive_callback)
    (h : (t, cb) ∈ directiveEntries) : checkComment t = false := by
  simp only [directiveEntries, List.mem_cons, Prod.mk.injEq, List.mem_singleton,
    List.not_mem_nil, or_false] at h
  rcases h with h | h | h | h | h | h | h | h <;> (rw [h.1]; decide)

/-- A directive name is found in the directive table, with fuel for four
slots. -/
theorem getKVPair_directive (fuel : Nat) (hf : 4 ≤ fuel) (t : Str) (cb : directive_callback)
    (h : (t, cb) ∈ directiveEntries) :
    getKVPair fuel directiveTable (some t) = some (some cb) := by
  obtain ⟨r, hr⟩ := getKVPair_directiveTable (some t) fuel hf
  have hb := (Bound_directiveTable t cb).2 h
  cases r with
  | none => exact absurd hb (not_Bound_of_getKVPair_none fuel _ WF_directiveTable t hr cb)
  | some cb' =>
    obtain ⟨g, hg⟩ := getKVPair_of_Bound directiveTable WF_directiveTable t cb hb
    rw [hr, getKVPair_det fuel g directiveTable WF_directiveTable t cb' cb hr hg]

/-! ## A source without END line -/

/-- Apart from END lines, no line pass one accepts changes the end
address. -/
theorem Pass1Step_endAddress (f : Nat) (st st' : pass1_state) (kind : line_kind)
    (h : Pass1Step f st st' kind)
    (hk : ∀ sym tok save,
      kind ≠ line_kind.directive sym tok directive_callback.directive_callback_end save) :
    st'.symTab.endAddress = st.symTab.endAddress := by
  cases kind with
  | empty => exact absurd h (by simp [Pass1Step])
  | unknown s => exact absurd h (by simp [Pass1Step])
  | comment =>
    simp only [Pass1Step] at h
    rw [h]
  | instruction sym op save =>
    obtain ⟨_, _, _, ht, _, _, hst⟩ := h
    rw [hst]
  | directive sym tok cb save =>
    obtain ⟨_, ht, h⟩ := h
    cases cb with
    | directive_callback_end => exact absurd rfl (hk sym tok save)
    | directive_callback_start =>
      obtain ⟨_, s, _, _, hst⟩ := h
      rw [hst]
    | directive_callback_resr => exact absurd h (by simp)
    | directive_callback_exports => exact absurd h (by simp)
    | directive_callback_byte => obtain ⟨_, _, _, _, hst⟩ := h; rw [hst]
    | directive_callback_word => obtain ⟨_, _, _, _, hst⟩ := h; rw [hst]
    | directive_callback_resb => obtain ⟨_, _, _, _, hst⟩ := h; rw [hst]
    | directive_callback_resw => obtain ⟨_, _, _, _, hst⟩ := h; rw [hst]

/-- Over lines without END line, the line loop of pass one keeps the end
address. -/
theorem firstPassLoop_no_end (f : Nat) (ot : hash_table sic_optable_values) :
    ∀ (lines : List Str) (st st' : pass1_state), Inv1 st → (∀ l ∈ lines, l.length ≤ 1023) →
      endOperand f ot lines = none →
      firstPassLoop f directiveTable ot lines st = ok st' →
      st'.symTab.endAddress = st.symTab.endAddress := by
  intro lines
  induction lines with
  | nil =>
    intro st st' _ _ _ h
    simp only [firstPassLoop, ok.injEq] at h
    rw [h]
  | cons l rest ih =>
    intro st st' hinv hlen hno h
    simp only [firstPassLoop] at h
    split at h
    · rename_i st1 hl
      obtain ⟨kind, hk, hstep⟩ := firstPassLine_step f directiveTable ot st st1 l hinv
        (hlen l (List.mem_cons_self _ _)) hl
      have hnoend : ∀ sym tok save,
          kind ≠ line_kind.directive sym tok directive_callback.directive_callback_end save := by
        intro sym tok save hkind
        rw [hkind] at hk
        simp [endOperand, hk] at hno
      have hrest : endOperand f ot rest = none := by
        unfold endOperand at hno
        rw [hk] at hno
        split at hno
        · simp at hno
        · exact hno
      rw [ih st1 st' (Inv1_step f st st1 kind hinv hstep)
        (fun l' hl' => hlen l' (List.mem_cons_of_mem _ hl')) hrest h]
      exact Pass1Step_endAddress f st st1 kind hstep hnoend
    · simp at h
    · simp at h


/-! ## Comment lines -/

/-- Pass one steps over a comment line. -/
theorem firstPassLine_comment (f : Nat) (dt : hash_table directive_callback)
    (ot : hash_table sic_optable_values) (st : pass1_state) (line : Str)
    (h : isCommentLine line = true) : firstPassLine f dt ot st line = ok st := by
  unfold isCommentLine at h
  unfold firstPassLine
  cases hs : strtok line SIC_TOKEN_DELIMITERS with
  | mk tok save =>
    rw [hs] at h
    cases tok with
    | none => simp at h
    | some t =>
      simp only at h
      simp only [h, if_true]

/-- Pass two steps over a comment line. -/
theorem secondPassLine_comment (f : Nat) (dt : hash_table directive_callback)
    (ot : hash_table sic_optable_values) (st : pass2_state) (line : Str)
    (h : isCommentLine line = true) : secondPassLine f dt ot st line = ok st := by
  unfold isCommentLine at h
  unfold secondPassLine
  cases hs : strtok line SIC_TOKEN_DELIMITERS with
  | mk tok save =>
    rw [hs] at h
    cases tok with
    | none => simp at h
    | some t =>
      simp only at h
      simp only [h, if_true]

/-- The line loop of pass one does on the lines what it does on those that
are not comment lines. -/
theorem firstPassLoop_codeLines (f : Nat) (dt : hash_table directive_callback)
    (ot : hash_table sic_optable_values) :
    ∀ (lines : List Str) (st : pass1_state),
      firstPassLoop f dt ot (codeLines lines) st = firstPassLoop f dt ot lines st := by
  intro lines
  induction lines with
  | nil => intro st; rfl
  | cons l rest ih =>
    intro st
    by_cases hc : isCommentLine l = true
    · have : codeLines (l :: rest) = codeLines rest := by simp [codeLines, hc]
      rw [this, ih st]
      simp only [firstPassLoop, firstPassLine_comment f dt ot st l hc]
    · have : codeLines (l :: rest) = l :: codeLines rest := by simp [codeLines, hc]
      rw [this]
      simp only [firstPassLoop]
      cases firstPassLine f dt ot st l with
      | ok st1 => exact ih st1
      | error e => rfl
      | undefined => rfl

/-- The line loop of pass two does on the lines what it does on those that
are not comment lines. -/
theorem secondPassLoop_codeLines (f : Nat) (dt : hash_table directive_callback)
    (ot : hash_table sic_optable_values) :
    ∀ (lines : List Str) (st : pass2_state),
      secondPassLoop f dt ot (codeLines lines) st = secondPassLoop f dt ot lines st := by
  intro lines
  induction lines with
  | nil => intro st; rfl
  | cons l rest ih =>
    intro st
    by_cases hc : isCommentLine l = true
    · have : codeLines (l :: rest) = codeLines rest := by simp [codeLines, hc]
      rw [this, ih st]
      simp only [secondPassLoop, secondPassLine_comment f dt ot st l hc]
    · have : codeLines (l :: rest) = l :: codeLines rest := by simp [codeLines, hc]
      rw [this]
      simp only [secondPassLoop]
      cases secondPassLine f dt ot st l with
      | ok st1 => exact ih st1
      | error e => rfl
      | undefined => rfl

/-- Sources with the same lines apart from comment lines have the same
results in both passes. -/
theorem passes_of_codeLines (f : Nat) (dt : hash_table directive_callback)
    (ot : hash_table sic_optable_values) (s1 s2 : Str)
    (h : codeLines (readLines s1) = codeLines (readLines s2)) :
    buildSymbolTable f s1 dt ot = buildSymbolTable f s2 dt ot ∧
    (∀ symTab, generateSCOFFRecords f s1 dt ot symTab = generateSCOFFRecords f s2 dt ot symTab) ∧
    assemble f s1 dt ot = assemble f s2 dt ot := by
  have h1 : buildSymbolTable f s1 dt ot = buildSymbolTable f s2 dt ot := by
    unfold buildSymbolTable
    rw [← firstPassLoop_codeLines f dt ot (readLines s1), h, firstPassLoop_codeLines]
  have h2 : ∀ symTab,
      generateSCOFFRecords f s1 dt ot symTab = generateSCOFFRecords f s2 dt ot symTab := by
    intro symTab
    unfold generateSCOFFRecords
    rw [← secondPassLoop_codeLines f dt ot (readLines s1), h, secondPassLoop_codeLines]
  refine ⟨h1, h2, ?_⟩
  unfold assemble
  rw [h1]
  cases buildSymbolTable f s2 dt ot with
  | ok st => exact h2 st
  | error e => rfl
  | undefined => rfl

/-! ### Lines of a text with a line put in -/

/-- A read of `fgets` that starts in a text ending with a line feed stays
in that text. -/
theorem fgetsAux_append (post : Str) :
    ∀ (pre : Str) (k : Nat), pre.getLast? = some lfChar →
      fgetsAux k (pre ++ post) = ((fgetsAux k pre).1, (fgetsAux k pre).2 ++ post) ∧
      ((fgetsAux k pre).2 = [] ∨ (fgetsAux k pre).2.getLast? = some lfChar) := by
  intro pre
  induction pre with
  | nil => intro k h; simp at h
  | cons c cs ih =>
    intro k h
    cases k with
    | zero => exact ⟨rfl, Or.inr h⟩
    | succ k =>
      by_cases hc : c = lfChar
      · simp only [List.cons_append, fgetsAux, hc, if_true]
        refine ⟨rfl, ?_⟩
        cases cs with
        | nil => exact Or.inl rfl
        | cons d ds => exact Or.inr (by simpa [List.getLast?_cons_cons] using h)
      · cases cs with
        | nil => simp at h; exact absurd h hc
        | cons d ds =>
          have h' : (d :: ds).getLast? = some lfChar := by
            simpa [List.getLast?_cons_cons] using h
          obtain ⟨e1, e2⟩ := ih k h'
          simp only [List.cons_append, fgetsAux, hc, if_false]
          simp only [List.cons_append] at e1
          simp only [List.append_eq, List.cons_append]
          rw [e1]
          exact ⟨rfl, e2⟩

theorem fgetsAux_rest_length : ∀ (k : Nat) (s : Str),
    (fgetsAux (k + 1) s).2.length < s.length ∨ s = [] := by
  intro k
  induction k with
  | zero =>
    intro s
    cases s with
    | nil => exact Or.inr rfl
    | cons c cs =>
      left
      simp only [fgetsAux]
      split <;> simp
  | succ k ih =>
    intro s
    cases s with
    | nil => exact Or.inr rfl
    | cons c cs =>
      left
      simp only [fgetsAux]
      split
      · simp
      · rcases ih cs with h | h
        · simp only [List.length_cons]; omega
        · subst h; simp [fgetsAux]

/-- The reads of the line loop do not depend on the bound, once it covers
the text. -/
theorem readLinesAux_fuel : ∀ (n k : Nat) (s : Str), s.length ≤ n → s.length ≤ k →
    readLinesAux k s = readLinesAux s.length s := by
  intro n
  induction n with
  | zero =>
    intro k s hn _
    have : s = [] := List.eq_nil_of_length_eq_zero (by omega)
    subst this
    cases k <;> simp [readLinesAux, fgets]
  | succ n ih =>
    intro k s hn hk
    cases s with
    | nil => cases k <;> simp [readLinesAux, fgets]
    | cons c cs =>
      cases k with
      | zero => simp at hk
      | succ k =>
        simp only [List.length_cons, readLinesAux, fgets, SIC_LEN_BUFFER]
        have hlt : (fgetsAux 1023 (c :: cs)).2.length < (c :: cs).length := by
          rcases fgetsAux_rest_length 1022 (c :: cs) with h | h
          · exact h
          · simp at h
        simp only [List.length_cons] at hlt hn hk
        simp only [show 1024 - 1 = 1023 by rfl]
        rw [ih k _ (by omega) (by omega), ih cs.length _ (by omega) (by omega)]

theorem readLines_cons (c : Char) (cs : Str) :
    readLines (c :: cs) =
      (fgetsAux 1023 (c :: cs)).1.takeWhile (fun d => d != nulChar) ::
        readLines (fgetsAux 1023 (c :: cs)).2 := by
  unfold readLines
  simp only [List.length_cons, readLinesAux, fgets, SIC_LEN_BUFFER]
  simp only [show 1024 - 1 = 1023 by rfl]
  have hlt : (fgetsAux 1023 (c :: cs)).2.length < (c :: cs).length := by
    rcases fgetsAux_rest_length 1022 (c :: cs) with h | h
    · exact h
    · simp at h
  simp only [List.length_cons] at hlt
  rw [readLinesAux_fuel cs.length cs.length _ (by omega) (by omega)]

/-- The lines of a text behind a text that ends with a line feed are read
as they are read alone. -/
theorem readLines_append (post : Str) : ∀ (n : Nat) (pre : Str), pre.length ≤ n →
    (pre = [] ∨ pre.getLast? = some lfChar) →
    readLines (pre ++ post) = readLines pre ++ readLines post := by
  intro n
  induction n with
  | zero =>
    intro pre hn _
    have : pre = [] := List.eq_nil_of_length_eq_zero (by omega)
    subst this
    simp [readLines, readLinesAux]
  | succ n ih =>
    intro pre hn hpre
    cases pre with
    | nil => simp [readLines, readLinesAux]
    | cons c cs =>
      have hlast : (c :: cs).getLast? = some lfChar := by
        rcases hpre with h | h
        · simp at h
        · exact h
      obtain ⟨e1, e2⟩ := fgetsAux_append post (c :: cs) 1023 hlast
      have hlt : (fgetsAux 1023 (c :: cs)).2.length < (c :: cs).length := by
        rcases fgetsAux_rest_length 1022 (c :: cs) with h | h
        · exact h
        · simp at h
      simp only [List.length_cons] at hlt hn
      rw [List.cons_append, readLines_cons, readLines_cons c cs]
      rw [← List.cons_append, e1]
      simp only
      rw [ih _ (by omega) e2]
      rfl

/-- A line that fits the buffer is read in one piece. -/
theorem fgetsAux_line (post : Str) : ∀ (body : Str) (k : Nat), lfChar ∉ body →
    body.length < k → fgetsAux k (body ++ lfChar :: post) = (body ++ [lfChar], post) := by
  intro body
  induction body with
  | nil =>
    intro k _ hk
    cases k with
    | zero => simp at hk
    | succ k => simp [fgetsAux]
  | cons c cs ih =>
    intro k hlf hk
    cases k with
    | zero => simp at hk
    | succ k =>
      have hc : c ≠ lfChar := fun h => hlf (by simp [h])
      have hcs : lfChar ∉ cs := fun h => hlf (by simp [h])
      simp only [List.cons_append, fgetsAux, hc, if_false]
      simp only [List.append_eq]
      rw [ih k hcs (by simpa using hk)]

/-- Cutting a comment line at its first NUL leaves a comment line. -/
theorem isCommentLine_takeWhile (line : Str) (h : isCommentLine line = true) :
    isCommentLine (line.takeWhile (fun d => d != nulChar)) = true := by
  have hswap : ∀ l : Str,
      (l.takeWhile (fun d => d != nulChar)).dropWhile (isDelim SIC_TOKEN_DELIMITERS)
        = (l.dropWhile (isDelim SIC_TOKEN_DELIMITERS)).takeWhile (fun d => d != nulChar) := by
    intro l
    induction l with
    | nil => rfl
    | cons a l ih =>
      by_cases hq : isDelim SIC_TOKEN_DELIMITERS a = true
      · have hp : (a != nulChar) = true := by
          simp only [isDelim, SIC_TOKEN_DELIMITERS, List.contains_cons, List.contains_nil,
            Bool.or_false, Bool.or_eq_true, beq_iff_eq] at hq
          rcases hq with h | h | h | h <;> (rw [h]; decide)
        simp only [List.takeWhile_cons, hp, if_true, List.dropWhile_cons, hq, ih]
      · rw [List.dropWhile_cons_of_neg hq]
        by_cases hp : (a != nulChar) = true
        · have e : (a :: l).takeWhile (fun d => d != nulChar)
              = a :: l.takeWhile (fun d => d != nulChar) := by
            simp only [List.takeWhile, hp]
          rw [e, List.dropWhile_cons_of_neg hq]
        · have hp' : (a != nulChar) = false := by simpa using hp
          have e : (a :: l).takeWhile (fun d => d != nulChar) = [] := by
            simp only [List.takeWhile, hp']
          rw [e]
          rfl
  unfold isCommentLine strtok at h ⊢
  simp only at h ⊢
  rw [hswap]
  cases hd : line.dropWhile (isDelim SIC_TOKEN_DELIMITERS) with
  | nil => rw [hd] at h; simp at h
  | cons a r =>
    rw [hd] at h
    simp only at h
    have hnd : (!isDelim SIC_TOKEN_DELIMITERS a) = true := by
      have := List.head_dropWhile_not (isDelim SIC_TOKEN_DELIMITERS) line (by rw [hd]; simp)
      simpa [hd] using this
    have ha : a = '#' := by
      simp only [List.takeWhile_cons, hnd, if_true, checkComment, List.head?_cons,
        Option.some.injEq, decide_eq_true_eq] at h
      exact h
    subst ha
    have hp : ('#' != nulChar) = true := by decide
    simp only [List.takeWhile_cons, hp, if_true, hnd, checkComment, List.head?_cons,
      decide_True]

/-- The lines of a text with a comment line put in at a line boundary:
apart from comment lines they are the lines of the text. -/
theorem codeLines_insert (pre body post : Str)
    (hpre : pre = [] ∨ pre.getLast? = some lfChar) (hlf : lfChar ∉ body)
    (hlen : body.length < 1023) (hc : isCommentLine (body ++ [lfChar]) = true) :
    codeLines (readLines (pre ++ (body ++ [lfChar]) ++ post))
      = codeLines (readLines (pre ++ post)) := by
  rw [List.append_assoc, readLines_append _ pre.length pre (Nat.le_refl _) hpre,
    readLines_append _ pre.length pre (Nat.le_refl _) hpre]
  have hline : readLines ((body ++ [lfChar]) ++ post)
      = (body ++ [lfChar]).takeWhile (fun d => d != nulChar) :: readLines post := by
    have hf := fgetsAux_line post body 1023 hlf hlen
    have happ : (body ++ [lfChar]) ++ post = body ++ lfChar :: post := by simp
    rw [happ]
    cases hb : body ++ lfChar :: post with
    | nil => simp at hb
    | cons c cs =>
      rw [readLines_cons, ← hb, hf]
  rw [hline]
  simp only [codeLines, List.filter_append, List.filter_cons,
    isCommentLine_takeWhile _ hc, Bool.not_true, Bool.false_eq_true, if_false]

/-! ### A directive line with and without label -/

/-- Characters that are all delimiters, put behind a text, do not change
the first token. -/
theorem strtok_fst_append (delim eol : Str) (heol : ∀ c ∈ eol, isDelim delim c = true) :
    ∀ r : Str, (strtok (r ++ eol) delim).1 = (strtok r delim).1 := by
  have htw : ∀ x : Str, (x ++ eol).takeWhile (fun c => !isDelim delim c)
      = x.takeWhile (fun c => !isDelim delim c) := by
    intro x
    induction x with
    | nil =>
      cases eol with
      | nil => rfl
      | cons d ds =>
        have hd := heol d (List.mem_cons_self _ _)
        simp [List.takeWhile_cons, hd]
    | cons a x ih =>
      simp only [List.cons_append, List.takeWhile_cons, ih]
  intro r
  induction r with
  | nil =>
    rw [List.nil_append, strtok_delims eol delim heol]
    rfl
  | cons a r ih =>
    by_cases ha : isDelim delim a = true
    · have e1 : strtok (a :: r ++ eol) delim = strtok (r ++ eol) delim := by
        unfold strtok
        simp only [List.cons_append, List.dropWhile_cons, ha, if_true]
      have e2 : strtok (a :: r) delim = strtok r delim := by
        unfold strtok
        simp only [List.dropWhile_cons, ha, if_true]
      rw [e1, e2, ih]
    · unfold strtok
      simp only [List.cons_append, List.dropWhile_cons, ha, Bool.false_eq_true, if_false]
      have := htw (a :: r)
      simp only [List.cons_append] at this
      rw [this]

/-- Status and symbol table of the BYTE handler depend on the operand
through its first two characters, the text up to the closing apostrophe and
the first token behind it. -/
theorem directive_callback_byte_congr (symTab : symbol_table) (o1 o2 s1 s2 : Str)
    (hh : o1.head? = o2.head?) (h1 : (o1.drop 1).head? = (o2.drop 1).head?)
    (hs : (strchr (o1.drop 2) quoteChar).map
        (fun p => (p.1, (strtok (p.2.drop 1) SIC_TOKEN_DELIMITERS).1))
      = (strchr (o2.drop 2) quoteChar).map
        (fun p => (p.1, (strtok (p.2.drop 1) SIC_TOKEN_DELIMITERS).1))) :
    (directive_callback_byte symTab (some o1) s1).status
      = (directive_callback_byte symTab (some o2) s2).status ∧
    (directive_callback_byte symTab (some o1) s1).symbolTable
      = (directive_callback_byte symTab (some o2) s2).symbolTable := by
  unfold directive_callback_byte
  simp only [hh, h1]
  split
  · exact ⟨rfl, rfl⟩
  · split
    · exact ⟨rfl, rfl⟩
    · split
      · exact ⟨rfl, rfl⟩
      · cases hc1 : strchr (o1.drop 2) quoteChar with
        | none =>
          cases hc2 : strchr (o2.drop 2) quoteChar with
          | none => exact ⟨rfl, rfl⟩
          | some p2 => rw [hc1, hc2] at hs; simp at hs
        | some p1 =>
          cases hc2 : strchr (o2.drop 2) quoteChar with
          | none => rw [hc1, hc2] at hs; simp at hs
          | some p2 =>
            obtain ⟨c1, f1⟩ := p1
            obtain ⟨c2, f2⟩ := p2
            rw [hc1, hc2] at hs
            simp only [Option.map_some', Option.some.injEq, Prod.mk.injEq] at hs
            obtain ⟨hc, ht⟩ := hs
            subst hc
            simp only
            rcases hA : strtok (f1.drop 1) SIC_TOKEN_DELIMITERS with ⟨tA, sA⟩
            rcases hB : strtok (f2.drop 1) SIC_TOKEN_DELIMITERS with ⟨tB, sB⟩
            rw [hA, hB] at ht
            simp only at ht
            subst ht
            cases tA with
            | none =>
              simp only
              constructor <;>
                simp only [apply_ite callback_result.status,
                  apply_ite callback_result.symbolTable]
            | some t =>
              simp only
              constructor <;>
                simp only [apply_ite callback_result.status,
                  apply_ite callback_result.symbolTable]

/-- The handler of BYTE does not see line end characters behind its
operand: status and symbol table are the same. -/
theorem directive_callback_byte_eol (symTab : symbol_table) (o eol s1 s2 : Str) (ho : o ≠ [])
    (heol : ∀ c ∈ eol, c = crChar ∨ c = lfChar) :
    (directive_callback_byte symTab (some (o ++ eol)) s2).status
      = (directive_callback_byte symTab (some o) s1).status ∧
    (directive_callback_byte symTab (some (o ++ eol)) s2).symbolTable
      = (directive_callback_byte symTab (some o) s1).symbolTable := by
  have hdel : ∀ c ∈ eol, isDelim SIC_TOKEN_DELIMITERS c = true := by
    intro c hc
    rcases heol c hc with rfl | rfl <;> decide
  have hq : ∀ c ∈ eol, c ≠ quoteChar := by
    intro c hc
    rcases heol c hc with rfl | rfl <;> decide
  cases o with
  | nil => exact absurd rfl ho
  | cons a o1 =>
    cases o1 with
    | nil =>
      have h1 : (([a] ++ eol).drop 1).head? ≠ some quoteChar := by
        cases eol with
        | nil => simp
        | cons d ds =>
          simp only [List.singleton_append, List.drop_succ_cons, List.drop_zero, List.head?_cons,
            ne_eq, Option.some.injEq]
          exact hq d (List.mem_cons_self _ _)
      have h2 : (([a] : Str).drop 1).head? ≠ some quoteChar := by simp
      unfold directive_callback_byte
      simp only
      split
      · exact ⟨rfl, rfl⟩
      · have ehead : ([a] ++ eol).head? = ([a] : Str).head? := rfl
        rw [ehead]
        split
        · exact ⟨rfl, rfl⟩
        · exact ⟨rfl, rfl⟩
    | cons b x =>
      apply directive_callback_byte_congr
      · rfl
      · rfl
      · show (strchr (x ++ eol) quoteChar).map _ = (strchr x quoteChar).map _
        by_cases hmem : quoteChar ∈ x
        · have hc1 : (x ++ eol).contains quoteChar = true := by simp [hmem]
          have hc2 : x.contains quoteChar = true := by simp [hmem]
          have htw : (x ++ eol).takeWhile (fun d => d != quoteChar)
              = x.takeWhile (fun d => d != quoteChar) :=
            (takeWhile_of_isPrefix _ x (x ++ eol) (List.prefix_append _ _)
              ⟨quoteChar, hmem, by simp⟩).symm
          have hdw : (x ++ eol).dropWhile (fun d => d != quoteChar)
              = x.dropWhile (fun d => d != quoteChar) ++ eol := by
            clear htw hc1 hc2 ho
            induction x with
            | nil => simp at hmem
            | cons c cs ih =>
              by_cases hcq : c = quoteChar
              · simp [List.dropWhile_cons, hcq]
              · have : quoteChar ∈ cs := by
                  rcases List.mem_cons.mp hmem with h | h
                  · exact absurd h.symm hcq
                  · exact h
                simp only [List.cons_append, List.dropWhile_cons, bne_iff_ne, ne_eq, hcq,
                  not_false_eq_true, if_true]
                exact ih this
          have hne : x.dropWhile (fun d => d != quoteChar) ≠ [] := by
            intro hnil
            rw [List.dropWhile_eq_nil_iff] at hnil
            have := hnil quoteChar hmem
            simp at this
          have hdrop : (x.dropWhile (fun d => d != quoteChar) ++ eol).drop 1
              = (x.dropWhile (fun d => d != quoteChar)).drop 1 ++ eol := by
            cases hd : x.dropWhile (fun d => d != quoteChar) with
            | nil => exact absurd hd hne
            | cons q r => rfl
          simp only [strchr, hc1, hc2, if_true, htw, hdw, hdrop, Option.map_some',
            strtok_fst_append SIC_TOKEN_DELIMITERS eol hdel]
        · have hc1 : (x ++ eol).contains quoteChar = false := by
            simp only [List.contains_eq_any_beq, List.any_eq_false, beq_iff_eq]
            intro c hc
            rcases List.mem_append.mp hc with h | h
            · exact fun e => hmem (e ▸ h)
            · exact fun e => hq c h e.symm
          have hc2 : x.contains quoteChar = false := by
            simp only [List.contains_eq_any_beq, List.any_eq_false, beq_iff_eq]
            intro c hc
            exact fun e => hmem (e ▸ hc)
          simp only [strchr, hc1, hc2, Bool.false_eq_true, if_false]

/-- The directive step behind a label. -/
theorem firstPassDirectiveHelper_labelled (f : Nat) (symTab : symbol_table)
    (dt : hash_table directive_callback) (ot : hash_table sic_optable_values)
    (cb : directive_callback) (tok save : Str) (addr : Nat) (ss : Bool) :
    firstPassDirectiveHelper f symTab dt ot cb tok save addr ss true
      = if tok = "BYTE".toList then
          directiveFinish f cb symTab addr ss (strtok save LINE_DELIMITERS).1
            (strtok save LINE_DELIMITERS).2
        else directiveFinish f cb symTab addr ss (strtok save SIC_TOKEN_DELIMITERS).1
            (strtok save SIC_TOKEN_DELIMITERS).2 := by
  unfold firstPassDirectiveHelper directiveFinish
  simp only [if_true]

/-- The directive step without label, for a directive other than BYTE whose
operand passes the lookahead. -/
theorem firstPassDirectiveHelper_unlabelled (f : Nat) (symTab : symbol_table)
    (dt : hash_table directive_callback) (ot : hash_table sic_optable_values)
    (cb : directive_callback) (tok save : Str) (addr : Nat) (ss : Bool)
    (hb : tok ≠ "BYTE".toList)
    (hfree : ∀ t, (strtok save SIC_TOKEN_DELIMITERS).1 = some t →
      isReservedWord f dt ot t = some false) :
    firstPassDirectiveHelper f symTab dt ot cb tok save addr ss false
      = directiveFinish f cb symTab addr ss (strtok save SIC_TOKEN_DELIMITERS).1
          (strtok save SIC_TOKEN_DELIMITERS).2 := by
  unfold firstPassDirectiveHelper directiveFinish
  simp only [Bool.false_eq_true, if_false, hb]
  cases ht : (strtok save SIC_TOKEN_DELIMITERS).1 with
  | none => rfl
  | some t =>
    simp only [hfree t ht]

/-- The directive step without label, for BYTE with an operand that passes
the lookahead: the handler is given the whole rest of the line. -/
theorem firstPassDirectiveHelper_unlabelled_byte (f : Nat) (symTab : symbol_table)
    (dt : hash_table directive_callback) (ot : hash_table sic_optable_values)
    (cb : directive_callback) (save t : Str) (addr : Nat) (ss : Bool)
    (ht : (strtok save SIC_TOKEN_DELIMITERS).1 = some t)
    (hfree : isReservedWord f dt ot t = some false) :
    firstPassDirectiveHelper f symTab dt ot cb "BYTE".toList save addr ss false
      = directiveFinish f cb symTab addr ss (some save) (strtok save SIC_TOKEN_DELIMITERS).2 := by
  have hne : save ≠ [] := by
    intro h
    rw [h] at ht
    simp [strtok] at ht
  unfold firstPassDirectiveHelper directiveFinish
  simp only [Bool.false_eq_true, if_false, if_true, strtok_nil_delim, hne, ht, hfree]

/-- The tail of the directive step looks at the status and the symbol table
the handler leaves. -/
theorem directiveFinish_congr (f : Nat) (cb : directive_callback) (symTab : symbol_table)
    (addr : Nat) (ss : Bool) (o1 o2 : Option Str) (s1 s2 : Str) (r1 r2 : callback_result)
    (h1 : callDirective f cb symTab o1 s1 = some r1)
    (h2 : callDirective f cb symTab o2 s2 = some r2)
    (hs : r1.status = r2.status) (ht : r1.symbolTable = r2.symbolTable) :
    directiveFinish f cb symTab addr ss o1 s1 = directiveFinish f cb symTab addr ss o2 s2 := by
  unfold directiveFinish
  rw [h1, h2]
  simp only [hs, ht]

/-- The directive step on a BYTE line, with and without label, when CR and
LF stand only at the end of the line. -/
theorem firstPassDirectiveHelper_byte_label (f : Nat) (symTab : symbol_table)
    (dt : hash_table directive_callback) (ot : hash_table sic_optable_values)
    (o eol : Str) (addr : Nat) (ss : Bool) (res : symbol_table × Nat × Bool)
    (hcr : crChar ∉ o) (hlf : lfChar ∉ o) (heol : ∀ c ∈ eol, c = crChar ∨ c = lfChar)
    (hfree : ∀ t, (strtok (o ++ eol) SIC_TOKEN_DELIMITERS).1 = some t →
      isReservedWord f dt ot t = some false)
    (h : firstPassDirectiveHelper f symTab dt ot directive_callback.directive_callback_byte
      "BYTE".toList (o ++ eol) addr ss true = ok res) :
    firstPassDirectiveHelper f symTab dt ot directive_callback.directive_callback_byte
      "BYTE".toList (o ++ eol) addr ss false = ok res := by
  rw [firstPassDirectiveHelper_labelled, if_pos rfl] at h
  have hline : ∀ c : Char, isDelim LINE_DELIMITERS c = false ↔ (c ≠ crChar ∧ c ≠ lfChar) := by
    intro c
    unfold isDelim LINE_DELIMITERS
    simp only [List.contains_cons, List.contains_nil, Bool.or_false, Bool.or_eq_false_iff,
      beq_eq_false_iff_ne, ne_eq]
  have hdl : ∀ c ∈ eol, isDelim LINE_DELIMITERS c = true := by
    intro c hc
    rcases heol c hc with rfl | rfl <;> decide
  cases ho : o with
  | nil =>
    subst ho
    rw [List.nil_append, strtok_delims eol LINE_DELIMITERS hdl] at h
    unfold directiveFinish callDirective directive_callback_byte at h
    simp only at h
    split at h <;> simp at h
  | cons a x =>
    have hone : o ≠ [] := by rw [ho]; simp
    have htok : strtok (o ++ eol) LINE_DELIMITERS = (some o, eol.drop 1) := by
      apply strtok_token o eol LINE_DELIMITERS hone
      · intro c hc
        rw [hline]
        exact ⟨fun e => hcr (e ▸ hc), fun e => hlf (e ▸ hc)⟩
      · cases eol with
        | nil => exact Or.inl rfl
        | cons d r => exact Or.inr ⟨d, r, rfl, hdl d (List.mem_cons_self _ _)⟩
    rw [← ho]
    rw [htok] at h
    simp only at h
    -- the handler accepted the operand, so it starts with C or X
    have hhead : o.head? = some 'C' ∨ o.head? = some 'X' := by
      unfold directiveFinish callDirective directive_callback_byte at h
      simp only at h
      by_contra hcon
      simp only [not_or] at hcon
      split at h <;> simp at h
    have ha : isDelim SIC_TOKEN_DELIMITERS a = false := by
      rw [ho] at hhead
      simp only [List.head?_cons, Option.some.injEq] at hhead
      rcases hhead with rfl | rfl <;> decide
    have hlook : ∃ t, (strtok (o ++ eol) SIC_TOKEN_DELIMITERS).1 = some t := by
      rw [ho]
      unfold strtok
      simp only [List.cons_append, List.dropWhile_cons, ha, Bool.false_eq_true, if_false]
      exact ⟨_, rfl⟩
    obtain ⟨t, ht⟩ := hlook
    rw [firstPassDirectiveHelper_unlabelled_byte f symTab dt ot _ (o ++ eol) t addr ss ht
      (hfree t ht), ← h]
    have hcong := directive_callback_byte_eol symTab o eol (eol.drop 1)
      (strtok (o ++ eol) SIC_TOKEN_DELIMITERS).2 hone heol
    exact directiveFinish_congr f _ symTab addr ss _ _ _ _ _ _ rfl rfl hcong.1 hcong.2

/-- Pass one on an unlabelled directive line is the directive step. -/
theorem firstPassLine_unlabelled (f : Nat) (dt : hash_table directive_callback)
    (ot : hash_table sic_optable_values) (st : pass1_state) (line tok save : Str)
    (cb : directive_callback)
    (hk : classifyLine f dt ot line = some (line_kind.directive none tok cb save)) :
    firstPassLine f dt ot st line =
      match firstPassDirectiveHelper f st.symTab dt ot cb tok save st.symTab.locCounter
          st.startSeen false with
      | ok (symTab1, _, startSeen1) => ok { symTab := symTab1, startSeen := startSeen1 }
      | error e => error e
      | undefined => undefined := by
  unfold classifyLine at hk
  unfold firstPassLine
  rcases htok : strtok line SIC_TOKEN_DELIMITERS with ⟨t1, sv⟩
  rw [htok] at hk
  simp only at hk ⊢
  cases t1 with
  | none => simp at hk
  | some token =>
    simp only at hk ⊢
    by_cases hc : checkComment token = true
    · simp [hc] at hk
    · simp only [hc, Bool.false_eq_true, if_false] at hk ⊢
      cases hd : getKVPair f dt (some token) with
      | none => rw [hd] at hk; simp at hk
      | some od =>
        rw [hd] at hk
        cases od with
        | some cb' =>
          simp only [Option.some.injEq, line_kind.directive.injEq, true_and] at hk
          obtain ⟨h1, h2, h3⟩ := hk
          subst h1; subst h2; subst h3
          rfl
        | none =>
          simp only at hk
          cases ho : getKVPair f ot (some token) with
          | none => rw [ho] at hk; simp at hk
          | some oo =>
            rw [ho] at hk
            cases oo with
            | some opcode => simp at hk
            | none =>
              simp only at hk
              split at hk
              · simp at hk
              · simp at hk
              · split at hk <;> simp at hk

/-- Pass one on a labelled directive line it accepts: the directive step
succeeded, and the state holds its start address, end address, location
counter and start flag. -/
theorem firstPassLine_labelled (f : Nat) (dt : hash_table directive_callback)
    (ot : hash_table sic_optable_values) (st st' : pass1_state) (line L tok save : Str)
    (cb : directive_callback)
    (hk : classifyLine f dt ot line = some (line_kind.directive (some L) tok cb save))
    (h : firstPassLine f dt ot st line = ok st') :
    ∃ res, firstPassDirectiveHelper f st.symTab dt ot cb tok save st.symTab.locCounter
        st.startSeen true = ok res ∧
      st'.symTab.startAddress = res.1.startAddress ∧ st'.symTab.endAddress = res.1.endAddress ∧
      st'.symTab.locCounter = res.1.locCounter ∧ st'.startSeen = res.2.2 := by
  unfold classifyLine at hk
  unfold firstPassLine at h
  rcases htok : strtok line SIC_TOKEN_DELIMITERS with ⟨t1, sv⟩
  rw [htok] at hk h
  simp only at hk h
  cases t1 with
  | none => simp at hk
  | some token =>
    simp only at hk h
    by_cases hc : checkComment token = true
    · simp [hc] at hk
    · simp only [hc, Bool.false_eq_true, if_false] at hk h
      cases hd : getKVPair f dt (some token) with
      | none => rw [hd] at hk; simp at hk
      | some od =>
        rw [hd] at hk h
        cases od with
        | some cb' => simp at hk
        | none =>
          simp only at hk h
          cases ho : getKVPair f ot (some token) with
          | none => rw [ho] at hk; simp at hk
          | some oo =>
            rw [ho] at hk h
            cases oo with
            | some opcode => simp at hk
            | none =>
              simp only at hk h
              rcases htok2 : strtok sv SIC_TOKEN_DELIMITERS with ⟨token2, save2⟩
              rw [htok2] at hk h
              simp only at hk h
              cases hd2 : getKVPair f dt token2 with
              | none => rw [hd2] at hk; simp at hk
              | some od2 =>
                rw [hd2] at hk h
                cases od2 with
                | none =>
                  simp only at hk
                  split at hk <;> simp at hk
                | some cb2 =>
                  simp only [Option.some.injEq, line_kind.directive.injEq] at hk
                  obtain ⟨h0, h1, h2, h3⟩ := hk
                  subst h0; subst h1; subst h2; subst h3
                  split at h
                  · simp at h
                  · simp at h
                  · split at h
                    · simp at h
                    · simp only at h
                      split at h
                      · rename_i s1 a1 ss1 hh
                        obtain ⟨ht', _, hst'⟩ := insertSymbol_ok _ _ _ _ _ _ h
                        exact ⟨(s1, a1, ss1), hh, by rw [hst'], by rw [hst'], by rw [hst'],
                          by rw [hst']⟩
                      · simp at h
                      · simp at h

/-! ### The two passes at a line of the source -/

/-- When both passes accept the lines, they accept the lines before any
one of them, reach it in states that are related, and step over it. -/
theorem passes_at (f : Nat) (ot : hash_table sic_optable_values) (F : pass1_state) :
    ∀ (pre : List Str) (line : Str) (post : List Str) (st1 : pass1_state)
      (st2 st2f : pass2_state),
      (∀ l ∈ pre ++ line :: post, l.length ≤ 1023) → Inv1 st1 → Rel F.symTab st1 st2 →
      firstPassLoop f directiveTable ot (pre ++ line :: post) st1 = ok F →
      secondPassLoop f directiveTable ot (pre ++ line :: post) st2 = ok st2f →
      ∃ s1 s2 s1' s2' kind,
        firstPassLoop f directiveTable ot pre st1 = ok s1 ∧
        secondPassLoop f directiveTable ot pre st2 = ok s2 ∧
        Inv1 s1 ∧ Rel F.symTab s1 s2 ∧
        classifyLine f directiveTable ot line = some kind ∧
        Pass1Step f s1 s1' kind ∧ Pass2Step s2 s2' kind ∧
        secondPassLine f directiveTable ot s2 line = ok s2' ∧
        firstPassLoop f directiveTable ot post s1' = ok F ∧ Inv1 s1' := by
  intro pre
  induction pre with
  | nil =>
    intro line post st1 st2 st2f hlen hinv hrel h1 h2
    simp only [List.nil_append, firstPassLoop] at h1
    simp only [List.nil_append, secondPassLoop] at h2
    split at h1
    · rename_i st1' hl1
      split at h2
      · rename_i st2' hl2
        obtain ⟨kind, hk, hstep1⟩ := firstPassLine_step f directiveTable ot st1 st1' line hinv
          (hlen line (by simp)) hl1
        have hstep2 := secondPassLine_step f ot line kind st1 st1' st2 st2' hk hstep1
          (Rel_bound _ _ _ hinv hrel) hl2
        exact ⟨st1, st2, st1', st2', kind, rfl, rfl, hinv, hrel, hk, hstep1, hstep2, hl2, h1,
          Inv1_step f st1 st1' kind hinv hstep1⟩
      · simp at h2
      · simp at h2
    · simp at h1
    · simp at h1
  | cons l rest ih =>
    intro line post st1 st2 st2f hlen hinv hrel h1 h2
    simp only [List.cons_append, firstPassLoop] at h1
    simp only [List.cons_append, secondPassLoop] at h2
    split at h1
    · rename_i st1' hl1
      split at h2
      · rename_i st2' hl2
        have hlenl := hlen l (by simp)
        have hlenr : ∀ l' ∈ rest ++ line :: post, l'.length ≤ 1023 :=
          fun l' hl' => hlen l' (by simp only [List.cons_append, List.mem_cons]; exact Or.inr hl')
        obtain ⟨kind, hk, hstep1⟩ := firstPassLine_step f directiveTable ot st1 st1' l hinv hlenl hl1
        have hstep2 := secondPassLine_step f ot l kind st1 st1' st2 st2' hk hstep1
          (Rel_bound _ _ _ hinv hrel) hl2
        have hinv' := Inv1_step f st1 st1' kind hinv hstep1
        have hfr := firstPassLoop_frame f directiveTable ot _ st1' F hinv' hlenr h1
        have hrel' := Rel_step f F.symTab st1 st1' st2 st2' kind hinv hrel hstep1 hstep2 hfr.1
        obtain ⟨s1, s2, s1', s2', kind', e1, e2, rest'⟩ :=
          ih line post st1' st2' st2f hlenr hinv' hrel' h1 h2
        refine ⟨s1, s2, s1', s2', kind', ?_, ?_, rest'⟩
        · simp only [firstPassLoop, hl1, e1]
        · simp only [secondPassLoop, hl2, e2]
      · simp at h2
      · simp at h2
    · simp at h1
    · simp at h1

/-- The line loop of pass one keeps the bindings it starts with. -/
theorem firstPassLoop_Bound (f : Nat) (ot : hash_table sic_optable_values) :
    ∀ (lines : List Str) (st st' : pass1_state), Inv1 st → (∀ l ∈ lines, l.length ≤ 1023) →
      firstPassLoop f directiveTable ot lines st = ok st' →
      ∀ k v, Bound st.symTab.ht k v → Bound st'.symTab.ht k v := by
  intro lines
  induction lines with
  | nil =>
    intro st st' _ _ h k v hb
    simp only [firstPassLoop, ok.injEq] at h
    rw [← h]
    exact hb
  | cons l rest ih =>
    intro st st' hinv hlen h k v hb
    simp only [firstPassLoop] at h
    split at h
    · rename_i st1 hl
      obtain ⟨kind, _, hstep⟩ := firstPassLine_step f directiveTable ot st st1 l hinv
        (hlen l (List.mem_cons_self _ _)) hl
      obtain ⟨_, addr, hins⟩ := Pass1Step_label f st st1 kind hstep
      have hb1 : Bound st1.symTab.ht k v :=
        ((LabelInserted_ok f _ addr _ _ hinv.1 hins).2 k v).2 (Or.inr hb)
      exact ih st1 st' (Inv1_step f st st1 kind hinv hstep)
        (fun l' hl' => hlen l' (List.mem_cons_of_mem _ hl')) h k v hb1
    · simp at h
    · simp at h

/-- A labelled line that pass one accepts after START binds its label to
the location counter it is met with. -/
theorem Pass1Step_binding (f : Nat) (st st' : pass1_state) (kind : line_kind) (L : Str)
    (hinv : Inv1 st) (h : Pass1Step f st st' kind) (hL : kindLabel kind = some L)
    (ht : emitsText kind = true) :
    st.symTab.startAddress ≠ SIC_NOT_SET_SENTINEL ∧
    Bound st'.symTab.ht L st.symTab.locCounter := by
  have key : ∀ ht', LabelInserted f (some L) st.symTab.locCounter st.symTab.ht ht' →
      Bound ht' L st.symTab.locCounter :=
    fun ht' hins => ((LabelInserted_ok f _ _ _ _ hinv.1 hins).2 L _).2 (Or.inl ⟨rfl, rfl⟩)
  cases kind with
  | empty => exact absurd h id
  | unknown s => exact absurd h id
  | comment => simp [kindLabel] at hL
  | instruction sym op save =>
    simp only [kindLabel] at hL
    subst hL
    obtain ⟨_, hs, _, ht', hins, _, hst'⟩ := h
    subst hst'
    exact ⟨hs, key ht' hins⟩
  | directive sym token cb save =>
    simp only [kindLabel] at hL
    subst hL
    obtain ⟨_, ht', h⟩ := h
    cases cb with
    | directive_callback_byte | directive_callback_word =>
      obtain ⟨hs, _, hins, _, hst'⟩ := h
      subst hst'
      exact ⟨hs, key ht' hins⟩
    | directive_callback_start => simp [emitsText] at ht
    | directive_callback_end => simp [emitsText] at ht
    | directive_callback_resb => simp [emitsText] at ht
    | directive_callback_resw => simp [emitsText] at ht
    | directive_callback_resr => simp [emitsText] at ht
    | directive_callback_exports => simp [emitsText] at ht

/-- The first text record of a data line starts at the emitter address. -/
theorem dataTexts_head (cb : directive_callback) (operand : Option Str) (a : Nat)
    (t : sic_scoff_text) (h : (dataTexts cb operand a).head? = some t) :
    t.startAddr = printfHex 6 a := by
  unfold dataTexts at h
  split at h
  · simp only [List.head?_cons, Option.some.injEq] at h
    rw [← h]
  · unfold byteChunks at h
    rename_i o
    cases hn : (byteCount (decide (o.head? = some 'X')) (byteContent o) + 29) / 30 with
    | zero => rw [hn] at h; simp at h
    | succ n =>
      rw [hn, List.range_succ_eq_map] at h
      simp only [List.map_cons, List.head?_cons, Option.some.injEq] at h
      rw [← h]
      simp [byteChunk]
  · simp at h

/-- The first text record pass two appends on a WORD, BYTE or instruction
line starts at the emitter address the line is met with. -/
theorem Pass2Step_head (st st' : pass2_state) (kind : line_kind) (h : Pass2Step st st' kind)
    (ht : emitsText kind = true) (t : sic_scoff_text)
    (hhead : (st'.records.texts.nodes.drop st.records.texts.nodes.length).head? = some t) :
    t.startAddr = printfHex 6 st.locCounter := by
  cases kind with
  | empty => exact absurd h id
  | unknown s => exact absurd h id
  | comment => simp [emitsText] at ht
  | instruction sym op save =>
    obtain ⟨_, _, _, _, ⟨payload, htexts⟩, _⟩ := h
    rw [htexts] at hhead
    simp only [List.drop_left', List.head?_cons, Option.some.injEq] at hhead
    rw [← hhead]
  | directive sym token cb save =>
    obtain ⟨_, _, h⟩ := h
    cases cb with
    | directive_callback_byte | directive_callback_word =>
      obtain ⟨_, _, _, htexts⟩ := h
      rw [htexts] at hhead
      simp only [List.drop_left'] at hhead
      exact dataTexts_head _ _ _ t hhead
    | directive_callback_start => simp [emitsText] at ht
    | directive_callback_end => simp [emitsText] at ht
    | directive_callback_resb => simp [emitsText] at ht
    | directive_callback_resw => simp [emitsText] at ht
    | directive_callback_resr => simp [emitsText] at ht
    | directive_callback_exports => simp [emitsText] at ht

/-! ### A line of the opcode descriptor -/

/-- The first field of a text that goes on with a space. -/
theorem strtok_field (tok rest : Str) (hne : tok ≠ [])
    (hnd : ∀ c ∈ tok, isDelim SIC_TOKEN_DELIMITERS c = false) :
    strtok (tok ++ ' ' :: rest) SIC_TOKEN_DELIMITERS = (some tok, rest) :=
  strtok_token tok (' ' :: rest) SIC_TOKEN_DELIMITERS hne hnd
    (Or.inr ⟨' ', rest, rfl, by decide⟩)

theorem opcodeFlag_eq (t : Str) (acc : Nat) : opcodeFlag t acc = acc ||| flagOfToken t := by
  unfold opcodeFlag flagOfToken
  split_ifs <;> simp

theorem flagSet_cons (t : Str) (ts : List Str) :
    flagSet (t :: ts) = flagOfToken t ||| flagSet ts := rfl

/-- What follows a field of a descriptor line starts with a delimiter. -/
theorem flagText_head (ts : List Str) :
    ((ts.map (fun u => ' ' :: u)).flatten ++ [lfChar]) = [] ∨
      ∃ d r, ((ts.map (fun u => ' ' :: u)).flatten ++ [lfChar]) = d :: r ∧
        isDelim SIC_TOKEN_DELIMITERS d = true := by
  right
  cases ts with
  | nil => exact ⟨lfChar, [], rfl, by decide⟩
  | cons v vs =>
    exact ⟨' ', v ++ ((vs.map (fun u => ' ' :: u)).flatten ++ [lfChar]), by simp, by decide⟩

/-- The flag loop on the flag tokens of a descriptor line. -/
theorem opcodeFlags_tokens : ∀ (ts : List Str) (t : Str) (acc k : Nat),
    (∀ u ∈ ts, u ≠ [] ∧ ∀ c ∈ u, isDelim SIC_TOKEN_DELIMITERS c = false) →
    (((ts.map (fun u => ' ' :: u)).flatten ++ [lfChar]).drop 1).length < k →
    opcodeFlags k t (((ts.map (fun u => ' ' :: u)).flatten ++ [lfChar]).drop 1) acc
      = acc ||| (flagOfToken t ||| flagSet ts) := by
  intro ts
  induction ts with
  | nil =>
    intro t acc k _ hk
    cases k with
    | zero => simp at hk
    | succ k =>
      simp only [List.map_nil, List.flatten_nil, List.nil_append, List.drop_succ_cons,
        List.drop_zero, opcodeFlags, strtok, List.dropWhile_nil, opcodeFlag_eq]
      simp [flagSet]
  | cons u us ih =>
    intro t acc k hts hk
    have hu := hts u (List.mem_cons_self _ _)
    have hus : ∀ v ∈ us, v ≠ [] ∧ ∀ c ∈ v, isDelim SIC_TOKEN_DELIMITERS c = false :=
      fun v hv => hts v (List.mem_cons_of_mem _ hv)
    have hshape : ((((u :: us).map (fun u => ' ' :: u)).flatten ++ [lfChar]).drop 1)
        = u ++ ((us.map (fun u => ' ' :: u)).flatten ++ [lfChar]) := by
      simp
    rw [hshape] at hk ⊢
    have hrest := flagText_head us
    have htok := strtok_token u _ SIC_TOKEN_DELIMITERS hu.1 hu.2 hrest
    cases k with
    | zero => simp at hk
    | succ k =>
      simp only [opcodeFlags, htok]
      have hlen : (((us.map (fun u => ' ' :: u)).flatten ++ [lfChar]).drop 1).length < k := by
        have hupos : 0 < u.length := List.length_pos.mpr hu.1
        simp only [List.length_append, List.length_drop] at hk ⊢
        omega
      rw [ih u (opcodeFlag t acc) k hus hlen, opcodeFlag_eq, flagSet_cons, Nat.lor_assoc]

/-- The byte of a digit character. -/
theorem toUInt8_digit (d : Char) (rest : Str) (hd : isdigit d = true) :
    toUInt8 (firstChar (d :: rest) - 48) = digitByte d := by
  have hb : 48 ≤ d.toNat ∧ d.toNat ≤ 57 := by
    simpa [isdigit] using hd
  have hc : charVal d = (d.toNat : Int) := by
    unfold charVal
    have : d.toNat % 256 = d.toNat := Nat.mod_eq_of_lt (by omega)
    simp only [this]
    rw [if_pos (by omega)]
  unfold toUInt8 digitByte firstChar
  simp only [List.head?_cons, hc]
  congr 1
  omega

/-- The byte of a hexadecimal numeral, read by `strtol`. -/
theorem toUInt8_hex (hh : Str) (h1 : hh ≠ []) (hx : hh.all isxdigit = true)
    (hv : hexValue hh < 256) :
    (strtol hh 16).converted = true ∧ toUInt8 (strtol hh 16).value = Fin.ofNat (hexValue hh) := by
  have h := strtol_hex false hh h1 hx (by omega)
  simp only [Bool.false_eq_true, if_false, List.nil_append] at h
  rw [h]
  refine ⟨rfl, ?_⟩
  unfold toUInt8
  simp only
  congr 1
  omega

/-- The entry `opcodeLine` parses from a descriptor line. -/
theorem opcodeLine_descriptor (M : Str) (n : Char) (f hh : Str) (flags : List Str)
    (hM : isField M) (hlen : M.length ≤ 6) (hn : isdigit n = true)
    (hf : f = "3/4".toList ∨ ∃ d, f = [d] ∧ isdigit d = true)
    (hh1 : hh ≠ []) (hhx : hh.all isxdigit = true) (hhv : hexValue hh < 256)
    (hflags : ∀ t ∈ flags, isField t) :
    opcodeLine (descriptorLine M n f hh flags) = ok (M, descriptorEntry n f hh flags) := by
  have hdn : ∀ c ∈ [n], isDelim SIC_TOKEN_DELIMITERS c = false := by
    intro c hc
    simp only [List.mem_singleton] at hc
    subst hc
    have hb : 48 ≤ c.toNat ∧ c.toNat ≤ 57 := by simpa [isdigit] using hn
    simp only [isDelim, SIC_TOKEN_DELIMITERS, List.contains_cons, List.contains_nil,
      Bool.or_false, Bool.or_eq_false_iff, beq_eq_false_iff_ne, ne_eq]
    refine ⟨?_, ?_, ?_, ?_⟩ <;> (intro h; rw [h] at hb; revert hb; decide)
  have hdf : f ≠ [] ∧ ∀ c ∈ f, isDelim SIC_TOKEN_DELIMITERS c = false := by
    rcases hf with rfl | ⟨d, rfl, hd⟩
    · exact ⟨by decide, by decide⟩
    · refine ⟨by simp, ?_⟩
      intro c hc
      simp only [List.mem_singleton] at hc
      subst hc
      have hb : 48 ≤ c.toNat ∧ c.toNat ≤ 57 := by simpa [isdigit] using hd
      simp only [isDelim, SIC_TOKEN_DELIMITERS, List.contains_cons, List.contains_nil,
        Bool.or_false, Bool.or_eq_false_iff, beq_eq_false_iff_ne, ne_eq]
      refine ⟨?_, ?_, ?_, ?_⟩ <;> (intro h; rw [h] at hb; revert hb; decide)
  have hdh : ∀ c ∈ hh, isDelim SIC_TOKEN_DELIMITERS c = false := by
    intro c hc
    have hxc : isxdigit c = true := (List.all_eq_true.mp hhx) c hc
    simp only [isDelim, SIC_TOKEN_DELIMITERS, List.contains_cons, List.contains_nil,
      Bool.or_false, Bool.or_eq_false_iff, beq_eq_false_iff_ne, ne_eq]
    refine ⟨?_, ?_, ?_, ?_⟩ <;> (intro h; rw [h] at hxc; revert hxc; decide)
  have hfl : ∀ u ∈ flags, u ≠ [] ∧ ∀ c ∈ u, isDelim SIC_TOKEN_DELIMITERS c = false :=
    fun u hu => ⟨(hflags u hu).1, fun c hc => ((hflags u hu).2 c hc).1⟩
  have t1 := strtok_field M (n :: ' ' :: (f ++ ' ' :: (hh ++
    ((flags.map (fun t => ' ' :: t)).flatten ++ [lfChar])))) hM.1 (fun c hc => (hM.2 c hc).1)
  have t2 := strtok_field [n] (f ++ ' ' :: (hh ++
    ((flags.map (fun t => ' ' :: t)).flatten ++ [lfChar]))) (by simp) hdn
  have t3 := strtok_field f (hh ++ ((flags.map (fun t => ' ' :: t)).flatten ++ [lfChar]))
    hdf.1 hdf.2
  have hrest := flagText_head flags
  have t4 := strtok_token hh _ SIC_TOKEN_DELIMITERS hh1 hdh hrest
  obtain ⟨hconv, hval⟩ := toUInt8_hex hh hh1 hhx hhv
  have hflagsv : (match strtok (((flags.map (fun t => ' ' :: t)).flatten ++ [lfChar]).drop 1)
        SIC_TOKEN_DELIMITERS with
      | (none, _) => 0
      | (some t, save5) => opcodeFlags (save5.length + 1) t save5 0) = flagSet flags := by
    cases flags with
    | nil => rfl
    | cons u us =>
      have hu := hfl u (List.mem_cons_self _ _)
      have hus : ∀ v ∈ us, v ≠ [] ∧ ∀ c ∈ v, isDelim SIC_TOKEN_DELIMITERS c = false :=
        fun v hv => hfl v (List.mem_cons_of_mem _ hv)
      have hshape : ((((u :: us).map (fun u => ' ' :: u)).flatten ++ [lfChar]).drop 1)
          = u ++ ((us.map (fun u => ' ' :: u)).flatten ++ [lfChar]) := by
        simp
      have hrest' := flagText_head us
      rw [hshape, strtok_token u _ SIC_TOKEN_DELIMITERS hu.1 hu.2 hrest']
      simp only
      rw [opcodeFlags_tokens us u 0 _ hus (Nat.lt_succ_self _), flagSet_cons, Nat.zero_or]
  have hMlen : ¬ M.length > SIC_MAX_MNUMONIC_LEN := by
    simp only [SIC_MAX_MNUMONIC_LEN]
    omega
  unfold opcodeLine descriptorLine
  have e2 : strtok (n :: ' ' :: (f ++ ' ' :: (hh ++
      ((flags.map (fun t => ' ' :: t)).flatten ++ [lfChar])))) SIC_TOKEN_DELIMITERS
      = (some [n], f ++ ' ' :: (hh ++ ((flags.map (fun t => ' ' :: t)).flatten ++ [lfChar]))) := t2
  simp only [t1, hMlen, if_false, e2, t3, t4, hconv, Bool.not_true, Bool.false_eq_true, hflagsv,
    hval]
  unfold descriptorEntry
  congr 3
  · exact toUInt8_digit n [] hn
  · rcases hf with rfl | ⟨d, rfl, hd⟩
    · rfl
    · simp only [List.length_singleton, if_true, formatByte]
      rw [if_neg (by simp), toUInt8_digit d [] hd]
      rfl

/-- The first insertion into a fresh table, and the lookup of the key
behind it. -/
theorem insertKVPair_fresh {V : Type} (n fuel : Nat) (hn : 0 < n) (hf : 0 < fuel) (k : Str)
    (v : V) :
    ∃ t, insertKVPair fuel (createHashTable n) k v = some (ht_status.HT_OKAY, t) ∧
      getKVPair fuel t (some k) = some (some v) := by
  obtain ⟨g, rfl⟩ : ∃ g, fuel = g + 1 := ⟨fuel - 1, by omega⟩
  have hh : hashFunction k n < n := hashFunction_lt k n hn
  have hcreate : (createHashTable n : hash_table V)
      = { p_KVArray := List.replicate n none, numElements := 0 } := by
    unfold createHashTable
    rw [if_neg (by omega)]
  have hslot : (List.replicate n (none : Option (key_value V)))[hashFunction k n]? = some none := by
    rw [List.getElem?_replicate]
    simp [hh]
  refine ⟨⟨List.set (List.replicate n none) (hashFunction k n) (some ⟨k, v⟩), 1⟩, ?_, ?_⟩
  · rw [hcreate]
    unfold insertKVPair growIfLoaded storeKVPair
    simp only [hash_table.currentSize, List.length_replicate]
    rw [if_neg (by omega), if_neg (by omega)]
    simp only [hash_table.currentSize, List.length_replicate]
    rw [if_neg (by omega)]
    unfold probe
    simp only [hslot]
    rfl
  · unfold getKVPair
    simp only [hash_table.currentSize, List.length_set, List.length_replicate]
    rw [if_neg (by omega)]
    have hget : ((List.replicate n (none : Option (key_value V))).set (hashFunction k n)
        (some { key := k, value := v }))[hashFunction k n]? = some (some { key := k, value := v }) := by
      rw [List.getElem?_set_self (by simpa using hh)]
    unfold probe
    simp only [hget, if_true]

/-- A line that fits the buffer and holds no NUL, alone in a text, is read
as it is. -/
theorem readLines_single (body : Str) (hlf : lfChar ∉ body) (hnul : nulChar ∉ body)
    (hlen : body.length < 1023) : readLines (body ++ [lfChar]) = [body ++ [lfChar]] := by
  have hf := fgetsAux_line [] body 1023 hlf hlen
  have htw : (body ++ [lfChar]).takeWhile (fun d => d != nulChar) = body ++ [lfChar] := by
    rw [List.takeWhile_eq_self_iff]
    intro c hc
    rcases List.mem_append.mp hc with h | h
    · simp only [bne_iff_ne, ne_eq]
      exact fun e => hnul (e ▸ h)
    · simp only [List.mem_singleton] at h
      rw [h]
      decide
  cases hb : body ++ [lfChar] with
  | nil => simp at hb
  | cons c cs =>
    rw [readLines_cons, ← hb, hf, htw]
    rfl

/-- The union of the flags does not depend on the order of the flag
tokens. -/
theorem flagSet_perm (l1 l2 : List Str) (h : l1.Perm l2) : flagSet l1 = flagSet l2 := by
  induction h with
  | nil => rfl
  | cons x _ ih => rw [flagSet_cons, flagSet_cons, ih]
  | swap x y l =>
    simp only [flagSet_cons]
    rw [← Nat.lor_assoc, Nat.lor_comm (flagOfToken y) (flagOfToken x), Nat.lor_assoc]
  | trans _ _ ih1 ih2 => exact ih1.trans ih2

/-- A descriptor line is its fields and one line feed, at its end; it holds
no NUL. -/
theorem descriptorLine_body (M : Str) (n : Char) (f hh : Str) (flags : List Str)
    (hM : isField M) (hn : isdigit n = true)
    (hf : f = "3/4".toList ∨ ∃ d, f = [d] ∧ isdigit d = true)
    (hhx : hh.all isxdigit = true) (hflags : ∀ t ∈ flags, isField t) :
    ∃ body, descriptorLine M n f hh flags = body ++ [lfChar] ∧ lfChar ∉ body ∧
      nulChar ∉ body := by
  have hgood : ∀ c ∈ M ++ ' ' :: n :: ' ' :: (f ++ ' ' :: (hh ++
      (flags.map (fun t => ' ' :: t)).flatten)), c ≠ lfChar ∧ c ≠ nulChar := by
    have hfield : ∀ t : Str, isField t → ∀ c ∈ t, c ≠ lfChar ∧ c ≠ nulChar := by
      intro t ht c hc
      refine ⟨?_, (ht.2 c hc).2⟩
      intro e
      have := (ht.2 c hc).1
      rw [e] at this
      revert this
      decide
    have hdigit : ∀ d : Char, isdigit d = true → d ≠ lfChar ∧ d ≠ nulChar := by
      intro d hd
      have hb : 48 ≤ d.toNat ∧ d.toNat ≤ 57 := by simpa [isdigit] using hd
      constructor <;> (intro e; rw [e] at hb; revert hb; decide)
    have hspace : (' ' : Char) ≠ lfChar ∧ (' ' : Char) ≠ nulChar := by decide
    intro c hc
    simp only [List.mem_append, List.mem_cons, List.mem_flatten, List.mem_map] at hc
    rcases hc with h | h | h | h | h | h | h | ⟨l, ⟨t, ht, rfl⟩, h⟩
    · exact hfield M hM c h
    · rw [h]; exact hspace
    · rw [h]; exact hdigit n hn
    · rw [h]; exact hspace
    · rcases hf with rfl | ⟨d, rfl, hd⟩
      · revert c
        decide
      · simp only [List.mem_singleton] at h
        rw [h]; exact hdigit d hd
    · rw [h]; exact hspace
    · have hxc : isxdigit c = true := (List.all_eq_true.mp hhx) c h
      constructor <;> (intro e; rw [e] at hxc; revert hxc; decide)
    · rcases List.mem_cons.mp h with h | h
      · rw [h]; exact hspace
      · exact hfield t (hflags t ht) c h
  refine ⟨_, ?_, fun h => (hgood _ h).1 rfl, fun h => (hgood _ h).2 rfl⟩
  simp [descriptorLine]

/-- The table `buildOpcodeTable` returns for a descriptor of one line. -/
theorem opcodeEntry_descriptor (fuel : Nat) (hfuel : 0 < fuel) (M : Str) (n : Char)
    (f hh : Str) (flags : List Str)
    (hM : isField M) (hlen : M.length ≤ 6) (hn : isdigit n = true)
    (hf : f = "3/4".toList ∨ ∃ d, f = [d] ∧ isdigit d = true)
    (hh1 : hh ≠ []) (hhx : hh.all isxdigit = true) (hhv : hexValue hh < 256)
    (hflags : ∀ t ∈ flags, isField t)
    (hfit : (descriptorLine M n f hh flags).length < 1024) :
    opcodeEntry fuel (descriptorLine M n f hh flags) M
      = some (descriptorEntry n f hh flags) := by
  obtain ⟨body, hbody, hlf, hnul⟩ := descriptorLine_body M n f hh flags hM hn hf hhx hflags
  have hline := opcodeLine_descriptor M n f hh flags hM hlen hn hf hh1 hhx hhv hflags
  have hread : readLines (descriptorLine M n f hh flags) = [descriptorLine M n f hh flags] := by
    rw [hbody] at hfit ⊢
    simp only [List.length_append, List.length_singleton] at hfit
    exact readLines_single body hlf hnul (by omega)
  obtain ⟨t, hins, hget⟩ := insertKVPair_fresh SIC_OPTAB_SIZE fuel (by decide) hfuel M
    (descriptorEntry n f hh flags)
  unfold opcodeEntry buildOpcodeTable
  rw [hread]
  simp only [buildOpcodeTableLoop, hline, hins, hget]

/-! ### Hexadecimal operands beyond the 24-bit range -/

/-- A hexadecimal token, with or without a minus sign, whose magnitude is beyond
the 24-bit range and within the 32-bit range is refused by `getConstant`: with
DCS_INTEGER_CONSTANT_UNDERFLOW under a minus sign, with DCS_INTEGER_CONSTANT_OVERFLOW
otherwise. -/
theorem getConstant_hex_range (neg : Bool) (t : Str) (ht : t ≠ []) (hx : t.all isxdigit = true)
    (hlo : 0x800000 ≤ hexValue t) (hv : hexValue t ≤ 0x7FFFFFFF) :
    (getConstant ((if neg then ['-'] else []) ++ t) 16).1
      = if neg then DCS_INTEGER_CONSTANT_UNDERFLOW else DCS_INTEGER_CONSTANT_OVERFLOW := by
  have hM : SIC_INTEGER_MAX = 8388607 := rfl
  have hs := strtol_hex neg t ht hx hv
  unfold getConstant
  cases neg with
  | true =>
    simp only [if_true] at hs ⊢
    have h32 : toInt32 (-(hexValue t : Int)) = -(hexValue t : Int) :=
      toInt32_of_abs_small _ (by omega) (by omega)
    have hle : ¬ toInt32 (-(hexValue t : Int)) > SIC_INTEGER_MAX := by
      rw [h32, hM]; omega
    have hlt : toInt32 (-(hexValue t : Int)) < -SIC_INTEGER_MAX := by
      rw [h32, hM]; omega
    simp only [hs, Bool.not_true, Bool.false_eq_true, if_false, Bool.not_false,
      bne_self_eq_false, Bool.and_false, Bool.or_self, if_neg hle, if_pos hlt]
  | false =>
    simp only [Bool.false_eq_true, if_false] at hs ⊢
    have h32 : toInt32 (hexValue t : Int) = hexValue t :=
      toInt32_of_abs_small _ (by omega) (by omega)
    have hgt : toInt32 (hexValue t : Int) > SIC_INTEGER_MAX := by
      rw [h32, hM]; omega
    simp only [hs, Bool.not_true, Bool.false_eq_true, if_false, Bool.not_false,
      bne_self_eq_false, Bool.and_false, Bool.or_self, if_pos hgt]

/-- The handler of START on an operand that `getConstant` refuses returns the status of
`getConstant` and leaves the symbol table and the rest of the line as they are. -/
theorem directive_callback_start_of_refused (symbolTable : symbol_table) (t save : Str)
    (hunset : symbolTable.startAddress = SIC_NOT_SET_SENTINEL)
    (hc : (getConstant t 16).1 ≠ DCS_OKAY) :
    directive_callback_start symbolTable (some t) save
      = { status := (getConstant t 16).1, symbolTable := symbolTable, save := save } := by
  have hop : getOperand (some t) 16 save = ((getConstant t 16).1, (getConstant t 16).2, save) := by
    unfold getOperand
    simp only [ne_eq, hc, not_false_eq_true, if_true]
  unfold directive_callback_start
  simp only [hunset, ne_eq, not_true_eq_false, if_false, hop, hc, not_false_eq_true, if_true]

/-! ## The claims -/

/-- Claim C2. For every source accepted by pass one, the start address is at
most the final location counter, the final location counter is at most
0x7FFF, and every address the symbol map returns lies between the start
address and the final location counter. -/
theorem pass1_address_bounds (fuel : Nat) (source : Str) (opTab : hash_table sic_optable_values)
    (symTab : symbol_table)
    (h : buildSymbolTable fuel source directiveTable opTab = ok symTab) :
    symTab.startAddress ≤ symTab.locCounter ∧ symTab.locCounter ≤ 0x7FFF ∧
    ∀ (g : Nat) (symbol : Str) (addr : Nat),
      getKVPair g symTab.ht (some symbol) = some (some addr) →
      symTab.startAddress ≤ addr ∧ addr ≤ symTab.locCounter := by
  obtain ⟨st, _, hst, hinv, _, hs⟩ := buildSymbolTable_Inv1 fuel source directiveTable opTab symTab h
  subst hst
  obtain ⟨_, _, h3, h4, _, h6⟩ := Inv1_started st hinv hs
  refine ⟨h3, h4, ?_⟩
  intro g symbol addr hget
  exact h6 symbol addr (Bound_of_getKVPair _ _ _ _ hget)

set_option maxRecDepth 100000 in
/-- Claim C2 at the minimal program: pass one accepts it, and the bounds
hold for its symbol table. -/
theorem pass1_address_bounds_witness :
    buildSymbolTable 8 minimalSource directiveTable sampleOpTab = ok minimalSymTab ∧
    (minimalSymTab.startAddress ≤ minimalSymTab.locCounter ∧
      minimalSymTab.locCounter ≤ 0x7FFF ∧
      ∀ (g : Nat) (symbol : Str) (addr : Nat),
        getKVPair g minimalSymTab.ht (some symbol) = some (some addr) →
        minimalSymTab.startAddress ≤ addr ∧ addr ≤ minimalSymTab.locCounter) :=
  ⟨by decide, pass1_address_bounds 8 minimalSource sampleOpTab minimalSymTab (by decide)⟩


/-- Claim C6. For every source accepted by both passes, the modification
records are, in source-line order, one record per instruction line whose
opcode takes operands and none for any other line; the record of an
instruction met at emitter address `a` has address field hex6(a + 1),
half-byte length field 06, sign `+`, and the program name of the header as
its symbol field. -/
theorem modification_records (fuel : Nat) (source : Str) (opTab : hash_table sic_optable_values)
    (symTab symTab2 : symbol_table) (records : sic_scoff_records)
    (h1 : buildSymbolTable fuel source directiveTable opTab = ok symTab)
    (h2 : generateSCOFFRecords fuel source directiveTable opTab symTab = ok (records, symTab2)) :
    records.modifications.nodes =
      (((readLines source).zip
          (secondPassTrace fuel directiveTable opTab (readLines source) (pass2_init symTab))).map
        (fun p => expectedMods fuel opTab records.header.programName p.1 p.2.locCounter)).flatten := by
  obtain ⟨st2f, hrun, hrecs, _⟩ := jointRun_of_accepted fuel source opTab symTab records symTab2 h1 h2
  have h := (jointRun_mods fuel opTab symTab _ _ _ _ hrun).2
  rw [hrecs] at h
  rw [h]
  rfl

set_option maxRecDepth 100000 in
/-- Claim C6 at the sample program: both passes accept it, and its
modification records are those of its two instructions with an operand. -/
theorem modification_records_witness :
    buildSymbolTable 8 sampleSource directiveTable sampleOpTab = ok sampleSymTab ∧
    generateSCOFFRecords 8 sampleSource directiveTable sampleOpTab sampleSymTab
      = ok (sampleRecords, sampleSymTab2) ∧
    sampleRecords.modifications.nodes =
      (((readLines sampleSource).zip
          (secondPassTrace 8 directiveTable sampleOpTab (readLines sampleSource)
            (pass2_init sampleSymTab))).map
        (fun p => expectedMods 8 sampleOpTab sampleRecords.header.programName p.1
          p.2.locCounter)).flatten :=
  ⟨by decide, by decide,
    modification_records 8 sampleSource sampleOpTab sampleSymTab sampleSymTab2 sampleRecords
      (by decide) (by decide)⟩

/-- Claim C10. For every source accepted by both passes, the text records
are, in source-line order, the records pass two appended line by line; read
back as hexadecimal, the start addresses increase strictly along the list,
and no record reaches into a later one (start plus byte count is at most the
later start). -/
theorem text_records_ordered (fuel : Nat) (source : Str) (opTab : hash_table sic_optable_values)
    (symTab symTab2 : symbol_table) (records : sic_scoff_records)
    (h1 : buildSymbolTable fuel source directiveTable opTab = ok symTab)
    (h2 : generateSCOFFRecords fuel source directiveTable opTab symTab = ok (records, symTab2)) :
    records.texts.nodes =
      (((readLines source).zip
          (secondPassTrace fuel directiveTable opTab (readLines source) (pass2_init symTab))).map
        (fun p => lineTexts fuel opTab p.2 p.1)).flatten ∧
    records.texts.nodes.Pairwise (fun r s =>
      hexValue r.startAddr < hexValue s.startAddr ∧
      hexValue r.startAddr + hexValue r.lengthOfObj ≤ hexValue s.startAddr) := by
  obtain ⟨st2f, hrun, hrecs, _⟩ := jointRun_of_accepted fuel source opTab symTab records symTab2 h1 h2
  have h := jointRun_texts fuel opTab symTab _ _ _ _ hrun 0 (Nat.zero_le _)
  rw [hrecs] at h
  refine ⟨by rw [h.2]; rfl, ?_⟩
  exact (Ascending_pairwise _ _ _ h.1).2.imp (fun hp => ⟨hp.2, hp.1⟩)

set_option maxRecDepth 100000 in
/-- Claim C10 at the sample program. -/
theorem text_records_ordered_witness :
    buildSymbolTable 8 sampleSource directiveTable sampleOpTab = ok sampleSymTab ∧
    generateSCOFFRecords 8 sampleSource directiveTable sampleOpTab sampleSymTab
      = ok (sampleRecords, sampleSymTab2) ∧
    (sampleRecords.texts.nodes =
      (((readLines sampleSource).zip
          (secondPassTrace 8 directiveTable sampleOpTab (readLines sampleSource)
            (pass2_init sampleSymTab))).map
        (fun p => lineTexts 8 sampleOpTab p.2 p.1)).flatten ∧
    sampleRecords.texts.nodes.Pairwise (fun r s =>
      hexValue r.startAddr < hexValue s.startAddr ∧
      hexValue r.startAddr + hexValue r.lengthOfObj ≤ hexValue s.startAddr)) :=
  ⟨by decide, by decide,
    text_records_ordered 8 sampleSource sampleOpTab sampleSymTab sampleSymTab2 sampleRecords
      (by decide) (by decide)⟩

/-- Claim C4. A BYTE constant of `n` bytes (C with `n` 7-bit characters, or
X with `2 * n` hex digits) met by pass two at emitter address `a` appends
exactly ceil(n / 30) text records; record `i` starts at `a + 30 * i`, has
byte count `min 30 (n - 30 * i)` and a payload of twice as many hex
characters, so at most 60; the payloads put together are the hex encoding of
the constant: the digits as written for X, two uppercase hex digits per
character for C. The emitter address advances by `n`. -/
theorem byte_fragmentation (symTab : symbol_table) (symbol : Option Str)
    (record : sic_scoff_records) (a : Nat) (save content tail : Str) (hex : Bool)
    (hoperand : (strtok save LINE_DELIMITERS).1
      = some ((if hex then 'X' else 'C') :: quoteChar :: (content ++ quoteChar :: tail)))
    (hquote : quoteChar ∉ content)
    (hhex : hex = true → content.length % 2 = 0)
    (hascii : hex = false → ∀ c ∈ content, c.toNat < 128)
    (ha : a + byteCount hex content < UINT32_MOD) :
    ∃ (records1 : sic_scoff_records) (new : List sic_scoff_text),
      secondPassDirectiveHelper symTab "BYTE".toList symbol record a save
        = ok (records1, a + byteCount hex content) ∧
      records1.texts.nodes = record.texts.nodes ++ new ∧
      new.length = (byteCount hex content + 29) / 30 ∧
      (∀ i, i < (byteCount hex content + 29) / 30 → ∃ r, new[i]? = some r ∧
        r.startAddr = printfHex 6 (a + 30 * i) ∧
        r.lengthOfObj = printfHex 2 (min 30 (byteCount hex content - 30 * i)) ∧
        r.objectCode.length = 2 * min 30 (byteCount hex content - 30 * i) ∧
        r.objectCode.length ≤ 60) ∧
      (new.map (fun r => r.objectCode)).flatten = (if hex then content else charsToHex content) := by
  have hU : UINT32_MOD = 4294967296 := rfl
  have hstr := strchr_append_quote content tail hquote
  have hchunk : ∀ i, asciiToHexLoop ((content.drop (30 * i)).take 30) 0 [] =
      if hex then asciiToHexLoop ((content.drop (30 * i)).take 30) 0 []
      else charsToHex ((content.drop (30 * i)).take 30) := by
    intro i
    cases hex with
    | true => rfl
    | false =>
      simp only [Bool.false_eq_true, if_false]
      rw [asciiToHexLoop_ascii _ 0 [] (fun c hc => hascii rfl c
        (List.mem_of_mem_drop (List.mem_of_mem_take hc))) rfl]
      rfl
  have hnodes : ∃ records1, secondPassDirectiveHelper symTab "BYTE".toList symbol record a save
        = ok (records1, a + byteCount hex content) ∧
      records1.texts.nodes = record.texts.nodes ++ byteChunks hex content a := by
    unfold secondPassDirectiveHelper
    rw [if_neg (by decide), if_neg (by decide), if_neg (by decide), if_neg (by decide),
      if_pos rfl, hoperand]
    cases hex with
    | true =>
      simp only [if_true, List.head?_cons, ne_eq, not_true_eq_false, and_false, if_false,
        List.length_cons, List.drop_succ_cons, List.drop_zero, hstr, byteCount,
        SIC_CHARACTERS_PER_BYTE] at ha ⊢
      rw [if_neg (by omega), Nat.mod_eq_of_lt ha]
      exact ⟨_, rfl, byteHexLoop_nodes _ content a record.texts (le_refl _) (hhex rfl) ha⟩
    | false =>
      simp only [Bool.false_eq_true, if_false, List.head?_cons, ne_eq, not_true_eq_false,
        false_and, List.length_cons, List.drop_succ_cons, List.drop_zero, hstr, byteCount] at ha ⊢
      rw [if_neg (by omega), if_neg (by decide), Nat.mod_eq_of_lt ha]
      exact ⟨_, rfl, byteCharLoop_nodes _ content a record.texts (le_refl _) ha⟩
  obtain ⟨records1, hrun, hnew⟩ := hnodes
  refine ⟨records1, byteChunks hex content a, hrun, hnew, ?_, ?_, ?_⟩
  · simp [byteChunks]
  · intro i hi
    refine ⟨byteChunk hex content a (byteCount hex content) i, ?_, rfl, rfl, ?_⟩
    · simp [byteChunks, hi]
    · have hlen : (byteChunk hex content a (byteCount hex content) i).objectCode.length
          = 2 * min 30 (byteCount hex content - 30 * i) := by
        cases hex with
        | true =>
          have := hhex rfl
          simp only [byteChunk, if_true, byteCount, List.length_take, List.length_drop]
          omega
        | false =>
          have h1 := hchunk i
          simp only [Bool.false_eq_true, if_false] at h1
          simp only [byteChunk, Bool.false_eq_true, if_false, byteCount]
          rw [h1, charsToHex_length _ (fun c hc => hascii rfl c
            (List.mem_of_mem_drop (List.mem_of_mem_take hc)))]
          simp only [List.length_take, List.length_drop]
      exact ⟨hlen, by rw [hlen]; omega⟩
  · cases hex with
    | true =>
      have := hhex rfl
      simp only [byteChunks, List.map_map, Function.comp_def, byteChunk, if_true]
      rw [flatten_pieces content 60]
      apply List.take_of_length_le
      simp only [byteCount, if_true]
      omega
    | false =>
      simp only [byteChunks, List.map_map, Function.comp_def, byteChunk, Bool.false_eq_true,
        if_false]
      have hfun : (fun i => asciiToHexLoop ((content.drop (30 * i)).take 30) 0 [])
          = (fun i => charsToHex ((content.drop (30 * i)).take 30)) := by
        funext i
        have h1 := hchunk i
        simp only [Bool.false_eq_true, if_false] at h1
        exact h1
      rw [hfun, flatten_pieces_hex content 30]
      congr 1
      apply List.take_of_length_le
      simp only [byteCount, Bool.false_eq_true, if_false]
      omega

set_option maxRecDepth 100000 in
/-- Claim C4 at a character constant of 40 bytes met at 0x0100: the records
are at 0x0100 with length 1E and at 0x011E with length 0A. -/
theorem byte_fragmentation_witness :
    ((strtok ('C' :: quoteChar :: (fortyCharacters ++ [quoteChar, lfChar])) LINE_DELIMITERS).1
      = some ((if false then 'X' else 'C') :: quoteChar :: (fortyCharacters ++ quoteChar :: [])) ∧
     quoteChar ∉ fortyCharacters ∧ 0x0100 + byteCount false fortyCharacters < UINT32_MOD) ∧
    (∃ (records1 : sic_scoff_records) (new : List sic_scoff_text),
      secondPassDirectiveHelper bufferSymTab "BYTE".toList none createRecords 0x0100
          ('C' :: quoteChar :: (fortyCharacters ++ [quoteChar, lfChar]))
        = ok (records1, 0x0100 + byteCount false fortyCharacters) ∧
      records1.texts.nodes = createRecords.texts.nodes ++ new ∧
      new.length = (byteCount false fortyCharacters + 29) / 30 ∧
      (∀ i, i < (byteCount false fortyCharacters + 29) / 30 → ∃ r, new[i]? = some r ∧
        r.startAddr = printfHex 6 (0x0100 + 30 * i) ∧
        r.lengthOfObj = printfHex 2 (min 30 (byteCount false fortyCharacters - 30 * i)) ∧
        r.objectCode.length = 2 * min 30 (byteCount false fortyCharacters - 30 * i) ∧
        r.objectCode.length ≤ 60) ∧
      (new.map (fun r => r.objectCode)).flatten
        = (if false then fortyCharacters else charsToHex fortyCharacters)) ∧
    (textsOf (secondPassDirectiveHelper bufferSymTab "BYTE".toList none createRecords 0x0100
        ('C' :: quoteChar :: (fortyCharacters ++ [quoteChar, lfChar])))).map
      (fun t => (t.startAddr, t.lengthOfObj))
      = [("000100".toList, "1E".toList), ("00011E".toList, "0A".toList)] :=
  ⟨⟨by decide, by decide, by decide⟩,
    byte_fragmentation bufferSymTab none createRecords 0x0100
      ('C' :: quoteChar :: (fortyCharacters ++ [quoteChar, lfChar])) fortyCharacters [] false
      (by decide) (by decide) (fun h => absurd h (by decide)) (fun _ => by decide) (by decide),
    by decide⟩

/-- Claim C5. An instruction line met by pass two at emitter address `a`
with opcode byte `op` appends one text record with start `a` and byte count
03. Its payload is hex2(op) followed by `0000` when the opcode takes no
operand; by hex4(v) when the operand is a symbol bound to `v`; by
hex4(v OR 0x8000) when the operand is such a symbol followed by `,X`, which
is cut off before the lookup. For `v` up to 0x7FFF the payload has 6 hex
digits. -/
theorem instruction_payload (fuel : Nat) (symTab : symbol_table) (opcode : sic_optable_values)
    (record : sic_scoff_records) (a : Nat) (save : Str) :
    (opcode.numOperands.val = 0 →
      ∃ st', secondPassInstructionHelper fuel symTab opcode record a save = ok st' ∧
        st'.records.texts.nodes = record.texts.nodes ++
          [{ magicChar := 'T', startAddr := printfHex 6 a, lengthOfObj := "03".toList,
             objectCode := printfHex 2 opcode.opcode.val ++ "0000".toList }]) ∧
    (∀ (SYM : Str) (v : Nat) (indexed : Bool), opcode.numOperands.val ≠ 0 → ',' ∉ SYM →
      (strtok save SIC_TOKEN_DELIMITERS).1 = some (if indexed then SYM ++ ",X".toList else SYM) →
      getKVPair fuel symTab.ht (some SYM) = some (some v) →
      ∃ st', secondPassInstructionHelper fuel symTab opcode record a save = ok st' ∧
        st'.records.texts.nodes = record.texts.nodes ++
          [{ magicChar := 'T', startAddr := printfHex 6 a, lengthOfObj := "03".toList,
             objectCode := printfHex 2 opcode.opcode.val ++
               printfHex 4 (if indexed then v ||| 0x8000 else v) }]) ∧
    (printfHex 2 opcode.opcode.val ++ "0000".toList).length = 6 ∧
    (∀ v, v ≤ 0x7FFF →
      (printfHex 2 opcode.opcode.val ++ printfHex 4 v).length = 6 ∧
      (printfHex 2 opcode.opcode.val ++ printfHex 4 (v ||| 0x8000)).length = 6) := by
  have hop2 : (printfHex 2 opcode.opcode.val).length = 2 :=
    printfHex_length 2 _ (by omega) (by have := opcode.opcode.isLt; omega)
  have hht : (if symTab.endAddress = SIC_SEEN_SENTINEL then
      { symTab with endAddress := a } else symTab).ht = symTab.ht := by
    split <;> rfl
  refine ⟨?_, ?_, ?_, ?_⟩
  · intro h0
    unfold secondPassInstructionHelper
    simp only [h0, if_true]
    exact ⟨_, rfl, rfl⟩
  · intro SYM v indexed hne hcomma htok hget
    unfold secondPassInstructionHelper
    simp only [hne, if_false, htok]
    cases indexed with
    | true =>
      have hs : strstr (SYM ++ ",X".toList) SCOFF_INDEXED_SUBSTR = some SYM :=
        strstr_indexed SYM hcomma
      simp only [if_true, hs, Option.getD_some, Option.isSome_some, hht, hget]
      exact ⟨_, rfl, rfl⟩
    | false =>
      have hs : strstr SYM SCOFF_INDEXED_SUBSTR = none := strstr_none SYM hcomma
      simp only [Bool.false_eq_true, if_false, hs, Option.getD_none, Option.isSome_none, hht,
        hget]
      exact ⟨_, rfl, rfl⟩
  · rw [List.length_append, hop2]; rfl
  · intro v hv
    have h1 : (printfHex 4 v).length = 4 := printfHex_length 4 v (by omega) (by omega)
    have hor : v ||| 0x8000 < 2 ^ 16 := Nat.or_lt_two_pow (by omega) (by omega)
    have h2 : (printfHex 4 (v ||| 0x8000)).length = 4 :=
      printfHex_length 4 _ (by omega) (by omega)
    simp only [List.length_append, hop2, h1, h2, and_self]

set_option maxRecDepth 100000 in
/-- Claim C5 at `LDX BUFFER,X` with BUFFER bound to 0x0500: the payload is
the opcode byte 04 followed by 8500. -/
theorem instruction_payload_witness :
    ((4 : Fin 256).val ≠ 0 ∧ ',' ∉ "BUFFER".toList ∧
      (strtok " BUFFER,X\n".toList SIC_TOKEN_DELIMITERS).1
        = some (if true then "BUFFER".toList ++ ",X".toList else "BUFFER".toList) ∧
      getKVPair 8 bufferSymTab.ht (some "BUFFER".toList) = some (some 0x0500)) ∧
    (∃ st', secondPassInstructionHelper 8 bufferSymTab
        { numOperands := 1, instructionFormat := 3, opcode := 0x04, flags := 0 }
        createRecords 0x0400 " BUFFER,X\n".toList = ok st' ∧
      st'.records.texts.nodes = createRecords.texts.nodes ++
        [{ magicChar := 'T', startAddr := printfHex 6 0x0400, lengthOfObj := "03".toList,
           objectCode := printfHex 2 (4 : Fin 256).val ++
             printfHex 4 (if true then 0x0500 ||| 0x8000 else 0x0500) }]) ∧
    printfHex 2 (4 : Fin 256).val ++ printfHex 4 (if true then 0x0500 ||| 0x8000 else 0x0500)
      = "048500".toList :=
  ⟨⟨by decide, by decide, by decide, by decide⟩,
    (instruction_payload 8 bufferSymTab
      { numOperands := 1, instructionFormat := 3, opcode := 0x04, flags := 0 }
      createRecords 0x0400 " BUFFER,X\n".toList).2.1 "BUFFER".toList 0x0500 true
      (by decide) (by decide) (by decide) (by decide),
    by decide⟩

/-- Claim C7. In a source pass one accepts, pass two gets through the START
line with label `L`, and then the header holds `L` left-justified and padded
with spaces to exactly 6 characters, the start address as 6 uppercase hex
digits and the distance from the start address to the final location counter
of pass one as 6 uppercase hex digits; read back as hexadecimal the two
fields give the start address and that length. When pass two completes, its
records carry this header, and the first-instruction field of the end record
is the 6-digit hex of the end address of the symbol table as pass two leaves
it, which reads back as that end address; it is the end address of pass one
unless that is the Seen sentinel. -/
theorem header_and_end_fields (fuel : Nat) (source : Str) (opTab : hash_table sic_optable_values)
    (symTab : symbol_table) (pre post : List Str) (line L token save : Str)
    (h1 : buildSymbolTable fuel source directiveTable opTab = ok symTab)
    (hsplit : readLines source = pre ++ line :: post)
    (hcl : classifyLine fuel directiveTable opTab line = some (line_kind.directive (some L) token
      directive_callback.directive_callback_start save)) :
    ∃ st2, secondPassLoop fuel directiveTable opTab (pre ++ [line]) (pass2_init symTab) = ok st2 ∧
      st2.records.header =
        { magicChar := 'H', programName := printfLeft 6 L,
          startAddr := printfHex 6 symTab.startAddress,
          lengthOfProgram := printfHex 6 (symTab.locCounter - symTab.startAddress) } ∧
      (printfLeft 6 L).length = 6 ∧ (printfHex 6 symTab.startAddress).length = 6 ∧
      (printfHex 6 (symTab.locCounter - symTab.startAddress)).length = 6 ∧
      hexValue st2.records.header.startAddr = symTab.startAddress ∧
      hexValue st2.records.header.lengthOfProgram = symTab.locCounter - symTab.startAddress ∧
      ∀ (records : sic_scoff_records) (symTab2 : symbol_table),
        generateSCOFFRecords fuel source directiveTable opTab symTab = ok (records, symTab2) →
        records.header = st2.records.header ∧
        records.end_.firstInstruction = printfHex 6 symTab2.endAddress ∧
        hexValue records.end_.firstInstruction = symTab2.endAddress ∧
        (symTab.endAddress ≠ SIC_SEEN_SENTINEL → symTab2.endAddress = symTab.endAddress) := by
  have hL : SIC_MEMORY_LIMIT = 32767 := rfl
  obtain ⟨stF, _, hstF, hinvF, heF, hsF⟩ :=
    buildSymbolTable_Inv1 fuel source directiveTable opTab symTab h1
  subst hstF
  obtain ⟨q1, _, q3, q4, _, _⟩ := Inv1_started stF hinvF hsF
  obtain ⟨hsan, hloop⟩ := secondPassLoop_START fuel source opTab stF.symTab h1 pre post line L
    token save hsplit hcl
  have hsize : toUInt32 ((stF.symTab.locCounter : Int) - (stF.symTab.startAddress : Int))
      = stF.symTab.locCounter - stF.symTab.startAddress := by
    have e : ((stF.symTab.locCounter : Int) - (stF.symTab.startAddress : Int))
        = ((stF.symTab.locCounter - stF.symTab.startAddress : Nat) : Int) := by omega
    rw [e]
    exact toUInt32_of_small _ (by omega)
  rw [hsize] at hloop
  refine ⟨_, hloop, rfl, printfLeft_length L (sanitizedSymbol_length L hsan),
    printfHex_length 6 _ (by omega) (by omega), printfHex_length 6 _ (by omega) (by omega),
    hexValue_printfHex _ _, hexValue_printfHex _ _, ?_⟩
  intro records symTab2 h2
  obtain ⟨st2f, hrun, hrecs, hsym2, _, _, _, _⟩ :=
    jointRun_of_accepted fuel source opTab stF.symTab records symTab2 h1 h2
  have hmem : line ∈ readLines source := by rw [hsplit]; simp
  obtain ⟨_, hp, hs, hl⟩ := jointRun_header fuel opTab _ _ _ _ _ hrun line hmem L token save hcl
  have hm := jointRun_magic fuel opTab _ _ _ _ _ hrun
  obtain ⟨eline, hemem, esym, etoken, esave, hecl⟩ :=
    jointRun_end_exists fuel opTab _ _ _ _ _ hrun rfl heF
  obtain ⟨hend, _⟩ := jointRun_endRecord fuel opTab _ _ _ _ _ hrun eline hemem esym etoken esave hecl
  have haddr := jointRun_endAddress fuel opTab _ _ _ _ _ hrun
  rw [hrecs] at hp hs hl hm hend
  rw [hsym2] at hend haddr
  rw [hsize] at hl
  refine ⟨header_eq _ _ _ _ _ hm hp hs hl, hend, by rw [hend]; exact hexValue_printfHex _ _, ?_⟩
  intro hne
  rw [haddr]
  exact if_neg hne

set_option maxRecDepth 100000 in
/-- Claim C7 at the sample program, whose START line carries the label
COPY. -/
theorem header_and_end_fields_witness :
    (buildSymbolTable 8 sampleSource directiveTable sampleOpTab = ok sampleSymTab ∧
      readLines sampleSource
        = [] ++ "COPY START 1000\n".toList :: (readLines sampleSource).tail ∧
      classifyLine 8 directiveTable sampleOpTab "COPY START 1000\n".toList
        = some (line_kind.directive (some "COPY".toList) "START".toList
            directive_callback.directive_callback_start "1000\n".toList)) ∧
    ∃ st2, secondPassLoop 8 directiveTable sampleOpTab ([] ++ ["COPY START 1000\n".toList])
        (pass2_init sampleSymTab) = ok st2 ∧
      st2.records.header =
        { magicChar := 'H', programName := printfLeft 6 "COPY".toList,
          startAddr := printfHex 6 sampleSymTab.startAddress,
          lengthOfProgram := printfHex 6 (sampleSymTab.locCounter - sampleSymTab.startAddress) } ∧
      (printfLeft 6 "COPY".toList).length = 6 ∧
      (printfHex 6 sampleSymTab.startAddress).length = 6 ∧
      (printfHex 6 (sampleSymTab.locCounter - sampleSymTab.startAddress)).length = 6 ∧
      hexValue st2.records.header.startAddr = sampleSymTab.startAddress ∧
      hexValue st2.records.header.lengthOfProgram
        = sampleSymTab.locCounter - sampleSymTab.startAddress ∧
      ∀ (records : sic_scoff_records) (symTab2 : symbol_table),
        generateSCOFFRecords 8 sampleSource directiveTable sampleOpTab sampleSymTab
          = ok (records, symTab2) →
        records.header = st2.records.header ∧
        records.end_.firstInstruction = printfHex 6 symTab2.endAddress ∧
        hexValue records.end_.firstInstruction = symTab2.endAddress ∧
        (sampleSymTab.endAddress ≠ SIC_SEEN_SENTINEL →
          symTab2.endAddress = sampleSymTab.endAddress) :=
  ⟨⟨by decide, by decide, by decide⟩,
    header_and_end_fields 8 sampleSource sampleOpTab sampleSymTab []
      (readLines sampleSource).tail "COPY START 1000\n".toList "COPY".toList "START".toList
      "1000\n".toList (by decide) (by decide) (by decide)⟩

set_option maxRecDepth 100000 in
/-- Against claim C9 as stated: pass one accepts a program whose END line
names the symbol P and which has an instruction line before END, and pass
two fails on it all the same, because the operand FOO of the instruction is
not in the symbol table. -/
theorem pass2_fails_with_end_operand :
    (symTabOf (buildSymbolTable 8 undefinedOperandSource directiveTable sampleOpTab)).isSome
      = true ∧
    endOperand 8 sampleOpTab (readLines undefinedOperandSource) = some (some "P".toList) ∧
    assemble 8 undefinedOperandSource directiveTable sampleOpTab
      = error (pass_error.opcode opcode_status.OPS_INVALID_SYM_GIVEN) := by
  decide

/-- Claim C9, amended. For every source pass one accepts: when pass two
completes, the first-instruction field of the end record is hex6 of the
address of the symbol the END line names, and for an END line without
operand hex6 of the emitter address of the first instruction line of the
source; and pass two returns no record set when the END line has no operand
and no instruction line comes before it. -/
theorem end_record_field (fuel : Nat) (source : Str) (opTab : hash_table sic_optable_values)
    (symTab : symbol_table)
    (h1 : buildSymbolTable fuel source directiveTable opTab = ok symTab) :
    (∀ (records : sic_scoff_records) (symTab2 : symbol_table),
      generateSCOFFRecords fuel source directiveTable opTab symTab = ok (records, symTab2) →
      ∀ line ∈ readLines source, ∀ (sym : Option Str) (token save : Str),
        classifyLine fuel directiveTable opTab line = some (line_kind.directive sym token
          directive_callback.directive_callback_end save) →
        (∀ S, directiveOperand token save sym.isSome = some S →
          ∃ v, (∃ g, getKVPair g symTab.ht (some S) = some (some v)) ∧
            records.end_.firstInstruction = printfHex 6 v) ∧
        (directiveOperand token save sym.isSome = none →
          ∃ v, firstInstructionAddress fuel opTab ((readLines source).zip
              (secondPassTrace fuel directiveTable opTab (readLines source) (pass2_init symTab)))
              = some v ∧
            records.end_.firstInstruction = printfHex 6 v)) ∧
    (∀ (pre post : List Str) (line : Str) (sym : Option Str) (token save : Str),
      readLines source = pre ++ line :: post →
      classifyLine fuel directiveTable opTab line = some (line_kind.directive sym token
        directive_callback.directive_callback_end save) →
      directiveOperand token save sym.isSome = none →
      (∀ l ∈ pre, ∀ s op sv, classifyLine fuel directiveTable opTab l
        ≠ some (line_kind.instruction s op sv)) →
      ∀ r, generateSCOFFRecords fuel source directiveTable opTab symTab ≠ ok r) := by
  constructor
  · intro records symTab2 h2 line hmem sym token save hcl
    obtain ⟨st2f, hrun, hrecs, hsym2, _, _, _, _⟩ :=
      jointRun_of_accepted fuel source opTab symTab records symTab2 h1 h2
    obtain ⟨hend, hnseen⟩ := jointRun_endRecord fuel opTab _ _ _ _ _ hrun line hmem sym token
      save hcl
    obtain ⟨hnone, hsome⟩ := jointRun_endOperand fuel opTab _ _ _ _ _ hrun line hmem sym token
      save hcl
    obtain ⟨hwf, _, _⟩ := jointRun_frame fuel opTab _ _ _ _ _ hrun
    have haddr := jointRun_endAddress fuel opTab _ _ _ _ _ hrun
    rw [hrecs] at hend
    constructor
    · intro S hS
      obtain ⟨hb, hle⟩ := hsome S hS
      have hne : symTab.endAddress ≠ SIC_SEEN_SENTINEL := by
        have hL : SIC_MEMORY_LIMIT = 32767 := rfl
        have hS : SIC_SEEN_SENTINEL = 4294967294 := rfl
        omega
      have e : st2f.symTab.endAddress = symTab.endAddress := by
        rw [haddr]
        exact if_neg hne
      exact ⟨symTab.endAddress, getKVPair_of_Bound _ hwf _ _ hb, by rw [hend, e]⟩
    · intro hN
      have hseen : (pass2_init symTab).symTab.endAddress = SIC_SEEN_SENTINEL := hnone hN
      rw [if_pos hseen] at haddr
      cases hfi : firstInstructionAddress fuel opTab ((readLines source).zip
          (secondPassTrace fuel directiveTable opTab (readLines source) (pass2_init symTab))) with
      | none =>
        rw [hfi] at haddr
        exact absurd haddr hnseen
      | some v =>
        rw [hfi] at haddr
        exact ⟨v, rfl, by rw [hend, haddr]; rfl⟩
  · intro pre post line sym token save hsplit hcl hN hpre r h2
    obtain ⟨records, symTab2⟩ := r
    obtain ⟨st2f, hrun, _⟩ :=
      jointRun_of_accepted fuel source opTab symTab records symTab2 h1 h2
    have hmem : line ∈ readLines source := by rw [hsplit]; simp
    obtain ⟨hnone, _⟩ := jointRun_endOperand fuel opTab _ _ _ _ _ hrun line hmem sym token
      save hcl
    exact jointRun_no_instruction fuel opTab _ _ _ _ _ hrun pre post line sym token save hsplit
      hcl hpre (hnone hN)

set_option maxRecDepth 100000 in
/-- Claim C9, amended, at the sample program, which pass one accepts. -/
theorem end_record_field_witness :
    buildSymbolTable 8 sampleSource directiveTable sampleOpTab = ok sampleSymTab ∧
    ((∀ (records : sic_scoff_records) (symTab2 : symbol_table),
      generateSCOFFRecords 8 sampleSource directiveTable sampleOpTab sampleSymTab
        = ok (records, symTab2) →
      ∀ line ∈ readLines sampleSource, ∀ (sym : Option Str) (token save : Str),
        classifyLine 8 directiveTable sampleOpTab line = some (line_kind.directive sym token
          directive_callback.directive_callback_end save) →
        (∀ S, directiveOperand token save sym.isSome = some S →
          ∃ v, (∃ g, getKVPair g sampleSymTab.ht (some S) = some (some v)) ∧
            records.end_.firstInstruction = printfHex 6 v) ∧
        (directiveOperand token save sym.isSome = none →
          ∃ v, firstInstructionAddress 8 sampleOpTab ((readLines sampleSource).zip
              (secondPassTrace 8 directiveTable sampleOpTab (readLines sampleSource)
                (pass2_init sampleSymTab)))
              = some v ∧
            records.end_.firstInstruction = printfHex 6 v)) ∧
    (∀ (pre post : List Str) (line : Str) (sym : Option Str) (token save : Str),
      readLines sampleSource = pre ++ line :: post →
      classifyLine 8 directiveTable sampleOpTab line = some (line_kind.directive sym token
        directive_callback.directive_callback_end save) →
      directiveOperand token save sym.isSome = none →
      (∀ l ∈ pre, ∀ s op sv, classifyLine 8 directiveTable sampleOpTab l
        ≠ some (line_kind.instruction s op sv)) →
      ∀ r, generateSCOFFRecords 8 sampleSource directiveTable sampleOpTab sampleSymTab ≠ ok r)) :=
  ⟨by decide, end_record_field 8 sampleSource sampleOpTab sampleSymTab (by decide)⟩

set_option maxRecDepth 100000 in
/-- Claim C1 fails on a 64-bit `long`: pass one accepts `RESB 4294967296`,
because `getConstant` stores the `long` result of `strtol` in an `int32_t`
and so checks 0; the label A of that line and the label B of the next line
are both bound to 0x1000, not 4294967296 bytes apart. -/
theorem resb_operand_truncated :
    (strtol "4294967296".toList 10).value = 4294967296 ∧
    symbolAddress 8 (buildSymbolTable 8 overflowSource directiveTable sampleOpTab) "A".toList
      = some 0x1000 ∧
    symbolAddress 8 (buildSymbolTable 8 overflowSource directiveTable sampleOpTab) "B".toList
      = some 0x1000 := by
  decide

set_option maxRecDepth 100000 in
/-- Claim C3 fails on a negative WORD operand: for `WORD -1` pass two emits a
text record with byte count 03 and the 8 hex characters FFFFFFFF as
payload. -/
theorem negative_word_payload :
    (recordsOf (assemble 8 negativeWordSource directiveTable sampleOpTab)).map
        (fun r => r.texts.nodes.map (fun t => (t.startAddr, t.lengthOfObj, t.objectCode)))
      = some [("001000".toList, "03".toList, "FFFFFFFF".toList)] := by
  decide

set_option maxRecDepth 100000 in
/-- Against claim C8 as stated: the header line of the minimal program is
not the 20 characters `HFIRST 0010000000003`. -/
theorem minimal_header_differs :
    (recordsOf (assemble 8 minimalSource directiveTable sampleOpTab)).map
        (fun r => headerLine r.header)
      ≠ some "HFIRST 0010000000003".toList := by
  decide

set_option maxRecDepth 100000 in
/-- Claim C8, amended. Under every opcode table in which neither FIRST nor
L is a mnemonic, assembling the three-line source `FIRST START 1000`,
` L WORD 5`, ` END FIRST` succeeds in both passes and gives the header record
`HFIRST 001000000003`, exactly one text record (start 0x1000, 3 bytes,
payload 000005), no modification record, and an end record whose
first-instruction field reads back as 0x1000. -/
theorem minimal_program_records (opTab : hash_table sic_optable_values)
    (hFIRST : getKVPair 8 opTab (some "FIRST".toList) = some none)
    (hL : getKVPair 8 opTab (some "L".toList) = some none) :
    recordsOf (assemble 8 minimalSource directiveTable opTab)
      = some { header := { magicChar := 'H', programName := "FIRST ".toList,
                           startAddr := "001000".toList, lengthOfProgram := "000003".toList },
               end_ := { magicChar := 'E', firstInstruction := "001000".toList },
               texts := { numberOfElements := 1,
                          nodes := [{ magicChar := 'T', startAddr := "001000".toList,
                                      lengthOfObj := "03".toList,
                                      objectCode := "000005".toList }] },
               modifications := { numberOfElements := 0, nodes := [] } } ∧
    (recordsOf (assemble 8 minimalSource directiveTable opTab)).map
        (fun r => headerLine r.header) = some "HFIRST 001000000003".toList ∧
    hexValue "001000".toList = 0x1000 ∧ hexValue "03".toList = 3 := by
  rw [assemble_minimal opTab hFIRST hL]
  decide

set_option maxRecDepth 100000 in
/-- Claim C8, amended, at the sample opcode table, in which neither FIRST
nor L is a mnemonic. -/
theorem minimal_program_records_witness :
    (getKVPair 8 sampleOpTab (some "FIRST".toList) = some none ∧
      getKVPair 8 sampleOpTab (some "L".toList) = some none) ∧
    (recordsOf (assemble 8 minimalSource directiveTable sampleOpTab)
      = some { header := { magicChar := 'H', programName := "FIRST ".toList,
                           startAddr := "001000".toList, lengthOfProgram := "000003".toList },
               end_ := { magicChar := 'E', firstInstruction := "001000".toList },
               texts := { numberOfElements := 1,
                          nodes := [{ magicChar := 'T', startAddr := "001000".toList,
                                      lengthOfObj := "03".toList,
                                      objectCode := "000005".toList }] },
               modifications := { numberOfElements := 0, nodes := [] } } ∧
    (recordsOf (assemble 8 minimalSource directiveTable sampleOpTab)).map
        (fun r => headerLine r.header) = some "HFIRST 001000000003".toList ∧
    hexValue "001000".toList = 0x1000 ∧ hexValue "03".toList = 3) :=
  ⟨⟨by decide, by decide⟩, minimal_program_records sampleOpTab (by decide) (by decide)⟩

set_option maxRecDepth 100000 in
/-- Claim C12 fails. Seven insertions into `createHashTable(0)` succeed and
give a table of 32 slots with 7 pairs; the key EZ is not among the keys
inserted, and `insertKVPair` for EZ never returns, whatever the value: the
probing loop only visits the seven slots that hold other keys. -/
theorem insert_of_absent_key_never_returns :
    insertAll 8 collidingKeys (createHashTable 0) = some collidingTable ∧
    collidingTable.currentSize = 32 ∧ collidingTable.numElements = 7 ∧
    (∀ kv ∈ collidingKeys, kv.1 ≠ "EZ".toList) ∧
    ∀ (fuel v : Nat), insertKVPair fuel collidingTable "EZ".toList v = none := by
  obtain ⟨hall, hlen, hnum, _, _⟩ := collidingTable_facts
  have hsize : collidingTable.currentSize = 32 := hlen
  refine ⟨hall, hsize, hnum, by decide, ?_⟩
  intro fuel v
  cases fuel with
  | zero => rfl
  | succ n =>
    rw [insertKVPair_not_loaded n _ _ _ (by rw [hsize]; decide) (by rw [hsize, hnum]; decide)]
    exact storeKVPair_of_probe_none _ _ _ _ (collidingTable_probe (n + 1))

/-- Claim C13 fails. Sixteen insertions into `createHashTable(0)` succeed
and give a table of 32 slots in which AD is bound to 1; inserting AD again
never returns, whatever the value: the load ratio is 0.5, so the table is
grown first, and the rehash into 64 slots never places AD. -/
theorem duplicate_insert_never_returns :
    insertAll 8 crowdedKeys (createHashTable 0) = some crowdedTable ∧
    getKVPair 8 crowdedTable (some "AD".toList) = some (some 1) ∧
    ∀ (fuel w : Nat), insertKVPair fuel crowdedTable "AD".toList w = none := by
  obtain ⟨hall, hlen, hnum, _, _⟩ := crowdedTable_facts
  have hsize : crowdedTable.currentSize = 32 := hlen
  refine ⟨hall, by decide, ?_⟩
  intro fuel w
  cases fuel with
  | zero => rfl
  | succ n =>
    exact insertKVPair_loaded_none n _ _ _ (by rw [hsize]; decide) (by simp [hsize, hnum])
      (crowdedTable_grow n)

/-- Claim C14 fails. In the table of 32 slots that seven insertions into
`createHashTable(0)` give, every slot `(hash(EZ) + i * i) mod 32` of the probe
sequence of the key EZ holds another key, and `getKVPair` for EZ never
terminates. -/
theorem lookup_never_terminates :
    insertAll 8 collidingKeys (createHashTable 0) = some collidingTable ∧
    collidingTable.currentSize = 32 ∧
    (∀ i, blocked collidingTable.p_KVArray "EZ".toList
      ((hashFunction "EZ".toList 32 + i * i) % 32) = true) ∧
    ∀ fuel, getKVPair fuel collidingTable (some "EZ".toList) = none := by
  obtain ⟨hall, hlen, _, hh, hblocked⟩ := collidingTable_facts
  have hsize : collidingTable.currentSize = 32 := hlen
  refine ⟨hall, hsize, ?_, ?_⟩
  · intro i
    rw [hh, Nat.add_mod, Nat.mul_mod, ← Nat.add_mod 1 ((i % 32) * (i % 32)) 32]
    exact hblocked (i % 32) (Nat.mod_lt _ (by decide))
  · intro fuel
    exact getKVPair_of_probe_none _ _ _ (collidingTable_probe fuel)

/-- Claim C15 fails. The table of 32 slots that sixteen insertions into
`createHashTable(0)` give has load ratio 0.5; `growHashTable` never returns
on it, and so neither does the insertion of a new key, which grows the table
first. -/
theorem growth_never_returns :
    insertAll 8 crowdedKeys (createHashTable 0) = some crowdedTable ∧
    crowdedTable.currentSize = 32 ∧ crowdedTable.numElements = 16 ∧
    (∀ fuel, growHashTable fuel crowdedTable = none) ∧
    ∀ (fuel v : Nat), insertKVPair fuel crowdedTable "ZZ".toList v = none := by
  obtain ⟨hall, hlen, hnum, _, _⟩ := crowdedTable_facts
  have hsize : crowdedTable.currentSize = 32 := hlen
  refine ⟨hall, hsize, hnum, fun fuel => crowdedTable_grow fuel, ?_⟩
  intro fuel v
  cases fuel with
  | zero => rfl
  | succ n =>
    exact insertKVPair_loaded_none n _ _ _ (by rw [hsize]; decide) (by simp [hsize, hnum])
      (crowdedTable_grow n)

set_option maxRecDepth 100000 in
/-- Claim C16 fails on EXPORTS. `buildDirectiveTable` returns a table of 8
keys in which START, END, BYTE, WORD, RESB, RESW and RESR are bound to their
handlers, but the handler of EXPORTS is stored under the key EXORTS, and the
lookup of EXPORTS returns NULL. -/
theorem exports_key_misspelt :
    buildDirectiveTable 16 = some (some directiveTable) ∧
    directiveTable.numElements = 8 ∧
    getKVPair 16 directiveTable (some "EXPORTS".toList) = some none ∧
    getKVPair 16 directiveTable (some "EXORTS".toList)
      = some (some directive_callback.directive_callback_exports) ∧
    getKVPair 16 directiveTable (some "START".toList)
      = some (some directive_callback.directive_callback_start) ∧
    getKVPair 16 directiveTable (some "END".toList)
      = some (some directive_callback.directive_callback_end) ∧
    getKVPair 16 directiveTable (some "BYTE".toList)
      = some (some directive_callback.directive_callback_byte) ∧
    getKVPair 16 directiveTable (some "WORD".toList)
      = some (some directive_callback.directive_callback_word) ∧
    getKVPair 16 directiveTable (some "RESB".toList)
      = some (some directive_callback.directive_callback_resb) ∧
    getKVPair 16 directiveTable (some "RESW".toList)
      = some (some directive_callback.directive_callback_resw) ∧
    getKVPair 16 directiveTable (some "RESR".toList)
      = some (some directive_callback.directive_callback_resr) := by
  decide

/-- Claim C11. For every record set whose records carry their magic
characters, with text records `ts` and modification records `ms` appended
one after the other by `addToList`, the text `writeSCOFFToFile` writes is
`H`, name, start and length, then a line feed; then for each text record in
the order appended `T`, start, byte count and payload, then a line feed;
then for each modification record in the order appended `M`, address,
length, sign and symbol, then a line feed; then `E` and the
first-instruction field, after which nothing is written. The records of
every source both passes accept carry these magic characters, so their text
has this form, and it does not end with a line feed. -/
theorem object_file_text :
    (∀ (header : sic_scoff_header) (end_ : sic_scoff_end) (ts : List sic_scoff_text)
      (ms : List sic_scoff_mod),
      header.magicChar = 'H' → end_.magicChar = 'E' →
      (∀ t ∈ ts, t.magicChar = 'T') → (∀ m ∈ ms, m.magicChar = 'M') →
      writeSCOFFToFile
          { header := header, end_ := end_,
            texts := ts.foldl addToList createLinkedList,
            modifications := ms.foldl addToList createLinkedList }
        = 'H' :: (header.programName ++ header.startAddr ++ header.lengthOfProgram) ++ [lfChar] ++
          (ts.map (fun t =>
            'T' :: (t.startAddr ++ t.lengthOfObj ++ t.objectCode) ++ [lfChar])).flatten ++
          (ms.map (fun m =>
            'M' :: (m.startAddr ++ m.lenOfModificationHB ++ [m.modificationFlag] ++ m.symbolName)
              ++ [lfChar])).flatten ++
          'E' :: end_.firstInstruction) ∧
    (∀ (fuel : Nat) (source : Str) (opTab : hash_table sic_optable_values)
      (symTab symTab2 : symbol_table) (records : sic_scoff_records),
      buildSymbolTable fuel source directiveTable opTab = ok symTab →
      generateSCOFFRecords fuel source directiveTable opTab symTab = ok (records, symTab2) →
      writeSCOFFToFile records
        = 'H' :: (records.header.programName ++ records.header.startAddr
            ++ records.header.lengthOfProgram) ++ [lfChar] ++
          (records.texts.nodes.map (fun t =>
            'T' :: (t.startAddr ++ t.lengthOfObj ++ t.objectCode) ++ [lfChar])).flatten ++
          (records.modifications.nodes.map (fun m =>
            'M' :: (m.startAddr ++ m.lenOfModificationHB ++ [m.modificationFlag] ++ m.symbolName)
              ++ [lfChar])).flatten ++
          'E' :: records.end_.firstInstruction ∧
      (writeSCOFFToFile records).getLast? ≠ some lfChar) := by
  constructor
  · intro header end_ ts ms hH hE hT hM
    have e1 : (ts.foldl addToList createLinkedList).nodes = ts := by
      rw [addToList_foldl]; rfl
    have e2 : (ms.foldl addToList createLinkedList).nodes = ms := by
      rw [addToList_foldl]; rfl
    have h := writeSCOFFToFile_text
      { header := header, end_ := end_, texts := ts.foldl addToList createLinkedList,
        modifications := ms.foldl addToList createLinkedList }
      hH hE (by rw [e1]; exact hT) (by rw [e2]; exact hM)
    rw [h, e1, e2]
  · intro fuel source opTab symTab symTab2 records h1 h2
    obtain ⟨hH, hE, hT, hM, hend⟩ :=
      accepted_records_magic fuel source opTab symTab records symTab2 h1 h2
    have h := writeSCOFFToFile_text records hH hE hT hM
    refine ⟨h, ?_⟩
    rw [h, hend]
    have e : ∀ (s : Str) (c : Char) (t : Str), s ++ c :: t = (s ++ [c]) ++ t := by
      intro s c t; simp
    rw [e]
    exact getLast_printfHex _ _ _

set_option maxRecDepth 100000 in
/-- Claim C11 at the sample program: both passes accept it, and the text
written for its records is the header line, four text lines, two
modification lines and the end record. -/
theorem object_file_text_witness :
    buildSymbolTable 8 sampleSource directiveTable sampleOpTab = ok sampleSymTab ∧
    generateSCOFFRecords 8 sampleSource directiveTable sampleOpTab sampleSymTab
      = ok (sampleRecords, sampleSymTab2) ∧
    writeSCOFFToFile sampleRecords
      = ("HCOPY  00100000000C\nT00100003001009\nT00100303049009\nT001006034C0000\n" ++
         "T00100903000005\nM00100106+COPY  \nM00100406+COPY  \nE001000").toList ∧
    (writeSCOFFToFile sampleRecords).getLast? ≠ some lfChar ∧
    writeSCOFFToFile
        { header := sampleRecords.header, end_ := sampleRecords.end_,
          texts := [createTextRecord].foldl addToList createLinkedList,
          modifications := [].foldl addToList createLinkedList }
      = "HCOPY  00100000000C\nT\nE001000".toList :=
  ⟨by decide, by decide, by decide,
    (object_file_text.2 8 sampleSource sampleOpTab sampleSymTab sampleSymTab2 sampleRecords
      (by decide) (by decide)).2,
    object_file_text.1 sampleRecords.header sampleRecords.end_ [createTextRecord] []
      (by decide) (by decide) (by decide) (by simp)⟩

/-- Claim C17. With the start address unset, `directive_callback_start` on an
operand that is a token of hexadecimal digits of value `v` between 0 and
0x7FFF, followed on the line by nothing or by a comment token, returns
DCS_OKAY and sets the start address and the location counter to `v`; the end
address and the symbol map stay as they are. -/
theorem start_accepts_address (symbolTable : symbol_table) (t save : Str)
    (hunset : symbolTable.startAddress = SIC_NOT_SET_SENTINEL)
    (ht : t ≠ []) (hx : t.all isxdigit = true) (hv : hexValue t ≤ 0x7FFF)
    (hrest : ∀ c, (strtok save SIC_TOKEN_DELIMITERS).1 = some c → checkComment c = true) :
    directive_callback_start symbolTable (some t) save
      = { status := DCS_OKAY,
          symbolTable := { startAddress := hexValue t, endAddress := symbolTable.endAddress,
                           locCounter := hexValue t, ht := symbolTable.ht },
          save := (strtok save SIC_TOKEN_DELIMITERS).2 } := by
  have hL : SIC_MEMORY_LIMIT = 32767 := rfl
  have hop := getOperand_hex false t save ht hx (by omega) hrest
  simp only [Bool.false_eq_true, if_false, List.nil_append] at hop
  unfold directive_callback_start
  simp only [hunset, ne_eq, not_true_eq_false, if_false, hop]
  rw [if_neg (by rw [hL]; omega), toUInt32_of_small _ (by omega)]

set_option maxRecDepth 100000 in
/-- Claim C17 at the operands 0 and 7FFF, the second one followed by a
comment. -/
theorem start_accepts_address_witness :
    (pass1_init.symTab.startAddress = SIC_NOT_SET_SENTINEL ∧
      hexValue "0".toList ≤ 0x7FFF ∧ hexValue "7FFF".toList ≤ 0x7FFF) ∧
    directive_callback_start pass1_init.symTab (some "0".toList) []
      = { status := DCS_OKAY,
          symbolTable := { startAddress := hexValue "0".toList,
                           endAddress := pass1_init.symTab.endAddress,
                           locCounter := hexValue "0".toList, ht := pass1_init.symTab.ht },
          save := (strtok [] SIC_TOKEN_DELIMITERS).2 } ∧
    directive_callback_start pass1_init.symTab (some "7FFF".toList) " #top\n".toList
      = { status := DCS_OKAY,
          symbolTable := { startAddress := hexValue "7FFF".toList,
                           endAddress := pass1_init.symTab.endAddress,
                           locCounter := hexValue "7FFF".toList, ht := pass1_init.symTab.ht },
          save := (strtok " #top\n".toList SIC_TOKEN_DELIMITERS).2 } :=
  ⟨⟨by decide, by decide, by decide⟩,
    start_accepts_address pass1_init.symTab "0".toList [] (by decide) (by decide) (by decide)
      (by decide) (by decide),
    start_accepts_address pass1_init.symTab "7FFF".toList " #top\n".toList (by decide)
      (by decide) (by decide) (by decide) (by decide)⟩

set_option maxRecDepth 100000 in
/-- Against claim C18 as stated: for the operand 800000, which is greater
than 0x7FFF, `directive_callback_start` returns DCS_INTEGER_CONSTANT_OVERFLOW, not
DCS_MEMORY_VIOLATION. -/
theorem start_overflow_status :
    (directive_callback_start pass1_init.symTab (some "800000".toList) []).status
      = DCS_INTEGER_CONSTANT_OVERFLOW ∧
    0x7FFF < hexValue "800000".toList := by
  decide

/-- Claim C18, amended. With the start address unset, `directive_callback_start` on
an operand that is a token of hexadecimal digits, with or without a minus
sign, whose value is negative or greater than 0x7FFF and whose magnitude is
at most 0x7FFFFF, followed on the line by nothing or by a comment token,
returns DCS_MEMORY_VIOLATION and leaves the symbol table as it is. Whatever the
operand, a call that does not return DCS_OKAY leaves the symbol table as it
is. On a token of hexadecimal digits whose magnitude lies between 0x800000
and 0x7FFFFFFF the call returns DCS_INTEGER_CONSTANT_OVERFLOW, under a minus sign
DCS_INTEGER_CONSTANT_UNDERFLOW, and leaves the symbol table as it is. -/
theorem start_rejects_address (symbolTable : symbol_table) (neg : Bool) (t save : Str)
    (hunset : symbolTable.startAddress = SIC_NOT_SET_SENTINEL)
    (ht : t ≠ []) (hx : t.all isxdigit = true) (hv : hexValue t ≤ 0x7FFFFF)
    (hout : if neg then 1 ≤ hexValue t else 0x8000 ≤ hexValue t)
    (hrest : ∀ c, (strtok save SIC_TOKEN_DELIMITERS).1 = some c → checkComment c = true) :
    directive_callback_start symbolTable (some ((if neg then ['-'] else []) ++ t)) save
      = { status := DCS_MEMORY_VIOLATION, symbolTable := symbolTable,
          save := (strtok save SIC_TOKEN_DELIMITERS).2 } ∧
    (∀ (operands : Option Str) (save1 : Str),
      (directive_callback_start symbolTable operands save1).status ≠ DCS_OKAY →
      (directive_callback_start symbolTable operands save1).symbolTable = symbolTable) ∧
    ∀ (minus : Bool) (u save1 : Str), u ≠ [] → u.all isxdigit = true →
      0x800000 ≤ hexValue u → hexValue u ≤ 0x7FFFFFFF →
      directive_callback_start symbolTable (some ((if minus then ['-'] else []) ++ u)) save1
        = { status := if minus then DCS_INTEGER_CONSTANT_UNDERFLOW
              else DCS_INTEGER_CONSTANT_OVERFLOW,
            symbolTable := symbolTable, save := save1 } := by
  have hL : SIC_MEMORY_LIMIT = 32767 := rfl
  refine ⟨?_, ?_, ?_⟩
  · have hop := getOperand_hex neg t save ht hx hv hrest
    unfold directive_callback_start
    simp only [hunset, ne_eq, not_true_eq_false, if_false, hop]
    cases neg with
    | false =>
      simp only [Bool.false_eq_true, if_false] at hout ⊢
      rw [if_pos (by rw [hL]; omega)]
    | true =>
      simp only [if_true] at hout ⊢
      rw [if_pos (by rw [hL]; omega)]
  · intro operands save1
    unfold directive_callback_start
    repeat' split
    all_goals first | (intro _; rfl) | (intro h; exact absurd rfl h)
  · intro minus u save1 hu hxu hlo hhi
    have hr := getConstant_hex_range minus u hu hxu hlo hhi
    have hne : (getConstant ((if minus then ['-'] else []) ++ u) 16).1 ≠ DCS_OKAY := by
      rw [hr]; split <;> decide
    rw [directive_callback_start_of_refused symbolTable _ save1 hunset hne, hr]

set_option maxRecDepth 100000 in
/-- Claim C18, amended, at the operands -1 and 8000, and at the operands 800000
and -FFFFFF of greater magnitude. -/
theorem start_rejects_address_witness :
    (pass1_init.symTab.startAddress = SIC_NOT_SET_SENTINEL ∧
      (if true then 1 ≤ hexValue "1".toList else 0x8000 ≤ hexValue "1".toList) ∧
      (if false then 1 ≤ hexValue "8000".toList else 0x8000 ≤ hexValue "8000".toList)) ∧
    directive_callback_start pass1_init.symTab
        (some ((if true then ['-'] else []) ++ "1".toList)) []
      = { status := DCS_MEMORY_VIOLATION, symbolTable := pass1_init.symTab,
          save := (strtok [] SIC_TOKEN_DELIMITERS).2 } ∧
    directive_callback_start pass1_init.symTab
        (some ((if false then ['-'] else []) ++ "8000".toList)) []
      = { status := DCS_MEMORY_VIOLATION, symbolTable := pass1_init.symTab,
          save := (strtok [] SIC_TOKEN_DELIMITERS).2 } ∧
    directive_callback_start pass1_init.symTab
        (some ((if false then ['-'] else []) ++ "800000".toList)) " #top\n".toList
      = { status := if false then DCS_INTEGER_CONSTANT_UNDERFLOW
            else DCS_INTEGER_CONSTANT_OVERFLOW,
          symbolTable := pass1_init.symTab, save := " #top\n".toList } ∧
    directive_callback_start pass1_init.symTab
        (some ((if true then ['-'] else []) ++ "FFFFFF".toList)) []
      = { status := if true then DCS_INTEGER_CONSTANT_UNDERFLOW
            else DCS_INTEGER_CONSTANT_OVERFLOW,
          symbolTable := pass1_init.symTab, save := [] } :=
  ⟨⟨by decide, by decide, by decide⟩,
    (start_rejects_address pass1_init.symTab true "1".toList [] (by decide) (by decide)
      (by decide) (by decide) (by decide) (by decide)).1,
    (start_rejects_address pass1_init.symTab false "8000".toList [] (by decide) (by decide)
      (by decide) (by decide) (by decide) (by decide)).1,
    (start_rejects_address pass1_init.symTab false "8000".toList [] (by decide) (by decide)
      (by decide) (by decide) (by decide) (by decide)).2.2 false "800000".toList
      " #top\n".toList (by decide) (by decide) (by decide) (by decide),
    (start_rejects_address pass1_init.symTab false "8000".toList [] (by decide) (by decide)
      (by decide) (by decide) (by decide) (by decide)).2.2 true "FFFFFF".toList []
      (by decide) (by decide) (by decide) (by decide)⟩

/-- Claim C19. From a symbol table in which the start address is set:
`directive_callback_start` returns DCS_START_DEFINED_TWICE whatever its operand and
leaves the table as it is; every directive handler call that returns leaves
the start address as it is, whatever status it returns; and so does every
call of `firstPassInstructionHelper`, whether it returns the table or NULL. -/
theorem start_address_frame (fuel : Nat) (symbolTable : symbol_table)
    (hset : symbolTable.startAddress ≠ SIC_NOT_SET_SENTINEL) :
    (∀ (operands : Option Str) (save : Str),
      directive_callback_start symbolTable operands save
        = { status := DCS_START_DEFINED_TWICE, symbolTable := symbolTable, save := save }) ∧
    (∀ (callback : directive_callback) (operands : Option Str) (save : Str) (r : callback_result),
      callDirective fuel callback symbolTable operands save = some r →
      r.symbolTable.startAddress = symbolTable.startAddress) ∧
    (∀ (directiveTable : hash_table directive_callback) (opTab : hash_table sic_optable_values)
      (opcode : sic_optable_values) (save : Str) (symbolSeen : Bool) (after : symbol_table),
      firstPassInstructionHelper_effect fuel symbolTable directiveTable opTab opcode save symbolSeen
        = some after →
      after.startAddress = symbolTable.startAddress) ∧
    (∀ (directiveTable : hash_table directive_callback) (opTab : hash_table sic_optable_values)
      (opcode : sic_optable_values) (save : Str) (symbolSeen : Bool) (after : symbol_table),
      firstPassInstructionHelper fuel symbolTable directiveTable opTab opcode save symbolSeen
        = ok after →
      firstPassInstructionHelper_effect fuel symbolTable directiveTable opTab opcode save symbolSeen
        = some after) :=
  ⟨fun operands save => directive_callback_start_twice symbolTable operands save hset,
   fun callback operands save r h =>
     callDirective_start_frame fuel callback symbolTable operands save r hset h,
   fun directiveTable opTab opcode save symbolSeen after h =>
     firstPassInstructionHelper_effect_frame fuel symbolTable directiveTable opTab opcode save
       symbolSeen after h,
   fun directiveTable opTab opcode save symbolSeen after h =>
     firstPassInstructionHelper_effect_of_ok fuel symbolTable directiveTable opTab opcode save
       symbolSeen after h⟩

/-- Claim C19 at a table whose start address is 0x1000: a second START, an
END naming FIRST, and a WORD all return with the start address still 0x1000. -/
theorem start_address_frame_witness :
    startedSymTab.startAddress ≠ SIC_NOT_SET_SENTINEL ∧
    (directive_callback_start startedSymTab (some "2000".toList) []).status
        = DCS_START_DEFINED_TWICE ∧
    callDirective 8 directive_callback.directive_callback_end startedSymTab
        (some "FIRST".toList) []
      = some { status := DCS_OKAY, symbolTable := { startedSymTab with endAddress := 0x1000 },
               save := [] } ∧
    (∀ (callback : directive_callback) (operands : Option Str) (save : Str) (r : callback_result),
      callDirective 8 callback startedSymTab operands save = some r →
      r.symbolTable.startAddress = 0x1000) :=
  ⟨by decide, by decide, by decide,
    (start_address_frame 8 startedSymTab (by decide)).2.1⟩

/-- Counterexample to claim C20 as written: on the line `END FIRST EXTRA`
the operand FIRST names a symbol of the map, bound to 0x1000, and the end
address is unset, yet `directive_callback_end` returns
DCS_TOO_MANY_OPERANDS and leaves the end address unset. -/
theorem end_extra_operand_rejected :
    startedSymTab.startAddress ≠ SIC_NOT_SET_SENTINEL ∧
    startedSymTab.endAddress = SIC_NOT_SET_SENTINEL ∧
    getKVPair 8 startedSymTab.ht (some "FIRST".toList) = some (some 0x1000) ∧
    (directive_callback_end 8 startedSymTab (some "FIRST".toList) "EXTRA\n".toList).map
        (fun r => (r.status, r.symbolTable))
      = some (DCS_TOO_MANY_OPERANDS, startedSymTab) := by
  decide

/-- Claim C20, amended. From a symbol table in which the start address is
set. If the end address is unset: with no operand `directive_callback_end`
returns DCS_OKAY and sets the end address to SIC_SEEN_SENTINEL; with an
operand bound in the map to an address below 2^32 and followed by nothing
or by a comment it returns DCS_OKAY and sets the end address to that
address; with such an operand followed by a token that is no comment it
returns DCS_TOO_MANY_OPERANDS and changes nothing; with an operand that
the lookup does not find it returns DSC_END_SYMBOL_NULL and changes
nothing. If the end address is set it returns DCS_END_DEFINED_TWICE and
changes nothing. Every call that returns leaves the location counter and
the map as they are. -/
theorem end_address_cases (fuel : Nat) (symbolTable : symbol_table)
    (hset : symbolTable.startAddress ≠ SIC_NOT_SET_SENTINEL) :
    (symbolTable.endAddress = SIC_NOT_SET_SENTINEL →
      (∀ (save : Str),
        directive_callback_end fuel symbolTable none save
          = some { status := DCS_OKAY,
                   symbolTable := { symbolTable with endAddress := SIC_SEEN_SENTINEL },
                   save := save }) ∧
      (∀ (S save : Str) (a : Nat),
        getKVPair fuel symbolTable.ht (some S) = some (some a) → a < UINT32_MOD →
        (∀ c, (strtok save SIC_TOKEN_DELIMITERS).1 = some c → checkComment c = true) →
        directive_callback_end fuel symbolTable (some S) save
          = some { status := DCS_OKAY, symbolTable := { symbolTable with endAddress := a },
                   save := (strtok save SIC_TOKEN_DELIMITERS).2 }) ∧
      (∀ (S save c : Str) (a : Nat),
        getKVPair fuel symbolTable.ht (some S) = some (some a) →
        (strtok save SIC_TOKEN_DELIMITERS).1 = some c → checkComment c = false →
        directive_callback_end fuel symbolTable (some S) save
          = some { status := DCS_TOO_MANY_OPERANDS, symbolTable := symbolTable,
                   save := (strtok save SIC_TOKEN_DELIMITERS).2 }) ∧
      (∀ (S save : Str),
        getKVPair fuel symbolTable.ht (some S) = some none →
        directive_callback_end fuel symbolTable (some S) save
          = some { status := DSC_END_SYMBOL_NULL, symbolTable := symbolTable, save := save })) ∧
    (symbolTable.endAddress ≠ SIC_NOT_SET_SENTINEL →
      ∀ (operands : Option Str) (save : Str),
        directive_callback_end fuel symbolTable operands save
          = some { status := DCS_END_DEFINED_TWICE, symbolTable := symbolTable, save := save }) ∧
    (∀ (operands : Option Str) (save : Str) (r : callback_result),
      directive_callback_end fuel symbolTable operands save = some r →
      r.symbolTable.locCounter = symbolTable.locCounter ∧ r.symbolTable.ht = symbolTable.ht) :=
  ⟨fun he =>
    ⟨fun save => directive_callback_end_none fuel symbolTable save hset he,
     fun S save a hg ha hrest =>
       directive_callback_end_symbol fuel symbolTable S save a hset he hg ha hrest,
     fun S save c a hg hc hnc =>
       directive_callback_end_extra fuel symbolTable S save c a hset he hg hc hnc,
     fun S save hg => directive_callback_end_null fuel symbolTable S save hset he hg⟩,
   fun he operands save => directive_callback_end_twice fuel symbolTable operands save hset he,
   fun operands save r h => (directive_callback_end_frame fuel symbolTable operands save r h).2⟩

/-- Claim C20, amended, at a table whose start address is 0x1000, whose end
address is unset and in which FIRST is bound to 0x1000: END alone marks the
end address as seen, END FIRST sets it to 0x1000, END LAST is rejected since
LAST is not in the map, and a further END is rejected. -/
theorem end_address_cases_witness :
    startedSymTab.startAddress ≠ SIC_NOT_SET_SENTINEL ∧
    startedSymTab.endAddress = SIC_NOT_SET_SENTINEL ∧
    directive_callback_end 8 startedSymTab none []
      = some { status := DCS_OKAY,
               symbolTable := { startedSymTab with endAddress := 0xFFFFFFFE }, save := [] } ∧
    directive_callback_end 8 startedSymTab (some "FIRST".toList) []
      = some { status := DCS_OKAY,
               symbolTable := { startedSymTab with endAddress := 0x1000 }, save := [] } ∧
    directive_callback_end 8 startedSymTab (some "LAST".toList) []
      = some { status := DSC_END_SYMBOL_NULL, symbolTable := startedSymTab, save := [] } ∧
    directive_callback_end 8 { startedSymTab with endAddress := 0x1000 } none []
      = some { status := DCS_END_DEFINED_TWICE,
               symbolTable := { startedSymTab with endAddress := 0x1000 }, save := [] } :=
  ⟨by decide, by decide,
   ((end_address_cases 8 startedSymTab (by decide)).1 (by decide)).1 [],
   ((end_address_cases 8 startedSymTab (by decide)).1 (by decide)).2.1 "FIRST".toList [] 0x1000
     (by decide) (by decide) (by decide),
   ((end_address_cases 8 startedSymTab (by decide)).1 (by decide)).2.2.2 "LAST".toList []
     (by decide),
   (end_address_cases 8 { startedSymTab with endAddress := 0x1000 } (by decide)).2.1 (by decide)
     none []⟩

/-- Claim C21, amended. From a symbol table in which the start address is
set, on a BYTE operand whose content holds no apostrophe and is followed by
nothing or by a comment: for `C` and a content of `n` characters with the
location counter plus `n` at most 0x7FFF, `directive_callback_byte` returns DCS_OKAY and
advances the location counter by `n`; for `X` it returns
DCS_ODD_NUMBER_OF_HEX_CHARACTERS when the number of characters is odd, else
DCS_BAD_HEX_CONSTANT when some character is no hex digit, both with the table as
it was, else DCS_OKAY with the location counter advanced by half the number
of characters when that stays at most 0x7FFF. When the advanced counter
exceeds 0x7FFF the handler returns DCS_MEMORY_OVERFLOW. -/
theorem byte_constant_cases (symbolTable : symbol_table) (content tail save : Str)
    (hset : symbolTable.startAddress ≠ SIC_NOT_SET_SENTINEL) (hq : quoteChar ∉ content)
    (hrest : ∀ c, (strtok tail SIC_TOKEN_DELIMITERS).1 = some c → checkComment c = true) :
    (symbolTable.locCounter + content.length ≤ SIC_MEMORY_LIMIT →
      directive_callback_byte symbolTable (some (byteOperand 'C' content tail)) save
        = { status := DCS_OKAY,
            symbolTable := { symbolTable with
              locCounter := symbolTable.locCounter + content.length },
            save := (strtok tail SIC_TOKEN_DELIMITERS).2 }) ∧
    (content.length % 2 = 1 →
      directive_callback_byte symbolTable (some (byteOperand 'X' content tail)) save
        = { status := DCS_ODD_NUMBER_OF_HEX_CHARACTERS, symbolTable := symbolTable,
            save := save }) ∧
    (content.length % 2 = 0 → content.all isxdigit = false →
      directive_callback_byte symbolTable (some (byteOperand 'X' content tail)) save
        = { status := DCS_BAD_HEX_CONSTANT, symbolTable := symbolTable, save := save }) ∧
    (content.length % 2 = 0 → content.all isxdigit = true →
      symbolTable.locCounter + content.length / 2 ≤ SIC_MEMORY_LIMIT →
      directive_callback_byte symbolTable (some (byteOperand 'X' content tail)) save
        = { status := DCS_OKAY,
            symbolTable := { symbolTable with
              locCounter := symbolTable.locCounter + content.length / 2 },
            save := (strtok tail SIC_TOKEN_DELIMITERS).2 }) ∧
    (SIC_MEMORY_LIMIT < symbolTable.locCounter + content.length →
      symbolTable.locCounter + content.length < UINT32_MOD →
      directive_callback_byte symbolTable (some (byteOperand 'C' content tail)) save
        = { status := DCS_MEMORY_OVERFLOW,
            symbolTable := { symbolTable with
              locCounter := symbolTable.locCounter + content.length },
            save := save }) ∧
    (content.length % 2 = 0 → content.all isxdigit = true →
      SIC_MEMORY_LIMIT < symbolTable.locCounter + content.length / 2 →
      symbolTable.locCounter + content.length / 2 < UINT32_MOD →
      directive_callback_byte symbolTable (some (byteOperand 'X' content tail)) save
        = { status := DCS_MEMORY_OVERFLOW,
            symbolTable := { symbolTable with
              locCounter := symbolTable.locCounter + content.length / 2 },
            save := save }) := by
  have hL : SIC_MEMORY_LIMIT = 32767 := rfl
  have hU : UINT32_MOD = 4294967296 := rfl
  have hCX : ('C' : Char) ≠ 'X' := by decide
  have hstatus : (match (strtok tail SIC_TOKEN_DELIMITERS).1 with
      | some t => if checkComment t then DCS_OKAY else DCS_TOO_MANY_OPERANDS
      | none => DCS_OKAY) = DCS_OKAY := by
    cases ht : (strtok tail SIC_TOKEN_DELIMITERS).1 with
    | none => rfl
    | some t => simp only [hrest t ht, if_true]
  have hC := directive_callback_byte_accepted symbolTable 'C' content tail save hset hq
    (Or.inl rfl) (fun h => absurd h hCX)
  simp only [hCX, if_false, hstatus] at hC
  have hX := fun (h : content.length % 2 = 0 ∧ content.all isxdigit = true) =>
    directive_callback_byte_accepted symbolTable 'X' content tail save hset hq
      (Or.inr rfl) (fun _ => h)
  simp only [if_true, hstatus] at hX
  refine ⟨?_, ?_, ?_, ?_, ?_, ?_⟩
  · intro hle
    have hm : (symbolTable.locCounter + content.length) % UINT32_MOD
        = symbolTable.locCounter + content.length := Nat.mod_eq_of_lt (by omega)
    rw [hC, hm, if_neg (by omega)]
  · intro hodd
    unfold directive_callback_byte byteOperand
    rw [if_neg hset]
    simp only [List.head?_cons, ne_eq, not_true_eq_false, and_false, if_false,
      List.drop_succ_cons, List.drop_zero, strchr_append_quote content tail hq,
      Option.some.injEq, hodd, true_and]
    rw [if_pos (by omega)]
  · intro heven hbad
    unfold directive_callback_byte byteOperand
    rw [if_neg hset]
    simp only [List.head?_cons, ne_eq, not_true_eq_false, and_false, if_false,
      List.drop_succ_cons, List.drop_zero, strchr_append_quote content tail hq,
      Option.some.injEq, heven, hbad, Bool.not_false, if_true, true_and]
  · intro heven hall hle
    have hm : (symbolTable.locCounter + content.length / 2) % UINT32_MOD
        = symbolTable.locCounter + content.length / 2 := Nat.mod_eq_of_lt (by omega)
    rw [hX ⟨heven, hall⟩, hm, if_neg (by omega)]
  · intro hgt hlt
    have hm : (symbolTable.locCounter + content.length) % UINT32_MOD
        = symbolTable.locCounter + content.length := Nat.mod_eq_of_lt hlt
    rw [hC, hm, if_pos hgt]
  · intro heven hall hgt hlt
    have hm : (symbolTable.locCounter + content.length / 2) % UINT32_MOD
        = symbolTable.locCounter + content.length / 2 := Nat.mod_eq_of_lt hlt
    rw [hX ⟨heven, hall⟩, hm, if_pos hgt]

set_option maxRecDepth 100000 in
/-- Claim C21, amended, at a table whose location counter is 0x1003: the
constant C, apostrophe, EOF, apostrophe advances it by 3; X with AB is
accepted and advances it by 1, X with ABC is refused for its odd length and
X with AG for its character G. -/
theorem byte_constant_cases_witness :
    startedSymTab.startAddress ≠ SIC_NOT_SET_SENTINEL ∧
    directive_callback_byte startedSymTab (some (byteOperand 'C' "EOF".toList [])) []
      = { status := DCS_OKAY, symbolTable := { startedSymTab with locCounter := 0x1006 },
          save := [] } ∧
    directive_callback_byte startedSymTab (some (byteOperand 'X' "AB".toList [])) []
      = { status := DCS_OKAY, symbolTable := { startedSymTab with locCounter := 0x1004 },
          save := [] } ∧
    directive_callback_byte startedSymTab (some (byteOperand 'X' "ABC".toList [])) []
      = { status := DCS_ODD_NUMBER_OF_HEX_CHARACTERS, symbolTable := startedSymTab,
          save := [] } ∧
    directive_callback_byte startedSymTab (some (byteOperand 'X' "AG".toList [])) []
      = { status := DCS_BAD_HEX_CONSTANT, symbolTable := startedSymTab, save := [] } :=
  ⟨by decide,
    (byte_constant_cases startedSymTab "EOF".toList [] [] (by decide) (by decide)
      (by decide)).1 (by decide),
    (byte_constant_cases startedSymTab "AB".toList [] [] (by decide) (by decide)
      (by decide)).2.2.2.1 (by decide) (by decide) (by decide),
    (byte_constant_cases startedSymTab "ABC".toList [] [] (by decide) (by decide)
      (by decide)).2.1 (by decide),
    (byte_constant_cases startedSymTab "AG".toList [] [] (by decide) (by decide)
      (by decide)).2.2.1 (by decide) (by decide)⟩

set_option maxRecDepth 100000 in
/-- Against claim C22 as stated: after the line `P START 7FFF` the start
address is set, and the labelled line with the constant HELLO WORLD is
refused with DCS_MEMORY_OVERFLOW, as is the unlabelled one. -/
theorem byte_line_overflow :
    firstPassLoop 8 directiveTable sampleOpTab (readLines "P START 7FFF\n".toList) pass1_init
      = ok (stateAfter "P START 7FFF\n".toList) ∧
    (stateAfter "P START 7FFF\n".toList).symTab.startAddress = 0x7FFF ∧
    firstPassLine 8 directiveTable sampleOpTab (stateAfter "P START 7FFF\n".toList)
        (byteLine (some "L".toList) "HELLO WORLD".toList [lfChar])
      = error (pass_error.directive DCS_MEMORY_OVERFLOW) ∧
    firstPassLine 8 directiveTable sampleOpTab (stateAfter "P START 7FFF\n".toList)
        (byteLine none "HELLO WORLD".toList [lfChar])
      = error (pass_error.directive DCS_MEMORY_OVERFLOW) := by
  decide

/-- Claim C22, amended. Let `s` hold no apostrophe, CR or LF, and let pass
one be in a state after START whose location counter plus the length of `s`
is at most 0x7FFF. On the labelled line made of a label, BYTE and the
character constant `s`, separated by single spaces and ended by CR and LF
characters, where the label is a well-formed symbol that is neither a
directive, nor a mnemonic, nor bound in the symbol map, and that
`insertKVPair` inserts, `firstPassLine` succeeds, advances the location counter by the
length of `s` and binds the label to the counter it met. On the unlabelled
line, where the first token of the constant is neither a directive nor a
mnemonic, it succeeds and advances the counter by the length of `s`. -/
theorem byte_line_keeps_whitespace (fuel : Nat) (opTab : hash_table sic_optable_values)
    (st : pass1_state) (s eol : Str)
    (hset : st.symTab.startAddress ≠ SIC_NOT_SET_SENTINEL) (hseen : st.startSeen = true)
    (hq : quoteChar ∉ s) (hcr : crChar ∉ s) (hlf : lfChar ∉ s)
    (heol : ∀ c ∈ eol, c = crChar ∨ c = lfChar)
    (hmem : st.symTab.locCounter + s.length ≤ SIC_MEMORY_LIMIT) :
    (∀ (L : Str) (ht' : hash_table Nat),
      sanitizedSymbol L = sic_symbol_status.SYM_OKAY →
      getKVPair fuel directiveTable (some L) = some none →
      getKVPair fuel opTab (some L) = some none →
      getKVPair fuel st.symTab.ht (some L) = some none →
      insertKVPair fuel st.symTab.ht L st.symTab.locCounter = some (ht_status.HT_OKAY, ht') →
      firstPassLine fuel directiveTable opTab st (byteLine (some L) s eol)
        = ok { symTab := { st.symTab with
                 locCounter := st.symTab.locCounter + s.length, ht := ht' },
               startSeen := true }) ∧
    (fuel ≠ 0 →
      (∀ t, (strtok (byteOperand 'C' s eol) SIC_TOKEN_DELIMITERS).1 = some t →
        isReservedWord fuel directiveTable opTab t = some false) →
      firstPassLine fuel directiveTable opTab st (byteLine none s eol)
        = ok { symTab := { st.symTab with locCounter := st.symTab.locCounter + s.length },
               startSeen := true }) := by
  have hbyteTok : ∀ rest : Str, strtok ("BYTE".toList ++ ' ' :: rest) SIC_TOKEN_DELIMITERS
      = (some "BYTE".toList, rest) := by
    intro rest
    have := strtok_token "BYTE".toList (' ' :: rest) SIC_TOKEN_DELIMITERS (by decide)
      (by decide) (Or.inr ⟨' ', rest, rfl, by decide⟩)
    simpa using this
  constructor
  · intro L ht' hsan hdir hop hsym hins
    obtain ⟨hne, hnd, hnc⟩ := sanitizedSymbol_token L hsan
    have hfuel : fuel ≠ 0 := by
      intro h0
      rw [h0, getKVPair_zero] at hdir
      cases hdir
    have hLtok : strtok (L ++ ' ' :: ("BYTE".toList ++ ' ' :: byteOperand 'C' s eol))
        SIC_TOKEN_DELIMITERS
        = (some L, "BYTE".toList ++ ' ' :: byteOperand 'C' s eol) := by
      have := strtok_token L (' ' :: ("BYTE".toList ++ ' ' :: byteOperand 'C' s eol))
        SIC_TOKEN_DELIMITERS hne hnd (Or.inr ⟨' ', _, rfl, by decide⟩)
      simpa using this
    unfold firstPassLine byteLine
    simp only [hLtok, hnc, Bool.false_eq_true, if_false, hdir, hop, hsym, hsan, ne_eq,
      not_true_eq_false, hbyteTok, getKVPair_BYTE fuel hfuel, Option.getD_some, hseen,
      firstPassDirectiveHelper_byte_labelled fuel st.symTab directiveTable opTab s eol _ hset
        hq hcr hlf heol hmem]
    unfold insertSymbol
    simp only [hins]
  · intro hfuel hfree
    have hnc : checkComment "BYTE".toList = false := by decide
    unfold firstPassLine byteLine
    simp only [hbyteTok, hnc, Bool.false_eq_true, if_false, getKVPair_BYTE fuel hfuel, hseen,
      firstPassDirectiveHelper_byte_unlabelled fuel st.symTab directiveTable opTab s eol _ hset
        hq heol hmem hfree]

set_option maxRecDepth 100000 in
/-- Claim C22, amended, at the constant HELLO WORLD after the line
`P START 1000`: the labelled line and the unlabelled line both take the
location counter from 0x1000 to 0x100B. -/
theorem byte_line_keeps_whitespace_witness :
    ((stateAfter "P START 1000\n".toList).symTab.startAddress ≠ SIC_NOT_SET_SENTINEL ∧
      (stateAfter "P START 1000\n".toList).symTab.locCounter = 0x1000 ∧
      "HELLO WORLD".toList.length = 11) ∧
    (∃ ht', firstPassLine 8 directiveTable sampleOpTab (stateAfter "P START 1000\n".toList)
        (byteLine (some "L".toList) "HELLO WORLD".toList [lfChar])
      = ok { symTab := { (stateAfter "P START 1000\n".toList).symTab with
               locCounter := 0x1000 + 11, ht := ht' },
             startSeen := true }) ∧
    firstPassLine 8 directiveTable sampleOpTab (stateAfter "P START 1000\n".toList)
        (byteLine none "HELLO WORLD".toList [lfChar])
      = ok { symTab := { (stateAfter "P START 1000\n".toList).symTab with
               locCounter := 0x1000 + 11 },
             startSeen := true } :=
  ⟨⟨by decide, by decide, by decide⟩,
    ⟨((insertKVPair 8 (stateAfter "P START 1000\n".toList).symTab.ht "L".toList 0x1000).getD
        (ht_status.HT_OKAY, createHashTable 0)).2,
      (byte_line_keeps_whitespace 8 sampleOpTab (stateAfter "P START 1000\n".toList)
        "HELLO WORLD".toList [lfChar] (by decide) (by decide) (by decide) (by decide)
        (by decide) (by decide) (by decide)).1 "L".toList _ (by decide) (by decide) (by decide)
        (by decide) (by decide)⟩,
    (byte_line_keeps_whitespace 8 sampleOpTab (stateAfter "P START 1000\n".toList)
      "HELLO WORLD".toList [lfChar] (by decide) (by decide) (by decide) (by decide)
      (by decide) (by decide) (by decide)).2 (by decide) (by decide)⟩

set_option maxRecDepth 100000 in
/-- Against claim C21 as stated: with the location counter at 0x7FFF the
operand `C`, apostrophe, `A`, apostrophe makes `directive_callback_byte` return
DCS_MEMORY_OVERFLOW, with the location counter at 0x8000. -/
theorem byte_overflow_status :
    fullSymTab.startAddress ≠ SIC_NOT_SET_SENTINEL ∧
    directive_callback_byte fullSymTab (some (byteOperand 'C' "A".toList [])) []
      = { status := DCS_MEMORY_OVERFLOW,
          symbolTable := { fullSymTab with locCounter := 0x8000 }, save := [] } := by
  decide

set_option maxRecDepth 100000 in
/-- Claim C23 fails. The decimal operand 4294967296 is greater than 0x7FFFFF,
yet `directive_callback_word` returns DCS_OKAY on it and advances the location
counter by 3, and so it does on -4294967296; on 2147483648 it returns
DCS_INTEGER_CONSTANT_UNDERFLOW, and on 9223372036854775808 it returns
DCS_CONVERSION_ERROR. On 8388608 and on -8388608 it returns the overflow and
the underflow status. -/
theorem word_operand_truncated :
    startedSymTab.startAddress ≠ SIC_NOT_SET_SENTINEL ∧
    directive_callback_word startedSymTab (some "4294967296".toList) []
      = { status := DCS_OKAY,
          symbolTable := { startedSymTab with locCounter := startedSymTab.locCounter + 3 },
          save := [] } ∧
    (directive_callback_word startedSymTab (some "-4294967296".toList) []).status = DCS_OKAY ∧
    (directive_callback_word startedSymTab (some "2147483648".toList) []).status
      = DCS_INTEGER_CONSTANT_UNDERFLOW ∧
    (directive_callback_word startedSymTab (some "9223372036854775808".toList) []).status
      = DCS_CONVERSION_ERROR ∧
    (directive_callback_word startedSymTab (some "8388608".toList) []).status
      = DCS_INTEGER_CONSTANT_OVERFLOW ∧
    (directive_callback_word startedSymTab (some "-8388608".toList) []).status
      = DCS_INTEGER_CONSTANT_UNDERFLOW := by
  decide

set_option maxRecDepth 100000 in
/-- Against claim C24 as stated: on the negative operand -8388608 both
`directive_callback_resb` and `directive_callback_resw` return
DCS_INTEGER_CONSTANT_UNDERFLOW, not DCS_OPERAND_WAS_NEGATIVE. -/
theorem reserve_underflow_status :
    startedSymTab.startAddress ≠ SIC_NOT_SET_SENTINEL ∧
    (directive_callback_resb startedSymTab (some "-8388608".toList) []).status
      = DCS_INTEGER_CONSTANT_UNDERFLOW ∧
    (directive_callback_resw startedSymTab (some "-8388608".toList) []).status
      = DCS_INTEGER_CONSTANT_UNDERFLOW := by
  decide

/-- Against claim C25 as stated: without an operand the handlers of RESR and
EXPORTS return DCS_PTR_INVALID, not DCS_NOT_IMPLEMENTED. -/
theorem unimplemented_without_operand :
    (directive_callback_resr startedSymTab none []).status = DCS_PTR_INVALID ∧
    (directive_callback_exports startedSymTab none []).status = DCS_PTR_INVALID := by
  decide

/-- Claim C25, amended. Whatever the symbol table, the handlers of RESR and
EXPORTS return DCS_NOT_IMPLEMENTED when they are given an operand and
DCS_PTR_INVALID when they are given none, and leave the symbol table as it
is. -/
theorem unimplemented_handlers (symbolTable : symbol_table) (save : Str) :
    (∀ operand : Str,
      directive_callback_resr symbolTable (some operand) save
        = { status := DCS_NOT_IMPLEMENTED, symbolTable := symbolTable, save := save } ∧
      directive_callback_exports symbolTable (some operand) save
        = { status := DCS_NOT_IMPLEMENTED, symbolTable := symbolTable, save := save }) ∧
    directive_callback_resr symbolTable none save
      = { status := DCS_PTR_INVALID, symbolTable := symbolTable, save := save } ∧
    directive_callback_exports symbolTable none save
      = { status := DCS_PTR_INVALID, symbolTable := symbolTable, save := save } :=
  ⟨fun _ => ⟨rfl, rfl⟩, rfl, rfl⟩

set_option maxRecDepth 100000 in
/-- Claim C27 fails in the code. From a table whose location counter is 0x1003,
the lines RESB 4294967296 and RESW 4294967296 ask for an advance that would
take the counter above 0x7FFF, yet `directive_callback_resb` and `directive_callback_resw`
return DCS_OKAY and leave the location counter where it was: `getConstant`
stores the `long` result of `strtol` in an `int32_t`, and so the handlers see
the constant 0. -/
theorem reserve_beyond_memory_accepted :
    startedSymTab.startAddress ≠ SIC_NOT_SET_SENTINEL ∧
    startedSymTab.locCounter = 0x1003 ∧
    (strtol "4294967296".toList 10).value = 4294967296 ∧
    getConstant "4294967296".toList 10 = (DCS_OKAY, 0) ∧
    directive_callback_resb startedSymTab (some "4294967296".toList) []
      = { status := DCS_OKAY, symbolTable := startedSymTab, save := [] } ∧
    directive_callback_resw startedSymTab (some "4294967296".toList) []
      = { status := DCS_OKAY, symbolTable := startedSymTab, save := [] } := by
  decide

set_option maxRecDepth 100000 in
/-- Claim C29 fails. In `afterEndSource` a labelled WORD line follows the END
line, and pass one accepts the source: it binds the label L to 0x1003 and
ends with the location counter at 0x1006. Pass two accepts it as well and
emits a text record for the WORD. -/
theorem word_after_end_accepted :
    (symTabOf (buildSymbolTable 8 afterEndSource directiveTable sampleOpTab)).map
        (fun s => (s.startAddress, s.endAddress, s.locCounter)) = some (0x1000, 0x1000, 0x1006) ∧
    symbolAddress 8 (buildSymbolTable 8 afterEndSource directiveTable sampleOpTab) "L".toList
      = some 0x1003 ∧
    (recordsOf (assemble 8 afterEndSource directiveTable sampleOpTab)).map writeSCOFFToFile
      = some ("HP     001000000006\nT00100003001000\nT00100603000005\n" ++
          "M00100106+P     \nE001000").toList := by
  decide

/-- Claim C24, amended. From a symbol table in which the start address is
set, on an operand that is a decimal numeral `t` of value `n`, with or
without a sign. When `n` is at most 0x7FFFFF and nothing or a comment
follows: for a value that is not negative `directive_callback_resb` returns DCS_OKAY
and advances the location counter by `n` when that stays at most 0x7FFF, and
`directive_callback_resw` by `3 * n`; for a negative value both return
DCS_OPERAND_WAS_NEGATIVE and leave the table as it is. When `n` is at most 0x7FFFFF
and a token that is no comment follows, both return DCS_TOO_MANY_OPERANDS and
leave the table as it is. When `n` lies between 0x800000 and 0x7FFFFFFF both
return the status of the operand check, DCS_INTEGER_CONSTANT_OVERFLOW or, with a
minus sign, DCS_INTEGER_CONSTANT_UNDERFLOW, and leave the table as it is. -/
theorem reserve_cases (symbolTable : symbol_table) (sign t save : Str)
    (hset : symbolTable.startAddress ≠ SIC_NOT_SET_SENTINEL)
    (hsign : sign = [] ∨ sign = ['-'] ∨ sign = ['+'])
    (ht : t ≠ []) (hd : t.all isdigit = true) :
    (decValue t ≤ 0x7FFFFF →
      (∀ c, (strtok save SIC_TOKEN_DELIMITERS).1 = some c → checkComment c = true) →
      (sign = ['-'] → decValue t = 0) →
      (symbolTable.locCounter + decValue t ≤ SIC_MEMORY_LIMIT →
        directive_callback_resb symbolTable (some (sign ++ t)) save
          = { status := DCS_OKAY,
              symbolTable := { symbolTable with
                locCounter := symbolTable.locCounter + decValue t },
              save := (strtok save SIC_TOKEN_DELIMITERS).2 }) ∧
      (symbolTable.locCounter + 3 * decValue t ≤ SIC_MEMORY_LIMIT →
        directive_callback_resw symbolTable (some (sign ++ t)) save
          = { status := DCS_OKAY,
              symbolTable := { symbolTable with
                locCounter := symbolTable.locCounter + 3 * decValue t },
              save := (strtok save SIC_TOKEN_DELIMITERS).2 })) ∧
    (decValue t ≤ 0x7FFFFF →
      (∀ c, (strtok save SIC_TOKEN_DELIMITERS).1 = some c → checkComment c = true) →
      sign = ['-'] → 1 ≤ decValue t →
      directive_callback_resb symbolTable (some (sign ++ t)) save
        = { status := DCS_OPERAND_WAS_NEGATIVE, symbolTable := symbolTable,
            save := (strtok save SIC_TOKEN_DELIMITERS).2 } ∧
      directive_callback_resw symbolTable (some (sign ++ t)) save
        = { status := DCS_OPERAND_WAS_NEGATIVE, symbolTable := symbolTable,
            save := (strtok save SIC_TOKEN_DELIMITERS).2 }) ∧
    (decValue t ≤ 0x7FFFFF →
      ∀ c, (strtok save SIC_TOKEN_DELIMITERS).1 = some c → checkComment c = false →
      directive_callback_resb symbolTable (some (sign ++ t)) save
        = { status := DCS_TOO_MANY_OPERANDS, symbolTable := symbolTable,
            save := (strtok save SIC_TOKEN_DELIMITERS).2 } ∧
      directive_callback_resw symbolTable (some (sign ++ t)) save
        = { status := DCS_TOO_MANY_OPERANDS, symbolTable := symbolTable,
            save := (strtok save SIC_TOKEN_DELIMITERS).2 }) ∧
    (0x800000 ≤ decValue t → decValue t ≤ 0x7FFFFFFF →
      directive_callback_resb symbolTable (some (sign ++ t)) save
        = { status := if sign = ['-'] then DCS_INTEGER_CONSTANT_UNDERFLOW
              else DCS_INTEGER_CONSTANT_OVERFLOW,
            symbolTable := symbolTable, save := save } ∧
      directive_callback_resw symbolTable (some (sign ++ t)) save
        = { status := if sign = ['-'] then DCS_INTEGER_CONSTANT_UNDERFLOW
              else DCS_INTEGER_CONSTANT_OVERFLOW,
            symbolTable := symbolTable, save := save }) := by
  have hL : SIC_MEMORY_LIMIT = 32767 := rfl
  have hU : UINT32_MOD = 4294967296 := rfl
  have hB : ((SIC_BYTE : Nat) : Int) = 1 := rfl
  have hW : ((SIC_WORD_BYTES : Nat) : Int) = 3 := rfl
  have hno : DCS_OKAY ≠ DCS_OKAY ↔ False := by simp
  refine ⟨?_, ?_, ?_, ?_⟩
  · intro hv hrest hzero
    have hstatus : (match (strtok save SIC_TOKEN_DELIMITERS).1 with
        | some tok => if checkComment tok then DCS_OKAY else DCS_TOO_MANY_OPERANDS
        | none => DCS_OKAY) = DCS_OKAY := by
      cases hk : (strtok save SIC_TOKEN_DELIMITERS).1 with
      | none => rfl
      | some tok => simp only [hrest tok hk, if_true]
    have hop := getOperand_of_constant (sign ++ t) save 10 _ (getConstant_dec sign t hsign ht hd hv)
    rw [hstatus] at hop
    have hval : (if sign = ['-'] then -(decValue t : Int) else (decValue t : Int))
        = (decValue t : Int) := by
      by_cases hneg : sign = ['-']
      · rw [if_pos hneg, hzero hneg]; rfl
      · rw [if_neg hneg]
    rw [hval] at hop
    have hnn : ¬ ((decValue t : Int) < 0) := by omega
    constructor
    · intro hle
      have e : (symbolTable.locCounter : Int) + (decValue t : Int) * (SIC_BYTE : Int)
          = ((symbolTable.locCounter + decValue t : Nat) : Int) := by
        rw [hB]; push_cast; ring
      have hm : toUInt32 ((symbolTable.locCounter : Int) + (decValue t : Int) * (SIC_BYTE : Int))
          = symbolTable.locCounter + decValue t := by
        rw [e, toUInt32_natCast, Nat.mod_eq_of_lt (by omega)]
      rw [directive_callback_resb_of_operand symbolTable _ save _ _ _ hset hop, hm]
      simp only [hno, if_false, hnn]
      rw [if_neg (by omega)]
    · intro hle
      have e : (symbolTable.locCounter : Int) + (decValue t : Int) * (SIC_WORD_BYTES : Int)
          = ((symbolTable.locCounter + 3 * decValue t : Nat) : Int) := by
        rw [hW]; push_cast; ring
      have hm : toUInt32 ((symbolTable.locCounter : Int)
            + (decValue t : Int) * (SIC_WORD_BYTES : Int))
          = symbolTable.locCounter + 3 * decValue t := by
        rw [e, toUInt32_natCast, Nat.mod_eq_of_lt (by omega)]
      rw [directive_callback_resw_of_operand symbolTable _ save _ _ _ hset hop, hm]
      simp only [hno, if_false, hnn]
      rw [if_neg (by omega)]
  · intro hv hrest hneg hpos
    have hstatus : (match (strtok save SIC_TOKEN_DELIMITERS).1 with
        | some tok => if checkComment tok then DCS_OKAY else DCS_TOO_MANY_OPERANDS
        | none => DCS_OKAY) = DCS_OKAY := by
      cases hk : (strtok save SIC_TOKEN_DELIMITERS).1 with
      | none => rfl
      | some tok => simp only [hrest tok hk, if_true]
    have hop := getOperand_of_constant (sign ++ t) save 10 _ (getConstant_dec sign t hsign ht hd hv)
    rw [hstatus, if_pos hneg] at hop
    have hlt : (-(decValue t : Int) < 0) := by omega
    constructor
    · rw [directive_callback_resb_of_operand symbolTable _ save _ _ _ hset hop]
      simp only [hno, if_false, hlt, if_true]
    · rw [directive_callback_resw_of_operand symbolTable _ save _ _ _ hset hop]
      simp only [hno, if_false, hlt, if_true]
  · intro hv c hc hnc
    have hstatus : (match (strtok save SIC_TOKEN_DELIMITERS).1 with
        | some tok => if checkComment tok then DCS_OKAY else DCS_TOO_MANY_OPERANDS
        | none => DCS_OKAY) = DCS_TOO_MANY_OPERANDS := by
      rw [hc]
      simp only [hnc, Bool.false_eq_true, if_false]
    have hop := getOperand_of_constant (sign ++ t) save 10 _ (getConstant_dec sign t hsign ht hd hv)
    rw [hstatus] at hop
    have hne : DCS_TOO_MANY_OPERANDS ≠ DCS_OKAY := by decide
    constructor
    · rw [directive_callback_resb_of_operand symbolTable _ save _ _ _ hset hop, if_pos hne]
    · rw [directive_callback_resw_of_operand symbolTable _ save _ _ _ hset hop, if_pos hne]
  · intro hlo hv
    have hr := getConstant_dec_range sign t hsign ht hd hlo hv
    have hne : (getConstant (sign ++ t) 10).1 ≠ DCS_OKAY := by
      rw [hr]; split <;> decide
    have hop : getOperand (some (sign ++ t)) 10 save
        = ((getConstant (sign ++ t) 10).1, (getConstant (sign ++ t) 10).2, save) := by
      unfold getOperand
      simp only [ne_eq, hne, not_false_eq_true, if_true]
    constructor
    · rw [directive_callback_resb_of_operand symbolTable _ save _ _ _ hset hop, if_pos hne, hr]
    · rw [directive_callback_resw_of_operand symbolTable _ save _ _ _ hset hop, if_pos hne, hr]

set_option maxRecDepth 100000 in
/-- Claim C24, amended, at a table whose location counter is 0x1003: RESB 0
and RESW 0 are accepted with no advance, RESB 16 advances by 16 and RESW 16
by 48, RESB -1 is refused as negative, and RESW 4 followed by the token 5
is refused for its extra operand. -/
theorem reserve_cases_witness :
    startedSymTab.startAddress ≠ SIC_NOT_SET_SENTINEL ∧
    directive_callback_resb startedSymTab (some "0".toList) []
      = { status := DCS_OKAY, symbolTable := startedSymTab, save := [] } ∧
    directive_callback_resw startedSymTab (some "0".toList) []
      = { status := DCS_OKAY, symbolTable := startedSymTab, save := [] } ∧
    directive_callback_resb startedSymTab (some "16".toList) []
      = { status := DCS_OKAY, symbolTable := { startedSymTab with locCounter := 0x1013 },
          save := [] } ∧
    directive_callback_resw startedSymTab (some "16".toList) []
      = { status := DCS_OKAY, symbolTable := { startedSymTab with locCounter := 0x1033 },
          save := [] } ∧
    directive_callback_resb startedSymTab (some "-1".toList) []
      = { status := DCS_OPERAND_WAS_NEGATIVE, symbolTable := startedSymTab, save := [] } ∧
    directive_callback_resw startedSymTab (some "4".toList) "5\n".toList
      = { status := DCS_TOO_MANY_OPERANDS, symbolTable := startedSymTab, save := [] } :=
  ⟨by decide,
    ((reserve_cases startedSymTab [] "0".toList [] (by decide) (by decide) (by decide)
      (by decide)).1 (by decide) (by decide) (by decide)).1 (by decide),
    ((reserve_cases startedSymTab [] "0".toList [] (by decide) (by decide) (by decide)
      (by decide)).1 (by decide) (by decide) (by decide)).2 (by decide),
    ((reserve_cases startedSymTab [] "16".toList [] (by decide) (by decide) (by decide)
      (by decide)).1 (by decide) (by decide) (by decide)).1 (by decide),
    ((reserve_cases startedSymTab [] "16".toList [] (by decide) (by decide) (by decide)
      (by decide)).1 (by decide) (by decide) (by decide)).2 (by decide),
    ((reserve_cases startedSymTab ['-'] "1".toList [] (by decide) (by decide) (by decide)
      (by decide)).2.1 (by decide) (by decide) (by decide) (by decide)).1,
    ((reserve_cases startedSymTab [] "4".toList "5\n".toList (by decide) (by decide) (by decide)
      (by decide)).2.2.1 (by decide) "5".toList (by decide) (by decide)).2⟩

/-- Claim C26. From a symbol table in which the start address is unset:
`directive_callback_end`, `directive_callback_byte`, `directive_callback_word`,
`directive_callback_resb` and `directive_callback_resw` return DCS_START_NOT_DEFINED whatever the
operand and leave the table as it is; `firstPassInstructionHelper` reports
DCS_START_NOT_DEFINED and returns NULL, with the table as it was; and every handler
other than that of START returns, with a status that is not DCS_OKAY and the
table as it was. -/
theorem start_not_defined (fuel : Nat) (symbolTable : symbol_table)
    (hunset : symbolTable.startAddress = SIC_NOT_SET_SENTINEL) :
    (∀ (operands : Option Str) (save : Str),
      directive_callback_end fuel symbolTable operands save
        = some { status := DCS_START_NOT_DEFINED, symbolTable := symbolTable, save := save } ∧
      directive_callback_byte symbolTable operands save
        = { status := DCS_START_NOT_DEFINED, symbolTable := symbolTable, save := save } ∧
      directive_callback_word symbolTable operands save
        = { status := DCS_START_NOT_DEFINED, symbolTable := symbolTable, save := save } ∧
      directive_callback_resb symbolTable operands save
        = { status := DCS_START_NOT_DEFINED, symbolTable := symbolTable, save := save } ∧
      directive_callback_resw symbolTable operands save
        = { status := DCS_START_NOT_DEFINED, symbolTable := symbolTable, save := save }) ∧
    (∀ (directiveTable : hash_table directive_callback) (opTab : hash_table sic_optable_values)
      (opcode : sic_optable_values) (save : Str) (symbolSeen : Bool),
      firstPassInstructionHelper fuel symbolTable directiveTable opTab opcode save symbolSeen
        = error (pass_error.directive DCS_START_NOT_DEFINED) ∧
      firstPassInstructionHelper_effect fuel symbolTable directiveTable opTab opcode save symbolSeen
        = some symbolTable) ∧
    (∀ (callback : directive_callback) (operands : Option Str) (save : Str),
      callback ≠ directive_callback.directive_callback_start →
      ∃ r, callDirective fuel callback symbolTable operands save = some r ∧
        r.status ≠ DCS_OKAY ∧ r.symbolTable = symbolTable) := by
  have hend : ∀ (operands : Option Str) (save : Str),
      directive_callback_end fuel symbolTable operands save
        = some { status := DCS_START_NOT_DEFINED, symbolTable := symbolTable, save := save } := by
    intro operands save
    unfold directive_callback_end
    rw [if_pos hunset]
  have hbyte : ∀ (operands : Option Str) (save : Str),
      directive_callback_byte symbolTable operands save
        = { status := DCS_START_NOT_DEFINED, symbolTable := symbolTable, save := save } := by
    intro operands save
    unfold directive_callback_byte
    rw [if_pos hunset]
  have hword : ∀ (operands : Option Str) (save : Str),
      directive_callback_word symbolTable operands save
        = { status := DCS_START_NOT_DEFINED, symbolTable := symbolTable, save := save } := by
    intro operands save
    unfold directive_callback_word
    rw [if_pos hunset]
  have hresb : ∀ (operands : Option Str) (save : Str),
      directive_callback_resb symbolTable operands save
        = { status := DCS_START_NOT_DEFINED, symbolTable := symbolTable, save := save } := by
    intro operands save
    unfold directive_callback_resb
    rw [if_pos hunset]
  have hresw : ∀ (operands : Option Str) (save : Str),
      directive_callback_resw symbolTable operands save
        = { status := DCS_START_NOT_DEFINED, symbolTable := symbolTable, save := save } := by
    intro operands save
    unfold directive_callback_resw
    rw [if_pos hunset]
  have hno : DCS_START_NOT_DEFINED ≠ DCS_OKAY := by decide
  refine ⟨fun operands save => ⟨hend operands save, hbyte operands save, hword operands save,
    hresb operands save, hresw operands save⟩, ?_, ?_⟩
  · intro directiveTable opTab opcode save symbolSeen
    constructor
    · unfold firstPassInstructionHelper
      simp only
      rw [if_pos hunset]
    · unfold firstPassInstructionHelper_effect
      simp only
      rw [if_pos hunset]
  · intro callback operands save hne
    cases callback with
    | directive_callback_start => exact absurd rfl hne
    | directive_callback_end =>
      exact ⟨_, by simp only [callDirective]; exact hend operands save, hno, rfl⟩
    | directive_callback_byte =>
      exact ⟨_, rfl, by rw [hbyte]; exact hno, by rw [hbyte]⟩
    | directive_callback_word =>
      exact ⟨_, rfl, by rw [hword]; exact hno, by rw [hword]⟩
    | directive_callback_resb =>
      exact ⟨_, rfl, by rw [hresb]; exact hno, by rw [hresb]⟩
    | directive_callback_resw =>
      exact ⟨_, rfl, by rw [hresw]; exact hno, by rw [hresw]⟩
    | directive_callback_resr =>
      exact ⟨_, rfl, directive_callback_resr_not_ok _ _ _, directive_callback_resr_frame _ _ _⟩
    | directive_callback_exports =>
      exact ⟨_, rfl, directive_callback_exports_not_ok _ _ _,
        directive_callback_exports_frame _ _ _⟩

/-- Claim C26 at the symbol table pass one starts with: BYTE, WORD and an
instruction are refused with DCS_START_NOT_DEFINED. -/
theorem start_not_defined_witness :
    pass1_init.symTab.startAddress = SIC_NOT_SET_SENTINEL ∧
    directive_callback_word pass1_init.symTab (some "5".toList) []
      = { status := DCS_START_NOT_DEFINED, symbolTable := pass1_init.symTab, save := [] } ∧
    (∀ (opcode : sic_optable_values) (save : Str) (symbolSeen : Bool),
      firstPassInstructionHelper 8 pass1_init.symTab directiveTable sampleOpTab opcode save
          symbolSeen
        = error (pass_error.directive DCS_START_NOT_DEFINED) ∧
      firstPassInstructionHelper_effect 8 pass1_init.symTab directiveTable sampleOpTab opcode save
          symbolSeen
        = some pass1_init.symTab) :=
  ⟨by decide, ((start_not_defined 8 pass1_init.symTab (by decide)).1 (some "5".toList) []).2.2.1,
    (start_not_defined 8 pass1_init.symTab (by decide)).2.1 directiveTable sampleOpTab⟩

/-- From a symbol table in which the start address is
set and the location counter is at most 0x7FFF: every handler call that
returns DCS_OKAY, on an operand of at most 1023 characters, and every call of
`firstPassInstructionHelper` that returns the table, leaves the counter at or above
where it was and at most 0x7FFF. And whenever the advance a handler computes
from an operand it accepts would take the counter above 0x7FFF, the call
returns DCS_MEMORY_OVERFLOW: 3 for WORD; the constant `c` that `getOperand` has
read, between 0 and 0x7FFFFF, for RESB and `3 * c` for RESW; the number of
bytes of a well-formed constant for BYTE; and 3 for an instruction whose
operands have passed the checks. -/
theorem loc_counter_bounds (fuel : Nat) (symbolTable : symbol_table)
    (hset : symbolTable.startAddress ≠ SIC_NOT_SET_SENTINEL)
    (hlc : symbolTable.locCounter ≤ SIC_MEMORY_LIMIT) :
    (∀ (callback : directive_callback) (operand : Option Str) (save : Str) (r : callback_result),
      (∀ o, operand = some o → o.length ≤ 1023) →
      callDirective fuel callback symbolTable operand save = some r → r.status = DCS_OKAY →
      symbolTable.locCounter ≤ r.symbolTable.locCounter ∧
      r.symbolTable.locCounter ≤ SIC_MEMORY_LIMIT) ∧
    (∀ (directiveTable : hash_table directive_callback) (opTab : hash_table sic_optable_values)
      (opcode : sic_optable_values) (save : Str) (symbolSeen : Bool) (after : symbol_table),
      firstPassInstructionHelper fuel symbolTable directiveTable opTab opcode save symbolSeen
        = ok after →
      after.locCounter = symbolTable.locCounter + 3 ∧ after.locCounter ≤ SIC_MEMORY_LIMIT) ∧
    (∀ (operand : Option Str) (save save1 : Str) (c : Int),
      getOperand operand 10 save = (DCS_OKAY, c, save1) →
      (SIC_MEMORY_LIMIT < symbolTable.locCounter + 3 →
        (directive_callback_word symbolTable operand save).status = DCS_MEMORY_OVERFLOW) ∧
      (0 ≤ c → (SIC_MEMORY_LIMIT : Int) < (symbolTable.locCounter : Int) + c →
        (directive_callback_resb symbolTable operand save).status = DCS_MEMORY_OVERFLOW) ∧
      (0 ≤ c → (SIC_MEMORY_LIMIT : Int) < (symbolTable.locCounter : Int) + 3 * c →
        (directive_callback_resw symbolTable operand save).status = DCS_MEMORY_OVERFLOW)) ∧
    (∀ (kind : Char) (content tail save : Str), quoteChar ∉ content → content.length ≤ 1023 →
      (kind = 'C' ∨
        (kind = 'X' ∧ content.length % 2 = 0 ∧ content.all isxdigit = true)) →
      SIC_MEMORY_LIMIT < symbolTable.locCounter +
        (if kind = 'X' then content.length / 2 else content.length) →
      (directive_callback_byte symbolTable (some (byteOperand kind content tail)) save).status
        = DCS_MEMORY_OVERFLOW) ∧
    (∀ (directiveTable : hash_table directive_callback) (opTab : hash_table sic_optable_values)
      (opcode : sic_optable_values) (save : Str) (symbolSeen : Bool) (after : symbol_table),
      firstPassInstructionHelper_effect fuel symbolTable directiveTable opTab opcode save symbolSeen
        = some after →
      after.locCounter ≠ symbolTable.locCounter →
      SIC_MEMORY_LIMIT < symbolTable.locCounter + 3 →
      firstPassInstructionHelper fuel symbolTable directiveTable opTab opcode save symbolSeen
        = error (pass_error.directive DCS_MEMORY_OVERFLOW)) := by
  have hL : SIC_MEMORY_LIMIT = 32767 := rfl
  have hU : UINT32_MOD = 4294967296 := rfl
  have hW : SIC_WORD_BYTES = 3 := rfl
  have hM : SIC_INTEGER_MAX = 8388607 := rfl
  have hno : DCS_OKAY ≠ DCS_OKAY ↔ False := by simp
  refine ⟨?_, ?_, ?_, ?_, ?_⟩
  · intro callback operand save r hlen hcall hok
    exact callDirective_counter fuel callback symbolTable operand save r hset hlc hlen hcall hok
  · intro directiveTable opTab opcode save symbolSeen after h
    obtain ⟨_, _, hle, hafter⟩ := firstPassInstructionHelper_ok fuel symbolTable after directiveTable
      opTab opcode save symbolSeen h
    have hm : (symbolTable.locCounter + SIC_WORD_BYTES) % UINT32_MOD
        = symbolTable.locCounter + 3 := by
      rw [hW]; exact Nat.mod_eq_of_lt (by omega)
    rw [hm] at hle hafter
    rw [hafter]
    exact ⟨rfl, hle⟩
  · intro operand save save1 c hop
    obtain ⟨t, _, hconst⟩ := getOperand_ok operand 10 save save1 c hop
    obtain ⟨_, hclo, hchi⟩ := getConstant_ok t 10 c hconst
    rw [hM] at hclo hchi
    refine ⟨?_, ?_, ?_⟩
    · intro hgt
      have hm : (symbolTable.locCounter + SIC_WORD_BYTES) % UINT32_MOD
          = symbolTable.locCounter + 3 := by
        rw [hW]; exact Nat.mod_eq_of_lt (by omega)
      rw [directive_callback_word_of_operand symbolTable operand save save1 _ c hset hop, hm]
      simp only [hno, if_false]
      rw [if_pos (by omega)]
    · intro h0 hgt
      have hnn : ¬ (c < 0) := by omega
      have hbig : toUInt32 ((symbolTable.locCounter : Int) + c * (SIC_BYTE : Int))
          > SIC_MEMORY_LIMIT := by
        have hB : ((SIC_BYTE : Nat) : Int) = 1 := rfl
        rw [hB]
        unfold toUInt32
        omega
      rw [directive_callback_resb_of_operand symbolTable operand save save1 _ c hset hop]
      simp only [hno, if_false, hnn, if_pos hbig]
    · intro h0 hgt
      have hnn : ¬ (c < 0) := by omega
      have hbig : toUInt32 ((symbolTable.locCounter : Int) + c * (SIC_WORD_BYTES : Int))
          > SIC_MEMORY_LIMIT := by
        have hB : ((SIC_WORD_BYTES : Nat) : Int) = 3 := rfl
        rw [hB]
        unfold toUInt32
        omega
      rw [directive_callback_resw_of_operand symbolTable operand save save1 _ c hset hop]
      simp only [hno, if_false, hnn, if_pos hbig]
  · intro kind content tail save hq hlen hk hgt
    have hk' : kind = 'C' ∨ kind = 'X' := by
      rcases hk with h | h
      · exact Or.inl h
      · exact Or.inr h.1
    have hx : kind = 'X' → content.length % 2 = 0 ∧ content.all isxdigit = true := by
      intro hX
      rcases hk with h | h
      · rw [h] at hX; exact absurd hX (by decide)
      · exact h.2
    have hadv : (if kind = 'X' then content.length / 2 else content.length) ≤ 1023 := by
      split <;> omega
    have hm : (symbolTable.locCounter +
        (if kind = 'X' then content.length / 2 else content.length)) % UINT32_MOD
        = symbolTable.locCounter +
          (if kind = 'X' then content.length / 2 else content.length) :=
      Nat.mod_eq_of_lt (by omega)
    rw [directive_callback_byte_accepted symbolTable kind content tail save hset hq hk' hx, hm,
      if_pos hgt]
  · intro directiveTable opTab opcode save symbolSeen after heff hadv hgt
    have hm : (symbolTable.locCounter + SIC_WORD_BYTES) % UINT32_MOD
        = symbolTable.locCounter + 3 := by
      rw [hW]; exact Nat.mod_eq_of_lt (by omega)
    rw [firstPassInstructionHelper_of_effect fuel symbolTable directiveTable opTab opcode save
      symbolSeen after heff hadv, hm, if_pos hgt]

set_option maxRecDepth 100000 in
/-- The location counter bounds at tables whose location counters are 0x1003 and
0x7FFF: from the first WORD 5 is accepted and takes the counter to 0x1006;
from the second WORD 5 and RESB 1 are refused with DCS_MEMORY_OVERFLOW. -/
theorem loc_counter_bounds_witness :
    (startedSymTab.startAddress ≠ SIC_NOT_SET_SENTINEL ∧ startedSymTab.locCounter ≤ 0x7FFF ∧
      fullSymTab.startAddress ≠ SIC_NOT_SET_SENTINEL ∧ fullSymTab.locCounter ≤ 0x7FFF) ∧
    callDirective 8 directive_callback.directive_callback_word startedSymTab (some "5".toList) []
      = some { status := DCS_OKAY, symbolTable := { startedSymTab with locCounter := 0x1006 },
               save := [] } ∧
    (startedSymTab.locCounter ≤ 0x1006 ∧ 0x1006 ≤ SIC_MEMORY_LIMIT) ∧
    (directive_callback_word fullSymTab (some "5".toList) []).status = DCS_MEMORY_OVERFLOW ∧
    (directive_callback_resb fullSymTab (some "1".toList) []).status = DCS_MEMORY_OVERFLOW :=
  ⟨⟨by decide, by decide, by decide, by decide⟩, by decide,
    (loc_counter_bounds 8 startedSymTab (by decide) (by decide)).1
      directive_callback.directive_callback_word (some "5".toList) []
      { status := DCS_OKAY, symbolTable := { startedSymTab with locCounter := 0x1006 },
        save := [] }
      (fun o ho => by
        simp only [Option.some.injEq] at ho
        rw [← ho]; decide)
      (by decide) rfl,
    ((loc_counter_bounds 8 fullSymTab (by decide) (by decide)).2.2.1 (some "5".toList) [] [] 5
      (by decide)).1 (by decide),
    ((loc_counter_bounds 8 fullSymTab (by decide) (by decide)).2.2.1 (some "1".toList) [] [] 1
      (by decide)).2.1 (by decide) (by decide)⟩

/-- Claim C28. `sanitizedSymbol` returns SYM_OKAY exactly for an upper-case letter
followed by at most five upper-case letters or digits. For any other string
it returns SYM_EXCEEDED_MAX_LEN when the string has more than 6 characters,
else SYM_FIRST_CHAR_NOT_VALID when the string is empty or its first character
is no upper-case letter, else SYM_CONTAINTS_INVALID_CHARS. A line whose first
token is neither a comment, nor a directive, nor a mnemonic, nor a symbol of
the symbol map, and which `sanitizedSymbol` refuses, makes `firstPassLine` stop with
that status; and pass one accepts no source that holds a line with such a
first token, in particular none with a label of more than 6 characters or
with a label that starts with a digit. -/
theorem symbol_sanitizing :
    (∀ s : Str, sanitizedSymbol s = sic_symbol_status.SYM_OKAY ↔
      ∃ c rest, s = c :: rest ∧ rest.length ≤ 5 ∧
        ('A'.toNat ≤ c.toNat ∧ c.toNat ≤ 'Z'.toNat) ∧
        ∀ d ∈ rest, ('A'.toNat ≤ d.toNat ∧ d.toNat ≤ 'Z'.toNat) ∨
          ('0'.toNat ≤ d.toNat ∧ d.toNat ≤ '9'.toNat)) ∧
    (∀ s : Str, 6 < s.length → sanitizedSymbol s = sic_symbol_status.SYM_EXCEEDED_MAX_LEN) ∧
    (∀ s : Str, s.length ≤ 6 →
      (∀ c rest, s = c :: rest → ¬ ('A'.toNat ≤ c.toNat ∧ c.toNat ≤ 'Z'.toNat)) →
      sanitizedSymbol s = sic_symbol_status.SYM_FIRST_CHAR_NOT_VALID) ∧
    (∀ (c : Char) (rest : Str), rest.length ≤ 5 →
      'A'.toNat ≤ c.toNat ∧ c.toNat ≤ 'Z'.toNat →
      sanitizedSymbol (c :: rest) ≠ sic_symbol_status.SYM_OKAY →
      sanitizedSymbol (c :: rest) = sic_symbol_status.SYM_CONTAINTS_INVALID_CHARS) ∧
    (∀ (fuel : Nat) (opTab : hash_table sic_optable_values) (st : pass1_state) (line L : Str),
      (strtok line SIC_TOKEN_DELIMITERS).1 = some L → checkComment L = false →
      getKVPair fuel directiveTable (some L) = some none →
      getKVPair fuel opTab (some L) = some none →
      getKVPair fuel st.symTab.ht (some L) = some none →
      sanitizedSymbol L ≠ sic_symbol_status.SYM_OKAY →
      firstPassLine fuel directiveTable opTab st line
        = error (pass_error.symbol (sanitizedSymbol L))) ∧
    (∀ (fuel : Nat) (source : Str) (opTab : hash_table sic_optable_values) (line L : Str),
      line ∈ readLines source →
      (strtok line SIC_TOKEN_DELIMITERS).1 = some L → checkComment L = false →
      (∀ cb, getKVPair fuel directiveTable (some L) ≠ some (some cb)) →
      (∀ op, getKVPair fuel opTab (some L) ≠ some (some op)) →
      (sanitizedSymbol L ≠ sic_symbol_status.SYM_OKAY ∨ 6 < L.length ∨
        ∃ c rest, L = c :: rest ∧ '0'.toNat ≤ c.toNat ∧ c.toNat ≤ '9'.toNat) →
      ∀ symTab, buildSymbolTable fuel source directiveTable opTab ≠ ok symTab) := by
  refine ⟨sanitizedSymbol_okay_iff, fun s => (sanitizedSymbol_cases s).1,
    fun s => (sanitizedSymbol_cases s).2.1, ?_, ?_, ?_⟩
  · intro c rest hlen hc hno
    by_cases hrest : ∀ d ∈ rest, ('A'.toNat ≤ d.toNat ∧ d.toNat ≤ 'Z'.toNat) ∨
        ('0'.toNat ≤ d.toNat ∧ d.toNat ≤ '9'.toNat)
    · exact absurd (((sanitizedSymbol_cases (c :: rest)).2.2 c rest rfl hlen hc).1 hrest) hno
    · push_neg at hrest
      obtain ⟨d, hd, hnd⟩ := hrest
      exact ((sanitizedSymbol_cases (c :: rest)).2.2 c rest rfl hlen hc).2
        ⟨d, hd, fun hor => by
          rcases hor with hu | hdg
          · exact absurd hu.2 (by have := hnd.1 hu.1; omega)
          · exact absurd hdg.2 (by have := hnd.2 hdg.1; omega)⟩
  · intro fuel opTab st line L htok hc hdir hop hsym hsan
    unfold firstPassLine
    rcases hs : strtok line SIC_TOKEN_DELIMITERS with ⟨tok, save⟩
    rw [hs] at htok
    simp only at htok
    subst htok
    simp only [hc, Bool.false_eq_true, if_false, hdir, hop, hsym, ne_eq, hsan, not_false_eq_true,
      if_true]
  · intro fuel source opTab line L hmem htok hc hdir hop hbad symTab hok
    have hsan : sanitizedSymbol L ≠ sic_symbol_status.SYM_OKAY := by
      rcases hbad with h | h | ⟨c, rest, rfl, h0, h9⟩
      · exact h
      · rw [(sanitizedSymbol_cases L).1 h]; decide
      · intro hokay
        obtain ⟨c', rest', hcons, _, hc', _⟩ := (sanitizedSymbol_okay_iff _).mp hokay
        simp only [List.cons.injEq] at hcons
        rw [← hcons.1] at hc'
        have hA : 'A'.toNat = 65 := rfl
        have h9' : '9'.toNat = 57 := rfl
        omega
    obtain ⟨stF, hloop, _, _, _, _⟩ := buildSymbolTable_Inv1 fuel source directiveTable opTab symTab hok
    obtain ⟨s, s', hline⟩ := firstPassLoop_lines fuel directiveTable opTab _ _ _ hloop line hmem
    exact hsan (firstPassLine_label_sanitized fuel directiveTable opTab s s' line L htok hc hdir hop
      hline)

set_option maxRecDepth 100000 in
/-- Claim C28 at BUFFER, which is accepted, and at sources whose second line
is labelled 1ABC and TOOLONG, which pass one does not accept. -/
theorem symbol_sanitizing_witness :
    sanitizedSymbol "BUFFER".toList = sic_symbol_status.SYM_OKAY ∧
    firstPassLine 8 directiveTable sampleOpTab (stateAfter "P START 1000\n".toList)
        "1ABC WORD 5\n".toList
      = error (pass_error.symbol sic_symbol_status.SYM_FIRST_CHAR_NOT_VALID) ∧
    (∀ symTab, buildSymbolTable 8 digitLabelSource directiveTable sampleOpTab ≠ ok symTab) ∧
    (∀ symTab, buildSymbolTable 8 longLabelSource directiveTable sampleOpTab ≠ ok symTab) :=
  ⟨(symbol_sanitizing.1 "BUFFER".toList).mpr
      ⟨'B', "UFFER".toList, rfl, by decide, by decide, by decide⟩,
    symbol_sanitizing.2.2.2.2.1 8 sampleOpTab (stateAfter "P START 1000\n".toList)
      "1ABC WORD 5\n".toList "1ABC".toList (by decide) (by decide) (by decide) (by decide)
      (by decide) (by decide),
    symbol_sanitizing.2.2.2.2.2 8 digitLabelSource sampleOpTab "1ABC WORD 5\n".toList
      "1ABC".toList (by decide) (by decide) (by decide)
      (fun cb h => absurd ((by decide :
        getKVPair 8 directiveTable (some "1ABC".toList) = some none).symm.trans h) (by simp))
      (fun op h => absurd ((by decide :
        getKVPair 8 sampleOpTab (some "1ABC".toList) = some none).symm.trans h) (by simp))
      (Or.inr (Or.inr ⟨'1', "ABC".toList, rfl, by decide, by decide⟩)),
    symbol_sanitizing.2.2.2.2.2 8 longLabelSource sampleOpTab "TOOLONG WORD 5\n".toList
      "TOOLONG".toList (by decide) (by decide) (by decide)
      (fun cb h => absurd ((by decide :
        getKVPair 8 directiveTable (some "TOOLONG".toList) = some none).symm.trans h) (by simp))
      (fun op h => absurd ((by decide :
        getKVPair 8 sampleOpTab (some "TOOLONG".toList) = some none).symm.trans h) (by simp))
      (Or.inr (Or.inl (by decide)))⟩

/-- Claim C30. For every source pass one accepts, the keys the symbol map
finds are exactly the labels of the labelled lines, these labels are
pairwise distinct, and no key stands in two slots of the map. A source in
which two lines carry the same label is not accepted by pass one; and when
pass one has accepted the lines before the second of them, it never accepts
that line, and refuses it as a duplicate symbol in every run with enough
probing steps. -/
theorem labels_bound_once (fuel : Nat) (opTab : hash_table sic_optable_values) :
    (∀ (source : Str) (symTab : symbol_table),
      buildSymbolTable fuel source directiveTable opTab = ok symTab →
      (∀ k, (∃ g v, getKVPair g symTab.ht (some k) = some (some v)) ↔
        k ∈ sourceLabels fuel opTab (readLines source)) ∧
      (sourceLabels fuel opTab (readLines source)).Nodup ∧
      (∀ (i j : Nat) (kv kv' : key_value Nat),
        symTab.ht.p_KVArray[i]? = some (some kv) → symTab.ht.p_KVArray[j]? = some (some kv') →
        kv.key = kv'.key → i = j)) ∧
    (∀ (source : Str) (pre mid post : List Str) (l1 l2 L : Str),
      readLines source = pre ++ l1 :: (mid ++ l2 :: post) →
      lineLabel fuel opTab l1 = some L → lineLabel fuel opTab l2 = some L →
      (∀ symTab, buildSymbolTable fuel source directiveTable opTab ≠ ok symTab) ∧
      (∀ st, firstPassLoop fuel directiveTable opTab (pre ++ l1 :: mid) pass1_init = ok st →
        (∀ st', firstPassLine fuel directiveTable opTab st l2 ≠ ok st') ∧
        ∃ f0, ∀ g, f0 ≤ g →
          firstPassLine g directiveTable opTab st l2 = error pass_error.duplicateSymbol)) := by
  have hinit : ∀ k, ¬ ∃ v, Bound pass1_init.symTab.ht k v := by
    rintro k ⟨v, hv⟩
    exact not_Bound_createHashTable 0 k v hv
  constructor
  · intro source symTab h
    obtain ⟨stF, hloop, hstF, hinvF, _, _⟩ :=
      buildSymbolTable_Inv1 fuel source directiveTable opTab symTab h
    subst hstF
    obtain ⟨hkeys, hnd, _⟩ := firstPassLoop_labels fuel opTab (readLines source) pass1_init stF
      Inv1_init (fun l hl => readLines_length source l hl) hloop
    refine ⟨?_, hnd, ?_⟩
    · intro k
      have hk : (∃ v, Bound stF.symTab.ht k v) ↔
          k ∈ sourceLabels fuel opTab (readLines source) := by
        rw [hkeys k]
        exact or_iff_right (hinit k)
      rw [← hk]
      constructor
      · rintro ⟨g, v, hg⟩
        exact ⟨v, Bound_of_getKVPair g _ k v hg⟩
      · rintro ⟨v, hv⟩
        obtain ⟨g, hg⟩ := getKVPair_of_Bound _ hinvF.1 k v hv
        exact ⟨g, v, hg⟩
    · intro i j kv kv' hi hj hkey
      exact WF_slot_unique _ hinvF.1 i j kv kv' hi hj hkey
  · intro source pre mid post l1 l2 L hsplit h1 h2
    constructor
    · intro symTab h
      obtain ⟨stF, hloop, _, _, _, _⟩ :=
        buildSymbolTable_Inv1 fuel source directiveTable opTab symTab h
      obtain ⟨_, hnd, _⟩ := firstPassLoop_labels fuel opTab (readLines source) pass1_init stF
        Inv1_init (fun l hl => readLines_length source l hl) hloop
      rw [hsplit] at hnd
      exact sourceLabels_twice fuel opTab pre mid post l1 l2 L h1 h2 hnd
    · intro st hloop
      have hlen : ∀ l ∈ pre ++ l1 :: mid, l.length ≤ 1023 := by
        intro l hl
        apply readLines_length source l
        rw [hsplit]
        simp only [List.mem_append, List.mem_cons] at hl ⊢
        rcases hl with hl | rfl | hl
        · exact Or.inl hl
        · exact Or.inr (Or.inl rfl)
        · exact Or.inr (Or.inr (Or.inl hl))
      have hinv := firstPassLoop_Inv1 fuel directiveTable opTab _ _ _ Inv1_init hlen hloop
      obtain ⟨hkeys, _, _⟩ := firstPassLoop_labels fuel opTab _ pass1_init st Inv1_init hlen hloop
      have hbound : ∃ v, Bound st.symTab.ht L v := by
        rw [hkeys L]
        right
        unfold sourceLabels
        simp only [List.filterMap_append, List.filterMap_cons, h1, List.mem_append,
          List.mem_cons, true_or, or_true]
      exact firstPassLine_duplicate fuel opTab st l2 L hinv.1 hbound h2

set_option maxRecDepth 100000 in
/-- Claim C30 at the sample program, whose labels are COPY, FIRST and BUFFER,
and at `duplicateLabelSource`, whose third line repeats the label of the
second and is refused as a duplicate symbol. -/
theorem labels_bound_once_witness :
    buildSymbolTable 8 sampleSource directiveTable sampleOpTab = ok sampleSymTab ∧
    sourceLabels 8 sampleOpTab (readLines sampleSource)
      = ["COPY".toList, "FIRST".toList, "BUFFER".toList] ∧
    (∀ k, (∃ g v, getKVPair g sampleSymTab.ht (some k) = some (some v)) ↔
      k ∈ sourceLabels 8 sampleOpTab (readLines sampleSource)) ∧
    readLines duplicateLabelSource
      = ["P START 1000\n".toList] ++ "L WORD 1\n".toList :: ([] ++ "L WORD 2\n".toList ::
          [" END\n".toList]) ∧
    (∀ symTab, buildSymbolTable 8 duplicateLabelSource directiveTable sampleOpTab ≠ ok symTab) ∧
    firstPassLine 8 directiveTable sampleOpTab (stateAfter "P START 1000\nL WORD 1\n".toList)
        "L WORD 2\n".toList
      = error pass_error.duplicateSymbol :=
  ⟨by decide, by decide,
    ((labels_bound_once 8 sampleOpTab).1 sampleSource sampleSymTab (by decide)).1,
    by decide,
    ((labels_bound_once 8 sampleOpTab).2 duplicateLabelSource ["P START 1000\n".toList] []
      [" END\n".toList] "L WORD 1\n".toList "L WORD 2\n".toList "L".toList (by decide)
      (by decide) (by decide)).1,
    by decide⟩

/-- Claim C31. For every source without END line (no line of it is
classified as a directive line with the END handler), `buildSymbolTable` does not
return a symbol table; when the line loop accepts every line, the function
returns NULL with DCS_END_NOT_DEFINED, by the test behind the loop. -/
theorem end_not_defined (fuel : Nat) (opTab : hash_table sic_optable_values) (source : Str)
    (hno : endOperand fuel opTab (readLines source) = none) :
    (∀ symTab, buildSymbolTable fuel source directiveTable opTab ≠ ok symTab) ∧
    (∀ st, firstPassLoop fuel directiveTable opTab (readLines source) pass1_init = ok st →
      buildSymbolTable fuel source directiveTable opTab
        = error (pass_error.directive DCS_END_NOT_DEFINED)) := by
  have key : ∀ st, firstPassLoop fuel directiveTable opTab (readLines source) pass1_init = ok st →
      buildSymbolTable fuel source directiveTable opTab
        = error (pass_error.directive DCS_END_NOT_DEFINED) := by
    intro st hst
    have he := firstPassLoop_no_end fuel opTab (readLines source) pass1_init st Inv1_init
      (fun l hl => readLines_length source l hl) hno hst
    unfold buildSymbolTable
    rw [hst]
    simp only
    rw [if_pos (by rw [he]; rfl)]
  refine ⟨fun symTab hok => ?_, key⟩
  cases hl : firstPassLoop fuel directiveTable opTab (readLines source) pass1_init with
  | ok st => rw [key st hl] at hok; simp at hok
  | error e => unfold buildSymbolTable at hok; rw [hl] at hok; simp at hok
  | undefined => unfold buildSymbolTable at hok; rw [hl] at hok; simp at hok

set_option maxRecDepth 100000 in
/-- Claim C31 at a program of two valid lines, START and WORD. -/
theorem end_not_defined_witness :
    endOperand 8 sampleOpTab (readLines noEndSource) = none ∧
    (∃ st, firstPassLoop 8 directiveTable sampleOpTab (readLines noEndSource) pass1_init = ok st) ∧
    buildSymbolTable 8 noEndSource directiveTable sampleOpTab
      = error (pass_error.directive DCS_END_NOT_DEFINED) :=
  ⟨by decide, ⟨stateAfter noEndSource, by decide⟩,
    (end_not_defined 8 sampleOpTab noEndSource (by decide)).2 (stateAfter noEndSource)
      (by decide)⟩

set_option maxRecDepth 100000 in
/-- Claim C32 fails in the code on the directive name EXPORTS. The lookahead asks
the directive table, whose eighth key is spelt EXORTS. Met after START, the
line `LDA EXPORTS` is accepted and advances the location counter by 3, whereas
`LDA EXORTS` and `LDA LDA BUFFER` stop pass one with OPS_SYM_MATCHES_INSTRUCTION;
the line `EXPORTS LDA BUFFER` stops pass one with SYM_EXCEEDED_MAX_LEN, and the
line `WORD EXPORTS 5` with DCS_BAD_OPERAND_FORMAT, whereas `WORD EXORTS 5`
stops it with DCS_SYM_MATCHES_DIRECTIVE. -/
theorem exports_not_reserved :
    isReservedWord 8 directiveTable sampleOpTab "EXPORTS".toList = some false ∧
    firstPassLine 8 directiveTable sampleOpTab
        { symTab := startedSymTab, startSeen := true } "LDA EXPORTS\n".toList
      = ok { symTab := { startedSymTab with locCounter := startedSymTab.locCounter + 3 },
             startSeen := true } ∧
    firstPassLine 8 directiveTable sampleOpTab
        { symTab := startedSymTab, startSeen := true } "LDA EXORTS\n".toList
      = error (pass_error.opcode opcode_status.OPS_SYM_MATCHES_INSTRUCTION) ∧
    firstPassLine 8 directiveTable sampleOpTab
        { symTab := startedSymTab, startSeen := true } "LDA LDA BUFFER\n".toList
      = error (pass_error.opcode opcode_status.OPS_SYM_MATCHES_INSTRUCTION) ∧
    firstPassLine 8 directiveTable sampleOpTab
        { symTab := startedSymTab, startSeen := true } "EXPORTS LDA BUFFER\n".toList
      = error (pass_error.symbol sic_symbol_status.SYM_EXCEEDED_MAX_LEN) ∧
    firstPassLine 8 directiveTable sampleOpTab
        { symTab := startedSymTab, startSeen := true } "WORD EXPORTS 5\n".toList
      = error (pass_error.directive DCS_BAD_OPERAND_FORMAT) ∧
    firstPassLine 8 directiveTable sampleOpTab
        { symTab := startedSymTab, startSeen := true } "WORD EXORTS 5\n".toList
      = error (pass_error.directive DCS_SYM_MATCHES_DIRECTIVE) := by
  decide

/-- The lookahead on the names that the tables hold. Take a line whose second
token is a key of the directive table or a mnemonic of the opcode table. If its
first token is a mnemonic without XE-only or floating-point flag, not itself
a key of the directive table, and the line is met after START and before END, pass one
stops at the line with OPS_SYM_MATCHES_INSTRUCTION; `LDA LDA BUFFER` is such
a line. If its first token is a key of the directive table, pass one stops at the line
with DCS_SYM_MATCHES_DIRECTIVE, in every state. Both hold for every fuel
that covers the table lookups. -/
theorem lookahead_rejects_reserved (opTab : hash_table sic_optable_values) (hwf : WF opTab)
    (st : pass1_state) (line t1 t2 : Str)
    (h1 : (strtok line SIC_TOKEN_DELIMITERS).1 = some t1)
    (h2 : (strtok (strtok line SIC_TOKEN_DELIMITERS).2 SIC_TOKEN_DELIMITERS).1 = some t2)
    (hres : (∃ cb, (t2, cb) ∈ directiveEntries) ∨ ∃ op, Bound opTab t2 op) :
    (∀ opcode, Bound opTab t1 opcode → (∀ cb, (t1, cb) ∉ directiveEntries) →
      checkComment t1 = false →
      opcode.flags &&& OP_FLAG_XE_ONLY = 0 → opcode.flags &&& OP_FLAG_FLOAT_POINT = 0 →
      st.symTab.startAddress ≠ SIC_NOT_SET_SENTINEL →
      st.symTab.endAddress = SIC_NOT_SET_SENTINEL →
      ∃ f0, ∀ fuel, f0 ≤ fuel →
        firstPassLine fuel directiveTable opTab st line
          = error (pass_error.opcode opcode_status.OPS_SYM_MATCHES_INSTRUCTION)) ∧
    (∀ cb, (t1, cb) ∈ directiveEntries →
      ∃ f0, ∀ fuel, f0 ≤ fuel →
        firstPassLine fuel directiveTable opTab st line
          = error (pass_error.directive DCS_SYM_MATCHES_DIRECTIVE)) := by
  have hreserved : ∃ f0, ∀ fuel, f0 ≤ fuel →
      isReservedWord fuel directiveTable opTab t2 = some true := by
    rcases hres with ⟨cb, hcb⟩ | ⟨op, hop⟩
    · exact ⟨4, fun fuel hf => isReservedWord_directive fuel hf opTab t2 cb hcb⟩
    · exact isReservedWord_opcode opTab hwf t2 op hop
  obtain ⟨f2, hf2⟩ := hreserved
  constructor
  · intro opcode hb hnd hc hxe hfp hstart hend
    obtain ⟨f1, hf1⟩ := getKVPair_of_Bound opTab hwf t1 opcode hb
    refine ⟨max 4 (max f1 f2), fun fuel hfuel => ?_⟩
    have ho : getKVPair fuel opTab (some t1) = some (some opcode) := by
      obtain ⟨d, rfl⟩ : ∃ d, fuel = f1 + d := ⟨fuel - f1, by omega⟩
      exact getKVPair_mono f1 d opTab (some t1) (some opcode) hf1
    exact firstPassLine_instruction_lookahead fuel directiveTable opTab st line t1 t2 opcode h1 hc
      (getKVPair_directiveTable_absent t1 fuel (by omega) hnd) ho hstart hend hxe hfp h2
      (hf2 fuel (by omega))
  · intro cb hcb
    refine ⟨max 4 f2, fun fuel hfuel => ?_⟩
    exact firstPassLine_directive_lookahead fuel directiveTable opTab st line t1 t2 cb h1
      (checkComment_directive t1 cb hcb) (getKVPair_directive fuel (by omega) t1 cb hcb) h2
      (hf2 fuel (by omega))

set_option maxRecDepth 100000 in
/-- The lookahead at the line `LDA LDA BUFFER`, met after START. -/
theorem lookahead_rejects_reserved_witness :
    (strtok "LDA LDA BUFFER\n".toList SIC_TOKEN_DELIMITERS).1 = some "LDA".toList ∧
    (∃ f0, ∀ fuel, f0 ≤ fuel →
      firstPassLine fuel directiveTable sampleOpTab
          { symTab := startedSymTab, startSeen := true } "LDA LDA BUFFER\n".toList
        = error (pass_error.opcode opcode_status.OPS_SYM_MATCHES_INSTRUCTION)) ∧
    firstPassLine 8 directiveTable sampleOpTab
        { symTab := startedSymTab, startSeen := true } "LDA LDA BUFFER\n".toList
      = error (pass_error.opcode opcode_status.OPS_SYM_MATCHES_INSTRUCTION) ∧
    firstPassLine 8 directiveTable sampleOpTab pass1_init "WORD START 5\n".toList
      = error (pass_error.directive DCS_SYM_MATCHES_DIRECTIVE) :=
  ⟨by decide,
    (lookahead_rejects_reserved sampleOpTab WF_sampleOpTab
      { symTab := startedSymTab, startSeen := true } "LDA LDA BUFFER\n".toList "LDA".toList
      "LDA".toList (by decide) (by decide)
      (Or.inr ⟨{ numOperands := 1, instructionFormat := 3, opcode := 0x00, flags := 0 },
        Bound_of_getKVPair 8 sampleOpTab "LDA".toList _ (by decide)⟩)).1
      { numOperands := 1, instructionFormat := 3, opcode := 0x00, flags := 0 }
      (Bound_of_getKVPair 8 sampleOpTab "LDA".toList _ (by decide))
      (fun cb h => by simp [directiveEntries] at h) (by decide) (by decide) (by decide)
      (by decide) (by decide),
    by decide, by decide⟩

set_option maxRecDepth 100000 in
/-- Claim C33 fails in the code. The counting loop of `firstPassInstructionHelper` counts the
token behind the mnemonic before it looks for a comment: after START and
before END, the line ` RSUB` is accepted and advances the location counter
by 3, while ` RSUB #done` and `L RSUB #done`, with no token between the
mnemonic and the comment, are counted as one operand and rejected with
OPS_WRONG_NUM_OF_OPERANDS (RSUB takes none). A comment behind an operand,
as in ` LDA FIRST #done`, does end the count. -/
theorem comment_after_mnemonic_counted :
    firstPassLine 8 directiveTable sampleOpTab { symTab := startedSymTab, startSeen := true }
        " RSUB\n".toList
      = ok { symTab := { startedSymTab with locCounter := startedSymTab.locCounter + 3 },
             startSeen := true } ∧
    countOperands 7 (some "#done".toList) [] 0 = 1 ∧
    firstPassLine 8 directiveTable sampleOpTab { symTab := startedSymTab, startSeen := true }
        " RSUB #done\n".toList
      = error (pass_error.opcode opcode_status.OPS_WRONG_NUM_OF_OPERANDS) ∧
    firstPassLine 8 directiveTable sampleOpTab { symTab := startedSymTab, startSeen := true }
        "L RSUB #done\n".toList
      = error (pass_error.opcode opcode_status.OPS_WRONG_NUM_OF_OPERANDS) ∧
    firstPassLine 8 directiveTable sampleOpTab { symTab := startedSymTab, startSeen := true }
        " LDA FIRST #done\n".toList
      = ok { symTab := { startedSymTab with locCounter := startedSymTab.locCounter + 3 },
             startSeen := true } ∧
    buildSymbolTable 8 commentAfterMnemonicSource directiveTable sampleOpTab
      = error (pass_error.opcode opcode_status.OPS_WRONG_NUM_OF_OPERANDS) := by
  decide

/-- Claim C34. With START defined and END not seen, `firstPassInstructionHelper` returns
NULL with OPS_X_EDITION_NOT_SUPPORTED for every opcode entry whose flags
contain XE-only or floating-point, whatever follows the mnemonic and whether
the line is labelled or not, and it leaves the symbol table, so the location
counter, as it was. So the entry of an instruction pass one accepts has
neither flag, pass one advances by 3 on it, and pass two, when it emits the
instruction, appends one text record of byte count 03 and advances its
emitter counter by 3. -/
theorem xe_instruction_rejected (fuel : Nat) (symTab : symbol_table)
    (directiveTable : hash_table directive_callback) (opTab : hash_table sic_optable_values)
    (opcode : sic_optable_values) (save : Str) (symbolSeen : Bool)
    (hstart : symTab.startAddress ≠ SIC_NOT_SET_SENTINEL)
    (hend : symTab.endAddress = SIC_NOT_SET_SENTINEL)
    (hloc : symTab.locCounter ≤ SIC_MEMORY_LIMIT) :
    ((opcode.flags &&& OP_FLAG_XE_ONLY ≠ 0 ∨ opcode.flags &&& OP_FLAG_FLOAT_POINT ≠ 0) →
      firstPassInstructionHelper fuel symTab directiveTable opTab opcode save symbolSeen
        = error (pass_error.opcode opcode_status.OPS_X_EDITION_NOT_SUPPORTED) ∧
      firstPassInstructionHelper_effect fuel symTab directiveTable opTab opcode save symbolSeen
        = some symTab) ∧
    (∀ symTab', firstPassInstructionHelper fuel symTab directiveTable opTab opcode save symbolSeen
        = ok symTab' →
      opcode.flags &&& OP_FLAG_XE_ONLY = 0 ∧ opcode.flags &&& OP_FLAG_FLOAT_POINT = 0 ∧
      symTab'.locCounter = symTab.locCounter + 3) ∧
    (∀ (symTab2 : symbol_table) (record : sic_scoff_records) (lc : Nat) (save2 : Str)
      (st' : pass2_state),
      secondPassInstructionHelper fuel symTab2 opcode record lc save2 = ok st' →
      st'.locCounter = (lc + 3) % UINT32_MOD ∧
      ∃ payload, st'.records.texts.nodes = record.texts.nodes ++
        [{ magicChar := 'T', startAddr := printfHex 6 lc, lengthOfObj := "03".toList,
           objectCode := payload }]) := by
  have hsent : ¬ (SIC_NOT_SET_SENTINEL = SIC_SEEN_SENTINEL) := by decide
  refine ⟨fun hflag => ⟨?_, ?_⟩, fun symTab' hok => ?_, fun symTab2 record lc save2 st' h2 => ?_⟩
  · unfold firstPassInstructionHelper
    simp only [hstart, hend, hsent, if_false, ne_eq, not_true_eq_false, or_self]
    rw [if_pos ⟨by decide, hflag⟩]
  · unfold firstPassInstructionHelper_effect
    simp only [hstart, hend, hsent, if_false, ne_eq, not_true_eq_false, or_self]
    rw [if_pos ⟨by decide, hflag⟩]
  · have hflags : opcode.flags &&& OP_FLAG_XE_ONLY = 0 ∧ opcode.flags &&& OP_FLAG_FLOAT_POINT = 0 := by
      by_contra hcon
      have hflag : opcode.flags &&& OP_FLAG_XE_ONLY ≠ 0 ∨ opcode.flags &&& OP_FLAG_FLOAT_POINT ≠ 0 := by
        by_cases hx : opcode.flags &&& OP_FLAG_XE_ONLY = 0
        · exact Or.inr (fun hf => hcon ⟨hx, hf⟩)
        · exact Or.inl hx
      unfold firstPassInstructionHelper at hok
      simp only [hstart, hend, hsent, if_false, ne_eq, not_true_eq_false, or_self] at hok
      rw [if_pos ⟨by decide, hflag⟩] at hok
      simp at hok
    obtain ⟨_, _, _, hst⟩ := firstPassInstructionHelper_ok fuel symTab symTab' directiveTable opTab
      opcode save symbolSeen hok
    refine ⟨hflags.1, hflags.2, ?_⟩
    rw [hst]
    simp only [SIC_WORD_BYTES, UINT32_MOD]
    simp only [SIC_MEMORY_LIMIT] at hloc
    omega
  · obtain ⟨_, hlc, _, _, htexts, _⟩ :=
      secondPassInstructionHelper_ok fuel symTab2 opcode record lc save2 st' h2
    exact ⟨hlc, htexts⟩

/-- Claim C34 at an entry with the flags X and F, after START. -/
theorem xe_instruction_rejected_witness :
    startedSymTab.startAddress ≠ SIC_NOT_SET_SENTINEL ∧
    firstPassInstructionHelper 8 startedSymTab directiveTable sampleOpTab
        { numOperands := 1, instructionFormat := 3, opcode := 0x58, flags := 6 }
        "BUFFER\n".toList false
      = error (pass_error.opcode opcode_status.OPS_X_EDITION_NOT_SUPPORTED) ∧
    firstPassInstructionHelper_effect 8 startedSymTab directiveTable sampleOpTab
        { numOperands := 1, instructionFormat := 3, opcode := 0x58, flags := 6 }
        "BUFFER\n".toList false
      = some startedSymTab :=
  ⟨by decide,
    (xe_instruction_rejected 8 startedSymTab directiveTable sampleOpTab
      { numOperands := 1, instructionFormat := 3, opcode := 0x58, flags := 6 }
      "BUFFER\n".toList false (by decide) (by decide) (by decide)).1 (by decide)⟩

/-- Claim C35. Take a descriptor line `M n f hh flags...` with single
spaces between the fields and a line feed at the end: a mnemonic `M` of at
most 6 characters, a digit `n`, a format `f` that is a digit or `3/4`, a
hexadecimal byte `hh`, and flag tokens. The line loop of `buildOpcodeTable` parses from
it the mnemonic `M` and the entry with operand count `n`, format `f` (3 for
`3/4`), opcode byte the value of `hh`, and as flags the union of the flags
of the flag tokens (P privileged, X XE-only, F floating-point, C
sets-condition-code). From a descriptor that consists of this line, if the
line fits the line buffer, `buildOpcodeTable` returns a table in which `M` is found with
this entry. The entry is the same for every permutation of the flag
tokens. -/
theorem descriptor_line_entry (M : Str) (n : Char) (f hh : Str) (flags : List Str)
    (hM : isField M) (hlen : M.length ≤ 6) (hn : isdigit n = true)
    (hf : f = "3/4".toList ∨ ∃ d, f = [d] ∧ isdigit d = true)
    (hh1 : hh ≠ []) (hhx : hh.all isxdigit = true) (hhv : hexValue hh < 256)
    (hflags : ∀ t ∈ flags, isField t) :
    opcodeLine (descriptorLine M n f hh flags) = ok (M, descriptorEntry n f hh flags) ∧
    (∀ fuel, 0 < fuel → (descriptorLine M n f hh flags).length < 1024 →
      opcodeEntry fuel (descriptorLine M n f hh flags) M
        = some (descriptorEntry n f hh flags)) ∧
    (descriptorEntry n f hh flags).numOperands.val = n.toNat - 48 ∧
    (descriptorEntry n f hh flags).instructionFormat.val
      = (if f = "3/4".toList then 3 else (f.headD '0').toNat - 48) ∧
    (descriptorEntry n f hh flags).opcode.val = hexValue hh ∧
    (descriptorEntry n f hh flags).flags = flagSet flags ∧
    (∀ flags', flags'.Perm flags →
      opcodeLine (descriptorLine M n f hh flags') = ok (M, descriptorEntry n f hh flags) ∧
      (∀ fuel, 0 < fuel → (descriptorLine M n f hh flags').length < 1024 →
        opcodeEntry fuel (descriptorLine M n f hh flags') M
          = some (descriptorEntry n f hh flags))) := by
  have hdig : ∀ d : Char, isdigit d = true → (digitByte d).val = d.toNat - 48 := by
    intro d hd
    have hb : 48 ≤ d.toNat ∧ d.toNat ≤ 57 := by simpa [isdigit] using hd
    show (Fin.ofNat (d.toNat - 48) : Fin 256).val = d.toNat - 48
    simp only [Fin.ofNat, Nat.mod_eq_of_lt (show d.toNat - 48 < 255 + 1 by omega)]
  refine ⟨opcodeLine_descriptor M n f hh flags hM hlen hn hf hh1 hhx hhv hflags,
    fun fuel hfuel hfit => opcodeEntry_descriptor fuel hfuel M n f hh flags hM hlen hn hf hh1 hhx
      hhv hflags hfit, hdig n hn, ?_, ?_, rfl, ?_⟩
  · show (formatByte f).val = _
    unfold formatByte
    rcases hf with rfl | ⟨d, rfl, hd⟩
    · rfl
    · rw [if_neg (by simp), if_neg (by simp)]
      exact hdig d hd
  · show (Fin.ofNat (hexValue hh) : Fin 256).val = hexValue hh
    simp only [Fin.ofNat, Nat.mod_eq_of_lt (show hexValue hh < 255 + 1 by omega)]
  · intro flags' hperm
    have hflags' : ∀ t ∈ flags', isField t := fun t ht => hflags t (hperm.subset ht)
    have hentry : descriptorEntry n f hh flags' = descriptorEntry n f hh flags := by
      unfold descriptorEntry
      rw [flagSet_perm flags' flags hperm]
    refine ⟨?_, fun fuel hfuel hfit => ?_⟩
    · rw [← hentry]
      exact opcodeLine_descriptor M n f hh flags' hM hlen hn hf hh1 hhx hhv hflags'
    · rw [← hentry]
      exact opcodeEntry_descriptor fuel hfuel M n f hh flags' hM hlen hn hf hh1 hhx hhv hflags'
        hfit

set_option maxRecDepth 100000 in
/-- Claim C35 at the line `TIO 0 1 F8 P X C` and at its flag tokens in the
order `C P X`. -/
theorem descriptor_line_entry_witness :
    descriptorLine "TIO".toList '0' "1".toList "F8".toList ["P".toList, "X".toList, "C".toList]
      = "TIO 0 1 F8 P X C\n".toList ∧
    descriptorLine "TIO".toList '0' "1".toList "F8".toList ["C".toList, "P".toList, "X".toList]
      = "TIO 0 1 F8 C P X\n".toList ∧
    descriptorEntry '0' "1".toList "F8".toList ["P".toList, "X".toList, "C".toList]
      = { numOperands := 0, instructionFormat := 1, opcode := 0xF8, flags := 11 } ∧
    opcodeLine (descriptorLine "TIO".toList '0' "1".toList "F8".toList
        ["P".toList, "X".toList, "C".toList])
      = ok ("TIO".toList,
          descriptorEntry '0' "1".toList "F8".toList ["P".toList, "X".toList, "C".toList]) ∧
    opcodeLine (descriptorLine "TIO".toList '0' "1".toList "F8".toList
        ["C".toList, "P".toList, "X".toList])
      = ok ("TIO".toList,
          descriptorEntry '0' "1".toList "F8".toList ["P".toList, "X".toList, "C".toList]) :=
  ⟨by decide, by decide, by decide,
    (descriptor_line_entry "TIO".toList '0' "1".toList "F8".toList
      ["P".toList, "X".toList, "C".toList] ⟨by decide, by decide⟩ (by decide) (by decide)
      (Or.inr ⟨'1', rfl, by decide⟩) (by decide) (by decide) (by decide)
      (by decide)).1,
    ((descriptor_line_entry "TIO".toList '0' "1".toList "F8".toList
      ["P".toList, "X".toList, "C".toList] ⟨by decide, by decide⟩ (by decide) (by decide)
      (Or.inr ⟨'1', rfl, by decide⟩) (by decide) (by decide) (by decide)
      (by decide)).2.2.2.2.2.2 ["C".toList, "P".toList, "X".toList] (by decide)).1⟩

set_option maxRecDepth 100000 in
/-- Claim C36 fails in the code. `buildOpcodeTable` stores the operand-count and format
fields as the first character minus `'0'`, without any check: from the
descriptor line `FOO 7 9 18` it succeeds with an entry of operand count 7
and format 9, and from `FOO x 3 18` with an entry of operand count 72. -/
theorem descriptor_fields_unchecked :
    opcodeLine "FOO 7 9 18\n".toList
      = ok ("FOO".toList,
          { numOperands := 7, instructionFormat := 9, opcode := 0x18, flags := 0 }) ∧
    opcodeEntry 8 "FOO 7 9 18\n".toList "FOO".toList
      = some { numOperands := 7, instructionFormat := 9, opcode := 0x18, flags := 0 } ∧
    opcodeEntry 8 "LDA 1 3/4 00\nFOO x 3 18\n".toList "FOO".toList
      = some { numOperands := 72, instructionFormat := 3, opcode := 0x18, flags := 0 } := by
  decide

set_option maxRecDepth 100000 in
/-- Claim C37 as stated fails at both ends of a program. In the sample
program both passes succeed; on its first line, the START line, pass one
starts with location counter 0 and pass two with the emitter counter at the
start address 0x1000. In `afterEndSource`, which both passes accept, pass
two counts 3 bytes for the END line: it meets the lines with the emitter
counter at 0x1000, 0x1000, 0x1003 and 0x1006, the label L of the last line
is bound to 0x1003, and the text record of that line starts at 0x1006. -/
theorem emitter_counter_differs :
    assemble 8 sampleSource directiveTable sampleOpTab = ok (sampleRecords, sampleSymTab2) ∧
    buildSymbolTable 8 sampleSource directiveTable sampleOpTab = ok sampleSymTab ∧
    pass1_init.symTab.locCounter = 0 ∧ (pass2_init sampleSymTab).locCounter = 0x1000 ∧
    (symTabOf (buildSymbolTable 8 afterEndSource directiveTable sampleOpTab)).map
        (fun F => (secondPassTrace 8 directiveTable sampleOpTab (readLines afterEndSource)
          (pass2_init F)).map (fun s => s.locCounter))
      = some [0x1000, 0x1000, 0x1003, 0x1006] ∧
    (stateAfter "P START 1000\nF LDA F\n END F\n".toList).symTab.locCounter = 0x1003 ∧
    symbolAddress 8 (buildSymbolTable 8 afterEndSource directiveTable sampleOpTab) "L".toList
      = some 0x1003 ∧
    (recordsOf (assemble 8 afterEndSource directiveTable sampleOpTab)).map
        (fun r => r.texts.nodes.map (fun t => t.startAddr))
      = some ["001000".toList, "001006".toList] := by
  decide

/-- Claim C37, amended. Let both passes accept a source, and take a line
of it with no END line before it. Both passes reach the line. If START has
been defined by then, the emitter location counter of pass two equals the
location counter of pass one at the start of the line; before that it is
the start address. If the line is a labelled WORD, BYTE or instruction line,
its label is bound in the symbol table to the location counter pass one met
the line with, every lookup that finds the label returns this address, and
the first text record pass two appends for the line has it as start
address. -/
theorem emitter_counter_agrees (fuel : Nat) (source : Str)
    (opTab : hash_table sic_optable_values) (symTab symTab2 : symbol_table)
    (records : sic_scoff_records) (pre post : List Str) (line : Str)
    (h1 : buildSymbolTable fuel source directiveTable opTab = ok symTab)
    (h2 : generateSCOFFRecords fuel source directiveTable opTab symTab = ok (records, symTab2))
    (hsplit : readLines source = pre ++ line :: post)
    (hend : endOperand fuel opTab pre = none) :
    ∃ s1 s2,
      firstPassLoop fuel directiveTable opTab pre pass1_init = ok s1 ∧
      secondPassLoop fuel directiveTable opTab pre (pass2_init symTab) = ok s2 ∧
      (s1.symTab.startAddress ≠ SIC_NOT_SET_SENTINEL → s2.locCounter = s1.symTab.locCounter) ∧
      (s1.symTab.startAddress = SIC_NOT_SET_SENTINEL → s2.locCounter = symTab.startAddress) ∧
      (∀ kind L, classifyLine fuel directiveTable opTab line = some kind →
        kindLabel kind = some L → emitsText kind = true →
        (∃ g, getKVPair g symTab.ht (some L) = some (some s1.symTab.locCounter)) ∧
        (∀ g v, getKVPair g symTab.ht (some L) = some (some v) → v = s1.symTab.locCounter) ∧
        (∀ t, (lineTexts fuel opTab s2 line).head? = some t →
          t.startAddr = printfHex 6 s1.symTab.locCounter)) := by
  obtain ⟨stF, hloop, hstF, hinvF, _, hsF⟩ :=
    buildSymbolTable_Inv1 fuel source directiveTable opTab symTab h1
  subst hstF
  have hlen : ∀ l ∈ pre ++ line :: post, l.length ≤ 1023 := by
    intro l hl
    rw [← hsplit] at hl
    exact readLines_length source l hl
  unfold generateSCOFFRecords at h2
  rw [hsplit] at hloop h2
  cases hl2 : secondPassLoop fuel directiveTable opTab (pre ++ line :: post)
      (pass2_init stF.symTab) with
  | error e => rw [hl2] at h2; simp at h2
  | undefined => rw [hl2] at h2; simp at h2
  | ok st2f =>
    obtain ⟨q1, _, _, _, _, _⟩ := Inv1_started stF hinvF hsF
    have hrel : Rel stF.symTab pass1_init (pass2_init stF.symTab) :=
      ⟨rfl, rfl, rfl, q1, fun _ => rfl, fun h => absurd rfl h⟩
    obtain ⟨s1, s2, s1', s2', kind, e1, e2, hinv1, hrel1, hk, hstep1, hstep2, hline2, hpost,
      hinv1'⟩ := passes_at fuel opTab stF pre line post pass1_init (pass2_init stF.symTab) st2f
        hlen Inv1_init hrel hloop hl2
    have hendS : s1.symTab.endAddress = SIC_NOT_SET_SENTINEL :=
      firstPassLoop_no_end fuel opTab pre pass1_init s1 Inv1_init
        (fun l hl => hlen l (List.mem_append_left _ hl)) hend e1
    obtain ⟨_, _, _, _, r5, r6⟩ := hrel1
    have hcount : s1.symTab.startAddress ≠ SIC_NOT_SET_SENTINEL →
        s2.locCounter = s1.symTab.locCounter := by
      intro hs
      rw [(r6 hs).2, if_pos hendS, Nat.add_zero]
    refine ⟨s1, s2, e1, e2, hcount, r5, ?_⟩
    intro kind' L hk' hL ht
    rw [hk] at hk'
    simp only [Option.some.injEq] at hk'
    subst hk'
    obtain ⟨hs, hb⟩ := Pass1Step_binding fuel s1 s1' kind L hinv1 hstep1 hL ht
    have hbF : Bound stF.symTab.ht L s1.symTab.locCounter :=
      firstPassLoop_Bound fuel opTab post s1' stF hinv1'
        (fun l hl => hlen l (List.mem_append_right _ (List.mem_cons_of_mem _ hl))) hpost L _ hb
    obtain ⟨g0, hg0⟩ := getKVPair_of_Bound stF.symTab.ht hinvF.1 L _ hbF
    refine ⟨⟨g0, hg0⟩, fun g v hg => getKVPair_det g g0 _ hinvF.1 L v _ hg hg0, ?_⟩
    intro t hhead
    unfold lineTexts at hhead
    rw [hline2] at hhead
    simp only at hhead
    rw [Pass2Step_head s2 s2' kind hstep2 ht t hhead, hcount hs]

set_option maxRecDepth 100000 in
/-- Claim C37, amended, at the line `BUFFER WORD 5` of the sample program. -/
theorem emitter_counter_agrees_witness :
    buildSymbolTable 8 sampleSource directiveTable sampleOpTab = ok sampleSymTab ∧
    readLines sampleSource
      = ["COPY START 1000\n".toList, "FIRST LDA BUFFER\n".toList, " LDX BUFFER,X\n".toList,
          " RSUB\n".toList] ++ "BUFFER WORD 5\n".toList :: [" END FIRST\n".toList] ∧
    ∃ s1 s2,
      firstPassLoop 8 directiveTable sampleOpTab
        ["COPY START 1000\n".toList, "FIRST LDA BUFFER\n".toList, " LDX BUFFER,X\n".toList,
          " RSUB\n".toList] pass1_init = ok s1 ∧
      secondPassLoop 8 directiveTable sampleOpTab
        ["COPY START 1000\n".toList, "FIRST LDA BUFFER\n".toList, " LDX BUFFER,X\n".toList,
          " RSUB\n".toList] (pass2_init sampleSymTab) = ok s2 ∧
      (s1.symTab.startAddress ≠ SIC_NOT_SET_SENTINEL → s2.locCounter = s1.symTab.locCounter) ∧
      (s1.symTab.startAddress = SIC_NOT_SET_SENTINEL →
        s2.locCounter = sampleSymTab.startAddress) ∧
      (∀ kind L, classifyLine 8 directiveTable sampleOpTab "BUFFER WORD 5\n".toList = some kind →
        kindLabel kind = some L → emitsText kind = true →
        (∃ g, getKVPair g sampleSymTab.ht (some L) = some (some s1.symTab.locCounter)) ∧
        (∀ g v, getKVPair g sampleSymTab.ht (some L) = some (some v) →
          v = s1.symTab.locCounter) ∧
        (∀ t, (lineTexts 8 sampleOpTab s2 "BUFFER WORD 5\n".toList).head? = some t →
          t.startAddr = printfHex 6 s1.symTab.locCounter)) :=
  ⟨by decide, by decide,
    emitter_counter_agrees 8 sampleSource sampleOpTab sampleSymTab sampleSymTab2 sampleRecords
      ["COPY START 1000\n".toList, "FIRST LDA BUFFER\n".toList, " LDX BUFFER,X\n".toList,
        " RSUB\n".toList] [" END FIRST\n".toList] "BUFFER WORD 5\n".toList
      (by decide) (by decide) (by decide) (by decide)⟩

set_option maxRecDepth 1000000 in
/-- Claim C38 as stated fails for a comment line that is longer than the
line buffer: `fgets` delivers it in two pieces, and the second piece is read
as a line of its own. The sample program is accepted by both passes; with
`longCommentLine` put in front of it, pass one stops at the second piece. -/
theorem long_comment_line_split :
    isCommentLine longCommentLine = true ∧
    assemble 8 sampleSource directiveTable sampleOpTab = ok (sampleRecords, sampleSymTab2) ∧
    (readLines (longCommentLine ++ sampleSource)).take 2
      = ['#' :: List.replicate 1022 ' ', "X\n".toList] ∧
    assemble 8 (longCommentLine ++ sampleSource) directiveTable sampleOpTab
      = error pass_error.invalidMnemonic := by
  refine ⟨by decide, by decide, by decide, by decide⟩

/-- Claim C38, amended. Two sources whose lines, as the line loop reads
them, are the same apart from comment lines (lines whose first token starts
with `#`) have the same result in pass one, in pass two and in both passes
together: the same success or failure and, on success, the same symbol
table (start address, end address, location counter, bindings) and the same
records. Putting a comment line that fits the line buffer (at most 1022
characters before its line feed) into a source at a line boundary, or
taking it out, is such a change. -/
theorem comment_lines_ignored (fuel : Nat) (directiveTable : hash_table directive_callback)
    (opTab : hash_table sic_optable_values) :
    (∀ s1 s2 : Str, codeLines (readLines s1) = codeLines (readLines s2) →
      buildSymbolTable fuel s1 directiveTable opTab
        = buildSymbolTable fuel s2 directiveTable opTab ∧
      (∀ symTab, generateSCOFFRecords fuel s1 directiveTable opTab symTab
        = generateSCOFFRecords fuel s2 directiveTable opTab symTab) ∧
      assemble fuel s1 directiveTable opTab = assemble fuel s2 directiveTable opTab) ∧
    (∀ pre body post : Str, (pre = [] ∨ pre.getLast? = some lfChar) → lfChar ∉ body →
      body.length < 1023 → isCommentLine (body ++ [lfChar]) = true →
      buildSymbolTable fuel (pre ++ (body ++ [lfChar]) ++ post) directiveTable opTab
        = buildSymbolTable fuel (pre ++ post) directiveTable opTab ∧
      (∀ symTab,
        generateSCOFFRecords fuel (pre ++ (body ++ [lfChar]) ++ post) directiveTable opTab symTab
          = generateSCOFFRecords fuel (pre ++ post) directiveTable opTab symTab) ∧
      assemble fuel (pre ++ (body ++ [lfChar]) ++ post) directiveTable opTab
        = assemble fuel (pre ++ post) directiveTable opTab) :=
  ⟨fun s1 s2 h => passes_of_codeLines fuel directiveTable opTab s1 s2 h,
    fun pre body post hpre hlf hlen hc =>
      passes_of_codeLines fuel directiveTable opTab _ _
        (codeLines_insert pre body post hpre hlf hlen hc)⟩

set_option maxRecDepth 100000 in
/-- Claim C38, amended, at the sample program with a comment line behind
its first line. -/
theorem comment_lines_ignored_witness :
    "COPY START 1000\n".toList ++ ("# the entry point".toList ++ [lfChar]) ++
        "FIRST LDA BUFFER\n LDX BUFFER,X\n RSUB\nBUFFER WORD 5\n END FIRST\n".toList
      = "COPY START 1000\n# the entry point\nFIRST LDA BUFFER\n LDX BUFFER,X\n RSUB\nBUFFER WORD 5\n END FIRST\n".toList ∧
    "COPY START 1000\n".toList ++
        "FIRST LDA BUFFER\n LDX BUFFER,X\n RSUB\nBUFFER WORD 5\n END FIRST\n".toList
      = sampleSource ∧
    assemble 8 ("COPY START 1000\n".toList ++ ("# the entry point".toList ++ [lfChar]) ++
        "FIRST LDA BUFFER\n LDX BUFFER,X\n RSUB\nBUFFER WORD 5\n END FIRST\n".toList)
        directiveTable sampleOpTab
      = assemble 8 ("COPY START 1000\n".toList ++
        "FIRST LDA BUFFER\n LDX BUFFER,X\n RSUB\nBUFFER WORD 5\n END FIRST\n".toList)
        directiveTable sampleOpTab :=
  ⟨by decide, by decide,
    ((comment_lines_ignored 8 directiveTable sampleOpTab).2 "COPY START 1000\n".toList
      "# the entry point".toList
      "FIRST LDA BUFFER\n LDX BUFFER,X\n RSUB\nBUFFER WORD 5\n END FIRST\n".toList
      (Or.inr (by decide)) (by decide) (by decide) (by decide)).2.2⟩

/-- Claim C39. The table `buildDirectiveTable` returns has 16 slots and
holds 8 entries. From no start slot `h` are the four slots the probing loop
can reach, `h`, `h + 1`, `h + 4` and `h + 9` modulo 16, all occupied. So
`getKVPair` on this table returns for every key, NULL or not, as soon as the
fuel covers four slots, and it returns NULL for every key that is not one of
the eight inserted names. -/
theorem directive_lookup_terminates :
    buildDirectiveTable 16 = some (some directiveTable) ∧
    directiveTable.currentSize = 16 ∧ directiveTable.numElements = 8 ∧
    (∀ h, h < 16 → ∀ x : Nat, (h + x * x) % 16 ∈ [h, (h + 1) % 16, (h + 4) % 16, (h + 9) % 16]) ∧
    (∀ h, h < 16 → ∃ i ∈ [h, (h + 1) % 16, (h + 4) % 16, (h + 9) % 16],
      directiveTable.p_KVArray[i]? = some none) ∧
    (∀ (key : Option Str) (fuel : Nat), 4 ≤ fuel →
      ∃ r, getKVPair fuel directiveTable key = some r) ∧
    (∀ (key : Str) (fuel : Nat), 4 ≤ fuel → (∀ cb, (key, cb) ∉ directiveEntries) →
      getKVPair fuel directiveTable (some key) = some none) := by
  refine ⟨buildDirectiveTable_eq, by decide, by decide, ?_, ?_, getKVPair_directiveTable,
    getKVPair_directiveTable_absent⟩
  · intro h hh x
    have hx : (h + x * x) % 16 = (h + (x % 16) * (x % 16)) % 16 := by
      conv_lhs => rw [Nat.add_mod, Nat.mul_mod]
      conv_rhs => rw [Nat.add_mod]
    rw [hx]
    have hx16 : x % 16 < 16 := Nat.mod_lt _ (by decide)
    generalize x % 16 = y at hx16
    interval_cases h <;> interval_cases y <;> decide
  · intro h hh
    rw [directiveTable_slots]
    interval_cases h <;> decide

/-- Claim C39 at the key FOO, which is not a directive name, and at the key
START. -/
theorem directive_lookup_terminates_witness :
    getKVPair 4 directiveTable (some "FOO".toList) = some none ∧
    (∃ r, getKVPair 4 directiveTable (some "START".toList) = some r) :=
  ⟨directive_lookup_terminates.2.2.2.2.2.2 "FOO".toList 4 (by decide)
      (fun cb h => by simp [directiveEntries] at h),
    directive_lookup_terminates.2.2.2.2.2.1 (some "START".toList) 4 (by decide)⟩

set_option maxRecDepth 100000 in
/-- Claim C40 as stated fails when the operand is itself a mnemonic: with
the standard instruction ADD in the opcode table, pass one accepts the
labelled line `L START ADD` (start address 0xADD), but on the unlabelled
line `START ADD` the lookahead takes START for a label in front of ADD and
stops with DCS_SYM_MATCHES_DIRECTIVE. -/
theorem unlabelled_start_rejected :
    firstPassLine 8 directiveTable addOpTab pass1_init "L START ADD\n".toList
      = ok { symTab := { startAddress := 0xADD, endAddress := SIC_NOT_SET_SENTINEL,
                         locCounter := 0xADD,
                         ht := tableOf 8 [("L".toList, 0xADD)] (createHashTable 0) },
             startSeen := true } ∧
    firstPassLine 8 directiveTable addOpTab pass1_init "START ADD\n".toList
      = error (pass_error.directive DCS_SYM_MATCHES_DIRECTIVE) := by
  decide

/-- Claim C40, amended. Take a directive line with a label and the same
line without it (the same directive name, handler and rest of the line),
whose first operand token, if there is one, is found by the lookahead to be
neither a directive name nor a mnemonic, and, for BYTE, on which CR and LF
stand only at the end. If pass one accepts the labelled line in a state, it
accepts the unlabelled line in that state and leaves the same start address,
end address, location counter and start flag. -/
theorem label_only_adds_binding (fuel : Nat) (opTab : hash_table sic_optable_values)
    (st st' : pass1_state) (labelled unlabelled L tok save : Str) (cb : directive_callback)
    (hL : classifyLine fuel directiveTable opTab labelled
      = some (line_kind.directive (some L) tok cb save))
    (hU : classifyLine fuel directiveTable opTab unlabelled
      = some (line_kind.directive none tok cb save))
    (hacc : firstPassLine fuel directiveTable opTab st labelled = ok st')
    (hfree : ∀ t, (strtok save SIC_TOKEN_DELIMITERS).1 = some t →
      isReservedWord fuel directiveTable opTab t = some false)
    (hbyte : tok = "BYTE".toList → ∃ o eol, save = o ++ eol ∧ crChar ∉ o ∧ lfChar ∉ o ∧
      ∀ c ∈ eol, c = crChar ∨ c = lfChar) :
    ∃ stU, firstPassLine fuel directiveTable opTab st unlabelled = ok stU ∧
      stU.symTab.startAddress = st'.symTab.startAddress ∧
      stU.symTab.endAddress = st'.symTab.endAddress ∧
      stU.symTab.locCounter = st'.symTab.locCounter ∧
      stU.startSeen = st'.startSeen := by
  obtain ⟨res, hres, e1, e2, e3, e4⟩ :=
    firstPassLine_labelled fuel directiveTable opTab st st' labelled L tok save cb hL hacc
  have hun : firstPassDirectiveHelper fuel st.symTab directiveTable opTab cb tok save
      st.symTab.locCounter st.startSeen false = ok res := by
    by_cases hb : tok = "BYTE".toList
    · have hcb : cb = directive_callback.directive_callback_byte := by
        have hmem := classifyLine_directive_entry fuel opTab unlabelled none tok cb save hU
        rw [hb] at hmem
        simp only [directiveEntries, List.mem_cons, Prod.mk.injEq, List.mem_singleton,
          List.not_mem_nil, or_false] at hmem
        rcases hmem with h | h | h | h | h | h | h | h
        all_goals first | exact h.2 | exact absurd h.1 (by decide)
      obtain ⟨o, eol, hsave, hcr, hlf, heol⟩ := hbyte hb
      subst hb; subst hcb; subst hsave
      exact firstPassDirectiveHelper_byte_label fuel st.symTab directiveTable opTab o eol _ _ res
        hcr hlf heol hfree hres
    · rw [firstPassDirectiveHelper_labelled, if_neg hb] at hres
      rw [firstPassDirectiveHelper_unlabelled fuel st.symTab directiveTable opTab cb tok save _ _
        hb hfree]
      exact hres
  rw [firstPassLine_unlabelled fuel directiveTable opTab st unlabelled tok save cb hU, hun]
  exact ⟨_, rfl, e1.symm, e2.symm, e3.symm, e4.symm⟩

set_option maxRecDepth 100000 in
/-- Claim C40, amended, at the lines `L BYTE C'AB'` and `BYTE C'AB'`, met
after START. -/
theorem label_only_adds_binding_witness :
    firstPassLine 8 directiveTable sampleOpTab { symTab := startedSymTab, startSeen := true }
        "L BYTE C'AB'\n".toList
      = ok (stateAfter "FIRST START 1000\n RSUB\nL BYTE C'AB'\n".toList) ∧
    ∃ stU, firstPassLine 8 directiveTable sampleOpTab
        { symTab := startedSymTab, startSeen := true } "BYTE C'AB'\n".toList = ok stU ∧
      stU.symTab.startAddress
        = (stateAfter "FIRST START 1000\n RSUB\nL BYTE C'AB'\n".toList).symTab.startAddress ∧
      stU.symTab.endAddress
        = (stateAfter "FIRST START 1000\n RSUB\nL BYTE C'AB'\n".toList).symTab.endAddress ∧
      stU.symTab.locCounter
        = (stateAfter "FIRST START 1000\n RSUB\nL BYTE C'AB'\n".toList).symTab.locCounter ∧
      stU.startSeen = (stateAfter "FIRST START 1000\n RSUB\nL BYTE C'AB'\n".toList).startSeen :=
  ⟨by decide,
    label_only_adds_binding 8 sampleOpTab { symTab := startedSymTab, startSeen := true }
      (stateAfter "FIRST START 1000\n RSUB\nL BYTE C'AB'\n".toList)
      "L BYTE C'AB'\n".toList "BYTE C'AB'\n".toList "L".toList "BYTE".toList "C'AB'\n".toList
      directive_callback.directive_callback_byte (by decide) (by decide) (by decide)
      (fun t ht => (Option.some.inj
        ((by decide : (strtok "C'AB'\n".toList SIC_TOKEN_DELIMITERS).1
          = some "C'AB'".toList).symm.trans ht)) ▸
        (by decide : isReservedWord 8 directiveTable sampleOpTab "C'AB'".toList = some false))
      (fun _ => ⟨"C'AB'".toList, "\n".toList, by decide, by decide, by decide, by decide⟩)⟩

end SIC
